import Mathlib

/-!
# The `trace` extension of crash: ring buffers, event types and the archive writer

A shallow embedding of `extensions/trace.c`.

* `ulong` values (kernel addresses) are natural numbers below `2 ^ 64`; address
  arithmetic wraps modulo `2 ^ 64` (`uadd`, `usub`).
* The memory of the dump is the host primitive `readmem`, a partial function from an
  address to the `ulong` stored there (`none`: the read fails).
* The two arrays `pages` and `linear_pages` are lists of the allocated length; a store or
  load outside the allocated length is the fault `out_of_bounds`.
* `return -1` (`goto out_fail`) is the fault `out_fail`.
* The `unsigned` counters `j`, `count` and the `int` fields `head_page_index`,
  `nr_linear_pages` index arrays of `nr_pages` and `nr_pages + 1` entries and never pass
  `nr_pages + 1`; they are natural numbers and integers, without wrap-around.
* A `for (;;)` loop is a recursion on an iteration budget; `ftrace_init_pages` passes a
  budget that is never used up (`ftrace_init_pages_fault`).
* The `static` locals of the event-field functions are an explicit state (`Statics`) that
  each call takes and returns.
* Text is a list of bytes; a C string is the list of its bytes before the NUL.
* The file behind `fd` is the list of bytes written so far (`File`); what `write(2)` and
  `realloc` answer, the byte order and the sizes of the host are the record `Sys`.
* The statics `tmp_file_buf`, `tmp_file_pos`, `tmp_file_size`, `tmp_file_error` are the
  record `TmpFile`, which every function of the text buffer takes and returns.
* The dump as the extraction of the event types reads it is the record `Dump`; `malloc`,
  `realloc` and `strdup` are taken to succeed there.
* What `init_offsets` and `ftrace_init` ask of the debug information is the record
  `Layout`; the statics they fill are the record `Offsets`.
* The page writers take the record `PageHost`: the host of the archive writer, the reads
  of the dump, and the width of the type of `PAGESIZE()`, which the source leaves to the
  host headers. What `mkdir` and `open` answer is the record `DirHost`.
* A function that writes returns the file it leaves when it returns 0; what it leaves when
  it returns -1 is given by its companion with the suffix `_file`.
-/

namespace Trace

/-! ## Machine words -/

/-- Number of values of an `unsigned long` of the 64-bit host. -/
def ULONG_MOD : Nat := 2 ^ 64

/-- The value of `p + off` for `ulong p` and `int off`: the offset is converted to `ulong`
and the sum wraps. -/
def uadd (p : Nat) (off : Int) : Nat := (((p : Int) + off) % (ULONG_MOD : Int)).toNat

/-- The value of `p - off` for `ulong p` and `int off`. -/
def usub (p : Nat) (off : Int) : Nat := (((p : Int) - off) % (ULONG_MOD : Int)).toNat

/-- The constant `~3` converted to `ulong`. -/
def NOT3 : Nat := ULONG_MOD - 4

/-! ## Outcomes -/

/-- Ways in which a modelled function does not reach `return 0`. -/
inductive Fault where
  /-- The function returns `-1`. -/
  | out_fail
  /-- An array is accessed outside its allocated length (undefined behaviour in C). -/
  | out_of_bounds
  /-- The iteration budget of a modelled `for (;;)` loop is used up. -/
  | out_of_fuel
  deriving DecidableEq, Repr

deriving instance DecidableEq for Except

/-- The array store `a[i] = v`. -/
def store (a : List Nat) (i v : Nat) : Option (List Nat) :=
  if i < a.length then some (a.set i v) else none

/-! ## The ring buffer of one CPU -/

/-- The host context `ftrace_init_pages` reads: the dump memory and the file-level statics
set by `init_offsets`. -/
structure Kernel where
  /-- Host primitive `readmem(addr, KVADDR, &at, sizeof(ulong), ..., RETURN_ON_ERROR)`. -/
  readmem : Nat → Option Nat
  /-- Static `lockless_ring_buffer`. -/
  lockless_ring_buffer : Bool
  /-- Static `koffset(ring_buffer_per_cpu, pages)`. -/
  ring_buffer_per_cpu_pages_offset : Int
  /-- Static `koffset(buffer_page, list)`. -/
  buffer_page_list_offset : Int
  /-- Static `koffset(list_head, next)`. -/
  list_head_next_offset : Int

/-- The record `struct ring_buffer_per_cpu`. -/
structure ring_buffer_per_cpu where
  kaddr : Nat
  head_page : Nat
  tail_page : Nat
  commit_page : Nat
  reader_page : Nat
  real_head_page : Nat
  head_page_index : Int
  nr_pages : Nat
  pages : List Nat
  linear_pages : List Nat
  nr_linear_pages : Int
  overrun : Nat
  entries : Nat
  deriving DecidableEq, Repr

/-- The macro `read_value(at, ptr, struct, member)` for an `ulong at`: `none` is
`goto out_fail`. -/
def read_value (K : Kernel) (ptr : Nat) (koffset : Int) : Option Nat :=
  (K.readmem (uadd ptr koffset)).map (fun v => v % ULONG_MOD)

/-- The first `for (;;)` of `ftrace_init_pages` (lines 264-281). The first argument is
the iteration budget; the state is `page`, `j`, `pages`, `real_head_page`; the result is
`page`, `pages`, `real_head_page` at the `break`. -/
def enum_walk (K : Kernel) (head nr_pages : Nat) :
    Nat → Nat → Nat → List Nat → Nat → Except Fault (Nat × List Nat × Nat)
  | 0, _, _, _, _ => .error .out_of_fuel
  | fuel + 1, page, j, pages, real_head_page =>
    match read_value K page K.list_head_next_offset with
    | none => .error .out_fail
    | some p =>
      let page1 := if p &&& 3 ≠ 0 then p &&& NOT3 else p
      let real_head_page1 :=
        if p &&& 3 ≠ 0 then usub page1 K.buffer_page_list_offset else real_head_page
      if j = nr_pages then .ok (page1, pages, real_head_page1)
      else if page1 = head then .error .out_fail
      else
        match store pages j (usub page1 K.buffer_page_list_offset) with
        | none => .error .out_of_bounds
        | some pages1 => enum_walk K head nr_pages fuel page1 (j + 1) pages1 real_head_page1

/-- Page enumeration (lines 257-286): the anchor `head`, the walk and the final test
`page != head`. The result is `pages` and `real_head_page`. -/
def enumerate_pages (K : Kernel) (cpu_buffer : ring_buffer_per_cpu) (nr_pages : Nat) :
    Except Fault (List Nat × Nat) :=
  let pages0 := List.replicate nr_pages 0
  let start : Except Fault (Nat × Nat × List Nat) :=
    if K.lockless_ring_buffer then
      match read_value K cpu_buffer.kaddr K.ring_buffer_per_cpu_pages_offset with
      | none => .error .out_fail
      | some head =>
        match store pages0 0 (usub head K.buffer_page_list_offset) with
        | none => .error .out_of_bounds
        | some pages1 => .ok (head, 1, pages1)
    else .ok (uadd cpu_buffer.kaddr K.ring_buffer_per_cpu_pages_offset, 0, pages0)
  match start with
  | .error e => .error e
  | .ok (head, j, pages1) =>
    match enum_walk K head nr_pages (nr_pages + 1 - j) head j pages1 cpu_buffer.head_page with
    | .error e => .error e
    | .ok (page, pages2, real_head_page) =>
      if page ≠ head then .error .out_fail else .ok (pages2, real_head_page)

/-- The loop `for (j = 0; j < nr_pages; j++)` of lines 291-298, entered with
`head_page_index = -1`; the first argument counts the iterations left, the second is
`j`. -/
def find_head_page_index (pages : List Nat) (real_head_page : Nat) : Nat → Nat → Int
  | 0, _ => -1
  | left + 1, j =>
    if pages[j]? = some real_head_page then (j : Int)
    else find_head_page_index pages real_head_page left (j + 1)

/-- The second `for (;;)` of `ftrace_init_pages` (lines 313-327). The first argument is
the iteration budget; the state is `j`, `linear_pages`, `count`; the result is
`linear_pages` and `count` at the `break`. -/
def linear_walk (pages : List Nat) (commit_page nr_pages : Nat) (head_page_index : Int) :
    Nat → Nat → List Nat → Nat → Except Fault (List Nat × Nat)
  | 0, _, _, _ => .error .out_of_fuel
  | fuel + 1, j, linear_pages, count =>
    match pages[j]? with
    | none => .error .out_of_bounds
    | some v =>
      match store linear_pages count v with
      | none => .error .out_of_bounds
      | some linear_pages1 =>
        if v = commit_page then .ok (linear_pages1, count + 1)
        else
          let j1 := if j + 1 = nr_pages then 0 else j + 1
          if (j1 : Int) = head_page_index then .ok (linear_pages1, count + 1)
          else linear_walk pages commit_page nr_pages head_page_index fuel j1 linear_pages1
            (count + 1)

/-- The function `ftrace_init_pages(cpu_buffer, nr_pages)`; `.ok b` is `return 0` with `b`
the record left in `*cpu_buffer`. The two `calloc` calls are taken to succeed. -/
def ftrace_init_pages (K : Kernel) (cpu_buffer : ring_buffer_per_cpu) (nr_pages : Nat) :
    Except Fault ring_buffer_per_cpu :=
  match enumerate_pages K cpu_buffer nr_pages with
  | .error e => .error e
  | .ok (pages, real_head_page) =>
    let head_page_index := find_head_page_index pages real_head_page nr_pages 0
    if head_page_index = -1 then .error .out_fail
    else
      match store (List.replicate (nr_pages + 1) 0) 0 cpu_buffer.reader_page with
      | none => .error .out_of_bounds
      | some linear_pages1 =>
        let b : ring_buffer_per_cpu :=
          { cpu_buffer with
            pages := pages
            real_head_page := real_head_page
            head_page_index := head_page_index }
        if cpu_buffer.reader_page = cpu_buffer.commit_page then
          .ok { b with linear_pages := linear_pages1, nr_linear_pages := 1 }
        else
          match linear_walk pages cpu_buffer.commit_page nr_pages head_page_index nr_pages
              head_page_index.toNat linear_pages1 1 with
          | .error e => .error e
          | .ok (linear_pages2, count) =>
            .ok { b with linear_pages := linear_pages2, nr_linear_pages := (count : Int) }

/-- The entries of `linear_pages` that are in use: the first `nr_linear_pages`. -/
def linear_list (b : ring_buffer_per_cpu) : List Nat :=
  b.linear_pages.take b.nr_linear_pages.toNat

/-! ## Concrete rings -/

/-- A dump with a lockless ring of four pages `A = 0x1000`, `B = 0x2000`, `C = 0x3000`,
`D = 0x4000`; the list node of a page is at offset 8, `ring_buffer_per_cpu.pages` at
offset 16 of the descriptor at `0x100`, and the link from `A` to `B` carries the head
tag. Every other word of the dump reads as zero. -/
def ring4 : Kernel where
  readmem := fun a =>
    if a = 0x110 then some 0x1008
    else if a = 0x1008 then some 0x2009
    else if a = 0x2008 then some 0x3008
    else if a = 0x3008 then some 0x4008
    else if a = 0x4008 then some 0x1008
    else some 0
  lockless_ring_buffer := true
  ring_buffer_per_cpu_pages_offset := 16
  buffer_page_list_offset := 8
  list_head_next_offset := 0

/-- A descriptor at `0x100` with the given reader and commit pages. -/
def buf4 (reader commit : Nat) : ring_buffer_per_cpu where
  kaddr := 0x100
  head_page := 0x1000
  tail_page := 0x4000
  commit_page := commit
  reader_page := reader
  real_head_page := 0
  head_page_index := 0
  nr_pages := 4
  pages := []
  linear_pages := []
  nr_linear_pages := 0
  overrun := 0
  entries := 0


/-- The next pointer stored in the list node at `x`, with the tag bits masked off as the
walk of `ftrace_init_pages` does. -/
def next_masked (K : Kernel) (x : Nat) : Option Nat :=
  (read_value K x K.list_head_next_offset).map
    (fun p => if p &&& 3 ≠ 0 then p &&& NOT3 else p)

/-- The cursor after `k` steps of the masked-next walk from `a`. -/
def walk (K : Kernel) (a : Nat) : Nat → Option Nat
  | 0 => some a
  | k + 1 => (next_masked K a).bind (fun x => walk K x k)


/-- The anchor of the page walk: the pointer stored in `ring_buffer_per_cpu.pages`
(lockless), or the address of the embedded list head (classic). -/
def anchor (K : Kernel) (cpu_buffer : ring_buffer_per_cpu) : Option Nat :=
  if K.lockless_ring_buffer then
    read_value K cpu_buffer.kaddr K.ring_buffer_per_cpu_pages_offset
  else some (uadd cpu_buffer.kaddr K.ring_buffer_per_cpu_pages_offset)

/-- Number of walk steps from the anchor to the first page descriptor: `0` when the
anchor is itself the list node of a page (lockless), `1` when it is the list head
(classic). -/
def anchor_skip (K : Kernel) : Nat := if K.lockless_ring_buffer then 0 else 1

/-- The entry `pages[(h + i) mod nr_pages]`. -/
def ring_at (pages : List Nat) (nr_pages h i : Nat) : Nat :=
  pages.getD ((h + i) % nr_pages) 0

/-- The ring read once around from index `h`:
`pages[h], pages[(h + 1) mod nr_pages], ...`, `nr_pages` entries. -/
def ring_order (pages : List Nat) (nr_pages h : Nat) : List Nat :=
  (List.range nr_pages).map (ring_at pages nr_pages h)

/-- The entries of a list up to and including the first one equal to `c`; the whole list
when no entry is `c`. -/
def take_through (c : Nat) : List Nat → List Nat
  | [] => []
  | x :: xs => if x = c then [x] else x :: take_through c xs

/-- The record `ftrace_init_pages` leaves for `ring4` and `buf4 reader commit`, up to the
linearization `lp`, `count`. -/
def res4 (reader commit : Nat) (lp : List Nat) (count : Int) : ring_buffer_per_cpu :=
  { buf4 reader commit with
    real_head_page := 0x2000
    head_page_index := 1
    pages := [0x1000, 0x2000, 0x3000, 0x4000]
    linear_pages := lp
    nr_linear_pages := count }

/-- Scenario 2: reader `0x5000`, commit page `D`. -/
def buf4_live : ring_buffer_per_cpu := buf4 0x5000 0x4000

/-- The record left by `ftrace_init_pages` in scenario 2. -/
def res4_live : ring_buffer_per_cpu :=
  res4 0x5000 0x4000 [0x5000, 0x2000, 0x3000, 0x4000, 0] 4

/-- Scenario 1: reader and commit page are both `0x5000`. -/
def buf4_idle : ring_buffer_per_cpu := buf4 0x5000 0x5000

/-- The record left by `ftrace_init_pages` in scenario 1. -/
def res4_idle : ring_buffer_per_cpu := res4 0x5000 0x5000 [0x5000, 0, 0, 0, 0] 1

/-- A descriptor whose `commit_page` (`0x7000`) is not a page of the ring. -/
def buf4_lost : ring_buffer_per_cpu := buf4 0x5000 0x7000

/-- The record left by `ftrace_init_pages` for `buf4_lost`. -/
def res4_lost : ring_buffer_per_cpu :=
  res4 0x5000 0x7000 [0x5000, 0x2000, 0x3000, 0x4000, 0x1000] 5

/-- A dump with a classic (non-lockless) ring of three pages `A = 0x1000`, `B = 0x2000`,
`C = 0x3000`: the list head is embedded in the descriptor at `0x100`, offset 16. -/
def ring3 : Kernel where
  readmem := fun a =>
    if a = 0x110 then some 0x1008
    else if a = 0x1008 then some 0x2008
    else if a = 0x2008 then some 0x3008
    else if a = 0x3008 then some 0x110
    else some 0
  lockless_ring_buffer := false
  ring_buffer_per_cpu_pages_offset := 16
  buffer_page_list_offset := 8
  list_head_next_offset := 0

/-- A descriptor of the classic ring: head page `B`, commit page `A`, reader `0x5000`. -/
def buf3 : ring_buffer_per_cpu :=
  { buf4 0x5000 0x1000 with head_page := 0x2000, tail_page := 0x1000, nr_pages := 3 }

/-- The record `ftrace_init_pages` leaves for `ring3` and `buf3`. -/
def res3 : ring_buffer_per_cpu :=
  { buf3 with
    real_head_page := 0x2000
    head_page_index := 1
    pages := [0x1000, 0x2000, 0x3000]
    linear_pages := [0x5000, 0x2000, 0x3000, 0x1000]
    nr_linear_pages := 4 }

/-! ## The fields head of an event call -/

/-- The services of the host inspector that the event-schema code calls. -/
structure Host where
  /-- Host primitive `readmem` for an `ulong` at a kernel address; `none`: the read
  fails. -/
  readmem : Nat → Option Nat
  /-- Host macro `MEMBER_OFFSET(struct, member)`; a negative value: no such member. -/
  MEMBER_OFFSET : String → String → Int
  /-- Host function `symbol_search(name)`; the value is `sp->value`, `none` is `NULL`. -/
  symbol_search : String → Option Nat

/-- The read `readmem(addr, KVADDR, &x, sizeof(ulong), ...)` into an `ulong`. -/
def Host.read (H : Host) (addr : Nat) : Option Nat :=
  (H.readmem addr).map (fun v => v % ULONG_MOD)

/-- The `static` locals of `syscall_get_enter_fields`. -/
structure EnterStatics where
  inited : Int
  data_offset : Int
  enter_fields_offset : Int
  deriving DecidableEq, Repr

/-- The `static` locals of `syscall_get_exit_fields_old`. -/
structure ExitOldStatics where
  inited : Int
  data_offset : Int
  exit_fields_offset : Int
  deriving DecidableEq, Repr

/-- The `static` locals of `syscall_get_exit_fields`. -/
structure ExitStatics where
  inited : Int
  syscall_exit_fields_value : Nat
  deriving DecidableEq, Repr

/-- The `static` locals of `ftrace_get_event_type_fields`. -/
structure TypeFieldsStatics where
  inited : Int
  fields_offset : Int
  class_offset : Int
  get_fields_offset : Int
  syscall_get_enter_fields_value : Nat
  syscall_get_exit_fields_value : Nat
  deriving DecidableEq, Repr

/-- The `static` locals of the four functions that resolve a fields head. -/
structure Statics where
  enter : EnterStatics
  exit_old : ExitOldStatics
  exit : ExitStatics
  type_fields : TypeFieldsStatics
  deriving DecidableEq, Repr

/-- The statics at program start: all zero. -/
def Statics.start : Statics where
  enter := ⟨0, 0, 0⟩
  exit_old := ⟨0, 0, 0⟩
  exit := ⟨0, 0⟩
  type_fields := ⟨0, 0, 0, 0, 0, 0⟩

/-- The part of `syscall_get_enter_fields` after the label `work`. `some fields` is
`return 0` with `*fields` set, `none` is `return -1`. -/
def syscall_get_enter_fields_work (H : Host) (s : EnterStatics) (call : Nat) : Option Nat :=
  if s.data_offset < 0 ∨ s.enter_fields_offset < 0 then none
  else
    match H.read (uadd call s.data_offset) with
    | none => none
    | some metadata => some (uadd metadata s.enter_fields_offset)

/-- The function `syscall_get_enter_fields(call, fields)`. -/
def syscall_get_enter_fields (H : Host) (s : EnterStatics) (call : Nat) :
    Option Nat × EnterStatics :=
  if s.inited ≠ 0 then (syscall_get_enter_fields_work H s call, s)
  else
    let s1 : EnterStatics :=
      { s with inited := 1, data_offset := H.MEMBER_OFFSET "ftrace_event_call" "data" }
    if s1.data_offset < 0 then (none, s1)
    else
      let s2 : EnterStatics :=
        { s1 with enter_fields_offset := H.MEMBER_OFFSET "syscall_metadata" "enter_fields" }
      if s2.enter_fields_offset < 0 then (none, s2)
      else (syscall_get_enter_fields_work H s2 call, s2)

/-- The part of `syscall_get_exit_fields_old` after the label `work`. -/
def syscall_get_exit_fields_old_work (H : Host) (s : ExitOldStatics) (call : Nat) :
    Option Nat :=
  if s.data_offset < 0 ∨ s.exit_fields_offset < 0 then none
  else
    match H.read (uadd call s.data_offset) with
    | none => none
    | some metadata => some (uadd metadata s.exit_fields_offset)

/-- The function `syscall_get_exit_fields_old(call, fields)`. -/
def syscall_get_exit_fields_old (H : Host) (s : ExitOldStatics) (call : Nat) :
    Option Nat × ExitOldStatics :=
  if s.inited ≠ 0 then (syscall_get_exit_fields_old_work H s call, s)
  else
    let s1 : ExitOldStatics :=
      { s with inited := 1, data_offset := H.MEMBER_OFFSET "ftrace_event_call" "data" }
    if s1.data_offset < 0 then (none, s1)
    else
      let s2 : ExitOldStatics :=
        { s1 with exit_fields_offset := H.MEMBER_OFFSET "syscall_metadata" "exit_fields" }
      if s2.exit_fields_offset < 0 then (none, s2)
      else (syscall_get_exit_fields_old_work H s2 call, s2)

/-- The function `syscall_get_exit_fields(call, fields)`; it owns its statics and passes
those of `syscall_get_exit_fields_old` through. -/
def syscall_get_exit_fields (H : Host) (s : ExitStatics) (o : ExitOldStatics) (call : Nat) :
    Option Nat × ExitStatics × ExitOldStatics :=
  let s1 : ExitStatics :=
    if s.inited = 0 then
      match H.symbol_search "syscall_exit_fields" with
      | none => { s with inited := -1 }
      | some v => { s with syscall_exit_fields_value := v, inited := 1 }
    else s
  if s1.inited = -1 then
    let r := syscall_get_exit_fields_old H o call
    (r.1, s1, r.2)
  else (some s1.syscall_exit_fields_value, s1, o)

/-- The part of `ftrace_get_event_type_fields` after the label `work`. -/
def ftrace_get_event_type_fields_work (H : Host) (s : Statics) (call : Nat) :
    Option Nat × Statics :=
  let t := s.type_fields
  if t.fields_offset < 0 then (none, s)
  else if t.inited = 1 then (some (uadd call t.fields_offset), s)
  else
    match H.read (uadd call t.class_offset) with
    | none => (none, s)
    | some class_ =>
      match H.read (uadd class_ t.get_fields_offset) with
      | none => (none, s)
      | some get_fields =>
        if get_fields = 0 then (some (uadd class_ t.fields_offset), s)
        else if get_fields = t.syscall_get_enter_fields_value then
          let r := syscall_get_enter_fields H s.enter call
          (r.1, { s with enter := r.2 })
        else if get_fields = t.syscall_get_exit_fields_value then
          let r := syscall_get_exit_fields H s.exit s.exit_old call
          (r.1, { s with exit := r.2.1, exit_old := r.2.2 })
        else (none, s)

/-- The function `ftrace_get_event_type_fields(call, fields)`: the result (`some fields`
for `return 0`, `none` for `return -1`) and the statics it leaves. -/
def ftrace_get_event_type_fields (H : Host) (s : Statics) (call : Nat) :
    Option Nat × Statics :=
  let t := s.type_fields
  if t.inited ≠ 0 then ftrace_get_event_type_fields_work H s call
  else
    let t1 : TypeFieldsStatics :=
      { t with
        inited := 1
        fields_offset := H.MEMBER_OFFSET "ftrace_event_call" "fields"
        class_offset := H.MEMBER_OFFSET "ftrace_event_call" "class" }
    if t1.class_offset < 0 then
      ftrace_get_event_type_fields_work H { s with type_fields := t1 } call
    else
      let t2 : TypeFieldsStatics :=
        { t1 with
          inited := 2
          fields_offset := H.MEMBER_OFFSET "ftrace_event_class" "fields" }
      if t2.fields_offset < 0 then (none, { s with type_fields := t2 })
      else
        let t3 : TypeFieldsStatics :=
          { t2 with
            get_fields_offset := H.MEMBER_OFFSET "ftrace_event_class" "get_fields"
            syscall_get_enter_fields_value :=
              match H.symbol_search "syscall_get_enter_fields" with
              | some v => v
              | none => t2.syscall_get_enter_fields_value
            syscall_get_exit_fields_value :=
              match H.symbol_search "syscall_get_exit_fields" with
              | some v => v
              | none => t2.syscall_get_exit_fields_value }
        ftrace_get_event_type_fields_work H { s with type_fields := t3 } call

/-- The statics after `ftrace_get_event_type_fields` has been called on each event call of
`calls` in turn, from program start. -/
def statics_after (H : Host) (calls : List Nat) : Statics :=
  calls.foldl (fun s call => (ftrace_get_event_type_fields H s call).2) Statics.start

/-- A kernel whose `ftrace_event_call` has both a `fields` member (offset 8) and a
`class` member (offset 16); the event call at `0x1000` has its class at `0x2000`, whose
`get_fields` is null. -/
def host_both : Host where
  readmem := fun a =>
    if a = 0x1010 then some 0x2000
    else if a = 0x2020 then some 0
    else none
  MEMBER_OFFSET := fun s m =>
    if s = "ftrace_event_call" ∧ m = "fields" then 8
    else if s = "ftrace_event_call" ∧ m = "class" then 16
    else if s = "ftrace_event_class" ∧ m = "fields" then 24
    else if s = "ftrace_event_class" ∧ m = "get_fields" then 32
    else -1
  symbol_search := fun _ => none

/-- An old kernel: `ftrace_event_call` has `fields` (offset 8) and no `class`. -/
def host_inline : Host where
  readmem := fun _ => none
  MEMBER_OFFSET := fun s m =>
    if s = "ftrace_event_call" ∧ m = "fields" then 8 else -1
  symbol_search := fun _ => none

/-- What `syscall_get_enter_fields` computes, read off the host directly:
`call->data + offset_of(syscall_metadata.enter_fields)`. -/
def enter_fields_head (H : Host) (call : Nat) : Option Nat :=
  if H.MEMBER_OFFSET "ftrace_event_call" "data" < 0 ∨
      H.MEMBER_OFFSET "syscall_metadata" "enter_fields" < 0 then none
  else
    (H.read (uadd call (H.MEMBER_OFFSET "ftrace_event_call" "data"))).map
      (fun metadata => uadd metadata (H.MEMBER_OFFSET "syscall_metadata" "enter_fields"))

/-- What `syscall_get_exit_fields_old` computes, read off the host directly:
`call->data + offset_of(syscall_metadata.exit_fields)`. -/
def exit_fields_old_head (H : Host) (call : Nat) : Option Nat :=
  if H.MEMBER_OFFSET "ftrace_event_call" "data" < 0 ∨
      H.MEMBER_OFFSET "syscall_metadata" "exit_fields" < 0 then none
  else
    (H.read (uadd call (H.MEMBER_OFFSET "ftrace_event_call" "data"))).map
      (fun metadata => uadd metadata (H.MEMBER_OFFSET "syscall_metadata" "exit_fields"))

/-- What `syscall_get_exit_fields` computes, read off the host directly. -/
def exit_fields_head (H : Host) (call : Nat) : Option Nat :=
  match H.symbol_search "syscall_exit_fields" with
  | some v => some v
  | none => exit_fields_old_head H call

/-- The statics of `syscall_get_enter_fields` agree with the host. -/
def EnterStatics.Inv (H : Host) (s : EnterStatics) : Prop :=
  s = ⟨0, 0, 0⟩ ∨
  (s.inited = 1 ∧ s.data_offset = H.MEMBER_OFFSET "ftrace_event_call" "data" ∧
    (0 ≤ H.MEMBER_OFFSET "ftrace_event_call" "data" →
      s.enter_fields_offset = H.MEMBER_OFFSET "syscall_metadata" "enter_fields"))

/-- The statics of `syscall_get_exit_fields_old` agree with the host. -/
def ExitOldStatics.Inv (H : Host) (s : ExitOldStatics) : Prop :=
  s = ⟨0, 0, 0⟩ ∨
  (s.inited = 1 ∧ s.data_offset = H.MEMBER_OFFSET "ftrace_event_call" "data" ∧
    (0 ≤ H.MEMBER_OFFSET "ftrace_event_call" "data" →
      s.exit_fields_offset = H.MEMBER_OFFSET "syscall_metadata" "exit_fields"))

/-- The statics of `syscall_get_exit_fields` agree with the host. -/
def ExitStatics.Inv (H : Host) (s : ExitStatics) : Prop :=
  s.inited = 0 ∨
  (s.inited = 1 ∧ H.symbol_search "syscall_exit_fields" = some s.syscall_exit_fields_value) ∨
  (s.inited = -1 ∧ H.symbol_search "syscall_exit_fields" = none)

/-- The statics of `ftrace_get_event_type_fields` agree with the host. -/
def TypeFieldsStatics.Inv (H : Host) (t : TypeFieldsStatics) : Prop :=
  t = ⟨0, 0, 0, 0, 0, 0⟩ ∨
  (t.inited = 1 ∧ t.class_offset = H.MEMBER_OFFSET "ftrace_event_call" "class" ∧
    t.class_offset < 0 ∧ t.fields_offset = H.MEMBER_OFFSET "ftrace_event_call" "fields") ∨
  (t.inited = 2 ∧ t.class_offset = H.MEMBER_OFFSET "ftrace_event_call" "class" ∧
    0 ≤ t.class_offset ∧ t.fields_offset = H.MEMBER_OFFSET "ftrace_event_class" "fields" ∧
    (0 ≤ t.fields_offset →
      t.get_fields_offset = H.MEMBER_OFFSET "ftrace_event_class" "get_fields" ∧
      t.syscall_get_enter_fields_value =
        (H.symbol_search "syscall_get_enter_fields").getD 0 ∧
      t.syscall_get_exit_fields_value =
        (H.symbol_search "syscall_get_exit_fields").getD 0))

/-- All statics agree with the host. -/
def Statics.Inv (H : Host) (s : Statics) : Prop :=
  s.enter.Inv H ∧ s.exit_old.Inv H ∧ s.exit.Inv H ∧ s.type_fields.Inv H

/-- What `ftrace_get_event_type_fields` computes, read off the host directly. -/
def fields_head (H : Host) (call : Nat) : Option Nat :=
  if H.MEMBER_OFFSET "ftrace_event_call" "class" < 0 then
    if H.MEMBER_OFFSET "ftrace_event_call" "fields" < 0 then none
    else some (uadd call (H.MEMBER_OFFSET "ftrace_event_call" "fields"))
  else if H.MEMBER_OFFSET "ftrace_event_class" "fields" < 0 then none
  else
    match H.read (uadd call (H.MEMBER_OFFSET "ftrace_event_call" "class")) with
    | none => none
    | some class_ =>
      match H.read (uadd class_ (H.MEMBER_OFFSET "ftrace_event_class" "get_fields")) with
      | none => none
      | some get_fields =>
        if get_fields = 0 then
          some (uadd class_ (H.MEMBER_OFFSET "ftrace_event_class" "fields"))
        else if get_fields = (H.symbol_search "syscall_get_enter_fields").getD 0 then
          enter_fields_head H call
        else if get_fields = (H.symbol_search "syscall_get_exit_fields").getD 0 then
          exit_fields_head H call
        else none

/-- The value `ftrace_get_event_type_fields` returns for `call` after it has been called
on the event calls `calls`. -/
def fields_returned (H : Host) (calls : List Nat) (call : Nat) : Option Nat :=
  (ftrace_get_event_type_fields H (statics_after H calls) call).1

/-- A kernel with event classes (scenario 4): the event call at `0x1000` has its class at
`0x2000`, whose `get_fields` is `syscall_get_enter_fields` (`0xA000`), and its `data`
points to the metadata at `0x3000`. -/
def host_class : Host where
  readmem := fun a =>
    if a = 0x1010 then some 0x2000
    else if a = 0x2020 then some 0xA000
    else if a = 0x1028 then some 0x3000
    else none
  MEMBER_OFFSET := fun s m =>
    if s = "ftrace_event_call" ∧ m = "class" then 16
    else if s = "ftrace_event_class" ∧ m = "fields" then 24
    else if s = "ftrace_event_class" ∧ m = "get_fields" then 32
    else if s = "ftrace_event_call" ∧ m = "data" then 40
    else if s = "syscall_metadata" ∧ m = "enter_fields" then 48
    else if s = "syscall_metadata" ∧ m = "exit_fields" then 56
    else -1
  symbol_search := fun n =>
    if n = "syscall_get_enter_fields" then some 0xA000
    else if n = "syscall_get_exit_fields" then some 0xB000
    else none


/-! ## Text, files and the archive text buffer -/

/-- The bytes of a string literal of the source; a C string is the list of its bytes
before the terminating NUL. -/
def bytes (s : String) : List Nat := s.toList.map Char.toNat

/-- The text `printf` writes for `%d` and an `int`. -/
def fmt_d (x : Int) : List Nat := bytes (toString x)

/-- The text `printf` writes for `%u` and an argument of 32 bits (`int` or `unsigned`). -/
def fmt_u (x : Int) : List Nat := bytes (toString (x % 2 ^ 32).toNat)

/-- The text `printf` writes for `%lx` and an argument of 64 bits. -/
def fmt_lx (x : Nat) : List Nat := (Nat.toDigits 16 (x % ULONG_MOD)).map Char.toNat

/-- What the archive writer takes from its host: the results of `write(2)` and `realloc`,
the byte order, `sizeof(long)` and `PAGESIZE()`. -/
structure Sys where
  /-- The value `write(fd, data, count)` returns when it is the `i`-th call on the file
  (`sys_write i count`). -/
  sys_write : Nat → Nat → Int
  /-- Whether `realloc(buf, n)` returns a block (`realloc_ok n`). -/
  realloc_ok : Nat → Bool
  /-- Whether the most significant byte of an integer object comes first in memory. -/
  big_endian : Bool
  /-- The value `sizeof(long)`. -/
  sizeof_long : Nat
  /-- The value `PAGESIZE()`. -/
  PAGESIZE : Int

/-- The file behind `fd`: the bytes appended so far and the number of `write` calls. -/
structure File where
  data : List Nat
  calls : Nat
  deriving DecidableEq, Repr

/-- The object representation of the integer `v` in `width` bytes, in host byte order. -/
def obj_bytes (S : Sys) (width v : Nat) : List Nat :=
  let le := (List.range width).map (fun i => v / 256 ^ i % 256)
  if S.big_endian then le.reverse else le

/-- The value of an integer object given by its bytes in host byte order. -/
def obj_value (S : Sys) (b : List Nat) : Nat :=
  (if S.big_endian then b else b.reverse).foldl (fun acc x => acc * 256 + x) 0

/-- The `do ... while (tot != size)` loop of `write_and_check`: the first argument is the
iteration budget, the second is `tot`. The arithmetic is that of `size_t`; `w <= 0` is
`w == 0` there. Each `write` passes `data`, not `data + tot`, as in the source. -/
def write_and_check_loop (S : Sys) (data : List Nat) (size : Nat) :
    Nat → Nat → File → Except Fault File
  | 0, _, _ => .error .out_of_fuel
  | fuel + 1, tot, f =>
    let count := (size + ULONG_MOD - tot) % ULONG_MOD
    let r := S.sys_write f.calls count
    if data.length < r.toNat then .error .out_of_bounds
    else
      let f1 : File := { data := f.data ++ data.take r.toNat, calls := f.calls + 1 }
      let w := (r % (ULONG_MOD : Int)).toNat
      let tot1 := (tot + w) % ULONG_MOD
      if w = 0 then .error .out_fail
      else if tot1 ≠ size then write_and_check_loop S data size fuel tot1 f1
      else .ok f1

/-- The function `write_and_check(fd, data, size)`: `.ok` is `return 0`, with the file it
leaves; `data` is the object `size` bytes are taken from. The budget `size + 1` is enough
whenever every `write` returns at least 1 and at most the count it is asked for. -/
def write_and_check (S : Sys) (f : File) (data : List Nat) (size : Nat) :
    Except Fault File :=
  write_and_check_loop S data size (size + 1) 0 f

/-- The statics `tmp_file_buf` (the allocated block), `tmp_file_pos`, `tmp_file_size` and
`tmp_file_error`. -/
structure TmpFile where
  tmp_file_buf : List Nat
  tmp_file_pos : Nat
  tmp_file_size : Nat
  tmp_file_error : Int
  deriving DecidableEq, Repr

/-- The statics after `init_tmp_file()` has returned 0. -/
def init_tmp_file : TmpFile :=
  { tmp_file_buf := List.replicate 4096 0, tmp_file_pos := 0, tmp_file_size := 4096,
    tmp_file_error := 0 }

/-- The block after `snprintf(buf + pos, n, fmt...)`, `text` being the complete formatted
text: at most `n - 1` bytes of it and a NUL are stored, nothing when `n = 0`. -/
def snprintf_at (buf : List Nat) (pos n : Nat) (text : List Nat) : List Nat :=
  if n = 0 then buf
  else
    let chunk := text.take (n - 1) ++ [0]
    buf.take pos ++ chunk ++ buf.drop (pos + chunk.length)

/-- The macro `tmp_fprintf(fmt...)`, `text` being the complete formatted text (the value
`snprintf` returns is its length). -/
def tmp_fprintf (S : Sys) (T : TmpFile) (text : List Nat) : TmpFile :=
  if T.tmp_file_error ≠ 0 then T
  else
    let buf1 := snprintf_at T.tmp_file_buf T.tmp_file_pos (T.tmp_file_size - T.tmp_file_pos)
      text
    let pos1 := T.tmp_file_pos + text.length
    if T.tmp_file_size ≤ pos1 then
      let size1 := pos1 + T.tmp_file_size
      if S.realloc_ok size1 then
        let buf2 := buf1 ++ List.replicate (size1 - buf1.length) 0
        { tmp_file_buf := snprintf_at buf2 T.tmp_file_pos (size1 - T.tmp_file_pos) text
          tmp_file_pos := T.tmp_file_pos + text.length
          tmp_file_size := size1
          tmp_file_error := T.tmp_file_error }
      else
        { T with tmp_file_buf := buf1, tmp_file_size := size1, tmp_file_error := 1 }
    else { T with tmp_file_buf := buf1, tmp_file_pos := pos1 }

/-- The function `tmp_file_record_size4(fd)`: the `unsigned int` copy of `tmp_file_pos` is
written in 4 bytes. -/
def tmp_file_record_size4 (S : Sys) (T : TmpFile) (f : File) : Except Fault File :=
  let size := T.tmp_file_pos % 2 ^ 32
  if T.tmp_file_error ≠ 0 then .error .out_fail
  else write_and_check S f (obj_bytes S 4 size) 4

/-- The function `tmp_file_record_size8(fd)`. -/
def tmp_file_record_size8 (S : Sys) (T : TmpFile) (f : File) : Except Fault File :=
  if T.tmp_file_error ≠ 0 then .error .out_fail
  else write_and_check S f (obj_bytes S 8 T.tmp_file_pos) 8

/-- The function `tmp_file_flush(fd)`. -/
def tmp_file_flush (S : Sys) (T : TmpFile) (f : File) : Except Fault (File × TmpFile) :=
  if T.tmp_file_error ≠ 0 then .error .out_fail
  else
    match write_and_check S f T.tmp_file_buf T.tmp_file_pos with
    | .error e => .error e
    | .ok f1 => .ok (f1, { T with tmp_file_pos := 0 })

/-- The text the buffer holds: its first `tmp_file_pos` bytes. -/
def TmpFile.text (T : TmpFile) : List Nat := T.tmp_file_buf.take T.tmp_file_pos

/-- A little-endian 64-bit host with 4096-byte pages on which every `write` is complete
and every `realloc` succeeds. -/
def sys_le : Sys :=
  { sys_write := fun _ count => (count : Int), realloc_ok := fun _ => true,
    big_endian := false, sizeof_long := 8, PAGESIZE := 4096 }

/-- The big-endian counterpart of `sys_le`. -/
def sys_be : Sys := { sys_le with big_endian := true }

/-! ## Event types and their format text -/

/-- The record `struct ftrace_field`; `name` and `type` are C strings. -/
structure ftrace_field where
  name : List Nat
  type : List Nat
  offset : Int
  size : Int
  is_signed : Int
  deriving DecidableEq, Repr

/-- The record `struct event_type`; the array `fields` with its length `nfields` is a
list. -/
structure event_type where
  system : List Nat
  name : List Nat
  plugin : Int
  print_fmt : List Nat
  id : Int
  fields : List ftrace_field
  deriving DecidableEq, Repr

/-- The member `nfields` of an event type. -/
def event_type.nfields (t : event_type) : Int := (t.fields.length : Int)

/-- The constant `default_common_field_count`. -/
def default_common_field_count : Int := 5

/-- The library function `strchr(s, c)` for `c != 0`: the offset of the first `c` in `s`,
`none` for `NULL`. -/
def strchr : List Nat → Nat → Option Nat
  | [], _ => none
  | x :: xs, c => if x = c then some 0 else (strchr xs c).map (fun k => k + 1)

/-- Whether `strncmp(a, b, n)` is 0, for C strings `a` and `b`. -/
def strncmp_eq (a b : List Nat) (n : Nat) : Bool :=
  decide ((a ++ [0]).take n = (b ++ [0]).take n)

/-- The text one iteration of the field loop of `save_event_file` and of
`ftrace_dump_event_type` prints for `field`. -/
def field_line (field : ftrace_field) : List Nat :=
  let array_descriptor0 := strchr field.type 91
  let array_descriptor :=
    if strncmp_eq field.type (bytes "__data_loc") 10 then none else array_descriptor0
  let tail := bytes ";\toffset:" ++ fmt_u field.offset ++ bytes ";\tsize:" ++
    fmt_u field.size ++ bytes ";\tsigned:" ++ fmt_d (if field.is_signed ≠ 0 then 1 else 0) ++
    bytes ";\n"
  match array_descriptor with
  | none => bytes "\tfield:" ++ field.type ++ bytes " " ++ field.name ++ tail
  | some k =>
    bytes "\tfield:" ++ field.type.take k ++ bytes " " ++ field.name ++ field.type.drop k ++
      tail

/-- The element `fields[i]` when `fields` points at element `base` of the array `arr`;
`none` outside the array. -/
def field_at (arr : List ftrace_field) (base : Int) (i : Nat) : Option ftrace_field :=
  if 0 ≤ base + (i : Int) then arr[(base + (i : Int)).toNat]? else none

/-- The loop `for (i = nfields - 1; i >= 0; i--)` of `save_event_file`; the first argument
is `i + 1`. -/
def save_fields (S : Sys) (arr : List ftrace_field) (base : Int) :
    Nat → TmpFile → Except Fault TmpFile
  | 0, T => .ok T
  | i + 1, T =>
    match field_at arr base i with
    | none => .error .out_of_bounds
    | some field => save_fields S arr base i (tmp_fprintf S T (field_line field))

/-- The part of `save_event_file` that prints the format text into the text buffer (lines
1727-1782); `common` is the array `ftrace_common_fields` with its length
`ftrace_common_fields_count`. -/
def save_event_text (S : Sys) (common : List ftrace_field) (T : TmpFile) (t : event_type) :
    Except Fault TmpFile :=
  let T1 := tmp_fprintf S T (bytes "name: " ++ t.name ++ bytes "\n")
  let T2 := tmp_fprintf S T1 (bytes "ID: " ++ fmt_d t.id ++ bytes "\n")
  let T3 := tmp_fprintf S T2 (bytes "format:\n")
  let ftrace_common_fields_count : Int := (common.length : Int)
  let nfields : Int :=
    if ftrace_common_fields_count ≠ 0 then ftrace_common_fields_count
    else default_common_field_count
  let arr := if ftrace_common_fields_count ≠ 0 then common else t.fields
  let base : Int := if ftrace_common_fields_count ≠ 0 then 0 else t.nfields - nfields
  match save_fields S arr base nfields.toNat T3 with
  | .error e => .error e
  | .ok T4 =>
    let T5 := tmp_fprintf S T4 (bytes "\n")
    let nfields2 : Int :=
      if ftrace_common_fields_count ≠ 0 then t.nfields
      else t.nfields - default_common_field_count
    match save_fields S t.fields 0 nfields2.toNat T5 with
    | .error e => .error e
    | .ok T6 => .ok (tmp_fprintf S T6 (bytes "\nprint fmt: " ++ t.print_fmt ++ bytes "\n"))

/-- The function `save_event_file(fd, t)`: the format text, then its length and the flush
of the text buffer. -/
def save_event_file (S : Sys) (common : List ftrace_field) (f : File) (T : TmpFile)
    (t : event_type) : Except Fault (File × TmpFile) :=
  match save_event_text S common T t with
  | .error e => .error e
  | .ok T7 =>
    match tmp_file_record_size8 S T7 f with
    | .error e => .error e
    | .ok f1 => tmp_file_flush S T7 f1

/-- The field loop of `ftrace_dump_event_type`; `out` is the text printed to the stream so
far, the first argument is `i + 1`. -/
def dump_fields (arr : List ftrace_field) (base : Int) :
    Nat → List Nat → Except Fault (List Nat)
  | 0, out => .ok out
  | i + 1, out =>
    match field_at arr base i with
    | none => .error .out_of_bounds
    | some field => dump_fields arr base i (out ++ field_line field)

/-- The function `ftrace_dump_event_type(t, path)`: the text printed to the `format` file;
`fopen_ok` tells whether `fopen` returns a stream. -/
def ftrace_dump_event_type (common : List ftrace_field) (fopen_ok : Bool) (t : event_type) :
    Except Fault (List Nat) :=
  if ¬ fopen_ok then .error .out_fail
  else
    let out1 := bytes "name: " ++ t.name ++ bytes "\n"
    let out2 := out1 ++ (bytes "ID: " ++ fmt_d t.id ++ bytes "\n")
    let out3 := out2 ++ bytes "format:\n"
    let ftrace_common_fields_count : Int := (common.length : Int)
    let nfields : Int :=
      if ftrace_common_fields_count ≠ 0 then ftrace_common_fields_count
      else default_common_field_count
    let arr := if ftrace_common_fields_count ≠ 0 then common else t.fields
    let base : Int := if ftrace_common_fields_count ≠ 0 then 0 else t.nfields - nfields
    match dump_fields arr base nfields.toNat out3 with
    | .error e => .error e
    | .ok out4 =>
      let out5 := out4 ++ bytes "\n"
      let nfields2 : Int :=
        if ftrace_common_fields_count ≠ 0 then t.nfields
        else t.nfields - default_common_field_count
      match dump_fields t.fields 0 nfields2.toNat out5 with
      | .error e => .error e
      | .ok out6 => .ok (out6 ++ (bytes "\nprint fmt: " ++ t.print_fmt ++ bytes "\n"))

/-- An event field with the given type and name. -/
def mk_field (type name : String) (offset size is_signed : Int) : ftrace_field :=
  { name := bytes name, type := bytes type, offset := offset, size := size,
    is_signed := is_signed }

/-- The five common fields as an old kernel stores them at the end of every event. -/
def common5 : List ftrace_field :=
  [mk_field "int" "common_lock_depth" 8 4 1, mk_field "int" "common_pid" 4 4 1,
   mk_field "unsigned char" "common_preempt_count" 3 1 0,
   mk_field "unsigned char" "common_flags" 2 1 0,
   mk_field "unsigned short" "common_type" 0 2 0]

/-- An event of an old kernel: two fields of its own, then the five common fields. -/
def ev_old : event_type :=
  { system := bytes "sched", name := bytes "sched_wakeup", plugin := 0,
    print_fmt := bytes "\"comm=%s\", REC->comm", id := 57,
    fields := [mk_field "char[16]" "comm" 12 16 1,
      mk_field "__data_loc char[]" "msg" 28 4 (-1)] ++ common5 }

/-- An event that carries no field, as `ftrace_init_event_fields` leaves it when the
`next` pointer of the fields head is null. -/
def ev_bare : event_type :=
  { system := bytes "ftrace", name := bytes "function", plugin := 1,
    print_fmt := bytes "\"%lx\"", id := 1, fields := [] }

/-! ## The archive writer -/

/-- The function `host_bigendian()`: the bytes 1, 2, 3, 4 read as one `unsigned int`. -/
def host_bigendian (S : Sys) : Bool := decide (obj_value S [1, 2, 3, 4] = 0x01020304)

/-- The function `save_initial_data(fd)`. The array `buf` of 20 bytes is taken to hold
zeros where the source leaves it unset. -/
def save_initial_data (S : Sys) (f : File) : Except Fault File :=
  match write_and_check S f ([0x17, 0x08, 0x44] ++ bytes "tracing" ++ [0]) 10 with
  | .error e => .error e
  | .ok f1 =>
    match write_and_check S f1 (bytes "6" ++ [0]) ((bytes "6").length + 1) with
    | .error e => .error e
    | .ok f2 =>
      let buf1 : List Nat := (if host_bigendian S then 1 else 0) :: List.replicate 19 0
      match write_and_check S f2 buf1 1 with
      | .error e => .error e
      | .ok f3 =>
        let buf2 : List Nat := (S.sizeof_long % 256) :: List.replicate 19 0
        match write_and_check S f3 buf2 1 with
        | .error e => .error e
        | .ok f4 =>
          let page_size : Int := S.PAGESIZE
          write_and_check S f4 (obj_bytes S 4 (page_size % 2 ^ 32).toNat) 4

/-- The function `save_header_files(fd)`. -/
def save_header_files (S : Sys) (f : File) (T : TmpFile) : Except Fault (File × TmpFile) :=
  match write_and_check S f (bytes "header_page" ++ [0]) 12 with
  | .error e => .error e
  | .ok f1 =>
    let T1 := tmp_fprintf S T (bytes "\tfield: u64 timestamp;\toffset:0;\tsize:8;\tsigned:0;\n")
    let T2 := tmp_fprintf S T1 (bytes "\tfield: local_t commit;\toffset:8;\tsize:" ++
      fmt_u (S.sizeof_long : Int) ++ bytes ";\tsigned:1;\n")
    let T3 := tmp_fprintf S T2 (bytes "\tfield: int overwrite;\toffset:8;\tsize:" ++
      fmt_u (S.sizeof_long : Int) ++ bytes ";\tsigned:1;\n")
    let T4 := tmp_fprintf S T3 (bytes "\tfield: char data;\toffset:" ++
      fmt_u (8 + (S.sizeof_long : Int)) ++ bytes ";\tsize:" ++
      fmt_u (S.PAGESIZE - 8 - (S.sizeof_long : Int)) ++ bytes ";\tsigned:1;\n")
    match tmp_file_record_size8 S T4 f1 with
    | .error e => .error e
    | .ok f2 =>
      match tmp_file_flush S T4 f2 with
      | .error e => .error e
      | .ok (f3, T5) =>
        match write_and_check S f3 (bytes "header_event" ++ [0]) 13 with
        | .error e => .error e
        | .ok f4 =>
          let T6 := tmp_fprintf S T5 (bytes ("# compressed entry header\n" ++
            "\ttype_len    :    5 bits\n" ++
            "\ttime_delta  :   27 bits\n" ++
            "\tarray       :   32 bits\n" ++
            "\n" ++
            "\tpadding     : type == 29\n" ++
            "\ttime_extend : type == 30\n" ++
            "\tdata max type_len  == 28\n"))
          match tmp_file_record_size8 S T6 f4 with
          | .error e => .error e
          | .ok f5 => tmp_file_flush S T6 f5

/-- The second loop of `save_system_files`: `event_types[i]` and `system_ids[i]` for
`i = 0, 1, ...`. -/
def save_system_events (S : Sys) (common : List ftrace_field) (system_id : Int) :
    List event_type → List Int → File → TmpFile → Except Fault (File × TmpFile)
  | [], _, f, T => .ok (f, T)
  | _ :: _, [], _, _ => .error .out_of_bounds
  | t :: ts, id :: ids, f, T =>
    if id ≠ system_id then save_system_events S common system_id ts ids f T
    else
      match save_event_file S common f T t with
      | .error e => .error e
      | .ok (f1, T1) => save_system_events S common system_id ts ids f1 T1

/-- The function `save_system_files(fd, system_ids, system_id)` over the array
`event_types`. -/
def save_system_files (S : Sys) (common : List ftrace_field) (event_types : List event_type)
    (system_ids : List Int) (system_id : Int) (f : File) (T : TmpFile) :
    Except Fault (File × TmpFile) :=
  let total : Nat :=
    ((system_ids.take event_types.length).filter (fun x => decide (x = system_id))).length
  match write_and_check S f (obj_bytes S 4 (total % 2 ^ 32)) 4 with
  | .error e => .error e
  | .ok f1 => save_system_events S common system_id event_types system_ids f1 T

/-- One run of the inner `for` loop of the bucketing loop of `save_events_files`, over
`event_types[i]` and `system_ids[i]` for `i = 0, 1, ...`; `system` is `none` for `NULL`.
The result is `system` and `system_ids` after the loop. -/
def bucket_pass (system_id : Int) :
    Option (List Nat) → List event_type → List Int → Option (List Nat) × List Int
  | system, [], ids => (system, ids)
  | system, _ :: _, [] => (system, [])
  | system, t :: ts, id :: ids =>
    if id ≠ 0 then
      let r := bucket_pass system_id system ts ids
      (r.1, id :: r.2)
    else
      match system with
      | none =>
        let r := bucket_pass system_id (some t.system) ts ids
        (r.1, system_id :: r.2)
      | some s =>
        let r := bucket_pass system_id (some s) ts ids
        (r.1, (if t.system = s then system_id else id) :: r.2)

/-- The bucketing loop `for (;;)` of `save_events_files`: the first argument is the
iteration budget; the result is `system_id` and `system_ids` at the `break`. -/
def bucket_loop (event_types : List event_type) :
    Nat → Int → Option (List Nat) → List Int → Except Fault (Int × List Int)
  | 0, _, _, _ => .error .out_of_fuel
  | fuel + 1, system_id, system, ids =>
    let r := bucket_pass system_id system event_types ids
    match r.1 with
    | none => .ok (system_id, r.2)
    | some _ => bucket_loop event_types fuel (system_id + 1) none r.2

/-- The bucketing part of `save_events_files` (lines 1814-1839), from `system_id = 1`,
`system = "ftrace"` and the zeroed array `system_ids`. -/
def bucket_systems (event_types : List event_type) : Except Fault (Int × List Int) :=
  bucket_loop event_types (event_types.length + 2) 1 (some (bytes "ftrace"))
    (List.replicate event_types.length 0)

/-- The loop `for (i = 0; i < nr_event_types; i++) if (system_ids[i] == system_id) break;`
of `save_events_files`: the value of `i` after it. -/
def find_system (system_id : Int) : List Int → Nat
  | [] => 0
  | x :: xs => if x = system_id then 0 else find_system system_id xs + 1

/-- The loop `for (system_id = 2; system_id < nr_systems + 2; system_id++)` of
`save_events_files`; the first argument counts the iterations left. -/
def save_other_systems (S : Sys) (common : List ftrace_field) (event_types : List event_type)
    (system_ids : List Int) :
    Nat → Int → File → TmpFile → Except Fault (File × TmpFile)
  | 0, _, f, T => .ok (f, T)
  | left + 1, system_id, f, T =>
    let i := find_system system_id (system_ids.take event_types.length)
    match event_types[i]? with
    | none => .error .out_of_bounds
    | some t =>
      match write_and_check S f (t.system ++ [0]) (t.system.length + 1) with
      | .error e => .error e
      | .ok f1 =>
        match save_system_files S common event_types system_ids system_id f1 T with
        | .error e => .error e
        | .ok (f2, T2) =>
          save_other_systems S common event_types system_ids left (system_id + 1) f2 T2

/-- The function `save_events_files(fd)` over the array `event_types`. -/
def save_events_files (S : Sys) (common : List ftrace_field) (event_types : List event_type)
    (f : File) (T : TmpFile) : Except Fault (File × TmpFile) :=
  match bucket_systems event_types with
  | .error e => .error e
  | .ok (system_id, system_ids) =>
    match save_system_files S common event_types system_ids 1 f T with
    | .error e => .error e
    | .ok (f1, T1) =>
      let nr_systems : Int := system_id - 2
      match write_and_check S f1 (obj_bytes S 4 (nr_systems % 2 ^ 32).toNat) 4 with
      | .error e => .error e
      | .ok f2 =>
        save_other_systems S common event_types system_ids nr_systems.toNat 2 f2 T1

/-- The text one iteration of the character loop of `add_print_address` prints for the
byte `c`. -/
def escape_char (c : Nat) : List Nat :=
  if c = 10 then bytes "\\n"
  else if c = 9 then bytes "\\t"
  else if c = 92 then bytes "\\\\"
  else if c = 34 then bytes "\\\""
  else [c]

/-- The loop `for (i = 0; string[i]; i++)` of `add_print_address`. -/
def print_chars (S : Sys) : List Nat → TmpFile → TmpFile
  | [], T => T
  | c :: cs, T => if c = 0 then T else print_chars S cs (tmp_fprintf S T (escape_char c))

/-- The function `add_print_address(address)`; `read_string` is the host function
`read_string(address, string, 4096)`, giving the bytes left in `string` before its NUL
(none: the value 0 is returned). -/
def add_print_address (S : Sys) (read_string : Nat → Nat → List Nat) (T : TmpFile)
    (address : Nat) : Except Fault TmpFile :=
  let string := read_string address 4096
  let len := (string.takeWhile (fun c => c ≠ 0)).length
  if len = 0 then .error .out_fail
  else
    let T1 := tmp_fprintf S T (bytes "0x" ++ fmt_lx address ++ bytes " : \"")
    let T2 := print_chars S string T1
    .ok (tmp_fprintf S T2 (bytes "\"\n"))

/-- Three event types: systems `sched`, `ftrace`, `sched`. -/
def ev3 : List event_type :=
  [ev_old, { ev_bare with fields := common5 },
   { ev_old with name := bytes "sched_switch", id := 58 }]

/-- Event types of the systems `irq`, `sched`, `ftrace`, `irq`, `sched`, `ftrace`. -/
def ev6 : List event_type :=
  (["irq", "sched", "ftrace", "irq", "sched", "ftrace"].map
    (fun s => { ev_old with system := bytes s }))

/-! ## The format text in the words of the specification -/

/-- The buffer state in which `tmp_fprintf` operates: no error latched, the block has
`tmp_file_size` bytes and the position lies inside it. -/
def TmpFile.Ok (T : TmpFile) : Prop :=
  T.tmp_file_error = 0 ∧ T.tmp_file_buf.length = T.tmp_file_size ∧
    T.tmp_file_pos < T.tmp_file_size

instance (T : TmpFile) : Decidable T.Ok := by
  unfold TmpFile.Ok
  infer_instance

/-- The fields of the first block of a format text: the common-fields table when there is
one, else the last five fields of the event. -/
def common_block (common : List ftrace_field) (t : event_type) : List ftrace_field :=
  if common ≠ [] then common else t.fields.drop (t.fields.length - 5)

/-- The fields of the second block of a format text: all fields of the event when there is
a common-fields table, else all but the last five. -/
def event_block (common : List ftrace_field) (t : event_type) : List ftrace_field :=
  if common ≠ [] then t.fields else t.fields.take (t.fields.length - 5)

/-- The lines of a block: one per field, the last stored field first. -/
def block_text (fs : List ftrace_field) : List Nat := (fs.reverse.map field_line).flatten

/-- The format text of an event type. -/
def format_text (common : List ftrace_field) (t : event_type) : List Nat :=
  bytes "name: " ++ t.name ++ bytes "\nID: " ++ fmt_d t.id ++ bytes "\nformat:\n" ++
    block_text (common_block common t) ++ bytes "\n" ++
    block_text (event_block common t) ++ bytes "\nprint fmt: " ++ t.print_fmt ++ bytes "\n"

/-- The line of a field in the words of the specification: the type is split at its first
`[` unless it has none or begins with `__data_loc`. -/
def field_line_spec (field : ftrace_field) : List Nat :=
  let split := decide (91 ∈ field.type) && !(bytes "__data_loc").isPrefixOf field.type
  let T := if split then field.type.takeWhile (fun c => c ≠ 91) else field.type
  let N :=
    if split then field.name ++ field.type.dropWhile (fun c => c ≠ 91) else field.name
  bytes "\tfield:" ++ T ++ bytes " " ++ N ++ bytes ";\toffset:" ++ fmt_u field.offset ++
    bytes ";\tsize:" ++ fmt_u field.size ++ bytes ";\tsigned:" ++
    (if field.is_signed ≠ 0 then bytes "1" else bytes "0") ++ bytes ";\n"

/-- An event type can be formatted: there is a common-fields table or the event has at
least five fields, and the text has a length an `unsigned long long` holds. -/
def Formattable (common : List ftrace_field) (t : event_type) : Prop :=
  (common ≠ [] ∨ 5 ≤ t.fields.length) ∧ (format_text common t).length < ULONG_MOD

instance (common : List ftrace_field) (t : event_type) : Decidable (Formattable common t) := by
  unfold Formattable
  infer_instance

/-- The bytes an event's format takes in the archive: the length in 8 bytes, then the
text. -/
def format_record (S : Sys) (common : List ftrace_field) (t : event_type) : List Nat :=
  obj_bytes S 8 (format_text common t).length ++ format_text common t

/-- The little-endian bytes of `v` in `width` bytes. -/
def le_bytes (width v : Nat) : List Nat := (List.range width).map (fun i => v / 256 ^ i % 256)

/-- The 18 bytes of the specification for the start of the archive: magic, version, endian
byte, `sizeof(long)`, and the page size in little-endian order. -/
def initial_data_le (S : Sys) : List Nat :=
  [0x17, 0x08, 0x44] ++ bytes "tracing" ++ bytes "6" ++ [0] ++
    [if S.big_endian then 1 else 0] ++ [S.sizeof_long] ++ le_bytes 4 (S.PAGESIZE % 2 ^ 32).toNat

/-- A text buffer that holds `2 ^ 32` bytes of text. -/
def tmp_huge : TmpFile :=
  { tmp_file_buf := List.replicate (2 ^ 32 + 1) 65, tmp_file_pos := 2 ^ 32,
    tmp_file_size := 2 ^ 32 + 1, tmp_file_error := 0 }

/-- A text buffer that holds the three bytes `abc`. -/
def tmp_abc : TmpFile := tmp_fprintf sys_le init_tmp_file (bytes "abc")

/-- The escaped form of a format string: every byte replaced by what the character loop of
`add_print_address` prints for it. -/
def escape (s : List Nat) : List Nat := (s.map escape_char).flatten

/-- The line of a bprintk entry as the specification words it: nothing between the
address, the colon and the opening quote. -/
def print_line_tight (address : Nat) (s : List Nat) : List Nat :=
  bytes "0x" ++ fmt_lx address ++ bytes ":\"" ++ escape s ++ bytes "\"\n"

/-- The line of a bprintk entry with one blank on each side of the colon. -/
def print_line (address : Nat) (s : List Nat) : List Nat :=
  bytes "0x" ++ fmt_lx address ++ bytes " : \"" ++ escape s ++ bytes "\"\n"

/-! ## Subsystem ids in the words of the specification -/

/-- The position of the first occurrence of `s` in a list of names, its length if
there is none. -/
def index_of (s : List Nat) : List (List Nat) → Nat
  | [] => 0
  | x :: xs => if x = s then 0 else index_of s xs + 1

/-- The id an event of system `s` holds once the systems of `done` have been given the ids
1, 2, ... in that order: 0 while `s` is not among them. -/
def bucket_id (done : List (List Nat)) (s : List Nat) : Int :=
  if s ∈ done then (index_of s done : Int) + 1 else 0

/-- The system of the first event whose system is not in `done`. -/
def first_new (done : List (List Nat)) : List event_type → Option (List Nat)
  | [] => none
  | t :: ts => if t.system ∈ done then first_new done ts else some t.system

/-- The subsystem id of the system `s`: 1 for `ftrace`, and 2, 3, ... for the systems of
the list `others`, in the order of that list. -/
def system_id_of (others : List (List Nat)) (s : List Nat) : Int :=
  if s = bytes "ftrace" then 1 else (index_of s others : Int) + 2

/-- The position of the first event of system `s` in `event_types`. -/
def first_index (event_types : List event_type) (s : List Nat) : Nat :=
  index_of s (event_types.map (fun t => t.system))

/-! ## The events section in the words of the specification -/

/-- The events of the system `s`, in `event_types` order. -/
def system_events (event_types : List event_type) (s : List Nat) : List event_type :=
  event_types.filter (fun t => decide (t.system = s))

/-- The block of one system: the number of its events in 4 bytes, then their formats. -/
def system_block (S : Sys) (common : List ftrace_field) (event_types : List event_type)
    (s : List Nat) : List Nat :=
  obj_bytes S 4 (system_events event_types s).length ++
    ((system_events event_types s).map (format_record S common)).flatten

/-- The events section: the block of `ftrace`, the number of other systems in 4 bytes,
then for each of them its name, a NUL and its block. -/
def events_section (S : Sys) (common : List ftrace_field) (event_types : List event_type)
    (others : List (List Nat)) : List Nat :=
  system_block S common event_types (bytes "ftrace") ++ obj_bytes S 4 others.length ++
    (others.map (fun s => s ++ [0] ++ system_block S common event_types s)).flatten

/-- The events whose format the events section holds, in the order of the section. -/
def section_events (event_types : List event_type) (others : List (List Nat)) :
    List event_type :=
  system_events event_types (bytes "ftrace") ++
    (others.map (fun s => system_events event_types s)).flatten

/-! ## Extraction of the event types -/

/-- The host and the dump as the extraction of the event types reads them, together with
the file-level statics `ftrace_events` and `koffset(...)` that `init_offsets` has set. -/
structure Dump extends Host where
  /-- Host primitive `readmem` for an `int` at a kernel address; `none`: the read
  fails. -/
  readmem_int : Nat → Option Int
  /-- Host primitive `readmem(kp, KVADDR, strbuf, cnt, ...)`: the `cnt` bytes at `kp`;
  `none`: the read fails. -/
  readmem_bytes : Nat → Nat → Option (List Nat)
  /-- Host function `read_string(kvaddr, buf, maxlen)`: the bytes it leaves in `buf`; its
  value is the length of the string in `buf`. -/
  read_string : Nat → Nat → List Nat
  /-- Host constant `MIN_PAGE_SIZE`. -/
  MIN_PAGE_SIZE : Nat
  /-- Static `ftrace_events`: the address of the list head of the event calls. -/
  ftrace_events : Nat
  /-- Static `koffset(list_head, next)`. -/
  list_head_next_offset : Int
  /-- Static `koffset(ftrace_event_call, list)`. -/
  ftrace_event_call_list_offset : Int
  /-- Static `koffset(ftrace_event_field, link)`. -/
  ftrace_event_field_link_offset : Int
  /-- Static `koffset(ftrace_event_field, name)`. -/
  ftrace_event_field_name_offset : Int
  /-- Static `koffset(ftrace_event_field, type)`. -/
  ftrace_event_field_type_offset : Int
  /-- Static `koffset(ftrace_event_field, offset)`. -/
  ftrace_event_field_offset_offset : Int
  /-- Static `koffset(ftrace_event_field, size)`. -/
  ftrace_event_field_size_offset : Int
  /-- Static `koffset(ftrace_event_field, is_signed)`. -/
  ftrace_event_field_is_signed_offset : Int

/-- The string a `char` buffer holds: its bytes before the first NUL. -/
def c_string (buf : List Nat) : List Nat := buf.takeWhile (fun c => decide (c ≠ 0))

/-- The macro `read_value(at, ptr, struct, member)` for an `ulong at`, over a `Dump`;
`none` is `goto out_fail`. -/
def Dump.read_value (D : Dump) (ptr : Nat) (koffset : Int) : Option Nat :=
  D.toHost.read (uadd ptr koffset)

/-- The macro `read_value(at, ptr, struct, member)` for an `int at`. -/
def Dump.read_value_int (D : Dump) (ptr : Nat) (koffset : Int) : Option Int :=
  D.readmem_int (uadd ptr koffset)

/-- The `while (pos != fields_head)` loop of `ftrace_init_event_fields`: the first argument
is the iteration budget, the state is `pos`, the array `fields` with its `nfields` entries
and its capacity `max_fields`; a store at an index that is not below the capacity is the
fault `out_of_bounds`. `malloc`, `realloc` and `strdup` are taken to succeed. -/
def init_event_fields_loop (D : Dump) (fields_head : Nat) :
    Nat → Nat → List ftrace_field → Nat → Except Fault (List ftrace_field)
  | 0, _, _, _ => .error .out_of_fuel
  | fuel + 1, pos, fields, max_fields =>
    if pos = fields_head then .ok fields
    else
      let field := usub pos D.ftrace_event_field_link_offset
      match D.read_value field D.ftrace_event_field_name_offset with
      | none => .error .out_fail
      | some name_addr =>
        match D.read_value field D.ftrace_event_field_type_offset with
        | none => .error .out_fail
        | some type_addr =>
          match D.read_value_int field D.ftrace_event_field_offset_offset with
          | none => .error .out_fail
          | some offset =>
            match D.read_value_int field D.ftrace_event_field_size_offset with
            | none => .error .out_fail
            | some size =>
              match D.read_value_int field D.ftrace_event_field_is_signed_offset with
              | none => .error .out_fail
              | some is_signed =>
                let field_name := D.read_string name_addr 128
                if (c_string field_name).length = 0 then .error .out_fail
                else
                  let field_type := D.read_string type_addr 128
                  if (c_string field_type).length = 0 then .error .out_fail
                  else
                    let max_fields1 :=
                      if max_fields ≤ fields.length then fields.length * 2 else max_fields
                    if max_fields1 ≤ fields.length then .error .out_of_bounds
                    else
                      let fld : ftrace_field :=
                        { name := c_string field_name, type := c_string field_type,
                          offset := offset, size := size, is_signed := is_signed }
                      match D.read_value pos D.list_head_next_offset with
                      | none => .error .out_fail
                      | some pos1 =>
                        init_event_fields_loop D fields_head fuel pos1 (fields ++ [fld])
                          max_fields1

/-- The function `ftrace_init_event_fields(fields_head, pnfields, pfields)`: the array left
in `*pfields` with its `*pnfields` entries; they stay as the caller set them (no entry)
when the `next` pointer of the head is null. -/
def ftrace_init_event_fields (D : Dump) (fuel : Nat) (fields_head : Nat) :
    Except Fault (List ftrace_field) :=
  match D.read_value fields_head D.list_head_next_offset with
  | none => .error .out_fail
  | some pos =>
    if pos = 0 then .ok []
    else init_event_fields_loop D fields_head fuel pos [] 16

/-- The function `ftrace_init_event_type(call, aevent_type)`: the fields put into
`*aevent_type` and the statics left. -/
def ftrace_init_event_type (D : Dump) (fuel : Nat) (s : Statics) (call : Nat) :
    Except Fault (List ftrace_field × Statics) :=
  let r := ftrace_get_event_type_fields D.toHost s call
  match r.1 with
  | none => .error .out_fail
  | some fields_head =>
    match ftrace_init_event_fields D fuel fields_head with
    | .error e => .error e
    | .ok fields => .ok (fields, r.2)

/-- The function `ftrace_init_common_fields()`: the array `ftrace_common_fields`. -/
def ftrace_init_common_fields (D : Dump) (fuel : Nat) : Except Fault (List ftrace_field) :=
  match D.symbol_search "ftrace_common_fields" with
  | none => .ok []
  | some ftrace_common_fields_head => ftrace_init_event_fields D fuel ftrace_common_fields_head

/-- The `static` locals of `ftrace_get_event_type_name`. -/
structure NameStatics where
  inited : Int
  name_offset : Int
  deriving DecidableEq, Repr

/-- The `static` locals of `ftrace_get_event_type_system`. -/
structure SystemStatics where
  inited : Int
  sys_offset : Int
  class_offset : Int
  deriving DecidableEq, Repr

/-- The `static` locals of `ftrace_get_event_type_print_fmt`. -/
structure PrintFmtStatics where
  inited : Int
  fmt_offset : Int
  deriving DecidableEq, Repr

/-- The `static` locals of `ftrace_get_event_type_id`. -/
structure IdStatics where
  inited : Int
  id_offset : Int
  deriving DecidableEq, Repr

/-- The function `ftrace_get_event_type_name(call, name, len)`: `some name` is `return 0`
with the buffer `name` filled, `none` is `return -1`. -/
def ftrace_get_event_type_name (D : Dump) (s : NameStatics) (call len : Nat) :
    Option (List Nat) × NameStatics :=
  let s1 : NameStatics :=
    if s.inited = 0 then
      { inited := 1, name_offset := D.MEMBER_OFFSET "ftrace_event_call" "name" }
    else s
  if s1.name_offset < 0 then (none, s1)
  else
    match D.toHost.read (uadd call s1.name_offset) with
    | none => (none, s1)
    | some name_addr =>
      let name := D.read_string name_addr len
      if (c_string name).length = 0 then (none, s1) else (some name, s1)

/-- The part of `ftrace_get_event_type_system` after the label `work`. -/
def ftrace_get_event_type_system_work (D : Dump) (s : SystemStatics) (call len : Nat) :
    Option (List Nat) :=
  if s.sys_offset < 0 then none
  else
    let ptr : Option Nat :=
      if s.inited = 2 then D.toHost.read (uadd call s.class_offset) else some call
    match ptr with
    | none => none
    | some ptr =>
      match D.toHost.read (uadd ptr s.sys_offset) with
      | none => none
      | some sys_addr =>
        let system := D.read_string sys_addr len
        if (c_string system).length = 0 then none else some system

/-- The function `ftrace_get_event_type_system(call, system, len)`. -/
def ftrace_get_event_type_system (D : Dump) (s : SystemStatics) (call len : Nat) :
    Option (List Nat) × SystemStatics :=
  if s.inited ≠ 0 then (ftrace_get_event_type_system_work D s call len, s)
  else
    let s1 : SystemStatics :=
      { s with inited := 1, sys_offset := D.MEMBER_OFFSET "ftrace_event_call" "system" }
    if 0 ≤ s1.sys_offset then (ftrace_get_event_type_system_work D s1 call len, s1)
    else
      let s2 : SystemStatics :=
        { s1 with class_offset := D.MEMBER_OFFSET "ftrace_event_call" "class" }
      if s2.class_offset < 0 then (none, s2)
      else
        let s3 : SystemStatics :=
          { s2 with sys_offset := D.MEMBER_OFFSET "ftrace_event_class" "system", inited := 2 }
        (ftrace_get_event_type_system_work D s3 call len, s3)

/-- One run of the `for (;;)` loop of `read_long_string` from `kp = kvaddr`, `size = 0`
to the first pass with `cnt2 < cnt1`: the first argument is the iteration budget, the
last the bytes seen so far (`size` is their number, and they are what `ret_buf` holds
when it is set). -/
def read_long_string_pass (D : Dump) : Nat → Nat → List Nat → Except Fault (List Nat)
  | 0, _, _ => .error .out_of_fuel
  | fuel + 1, kp, seen =>
    let cnt1 := D.MIN_PAGE_SIZE - (kp &&& (D.MIN_PAGE_SIZE - 1))
    match D.readmem_bytes kp cnt1 with
    | none => .error .out_fail
    | some strbuf =>
      let cnt2 := (c_string (strbuf.take cnt1)).length
      let seen1 := seen ++ strbuf.take cnt2
      if cnt2 < cnt1 then .ok seen1
      else read_long_string_pass D fuel (uadd kp cnt2) seen1

/-- The function `read_long_string(kvaddr, buf)`: the string left in `*buf`, whose length
is the value returned. The first pass finds the size, the second, after `goto again`,
fills `ret_buf`; `malloc` is taken to succeed. -/
def read_long_string (D : Dump) (fuel : Nat) (kvaddr : Nat) : Except Fault (List Nat) :=
  match read_long_string_pass D fuel kvaddr [] with
  | .error e => .error e
  | .ok _ => read_long_string_pass D fuel kvaddr []

/-- The function `ftrace_get_event_type_print_fmt(call, print_fmt)`: the string left in
`*print_fmt`; a negative value is `.error .out_fail`. -/
def ftrace_get_event_type_print_fmt (D : Dump) (fuel : Nat) (s : PrintFmtStatics)
    (call : Nat) : Except Fault (List Nat) × PrintFmtStatics :=
  let s1 : PrintFmtStatics :=
    if s.inited = 0 then
      { inited := 1, fmt_offset := D.MEMBER_OFFSET "ftrace_event_call" "print_fmt" }
    else s
  if s1.fmt_offset < 0 then (.ok (bytes "Unknown print_fmt"), s1)
  else
    match D.toHost.read (uadd call s1.fmt_offset) with
    | none => (.error .out_fail, s1)
    | some fmt_addr => (read_long_string D fuel fmt_addr, s1)

/-- The function `ftrace_get_event_type_id(call, id)`. -/
def ftrace_get_event_type_id (D : Dump) (s : IdStatics) (call : Nat) :
    Option Int × IdStatics :=
  let s1 : IdStatics :=
    if s.inited = 0 then
      let id_offset := D.MEMBER_OFFSET "ftrace_event_call" "id"
      if id_offset < 0 then
        let f1 := D.MEMBER_OFFSET "ftrace_event_call" "event"
        let f2 := D.MEMBER_OFFSET "trace_event" "type"
        if 0 ≤ f1 ∧ 0 ≤ f2 then { inited := 1, id_offset := f1 + f2 }
        else { inited := 1, id_offset := id_offset }
      else { inited := 1, id_offset := id_offset }
    else s
  if s1.id_offset < 0 then (none, s1)
  else (D.readmem_int (uadd call s1.id_offset), s1)

/-- The constant `MAX_CACHE_ID`. -/
def MAX_CACHE_ID : Nat := 256

/-- The statics that `ftrace_init_event_types` and the functions it calls read and set:
the arrays `event_types` (with its `nr_event_types` entries), `event_type_cache` and
`ftrace_common_fields`, and the `static` locals of the getters. -/
structure EventTypes where
  event_types : List event_type
  event_type_cache : List (Option event_type)
  ftrace_common_fields : List ftrace_field
  fields_statics : Statics
  id_statics : IdStatics
  name_statics : NameStatics
  system_statics : SystemStatics
  print_fmt_statics : PrintFmtStatics
  deriving DecidableEq, Repr

/-- The statics at program start. -/
def EventTypes.start : EventTypes where
  event_types := []
  event_type_cache := List.replicate MAX_CACHE_ID none
  ftrace_common_fields := []
  fields_statics := Statics.start
  id_statics := ⟨0, 0⟩
  name_statics := ⟨0, 0⟩
  system_statics := ⟨0, 0, 0⟩
  print_fmt_statics := ⟨0, 0⟩

/-- The `while (event != ftrace_events)` loop of `ftrace_init_event_types`: the first
argument is the iteration budget, also given to the loops of the functions called. The
result `.error .out_fail` stands for the exits through `out_fail` and
`out_fail_free_aevent_type`, which free every event type and return -1. `malloc`,
`realloc` and `strdup` are taken to succeed. -/
def init_event_types_loop (D : Dump) :
    Nat → EventTypes → Nat → Except Fault EventTypes
  | 0, _, _ => .error .out_of_fuel
  | fuel + 1, st, event =>
    if event = D.ftrace_events then .ok st
    else
      let call := usub event D.ftrace_event_call_list_offset
      let r_id := ftrace_get_event_type_id D st.id_statics call
      match r_id.1 with
      | none => .error .out_fail
      | some id =>
        let r_name := ftrace_get_event_type_name D st.name_statics call 128
        match r_name.1 with
        | none => .error .out_fail
        | some name =>
          let r_system := ftrace_get_event_type_system D st.system_statics call 128
          match r_system.1 with
          | none => .error .out_fail
          | some system =>
            let r_fmt := ftrace_get_event_type_print_fmt D (fuel + 1) st.print_fmt_statics call
            match r_fmt.1 with
            | .error e => .error e
            | .ok print_fmt =>
              match ftrace_init_event_type D (fuel + 1) st.fields_statics call with
              | .error e => .error e
              | .ok (fields, fields_statics) =>
                let aevent_type : event_type :=
                  { system := c_string system, name := c_string name,
                    plugin := if c_string system = bytes "ftrace" then 1 else 0,
                    print_fmt := print_fmt, id := id, fields := fields }
                let st1 : EventTypes :=
                  { st with
                    event_types := st.event_types ++ [aevent_type]
                    event_type_cache :=
                      if (id % 2 ^ 32).toNat < MAX_CACHE_ID then
                        st.event_type_cache.set (id % 2 ^ 32).toNat (some aevent_type)
                      else st.event_type_cache
                    fields_statics := fields_statics
                    id_statics := r_id.2
                    name_statics := r_name.2
                    system_statics := r_system.2
                    print_fmt_statics := r_fmt.2 }
                match D.read_value event D.list_head_next_offset with
                | none => .error .out_fail
                | some event1 => init_event_types_loop D fuel st1 event1

/-- The function `ftrace_init_event_types()` from the statics `st`: `.ok` is `return 0`
with the statics left, `.error .out_fail` is `return -1` after
`ftrace_destroy_event_types()`. -/
def ftrace_init_event_types (D : Dump) (fuel : Nat) (st : EventTypes) :
    Except Fault EventTypes :=
  match D.read_value D.ftrace_events D.list_head_next_offset with
  | none => .error .out_fail
  | some event =>
    match init_event_types_loop D fuel st event with
    | .error e => .error e
    | .ok st1 =>
      match ftrace_init_common_fields D fuel with
      | .error e => .error e
      | .ok common => .ok { st1 with ftrace_common_fields := common }

/-- The event `k` steps after `event` on the list of event calls: `none` when the list
ends or a read fails before. -/
def event_after (D : Dump) : Nat → Nat → Option Nat
  | 0, event => if event = D.ftrace_events then none else some event
  | k + 1, event =>
    if event = D.ftrace_events then none
    else
      match D.read_value event D.list_head_next_offset with
      | none => none
      | some event1 => event_after D k event1

/-- The `k`-th event on the list `ftrace_events`, counted from 0. -/
def event_on_list (D : Dump) (k : Nat) : Option Nat :=
  match D.read_value D.ftrace_events D.list_head_next_offset with
  | none => none
  | some event => event_after D k event

/-- A dump with three event calls at `0x1000`, `0x2000` and `0x3000`, of the classes at
`0x1100`, `0x2100`, `0x3100`; `get_fields` of the second is `get_fields`, that of the
others is null, and the fields lists of the classes are empty. -/
def dump3 (get_fields : Nat) : Dump where
  readmem := fun a =>
    if a = 0x100 then some 0x1000
    else if a = 0x1000 then some 0x2000
    else if a = 0x2000 then some 0x3000
    else if a = 0x3000 then some 0x100
    else if a = 0x1010 then some 0x5000
    else if a = 0x2010 then some 0x5010
    else if a = 0x3010 then some 0x5020
    else if a = 0x1018 then some 0x5100
    else if a = 0x2018 then some 0x5100
    else if a = 0x3018 then some 0x5110
    else if a = 0x1020 then some 0x1100
    else if a = 0x2020 then some 0x2100
    else if a = 0x3020 then some 0x3100
    else if a = 0x1110 then some 0
    else if a = 0x2110 then some get_fields
    else if a = 0x3110 then some 0
    else if a = 0x1108 then some 0x1108
    else if a = 0x2108 then some 0x2108
    else if a = 0x3108 then some 0x3108
    else none
  MEMBER_OFFSET := fun s m =>
    if s = "ftrace_event_call" ∧ m = "id" then 8
    else if s = "ftrace_event_call" ∧ m = "name" then 16
    else if s = "ftrace_event_call" ∧ m = "system" then 24
    else if s = "ftrace_event_call" ∧ m = "class" then 32
    else if s = "ftrace_event_class" ∧ m = "fields" then 8
    else if s = "ftrace_event_class" ∧ m = "get_fields" then 16
    else -1
  symbol_search := fun n =>
    if n = "syscall_get_enter_fields" then some 0xA000
    else if n = "syscall_get_exit_fields" then some 0xB000
    else none
  readmem_int := fun a =>
    if a = 0x1008 then some 1
    else if a = 0x2008 then some 2
    else if a = 0x3008 then some 3
    else none
  readmem_bytes := fun _ _ => none
  read_string := fun a _ =>
    if a = 0x5000 then bytes "function" ++ [0]
    else if a = 0x5010 then bytes "sys_enter" ++ [0]
    else if a = 0x5020 then bytes "sched_switch" ++ [0]
    else if a = 0x5100 then bytes "ftrace" ++ [0]
    else if a = 0x5110 then bytes "sched" ++ [0]
    else [0]
  MIN_PAGE_SIZE := 4096
  ftrace_events := 0x100
  list_head_next_offset := 0
  ftrace_event_call_list_offset := 0
  ftrace_event_field_link_offset := 0
  ftrace_event_field_name_offset := 0
  ftrace_event_field_type_offset := 0
  ftrace_event_field_offset_offset := 0
  ftrace_event_field_size_offset := 0
  ftrace_event_field_is_signed_offset := 0
/-! ## The head page in the words of the specification -/

/-- The next pointers, as stored in the dump, that `count` steps of the page walk read,
the first at the list node `page` and each further one at the node the one before points
to, tag bits masked off; `none` when a read fails. -/
def raw_nexts (K : Kernel) : Nat → Nat → Option (List Nat)
  | 0, _ => some []
  | count + 1, page =>
    match read_value K page K.list_head_next_offset with
    | none => none
    | some p =>
      (raw_nexts K count (if p &&& 3 ≠ 0 then p &&& NOT3 else p)).map (fun l => p :: l)

/-- The last pointer of a list that carries a tag in its two low bits. -/
def last_tagged : List Nat → Option Nat
  | [] => none
  | p :: l =>
    match last_tagged l with
    | some q => some q
    | none => if p &&& 3 ≠ 0 then some p else none

/-! ## Strings of the dump in the words of the specification -/

/-- The `len` bytes of the byte memory `mem` from address `a` on. -/
def mem_range (mem : Nat → Nat) (a len : Nat) : List Nat :=
  (List.range len).map (fun i => mem (a + i))

/-- A dump with pages of 4 bytes whose bytes `1 .. 7` hold `abcdefg`; every other byte is
NUL, and the page from address 16 on cannot be read. -/
def dump_str : Dump :=
  { dump3 0 with
    MIN_PAGE_SIZE := 4
    readmem_bytes := fun kp cnt =>
      if kp + cnt ≤ 16 then
        some ((List.range cnt).map (fun i =>
          if 1 ≤ kp + i ∧ kp + i ≤ 7 then 96 + (kp + i) else if 12 ≤ kp + i then 120 else 0))
      else none }

/-! ## Field lists in the words of the specification -/

/-- The record `(name, type, offset, size, is_signed)` of the field whose list node is at
`pos`; `none` when one of its reads fails (`read_string` fails when it returns 0). -/
def field_record (D : Dump) (pos : Nat) : Option ftrace_field :=
  let field := usub pos D.ftrace_event_field_link_offset
  match D.read_value field D.ftrace_event_field_name_offset with
  | none => none
  | some name_addr =>
    match D.read_value field D.ftrace_event_field_type_offset with
    | none => none
    | some type_addr =>
      match D.read_value_int field D.ftrace_event_field_offset_offset with
      | none => none
      | some offset =>
        match D.read_value_int field D.ftrace_event_field_size_offset with
        | none => none
        | some size =>
          match D.read_value_int field D.ftrace_event_field_is_signed_offset with
          | none => none
          | some is_signed =>
            if (c_string (D.read_string name_addr 128)).length = 0 then none
            else if (c_string (D.read_string type_addr 128)).length = 0 then none
            else
              some { name := c_string (D.read_string name_addr 128),
                     type := c_string (D.read_string type_addr 128),
                     offset := offset, size := size, is_signed := is_signed }

/-- The list nodes reached from `pos` by following `next` links until the anchor `head`
is reached, within `budget` links; `none` when a read fails or the anchor is not reached. -/
def list_nodes (D : Dump) (head : Nat) : Nat → Nat → Option (List Nat)
  | 0, _ => none
  | budget + 1, pos =>
    if pos = head then some []
    else
      match D.read_value pos D.list_head_next_offset with
      | none => none
      | some pos1 => (list_nodes D head budget pos1).map (fun l => pos :: l)

/-- A dump with a field list of `n` nodes at `0x1000, 0x1100, ...`, anchored at `0x800`;
the field of node `i` has the name `f`, the type `int`, offset `4 * i`, size 4 and is
signed. -/
def dump_list (n : Nat) : Dump :=
  { dump3 0 with
    readmem := fun a =>
      if a = 0x800 then some (if n = 0 then 0x800 else 0x1000)
      else if 0x1000 ≤ a ∧ a < 0x1000 + 0x100 * n then
        if a % 0x100 = 0 then
          some (if a + 0x100 < 0x1000 + 0x100 * n then a + 0x100 else 0x800)
        else if a % 0x100 = 8 then some 0x500
        else if a % 0x100 = 16 then some 0x600
        else none
      else none
    readmem_int := fun a =>
      if 0x1000 ≤ a ∧ a < 0x1000 + 0x100 * n then
        if a % 0x100 = 24 then some (4 * (((a - 0x1000) / 0x100 : Nat) : Int))
        else if a % 0x100 = 28 then some 4
        else if a % 0x100 = 32 then some 1
        else none
      else none
    read_string := fun a _ =>
      if a = 0x500 then bytes "f" ++ [0] else if a = 0x600 then bytes "int" ++ [0] else [0]
    ftrace_event_field_link_offset := 0
    ftrace_event_field_name_offset := 8
    ftrace_event_field_type_offset := 16
    ftrace_event_field_offset_offset := 24
    ftrace_event_field_size_offset := 28
    ftrace_event_field_is_signed_offset := 32 }

/-! ## Reading an escaped format string back -/

/-- The decoder of the escaped text, scanning left to right; the flag tells that the byte
before was a backslash that starts an escape. After a backslash `n` stands for a newline,
`t` for a tab and every other byte for itself. -/
def unescape_from : Bool → List Nat → List Nat
  | _, [] => []
  | true, d :: rest =>
    (if d = 110 then 10 else if d = 116 then 9 else d) :: unescape_from false rest
  | false, c :: rest =>
    if c = 92 then unescape_from true rest else c :: unescape_from false rest

/-- The unescape that corresponds to the escapes of `add_print_address`. -/
def unescape (s : List Nat) : List Nat := unescape_from false s

/-- Whether a text holds a double quote that is not part of an escape, scanning left to
right with the same flag as `unescape_from`. -/
def bare_quote_from : Bool → List Nat → Bool
  | _, [] => false
  | true, _ :: rest => bare_quote_from false rest
  | false, c :: rest =>
    if c = 92 then bare_quote_from true rest
    else if c = 34 then true
    else bare_quote_from false rest

/-- Whether a text holds an unescaped double quote. -/
def bare_quote (s : List Nat) : Bool := bare_quote_from false s

/-! ## The layout probe and the start of the extension -/

/-- The debug-info services of the host that the layout probe and `ftrace_init` call, next
to those of `Host`. -/
structure Layout extends Host where
  /-- Host macro `MEMBER_EXISTS(struct, member)`. -/
  MEMBER_EXISTS : String → String → Bool
  /-- Host macro `MEMBER_SIZE(struct, member)`. -/
  MEMBER_SIZE : String → String → Int
  /-- The value `sizeof(ulong)`. -/
  sizeof_ulong : Int
  /-- Host function `try_get_symbol_data(symbol, sizeof(int), &value)`: the value stored,
  `none` when it returns 0. -/
  try_get_symbol_data : String → Option Int

/-- The file-level statics that `init_offsets` sets: the flags `per_cpu_buffer_sizes` and
`lockless_ring_buffer` and every `koffset(struct, member)`. -/
structure Offsets where
  per_cpu_buffer_sizes : Int
  lockless_ring_buffer : Int
  trace_array_buffer : Int
  tracer_name : Int
  ring_buffer_pages : Int
  ring_buffer_flags : Int
  ring_buffer_cpus : Int
  ring_buffer_buffers : Int
  ring_buffer_per_cpu_nr_pages : Int
  ring_buffer_per_cpu_cpu : Int
  ring_buffer_per_cpu_pages : Int
  ring_buffer_per_cpu_head_page : Int
  ring_buffer_per_cpu_tail_page : Int
  ring_buffer_per_cpu_commit_page : Int
  ring_buffer_per_cpu_reader_page : Int
  ring_buffer_per_cpu_overrun : Int
  ring_buffer_per_cpu_entries : Int
  buffer_page_read : Int
  buffer_page_list : Int
  buffer_page_page : Int
  list_head_next : Int
  ftrace_event_call_list : Int
  ftrace_event_field_link : Int
  ftrace_event_field_name : Int
  ftrace_event_field_type : Int
  ftrace_event_field_offset : Int
  ftrace_event_field_size : Int
  ftrace_event_field_is_signed : Int

/-- The static `per_cpu_buffer_sizes` as `init_offsets` sets it. -/
def per_cpu_buffer_sizes (L : Layout) : Int :=
  if L.MEMBER_EXISTS "ring_buffer_per_cpu" "nr_pages" then 1 else 0

/-- The static `lockless_ring_buffer` as `init_offsets` sets it. -/
def lockless_ring_buffer (L : Layout) : Int :=
  if L.MEMBER_SIZE "ring_buffer_per_cpu" "pages" = L.sizeof_ulong then 1 else 0

/-- The function `init_offsets()`, entered with all its statics zero: `some` is `return 0`
with the statics it has set, `none` is `return -1`. Each `init_offset(struct, member)`
is the assignment of `MEMBER_OFFSET` and the test `< 0` of the macro; the two that stand
under an `if` are tested only when its condition holds. -/
def init_offsets (L : Layout) : Option Offsets :=
  if L.MEMBER_OFFSET "trace_array" "buffer" < 0 then none
  else if L.MEMBER_OFFSET "tracer" "name" < 0 then none
  else if per_cpu_buffer_sizes L = 0 ∧ L.MEMBER_OFFSET "ring_buffer" "pages" < 0 then none
  else if L.MEMBER_OFFSET "ring_buffer" "flags" < 0 then none
  else if L.MEMBER_OFFSET "ring_buffer" "cpus" < 0 then none
  else if L.MEMBER_OFFSET "ring_buffer" "buffers" < 0 then none
  else if per_cpu_buffer_sizes L ≠ 0 ∧
      L.MEMBER_OFFSET "ring_buffer_per_cpu" "nr_pages" < 0 then none
  else if L.MEMBER_OFFSET "ring_buffer_per_cpu" "cpu" < 0 then none
  else if L.MEMBER_OFFSET "ring_buffer_per_cpu" "pages" < 0 then none
  else if L.MEMBER_OFFSET "ring_buffer_per_cpu" "head_page" < 0 then none
  else if L.MEMBER_OFFSET "ring_buffer_per_cpu" "tail_page" < 0 then none
  else if L.MEMBER_OFFSET "ring_buffer_per_cpu" "commit_page" < 0 then none
  else if L.MEMBER_OFFSET "ring_buffer_per_cpu" "reader_page" < 0 then none
  else if L.MEMBER_OFFSET "ring_buffer_per_cpu" "overrun" < 0 then none
  else if L.MEMBER_OFFSET "ring_buffer_per_cpu" "entries" < 0 then none
  else if L.MEMBER_OFFSET "buffer_page" "read" < 0 then none
  else if L.MEMBER_OFFSET "buffer_page" "list" < 0 then none
  else if L.MEMBER_OFFSET "buffer_page" "page" < 0 then none
  else if L.MEMBER_OFFSET "list_head" "next" < 0 then none
  else if L.MEMBER_OFFSET "ftrace_event_call" "list" < 0 then none
  else if L.MEMBER_OFFSET "ftrace_event_field" "link" < 0 then none
  else if L.MEMBER_OFFSET "ftrace_event_field" "name" < 0 then none
  else if L.MEMBER_OFFSET "ftrace_event_field" "type" < 0 then none
  else if L.MEMBER_OFFSET "ftrace_event_field" "offset" < 0 then none
  else if L.MEMBER_OFFSET "ftrace_event_field" "size" < 0 then none
  else if L.MEMBER_OFFSET "ftrace_event_field" "is_signed" < 0 then none
  else
    some
      { per_cpu_buffer_sizes := per_cpu_buffer_sizes L
        lockless_ring_buffer := lockless_ring_buffer L
        trace_array_buffer := L.MEMBER_OFFSET "trace_array" "buffer"
        tracer_name := L.MEMBER_OFFSET "tracer" "name"
        ring_buffer_pages :=
          if per_cpu_buffer_sizes L = 0 then L.MEMBER_OFFSET "ring_buffer" "pages" else 0
        ring_buffer_flags := L.MEMBER_OFFSET "ring_buffer" "flags"
        ring_buffer_cpus := L.MEMBER_OFFSET "ring_buffer" "cpus"
        ring_buffer_buffers := L.MEMBER_OFFSET "ring_buffer" "buffers"
        ring_buffer_per_cpu_nr_pages :=
          if per_cpu_buffer_sizes L ≠ 0 then L.MEMBER_OFFSET "ring_buffer_per_cpu" "nr_pages"
          else 0
        ring_buffer_per_cpu_cpu := L.MEMBER_OFFSET "ring_buffer_per_cpu" "cpu"
        ring_buffer_per_cpu_pages := L.MEMBER_OFFSET "ring_buffer_per_cpu" "pages"
        ring_buffer_per_cpu_head_page := L.MEMBER_OFFSET "ring_buffer_per_cpu" "head_page"
        ring_buffer_per_cpu_tail_page := L.MEMBER_OFFSET "ring_buffer_per_cpu" "tail_page"
        ring_buffer_per_cpu_commit_page := L.MEMBER_OFFSET "ring_buffer_per_cpu" "commit_page"
        ring_buffer_per_cpu_reader_page := L.MEMBER_OFFSET "ring_buffer_per_cpu" "reader_page"
        ring_buffer_per_cpu_overrun := L.MEMBER_OFFSET "ring_buffer_per_cpu" "overrun"
        ring_buffer_per_cpu_entries := L.MEMBER_OFFSET "ring_buffer_per_cpu" "entries"
        buffer_page_read := L.MEMBER_OFFSET "buffer_page" "read"
        buffer_page_list := L.MEMBER_OFFSET "buffer_page" "list"
        buffer_page_page := L.MEMBER_OFFSET "buffer_page" "page"
        list_head_next := L.MEMBER_OFFSET "list_head" "next"
        ftrace_event_call_list := L.MEMBER_OFFSET "ftrace_event_call" "list"
        ftrace_event_field_link := L.MEMBER_OFFSET "ftrace_event_field" "link"
        ftrace_event_field_name := L.MEMBER_OFFSET "ftrace_event_field" "name"
        ftrace_event_field_type := L.MEMBER_OFFSET "ftrace_event_field" "type"
        ftrace_event_field_offset := L.MEMBER_OFFSET "ftrace_event_field" "offset"
        ftrace_event_field_size := L.MEMBER_OFFSET "ftrace_event_field" "size"
        ftrace_event_field_is_signed := L.MEMBER_OFFSET "ftrace_event_field" "is_signed" }

/-- The statics `ftrace_init` sets from the symbol table before it probes the layout. -/
structure Symbols where
  global_trace : Nat
  max_tr_trace : Nat
  ftrace_events : Nat
  current_trace : Nat
  nr_cpu_ids : Int
  deriving DecidableEq, Repr

/-- The function `ftrace_init()`: `none` is `return -1`. The argument `build` stands for
its lines 495-518, the calls of `ftrace_int_global_trace`, `ftrace_int_max_tr_trace`,
`ftrace_init_event_types` and `ftrace_init_current_tracer` that build the buffers and the
event types with their clean-up on failure; `none` there is the exit through `out_0`,
`out_1` or `out_2`. -/
def ftrace_init {α : Type} (L : Layout) (build : Symbols → Offsets → Option α) :
    Option (Symbols × Offsets × α) :=
  match L.symbol_search "global_trace", L.symbol_search "max_tr",
      L.symbol_search "ftrace_events", L.symbol_search "current_trace" with
  | some global_trace, some max_tr_trace, some ftrace_events, some current_trace =>
    let syms : Symbols :=
      { global_trace := global_trace, max_tr_trace := max_tr_trace,
        ftrace_events := ftrace_events, current_trace := current_trace,
        nr_cpu_ids := (L.try_get_symbol_data "nr_cpu_ids").getD 1 }
    match init_offsets L with
    | none => none
    | some offsets =>
      match build syms offsets with
      | none => none
      | some model => some (syms, offsets, model)
  | _, _, _, _ => none

/-- What `trace_init` leaves: the static `ftrace_initialized`, whether
`register_extension(command_table)` has been called, and what `ftrace_init` has built. -/
structure Extension (α : Type) where
  ftrace_initialized : Int
  registered : Bool
  state : Option (Symbols × Offsets × α)

/-- The constructor `trace_init()`. -/
def trace_init {α : Type} (L : Layout) (build : Symbols → Offsets → Option α) :
    Extension α :=
  match ftrace_init L build with
  | none => { ftrace_initialized := 0, registered := false, state := none }
  | some s => { ftrace_initialized := 1, registered := true, state := some s }

/-- The members that `init_offsets` probes with `init_offset`, in the order of the source:
`ring_buffer_per_cpu.nr_pages` and not `ring_buffer.pages` with per-CPU buffer sizes,
`ring_buffer.pages` and not `ring_buffer_per_cpu.nr_pages` without them. -/
def mandatory_members (L : Layout) : List (String × String) :=
  if L.MEMBER_EXISTS "ring_buffer_per_cpu" "nr_pages" then
    [("trace_array", "buffer"), ("tracer", "name"), ("ring_buffer", "flags"),
     ("ring_buffer", "cpus"), ("ring_buffer", "buffers"), ("ring_buffer_per_cpu", "nr_pages"),
     ("ring_buffer_per_cpu", "cpu"), ("ring_buffer_per_cpu", "pages"),
     ("ring_buffer_per_cpu", "head_page"), ("ring_buffer_per_cpu", "tail_page"),
     ("ring_buffer_per_cpu", "commit_page"), ("ring_buffer_per_cpu", "reader_page"),
     ("ring_buffer_per_cpu", "overrun"), ("ring_buffer_per_cpu", "entries"),
     ("buffer_page", "read"), ("buffer_page", "list"), ("buffer_page", "page"),
     ("list_head", "next"), ("ftrace_event_call", "list"), ("ftrace_event_field", "link"),
     ("ftrace_event_field", "name"), ("ftrace_event_field", "type"),
     ("ftrace_event_field", "offset"), ("ftrace_event_field", "size"),
     ("ftrace_event_field", "is_signed")]
  else
    [("trace_array", "buffer"), ("tracer", "name"), ("ring_buffer", "pages"),
     ("ring_buffer", "flags"), ("ring_buffer", "cpus"), ("ring_buffer", "buffers"),
     ("ring_buffer_per_cpu", "cpu"), ("ring_buffer_per_cpu", "pages"),
     ("ring_buffer_per_cpu", "head_page"), ("ring_buffer_per_cpu", "tail_page"),
     ("ring_buffer_per_cpu", "commit_page"), ("ring_buffer_per_cpu", "reader_page"),
     ("ring_buffer_per_cpu", "overrun"), ("ring_buffer_per_cpu", "entries"),
     ("buffer_page", "read"), ("buffer_page", "list"), ("buffer_page", "page"),
     ("list_head", "next"), ("ftrace_event_call", "list"), ("ftrace_event_field", "link"),
     ("ftrace_event_field", "name"), ("ftrace_event_field", "type"),
     ("ftrace_event_field", "offset"), ("ftrace_event_field", "size"),
     ("ftrace_event_field", "is_signed")]

/-- A layout in which every member has the offset `offset_of s m` and every symbol is
found. -/
def layout_with (offset_of : String → String → Int) : Layout where
  readmem := fun _ => none
  MEMBER_OFFSET := offset_of
  symbol_search := fun _ => some 0x1000
  MEMBER_EXISTS := fun s m => decide (0 ≤ offset_of s m)
  MEMBER_SIZE := fun _ _ => 8
  sizeof_ulong := 8
  try_get_symbol_data := fun _ => some 4

/-! ## The raw pages: the tracing tree and the record data of the archive -/

/-- What the page writers take from their host, next to `Sys`: the dump memory, the static
`koffset(buffer_page, page)`, and the width of the integer type of `PAGESIZE()`, which is
declared outside this file. -/
structure PageHost extends Sys where
  /-- The width in bits of the type of `PAGESIZE()`, an unsigned integer type at least as
  wide as `int`; the arithmetic on `PAGESIZE()` is done modulo `2 ^ pagesize_bits`. -/
  pagesize_bits : Nat
  /-- Host primitive `readmem` for an `ulong` at a kernel address. -/
  readmem : Nat → Option Nat
  /-- Host primitive `readmem(addr, KVADDR, buf, size, ...)`: the `size` bytes at `addr`. -/
  readmem_bytes : Nat → Nat → Option (List Nat)
  /-- Static `koffset(buffer_page, page)`. -/
  buffer_page_page_offset : Int

/-- The value of `PAGESIZE()` in its type. -/
def PageHost.page_size (H : PageHost) : Nat := (H.PAGESIZE % 2 ^ H.pagesize_bits).toNat

/-- The function `ftrace_dump_page(fd, page, page_tmp)`. -/
def ftrace_dump_page (H : PageHost) (f : File) (page : Nat) : Except Fault File :=
  match (H.readmem (uadd page H.buffer_page_page_offset)).map (fun v => v % ULONG_MOD) with
  | none => .error .out_fail
  | some raw_page =>
    match H.readmem_bytes raw_page H.page_size with
    | none => .error .out_fail
    | some page_tmp => write_and_check H.toSys f page_tmp H.page_size

/-- The loop `for (j = 0; j < cpu_buffer->nr_linear_pages; j++)` over `ftrace_dump_page`
that stops at the first page that fails; the first argument is the number of pages left,
the second is `j`. The value is the file after the last page, or the fault of the page
that failed. -/
def dump_linear_pages (H : PageHost) (cpu_buffer : ring_buffer_per_cpu) :
    Nat → Nat → File → Except Fault File
  | 0, _, f => .ok f
  | left + 1, j, f =>
    match cpu_buffer.linear_pages[j]? with
    | none => .error .out_of_bounds
    | some page =>
      match ftrace_dump_page H f page with
      | .error e => .error e
      | .ok f1 => dump_linear_pages H cpu_buffer left (j + 1) f1

/-- The function `ftrace_dump_buffer(fd, cpu_buffer, pages, page_tmp)`. The C function
returns nothing and leaves its loop at the first page that fails; the value here tells
what has become of the file: `.ok` with all pages written, or the fault of that page. -/
def ftrace_dump_buffer (H : PageHost) (f : File) (cpu_buffer : ring_buffer_per_cpu) :
    Except Fault File :=
  dump_linear_pages H cpu_buffer cpu_buffer.nr_linear_pages.toNat 0 f

/-- What `ftrace_dump_buffers` takes from the file system for the CPU `i`: the value of
`mkdir`, whether `errno` is `EEXIST` after it, and the descriptor `open` returns. -/
structure DirHost where
  mkdir : Nat → Int
  errno_is_EEXIST : Nat → Bool
  sys_open : Nat → Int

/-- The function `try_mkdir(pathname, mode)` for the directory of CPU `i`. -/
def try_mkdir (E : DirHost) (i : Nat) : Int :=
  if E.mkdir i < 0 then
    if E.errno_is_EEXIST i then 0 else -1
  else 0

/-- The loop of `ftrace_dump_buffers` from CPU `i` on: the value returned (0 or -1) and,
for each CPU with a buffer reached before the return, what `ftrace_dump_buffer` has left
of its `trace_pipe_raw` file, taken to be new. `malloc(PAGESIZE())` is taken to
succeed. -/
def ftrace_dump_buffers_from (H : PageHost) (E : DirHost) :
    Nat → List ring_buffer_per_cpu → Int × List (Nat × Except Fault File)
  | _, [] => (0, [])
  | i, cpu_buffer :: rest =>
    if cpu_buffer.kaddr = 0 then ftrace_dump_buffers_from H E (i + 1) rest
    else if try_mkdir E i < 0 then (-1, [])
    else if E.sys_open i < 0 then (-1, [])
    else
      let r := ftrace_dump_buffers_from H E (i + 1) rest
      (r.1, (i, ftrace_dump_buffer H ⟨[], 0⟩ cpu_buffer) :: r.2)

/-- The function `ftrace_dump_buffers(per_cpu_path)` over the array `global_buffers`. -/
def ftrace_dump_buffers (H : PageHost) (E : DirHost)
    (global_buffers : List ring_buffer_per_cpu) : Int × List (Nat × Except Fault File) :=
  ftrace_dump_buffers_from H E 0 global_buffers

/-- The loop of `__trace_cmd_data_output` that counts the CPUs with a buffer. -/
def count_cpu_buffers (global_buffers : List ring_buffer_per_cpu) : Int :=
  global_buffers.foldl (fun nr_cpu_buffers cpu_buffer =>
    if cpu_buffer.kaddr = 0 then nr_cpu_buffers else nr_cpu_buffers + 1) 0

/-- The function `save_res_data(fd, nr_cpu_buffers)`. -/
def save_res_data (S : Sys) (f : File) (nr_cpu_buffers : Int) : Except Fault File :=
  match write_and_check S f (obj_bytes S 4 (nr_cpu_buffers % 2 ^ 32).toNat) 4 with
  | .error e => .error e
  | .ok f1 =>
    match write_and_check S f1 (bytes "options  " ++ [0]) 10 with
    | .error e => .error e
    | .ok f2 =>
      match write_and_check S f2 (obj_bytes S 2 0) 2 with
      | .error e => .error e
      | .ok f3 => write_and_check S f3 (bytes "flyrecord" ++ [0]) 10

/-- The value `offset` of `save_record_data` after its first three statements, for the
file position `pos` that `lseek(fd, 0, SEEK_CUR)` returns. The sum is that of
`unsigned long long`; `PAGESIZE() - 1` and `~(PAGESIZE() - 1)` are computed in the type of
`PAGESIZE()` and then widened without sign. -/
def record_offset (H : PageHost) (pos : Nat) (nr_cpu_buffers : Int) : Nat :=
  let offset := pos % ULONG_MOD
  let offset := (((offset : Int) + nr_cpu_buffers * 16) % (ULONG_MOD : Int)).toNat
  let pm1 := (H.page_size + 2 ^ H.pagesize_bits - 1) % 2 ^ H.pagesize_bits
  let mask := 2 ^ H.pagesize_bits - 1 - pm1
  ((offset + pm1) % ULONG_MOD) &&& mask

/-- The value `buffer_size = PAGESIZE() * cpu_buffer->nr_linear_pages`: the product is
taken in the type of `PAGESIZE()`. -/
def buffer_size (H : PageHost) (cpu_buffer : ring_buffer_per_cpu) : Nat :=
  (((H.page_size : Int) * cpu_buffer.nr_linear_pages) % 2 ^ H.pagesize_bits).toNat

/-- The first loop of `save_record_data`, which writes the index: the state is
`buffer_offset` and the file. -/
def save_record_index (H : PageHost) :
    List ring_buffer_per_cpu → Nat → File → Except Fault (Nat × File)
  | [], buffer_offset, f => .ok (buffer_offset, f)
  | cpu_buffer :: rest, buffer_offset, f =>
    if cpu_buffer.kaddr = 0 then save_record_index H rest buffer_offset f
    else
      match write_and_check H.toSys f (obj_bytes H.toSys 8 buffer_offset) 8 with
      | .error e => .error e
      | .ok f1 =>
        match write_and_check H.toSys f1 (obj_bytes H.toSys 8 (buffer_size H cpu_buffer)) 8 with
        | .error e => .error e
        | .ok f2 =>
          save_record_index H rest ((buffer_offset + buffer_size H cpu_buffer) % ULONG_MOD) f2

/-- The second loop of `save_record_data`, which writes the pages of every CPU with a
buffer. -/
def save_record_pages (H : PageHost) : List ring_buffer_per_cpu → File → Except Fault File
  | [], f => .ok f
  | cpu_buffer :: rest, f =>
    if cpu_buffer.kaddr = 0 then save_record_pages H rest f
    else
      match dump_linear_pages H cpu_buffer cpu_buffer.nr_linear_pages.toNat 0 f with
      | .error e => .error e
      | .ok f1 => save_record_pages H rest f1

/-- The function `save_record_data(fd, nr_cpu_buffers)` over the array `global_buffers`,
for a regular file whose position is its end, as it is after the sections written before.
`lseek(fd, offset, SEEK_SET)` makes the page writes start at `offset`: they replace what
the file holds from there on, and a gap before `offset` reads as zeros.
`malloc(PAGESIZE())` is taken to succeed. -/
def save_record_data (H : PageHost) (global_buffers : List ring_buffer_per_cpu) (f : File)
    (nr_cpu_buffers : Int) : Except Fault File :=
  let offset := record_offset H f.data.length nr_cpu_buffers
  match save_record_index H global_buffers offset f with
  | .error e => .error e
  | .ok (_, f1) =>
    let at_offset : File :=
      { data := f1.data.take offset ++ List.replicate (offset - f1.data.length) 0
        calls := f1.calls }
    match save_record_pages H global_buffers at_offset with
    | .error e => .error e
    | .ok f2 => .ok { data := f2.data ++ f1.data.drop f2.data.length, calls := f2.calls }

/-- A little-endian host with pages of 4 bytes (`PAGESIZE()` of 32 bits) on which every
`write` is complete; the page descriptor at `16 * k` has its data page at `0x1000 + 4 * k`,
which holds four times the byte `k`; descriptors from `0x100` on cannot be read. -/
def page_host4 : PageHost :=
  { sys_le with
    PAGESIZE := 4
    pagesize_bits := 32
    readmem := fun a => if a % 16 = 8 ∧ a < 0x100 then some (0x1000 + 4 * (a / 16)) else none
    readmem_bytes := fun a n =>
      if 0x1000 ≤ a then some (List.replicate n ((a - 0x1000) / 4)) else none
    buffer_page_page_offset := 8 }

/-- A CPU descriptor at `kaddr` with the linearized pages `lp`. -/
def cpu_with (kaddr : Nat) (lp : List Nat) : ring_buffer_per_cpu :=
  { buf4 0 0 with kaddr := kaddr, linear_pages := lp, nr_linear_pages := (lp.length : Int) }

/-- The file system on which every `mkdir` and `open` succeeds. -/
def dir_ok : DirHost := { mkdir := fun _ => 0, errno_is_EEXIST := fun _ => false,
                          sys_open := fun _ => 3 }

/-! ## The record index in the words of the specification -/

/-- The CPUs with a buffer (`kaddr != 0`), in increasing CPU number. -/
def present_cpus (global_buffers : List ring_buffer_per_cpu) : List ring_buffer_per_cpu :=
  global_buffers.filter (fun b => decide (b.kaddr ≠ 0))

/-- The index entries (offset, length) of the CPUs with a buffer, the first at
`buffer_offset` and each further one where the one before ends. -/
def index_entries (H : PageHost) : List ring_buffer_per_cpu → Nat → List (Nat × Nat)
  | [], _ => []
  | cpu_buffer :: rest, buffer_offset =>
    if cpu_buffer.kaddr = 0 then index_entries H rest buffer_offset
    else
      (buffer_offset, buffer_size H cpu_buffer) ::
        index_entries H rest ((buffer_offset + buffer_size H cpu_buffer) % ULONG_MOD)

/-- The 16 bytes of an index entry: the offset and the length, 8 bytes each. -/
def entry_bytes (S : Sys) (e : Nat × Nat) : List Nat := obj_bytes S 8 e.1 ++ obj_bytes S 8 e.2

/-- The bytes of the page behind the page descriptor `page`: the `PAGESIZE()` bytes at
the address stored in its member `page`. -/
def page_bytes (H : PageHost) (page : Nat) : Option (List Nat) :=
  match (H.readmem (uadd page H.buffer_page_page_offset)).map (fun v => v % ULONG_MOD) with
  | none => none
  | some raw_page => H.readmem_bytes raw_page H.page_size

/-- The pages behind the page descriptors of a list, back to back in the order of the
list; `none` when a page cannot be read. -/
def pages_bytes (H : PageHost) : List Nat → Option (List Nat)
  | [] => some []
  | page :: rest =>
    match page_bytes H page, pages_bytes H rest with
    | some b, some r => some (b ++ r)
    | _, _ => none

/-- The pages of a CPU in `linear_pages` order, back to back; `none` when a page cannot be
read. -/
def cpu_bytes (H : PageHost) (cpu_buffer : ring_buffer_per_cpu) : Option (List Nat) :=
  pages_bytes H (linear_list cpu_buffer)

/-- The file holds the blocks `blocks` at the places the index entries `entries` name:
block `i` is the `entries[i].2` bytes from position `entries[i].1` on. -/
def placed (data : List Nat) : List (Nat × Nat) → List (List Nat) → Prop
  | [], [] => True
  | e :: es, b :: bs => (data.drop e.1).take e.2 = b ∧ b.length = e.2 ∧ placed data es bs
  | _, _ => False


/-- Three CPUs: CPU 0 without a buffer, CPU 1 with two linearized pages, CPU 2 with one. -/
def cpus3 : List ring_buffer_per_cpu :=
  [cpu_with 0 [], cpu_with 0x100 [16, 32], cpu_with 0x200 [48]]

/-- The bytes of the file after `save_record_data` on `page_host4` for `cpus3` and a file
that holds `[9, 9, 9]`: the index entries (36, 8) and (44, 4), one zero byte, and the
three pages. -/
def record_file3 : List Nat :=
  [9, 9, 9, 36, 0, 0, 0, 0, 0, 0, 0, 8, 0, 0, 0, 0, 0, 0, 0,
    44, 0, 0, 0, 0, 0, 0, 0, 4, 0, 0, 0, 0, 0, 0, 0, 0,
    1, 1, 1, 1, 2, 2, 2, 2, 3, 3, 3, 3]

/-- The host `page_host4` with a dump that lacks the data page at `0x1008`, the page of
the descriptor at 32. -/
def page_host_gap : PageHost :=
  { page_host4 with
    readmem_bytes := fun a n => if a = 0x1008 then none else page_host4.readmem_bytes a n }

/-- The host `page_host4` with a file on which every `write` returns 0: nothing is
written. -/
def page_host_nowrite : PageHost := { page_host4 with sys_write := fun _ _ => 0 }


/-! ## Writes that are not complete -/

/-- A host on which a `write` takes at most two bytes. -/
def sys_partial : Sys := { sys_le with sys_write := fun _ count => (min count 2 : Nat) }

/-- A host on which the first `write` to a file returns -1 and every later one is
complete. -/
def sys_eintr : Sys :=
  { sys_le with sys_write := fun i count => if i = 0 then -1 else (count : Int) }

/-- A host on which the first `write` to a file returns -1, the second takes one byte and
every later one is complete. -/
def sys_eintr1 : Sys :=
  { sys_le with
    sys_write := fun i count => if i = 0 then -1 else if i = 1 then 1 else (count : Int) }

/-- The file the loop of `write_and_check` leaves behind, whatever the function returns:
every `write` appends the bytes it has taken; the file is left as it was before a `write`
that would take bytes outside `data`, and when the iteration budget is used up. -/
def write_and_check_loop_file (S : Sys) (data : List Nat) (size : Nat) :
    Nat → Nat → File → File
  | 0, _, f => f
  | fuel + 1, tot, f =>
    let count := (size + ULONG_MOD - tot) % ULONG_MOD
    let r := S.sys_write f.calls count
    if data.length < r.toNat then f
    else
      let f1 : File := { data := f.data ++ data.take r.toNat, calls := f.calls + 1 }
      let w := (r % (ULONG_MOD : Int)).toNat
      let tot1 := (tot + w) % ULONG_MOD
      if w = 0 then f1
      else if tot1 ≠ size then write_and_check_loop_file S data size fuel tot1 f1
      else f1

/-- The file `write_and_check(fd, data, size)` leaves behind, whatever it returns. -/
def write_and_check_file (S : Sys) (f : File) (data : List Nat) (size : Nat) : File :=
  write_and_check_loop_file S data size (size + 1) 0 f

/-- The file `tmp_file_record_size4(fd)` leaves behind, whatever it returns. -/
def tmp_file_record_size4_file (S : Sys) (T : TmpFile) (f : File) : File :=
  let size := T.tmp_file_pos % 2 ^ 32
  if T.tmp_file_error ≠ 0 then f
  else write_and_check_file S f (obj_bytes S 4 size) 4

/-- The file `tmp_file_record_size8(fd)` leaves behind, whatever it returns. -/
def tmp_file_record_size8_file (S : Sys) (T : TmpFile) (f : File) : File :=
  if T.tmp_file_error ≠ 0 then f
  else write_and_check_file S f (obj_bytes S 8 T.tmp_file_pos) 8

/-- The file and the statics `tmp_file_flush(fd)` leaves behind, whatever it returns. -/
def tmp_file_flush_file (S : Sys) (T : TmpFile) (f : File) : File × TmpFile :=
  if T.tmp_file_error ≠ 0 then (f, T)
  else
    match write_and_check S f T.tmp_file_buf T.tmp_file_pos with
    | .error _ => (write_and_check_file S f T.tmp_file_buf T.tmp_file_pos, T)
    | .ok f1 => (f1, { T with tmp_file_pos := 0 })

/-- A host on which no `realloc` returns a block. -/
def sys_nomem : Sys := { sys_le with realloc_ok := fun _ => false }

/-- Three texts, the second longer than the buffer `init_tmp_file` allocates. -/
def texts3 : List (List Nat) := [bytes "abc", List.replicate 5000 66, bytes "de"]

/-! ## The bucketing loop with its array indices -/

/-- The inner `for (i = 0; i < nr_event_types; i++)` loop of the bucketing loop with the
arrays indexed as in the source: the first argument counts the iterations left, the second
is `i`; a load or store at an index outside `event_types` or `system_ids` is the fault
`out_of_bounds`. -/
def bucket_pass_at (event_types : List event_type) (system_id : Int) :
    Nat → Nat → Option (List Nat) → List Int → Except Fault (Option (List Nat) × List Int)
  | 0, _, system, system_ids => .ok (system, system_ids)
  | left + 1, i, system, system_ids =>
    match system_ids[i]? with
    | none => .error .out_of_bounds
    | some id =>
      if id ≠ 0 then bucket_pass_at event_types system_id left (i + 1) system system_ids
      else
        match event_types[i]? with
        | none => .error .out_of_bounds
        | some t =>
          match system with
          | none =>
            bucket_pass_at event_types system_id left (i + 1) (some t.system)
              (system_ids.set i system_id)
          | some s =>
            bucket_pass_at event_types system_id left (i + 1) (some s)
              (if t.system = s then system_ids.set i system_id else system_ids)

/-- The bucketing loop `for (;;)` of `save_events_files` over the indexed inner loop, for
`nr_event_types` the length of `event_types`: the first argument is the number of passes
allowed. -/
def bucket_loop_at (event_types : List event_type) :
    Nat → Int → Option (List Nat) → List Int → Except Fault (Int × List Int)
  | 0, _, _, _ => .error .out_of_fuel
  | fuel + 1, system_id, system, system_ids =>
    match bucket_pass_at event_types system_id event_types.length 0 system system_ids with
    | .error e => .error e
    | .ok r =>
      match r.1 with
      | none => .ok (system_id, r.2)
      | some _ => bucket_loop_at event_types fuel (system_id + 1) none r.2

/-- The distinct system names of a list of event types. -/
def distinct_systems (event_types : List event_type) : List (List Nat) :=
  (event_types.map (fun t => t.system)).dedup


/-- The dump `ring4` in which only the five words of the ring can be read. -/
def ring4_sparse : Kernel :=
  { ring4 with
    readmem := fun a =>
      if a = 0x110 ∨ a = 0x1008 ∨ a = 0x2008 ∨ a = 0x3008 ∨ a = 0x4008 then ring4.readmem a
      else none }

/-! ## Buffers of 4 GiB -/

/-- A little-endian host with pages of 4096 bytes and `PAGESIZE()` of type
`unsigned int` (32 bits), on which every `write` is complete; every word of the dump can
be read, the member `page` of the descriptor at `p` holds `p + 8`, and the data page at
`a` holds 4096 times the byte `a % 256`. -/
def page_host4k : PageHost :=
  { sys_le with
    PAGESIZE := 4096
    pagesize_bits := 32
    readmem := fun a => some a
    readmem_bytes := fun a n => some (List.replicate n (a % 256))
    buffer_page_page_offset := 8 }

/-- A CPU descriptor with `2 ^ 20` linearized pages (4 GiB of pages of 4096 bytes), all
entries naming the page descriptor at 16. -/
def cpu_big : ring_buffer_per_cpu :=
  { buf4 0 0 with
    kaddr := 0x100, linear_pages := List.replicate 1048576 16, nr_linear_pages := 1048576 }

/-- A CPU descriptor with one linearized page, the page descriptor at 32. -/
def cpu_one : ring_buffer_per_cpu :=
  { buf4 0 0 with kaddr := 0x200, linear_pages := List.replicate 1 32, nr_linear_pages := 1 }

/-- Two CPUs: CPU 0 with a buffer of 4 GiB, CPU 1 with one page. -/
def cpus_big : List ring_buffer_per_cpu := [cpu_big, cpu_one]

/-! ## The loops of the event extraction end -/

/-- The offset of `print_fmt` that `ftrace_get_event_type_print_fmt` uses when its statics
are `s`: the member offset when it has not been called yet, the stored one after. -/
def print_fmt_offset (D : Dump) (s : PrintFmtStatics) : Int :=
  if s.inited = 0 then D.MEMBER_OFFSET "ftrace_event_call" "print_fmt" else s.fmt_offset

/-! ## Lemmas and claims -/
theorem store_eq_some {a : List Nat} {i v : Nat} {b : List Nat} (h : store a i v = some b) :
    i < a.length ∧ b = a.set i v := by
  unfold store at h
  split at h
  · exact ⟨by assumption, by simpa using h.symm⟩
  · simp at h

theorem store_of_lt {a : List Nat} {i : Nat} (v : Nat) (h : i < a.length) :
    store a i v = some (a.set i v) := by
  simp [store, h]

theorem walk_one (K : Kernel) (a : Nat) : walk K a 1 = next_masked K a := by
  cases h : next_masked K a <;> simp [walk, h]

theorem walk_succ_of_next {K : Kernel} {a x : Nat} (h : next_masked K a = some x) (k : Nat) :
    walk K a (k + 1) = walk K x k := by
  simp [walk, h]

theorem walk_add (K : Kernel) (a : Nat) (i k : Nat) :
    walk K a (i + k) = (walk K a i).bind (fun x => walk K x k) := by
  induction i generalizing a with
  | zero => simp [walk]
  | succ i ih =>
    have : i + 1 + k = (i + k) + 1 := by omega
    rw [this]
    cases h : next_masked K a with
    | none => simp [walk, h]
    | some x => simp [walk, h, ih]

theorem enum_walk_ok (K : Kernel) (head n : Nat) :
    ∀ (fuel page j : Nat) (pages : List Nat) (rhp : Nat) (r : Nat × List Nat × Nat),
      enum_walk K head n fuel page j pages rhp = .ok r → j ≤ n → pages.length = n →
      r.2.1.length = n ∧ (∀ i, i < j → r.2.1[i]? = pages[i]?) ∧
      (∀ i, i < n - j → ∃ x, walk K page (i + 1) = some x ∧ x ≠ head ∧
        r.2.1[j + i]? = some (usub x K.buffer_page_list_offset)) ∧
      walk K page (n - j + 1) = some r.1 := by
  intro fuel
  induction fuel with
  | zero => intro page j pages rhp r h; simp [enum_walk] at h
  | succ fuel ih =>
    intro page j pages rhp r h hj hlen
    unfold enum_walk at h
    cases hrd : read_value K page K.list_head_next_offset with
    | none => simp [hrd] at h
    | some p =>
      have hnext : next_masked K page = some (if p &&& 3 ≠ 0 then p &&& NOT3 else p) := by
        simp [next_masked, hrd]
      simp only [hrd] at h
      generalize hq : (if p &&& 3 ≠ 0 then p &&& NOT3 else p) = q at h hnext
      generalize hq2 : (if p &&& 3 ≠ 0 then usub q K.buffer_page_list_offset else rhp) = rhp1
        at h
      by_cases hjn : j = n
      · simp only [hjn, if_true] at h
        injection h with h
        subst h
        subst hjn
        refine ⟨hlen, fun i _ => rfl, fun i hi => by omega, ?_⟩
        simp [walk_one, hnext]
      · simp only [hjn, if_false] at h
        by_cases hne : q = head
        · simp [hne] at h
        · simp only [hne, if_false] at h
          cases hst : store pages j (usub q K.buffer_page_list_offset) with
          | none => simp [hst] at h
          | some pages1 =>
            simp only [hst] at h
            obtain ⟨hlt, hset⟩ := store_eq_some hst
            have hlen1 : pages1.length = n := by simp [hset, hlen]
            obtain ⟨h1, h2, h3, h4⟩ := ih _ _ _ _ _ h (by omega) hlen1
            refine ⟨h1, ?_, ?_, ?_⟩
            · intro i hi
              rw [h2 i (by omega), hset, List.getElem?_set_ne (by omega)]
            · intro i hi
              cases i with
              | zero =>
                refine ⟨_, by rw [walk_one]; exact hnext, hne, ?_⟩
                rw [Nat.add_zero, h2 j (by omega), hset, List.getElem?_set_self]
                simp [hlt]
              | succ i =>
                obtain ⟨x, hx1, hx2, hx3⟩ := h3 i (by omega)
                refine ⟨x, ?_, hx2, ?_⟩
                · rw [walk_succ_of_next hnext]; exact hx1
                · rw [← hx3]; congr 1; omega
            · rw [walk_succ_of_next hnext]
              have : n - j = n - (j + 1) + 1 := by omega
              rw [this]; exact h4


theorem read_value_isSome {K : Kernel} (hread : ∀ a, (K.readmem a).isSome) (x : Nat)
    (off : Int) : ∃ p, read_value K x off = some p := by
  unfold read_value
  cases h : K.readmem (uadd x off) with
  | none => have := hread (uadd x off); simp [h] at this
  | some v => exact ⟨_, rfl⟩

theorem enum_walk_total (K : Kernel) (head n : Nat) (hread : ∀ a, (K.readmem a).isSome) :
    ∀ (fuel page j : Nat) (pages : List Nat) (rhp : Nat),
      fuel = n + 1 - j → j ≤ n → pages.length = n →
      ((∃ i, i < n - j ∧ walk K page (i + 1) = some head) →
        enum_walk K head n fuel page j pages rhp = .error .out_fail) ∧
      ((∀ i, i < n - j → walk K page (i + 1) ≠ some head) →
        ∃ r, enum_walk K head n fuel page j pages rhp = .ok r) := by
  intro fuel
  induction fuel with
  | zero => intro page j pages rhp hf hj; omega
  | succ fuel ih =>
    intro page j pages rhp hf hj hlen
    obtain ⟨p, hrd⟩ := read_value_isSome hread page K.list_head_next_offset
    have hnext : next_masked K page = some (if p &&& 3 ≠ 0 then p &&& NOT3 else p) := by
      simp [next_masked, hrd]
    unfold enum_walk
    simp only [hrd]
    generalize hq : (if p &&& 3 ≠ 0 then p &&& NOT3 else p) = q at hnext
    generalize hq2 : (if p &&& 3 ≠ 0 then usub q K.buffer_page_list_offset else rhp) = rhp1
    by_cases hjn : j = n
    · subst hjn
      simp only [if_true]
      exact ⟨fun ⟨i, hi, _⟩ => by omega, fun _ => ⟨_, rfl⟩⟩
    · simp only [hjn, if_false]
      by_cases hne : q = head
      · simp only [hne, if_true]
        refine ⟨fun _ => trivial, fun h => ?_⟩
        exact absurd (by rw [walk_one, hnext, hne]) (h 0 (by omega))
      · simp only [hne, if_false]
        rw [store_of_lt _ (by omega)]
        simp only []
        obtain ⟨ih1, ih2⟩ := ih q (j + 1) (pages.set j (usub q K.buffer_page_list_offset))
          rhp1 (by omega) (by omega) (by simp [hlen])
        constructor
        · rintro ⟨i, hi, hw⟩
          cases i with
          | zero =>
            rw [walk_one, hnext] at hw
            exact absurd (Option.some.inj hw) hne
          | succ i =>
            rw [walk_succ_of_next hnext] at hw
            exact ih1 ⟨i, by omega, hw⟩
        · intro h
          apply ih2
          intro i hi
          have := h (i + 1) (by omega)
          rwa [walk_succ_of_next hnext] at this

theorem enum_walk_fault (K : Kernel) (head n : Nat) :
    ∀ (fuel page j : Nat) (pages : List Nat) (rhp : Nat) (e : Fault),
      fuel = n + 1 - j → j ≤ n → pages.length = n →
      enum_walk K head n fuel page j pages rhp = .error e → e = .out_fail := by
  intro fuel
  induction fuel with
  | zero => intro page j pages rhp e hf hj; omega
  | succ fuel ih =>
    intro page j pages rhp e hf hj hlen h
    unfold enum_walk at h
    cases hrd : read_value K page K.list_head_next_offset with
    | none => simp only [hrd] at h; injection h with h; exact h.symm
    | some p =>
      simp only [hrd] at h
      generalize hq : (if p &&& 3 ≠ 0 then p &&& NOT3 else p) = q at h
      generalize hq2 : (if p &&& 3 ≠ 0 then usub q K.buffer_page_list_offset else rhp) = rhp1
        at h
      by_cases hjn : j = n
      · simp [hjn] at h
      · simp only [hjn, if_false] at h
        by_cases hne : q = head
        · simp only [hne, if_true] at h; injection h with h; exact h.symm
        · simp only [hne, if_false] at h
          rw [store_of_lt _ (by omega)] at h
          simp only [] at h
          exact ih _ _ _ _ _ (by omega) (by omega) (by simp [hlen]) h

theorem find_head_page_index_spec (pages : List Nat) (rhp : Nat) :
    ∀ (left j : Nat),
      (find_head_page_index pages rhp left j = -1 ∧
        ∀ i, j ≤ i → i < j + left → pages[i]? ≠ some rhp) ∨
      (∃ i, j ≤ i ∧ i < j + left ∧ find_head_page_index pages rhp left j = (i : Int) ∧
        pages[i]? = some rhp ∧ ∀ k, j ≤ k → k < i → pages[k]? ≠ some rhp) := by
  intro left
  induction left with
  | zero => intro j; left; exact ⟨rfl, fun i h1 h2 => by omega⟩
  | succ left ih =>
    intro j
    unfold find_head_page_index
    by_cases h : pages[j]? = some rhp
    · right
      exact ⟨j, le_refl _, by omega, by simp [h], h, fun k h1 h2 => by omega⟩
    · simp only [h, if_false]
      rcases ih (j + 1) with ⟨h1, h2⟩ | ⟨i, h1, h2, h3, h4, h5⟩
      · left
        refine ⟨h1, fun i hi1 hi2 => ?_⟩
        by_cases hij : i = j
        · subst hij; exact h
        · exact h2 i (by omega) (by omega)
      · right
        refine ⟨i, by omega, by omega, h3, h4, fun k hk1 hk2 => ?_⟩
        by_cases hkj : k = j
        · subst hkj; exact h
        · exact h5 k (by omega) hk2

theorem mod_wrap {n x : Nat} (hx : x < 2 * n) : x % n = if x < n then x else x - n := by
  split
  · exact Nat.mod_eq_of_lt (by assumption)
  · rw [Nat.mod_eq_sub_mod (by omega)]
    exact Nat.mod_eq_of_lt (by omega)

theorem take_set_succ (l : List Nat) (i v : Nat) (h : i < l.length) :
    (l.set i v).take (i + 1) = l.take i ++ [v] := by
  have h1 : (l.set i v).take i = l.take i := by
    apply List.ext_getElem?
    intro k
    rw [List.getElem?_take, List.getElem?_take]
    split
    · rw [List.getElem?_set_ne (by omega)]
    · rfl
  rw [List.take_succ, h1]
  simp [h]

theorem linear_walk_spec (pages : List Nat) (c n h : Nat) (hlen : pages.length = n)
    (hh : h < n) :
    ∀ (fuel t : Nat) (lp : List Nat) (count : Nat),
      t + fuel = n → 0 < fuel → lp.length = n + 1 → count = t + 1 →
      ∃ lp1 count1,
        linear_walk pages c n (h : Int) fuel ((h + t) % n) lp count = .ok (lp1, count1) ∧
        lp1.length = n + 1 ∧ count1 ≤ n + 1 ∧
        lp1.take count1 = lp.take count ++
          take_through c ((List.range' t fuel).map (ring_at pages n h)) := by
  intro fuel
  induction fuel with
  | zero => intro t lp count _ h0; omega
  | succ fuel ih =>
    intro t lp count ht _ hlp hcount
    have hj : (h + t) % n < n := Nat.mod_lt _ (by omega)
    have hv : pages[(h + t) % n]? = some (ring_at pages n h t) := by
      rw [ring_at, List.getD_eq_getElem?_getD, List.getElem?_eq_getElem (by omega)]
      simp
    unfold linear_walk
    simp only [hv]
    rw [store_of_lt _ (by omega)]
    simp only [List.range'_succ, List.map_cons, take_through]
    have htake := take_set_succ lp count (ring_at pages n h t) (by omega)
    by_cases hc : ring_at pages n h t = c
    · simp only [hc, if_true]
      refine ⟨_, _, rfl, by simp [hlp], by omega, ?_⟩
      rw [← hc]; exact htake
    · simp only [hc, if_false]
      have hj1 : (if (h + t) % n + 1 = n then 0 else (h + t) % n + 1) = (h + (t + 1)) % n := by
        rw [mod_wrap (by omega : h + t < 2 * n), mod_wrap (by omega : h + (t + 1) < 2 * n)]
        split <;> split <;> split <;> omega
      rw [hj1]
      by_cases hf : fuel = 0
      · have hwrap : (h + (t + 1)) % n = h := by
          rw [mod_wrap (by omega)]; split <;> omega
        simp only [hwrap, if_true]
        subst hf
        refine ⟨_, _, rfl, by simp [hlp], by omega, ?_⟩
        simp [take_through, htake]
      · have hne : ((h + (t + 1)) % n : Nat) ≠ h := by
          rw [mod_wrap (by omega)]; split <;> omega
        have hne2 : ¬ (((h + (t + 1)) % n : Nat) : Int) = (h : Int) := by
          intro hcontra; exact hne (by exact_mod_cast hcontra)
        simp only [hne2, if_false]
        obtain ⟨lp1, count1, h1, h2, h3, h4⟩ := ih (t + 1)
          (lp.set count (ring_at pages n h t)) (count + 1) (by omega) (by omega)
          (by simp [hlp]) (by omega)
        refine ⟨lp1, count1, h1, h2, h3, ?_⟩
        rw [h4, htake, List.append_assoc]
        simp

theorem enumerate_pages_lockless (K : Kernel) (cpu_buffer : ring_buffer_per_cpu) (n : Nat)
    (hL : K.lockless_ring_buffer = true) :
    enumerate_pages K cpu_buffer n =
      match read_value K cpu_buffer.kaddr K.ring_buffer_per_cpu_pages_offset with
      | none => .error .out_fail
      | some head =>
        match store (List.replicate n 0) 0 (usub head K.buffer_page_list_offset) with
        | none => .error .out_of_bounds
        | some pages1 =>
          match enum_walk K head n n head 1 pages1 cpu_buffer.head_page with
          | .error e => .error e
          | .ok (page, pages2, real_head_page) =>
            if page ≠ head then .error .out_fail else .ok (pages2, real_head_page) := by
  unfold enumerate_pages
  simp only [hL, if_true, Nat.add_sub_cancel]
  cases read_value K cpu_buffer.kaddr K.ring_buffer_per_cpu_pages_offset with
  | none => rfl
  | some head =>
    simp only []
    cases store (List.replicate n 0) 0 (usub head K.buffer_page_list_offset) with
    | none => rfl
    | some pages1 => rfl

theorem enumerate_pages_classic (K : Kernel) (cpu_buffer : ring_buffer_per_cpu) (n : Nat)
    (hL : K.lockless_ring_buffer = false) :
    enumerate_pages K cpu_buffer n =
      match enum_walk K (uadd cpu_buffer.kaddr K.ring_buffer_per_cpu_pages_offset) n (n + 1)
          (uadd cpu_buffer.kaddr K.ring_buffer_per_cpu_pages_offset) 0 (List.replicate n 0)
          cpu_buffer.head_page with
      | .error e => .error e
      | .ok (page, pages2, real_head_page) =>
        if page ≠ uadd cpu_buffer.kaddr K.ring_buffer_per_cpu_pages_offset then .error .out_fail
        else .ok (pages2, real_head_page) := by
  unfold enumerate_pages
  simp only [hL, Nat.sub_zero]
  rfl

theorem enumerate_pages_ok (K : Kernel) (cpu_buffer : ring_buffer_per_cpu) (n : Nat)
    (pages : List Nat) (rhp : Nat) (h : enumerate_pages K cpu_buffer n = .ok (pages, rhp)) :
    pages.length = n ∧ ∃ a, anchor K cpu_buffer = some a ∧
      walk K a (n + anchor_skip K) = some a ∧
      (∀ k, 0 < k → k < n + anchor_skip K → walk K a k ≠ some a) ∧
      (∀ i, i < n → ∃ x, walk K a (i + anchor_skip K) = some x ∧
        pages[i]? = some (usub x K.buffer_page_list_offset)) := by
  cases hL : K.lockless_ring_buffer with
  | true =>
    rw [enumerate_pages_lockless K cpu_buffer n hL] at h
    cases hrd : read_value K cpu_buffer.kaddr K.ring_buffer_per_cpu_pages_offset with
    | none => simp [hrd] at h
    | some a =>
      simp only [hrd] at h
      cases hst : store (List.replicate n 0) 0 (usub a K.buffer_page_list_offset) with
      | none => simp [hst] at h
      | some pages1 =>
        simp only [hst] at h
        obtain ⟨hlt, hset⟩ := store_eq_some hst
        simp only [List.length_replicate] at hlt
        cases hw : enum_walk K a n n a 1 pages1 cpu_buffer.head_page with
        | error e => simp [hw] at h
        | ok r =>
          obtain ⟨page, pages2, rhp2⟩ := r
          simp only [hw] at h
          by_cases hpa : page = a
          · simp only [hpa, ne_eq, not_true_eq_false, if_false] at h
            injection h with h
            injection h with h1 h2
            subst h1 h2 hpa
            obtain ⟨e1, e2, e3, e4⟩ := enum_walk_ok K _ n _ _ _ _ _ _ hw (by omega)
              (by simp [hset])
            simp only at e1 e2 e3 e4
            refine ⟨e1, page, by simp [anchor, hL, hrd], ?_, ?_, ?_⟩
            · simp only [anchor_skip, hL, if_true, Nat.add_zero]
              have : n = n - 1 + 1 := by omega
              rw [this]; exact e4
            · intro k hk1 hk2
              simp only [anchor_skip, hL, if_true, Nat.add_zero] at hk2
              obtain ⟨x, hx1, hx2, _⟩ := e3 (k - 1) (by omega)
              have : k - 1 + 1 = k := by omega
              rw [this] at hx1
              rw [hx1]
              intro hc; exact hx2 (Option.some.inj hc)
            · intro i hi
              simp only [anchor_skip, hL, if_true, Nat.add_zero]
              cases i with
              | zero =>
                refine ⟨page, rfl, ?_⟩
                rw [e2 0 (by omega), hset, List.getElem?_set_self (by simpa using hlt)]
              | succ i =>
                obtain ⟨x, hx1, _, hx3⟩ := e3 i (by omega)
                refine ⟨x, hx1, ?_⟩
                rw [← hx3]; congr 1; omega
          · simp [hpa] at h
  | false =>
    rw [enumerate_pages_classic K cpu_buffer n hL] at h
    generalize ha : uadd cpu_buffer.kaddr K.ring_buffer_per_cpu_pages_offset = a at h
    cases hw : enum_walk K a n (n + 1) a 0 (List.replicate n 0) cpu_buffer.head_page with
    | error e => simp [hw] at h
    | ok r =>
      obtain ⟨page, pages2, rhp2⟩ := r
      simp only [hw] at h
      by_cases hpa : page = a
      · simp only [hpa, ne_eq, not_true_eq_false, if_false] at h
        injection h with h
        injection h with h1 h2
        subst h1 h2 hpa
        obtain ⟨e1, _, e3, e4⟩ := enum_walk_ok K _ n _ _ _ _ _ _ hw (by omega) (by simp)
        simp only at e1 e3 e4
        refine ⟨e1, page, by simp [anchor, hL, ha], ?_, ?_, ?_⟩
        · simpa [anchor_skip, hL] using e4
        · intro k hk1 hk2
          simp only [anchor_skip, hL] at hk2
          obtain ⟨x, hx1, hx2, _⟩ := e3 (k - 1) (by simp at hk2; omega)
          have : k - 1 + 1 = k := by omega
          rw [this] at hx1
          rw [hx1]
          intro hc; exact hx2 (Option.some.inj hc)
        · intro i hi
          obtain ⟨x, hx1, _, hx3⟩ := e3 i (by omega)
          refine ⟨x, by simpa [anchor_skip, hL] using hx1, ?_⟩
          rw [← hx3]; congr 1; omega
      · simp [hpa] at h

theorem anchor_isSome {K : Kernel} (hread : ∀ a, (K.readmem a).isSome)
    (cpu_buffer : ring_buffer_per_cpu) : ∃ a, anchor K cpu_buffer = some a := by
  unfold anchor
  split
  · exact read_value_isSome hread _ _
  · exact ⟨_, rfl⟩

theorem enumerate_pages_total (K : Kernel) (cpu_buffer : ring_buffer_per_cpu) (n a : Nat)
    (hread : ∀ x, (K.readmem x).isSome) (hn : 1 ≤ n) (ha : anchor K cpu_buffer = some a) :
    ((∃ k, 0 < k ∧ k < n + anchor_skip K ∧ walk K a k = some a) →
      enumerate_pages K cpu_buffer n = .error .out_fail) ∧
    ((∀ k, 0 < k → k ≤ n + anchor_skip K → walk K a k ≠ some a) →
      enumerate_pages K cpu_buffer n = .error .out_fail) ∧
    ((∀ k, 0 < k → k < n + anchor_skip K → walk K a k ≠ some a) →
      walk K a (n + anchor_skip K) = some a →
      ∃ r, enumerate_pages K cpu_buffer n = .ok r) := by
  cases hL : K.lockless_ring_buffer with
  | true =>
    simp only [anchor, hL, if_true] at ha
    simp only [anchor_skip, hL, if_true, Nat.add_zero]
    rw [enumerate_pages_lockless K cpu_buffer n hL]
    simp only [ha]
    rw [store_of_lt _ (by simpa using hn)]
    simp only []
    generalize hp1 : (List.replicate n 0).set 0 (usub a K.buffer_page_list_offset) = pages1
    have hlen1 : pages1.length = n := by simp [← hp1]
    obtain ⟨t1, t2⟩ := enum_walk_total K a n hread n a 1 pages1 cpu_buffer.head_page
      (by omega) hn hlen1
    have early : (∃ k, 0 < k ∧ k < n ∧ walk K a k = some a) →
        ∃ i, i < n - 1 ∧ walk K a (i + 1) = some a := by
      rintro ⟨k, hk1, hk2, hk3⟩
      refine ⟨k - 1, by omega, ?_⟩
      have : k - 1 + 1 = k := by omega
      rw [this]; exact hk3
    have late : (∀ k, 0 < k → k < n → walk K a k ≠ some a) →
        ∀ i, i < n - 1 → walk K a (i + 1) ≠ some a :=
      fun h i hi => h (i + 1) (by omega) (by omega)
    refine ⟨fun h => ?_, fun h => ?_, fun h hw => ?_⟩
    · rw [t1 (early h)]
    · obtain ⟨r, hr⟩ := t2 (late (fun k h1 h2 => h k h1 (by omega)))
      obtain ⟨page, pages2, rhp2⟩ := r
      have e4 := (enum_walk_ok K _ n _ _ _ _ _ _ hr hn hlen1).2.2.2
      have hnn : n - 1 + 1 = n := by omega
      simp only [hnn] at e4
      have hne : page ≠ a := by
        intro hc; rw [hc] at e4; exact h n (by omega) (le_refl _) e4
      simp [hr, hne]
    · obtain ⟨r, hr⟩ := t2 (late h)
      obtain ⟨page, pages2, rhp2⟩ := r
      have e4 := (enum_walk_ok K _ n _ _ _ _ _ _ hr hn hlen1).2.2.2
      have hnn : n - 1 + 1 = n := by omega
      simp only [hnn, hw] at e4
      have hpa : page = a := (Option.some.inj e4).symm
      exact ⟨(pages2, rhp2), by simp [hr, hpa]⟩
  | false =>
    simp only [anchor, hL] at ha
    simp only [anchor_skip, hL]
    rw [enumerate_pages_classic K cpu_buffer n hL]
    have ha2 : uadd cpu_buffer.kaddr K.ring_buffer_per_cpu_pages_offset = a := by
      simpa using ha
    rw [ha2]
    obtain ⟨t1, t2⟩ := enum_walk_total K a n hread (n + 1) a 0 (List.replicate n 0)
      cpu_buffer.head_page (by omega) (by omega) (by simp)
    have early : (∃ k, 0 < k ∧ k < n + 1 ∧ walk K a k = some a) →
        ∃ i, i < n - 0 ∧ walk K a (i + 1) = some a := by
      rintro ⟨k, hk1, hk2, hk3⟩
      refine ⟨k - 1, by omega, ?_⟩
      have : k - 1 + 1 = k := by omega
      rw [this]; exact hk3
    have late : (∀ k, 0 < k → k < n + 1 → walk K a k ≠ some a) →
        ∀ i, i < n - 0 → walk K a (i + 1) ≠ some a :=
      fun h i hi => h (i + 1) (by omega) (by omega)
    refine ⟨fun h => ?_, fun h => ?_, fun h hw => ?_⟩
    · have h' : ∃ k, 0 < k ∧ k < n + 1 ∧ walk K a k = some a := by simpa using h
      rw [t1 (early h')]
    · have h' : ∀ k, 0 < k → k ≤ n + 1 → walk K a k ≠ some a := by simpa using h
      obtain ⟨r, hr⟩ := t2 (late (fun k h1 h2 => h' k h1 (by omega)))
      obtain ⟨page, pages2, rhp2⟩ := r
      have e4 := (enum_walk_ok K _ n _ _ _ _ _ _ hr (by omega) (by simp)).2.2.2
      simp only [Nat.sub_zero] at e4
      have hne : page ≠ a := by
        intro hc; rw [hc] at e4; exact h' (n + 1) (by omega) (le_refl _) e4
      simp [hr, hne]
    · have h' : ∀ k, 0 < k → k < n + 1 → walk K a k ≠ some a := by simpa using h
      have hw' : walk K a (n + 1) = some a := by simpa using hw
      obtain ⟨r, hr⟩ := t2 (late h')
      obtain ⟨page, pages2, rhp2⟩ := r
      have e4 := (enum_walk_ok K _ n _ _ _ _ _ _ hr (by omega) (by simp)).2.2.2
      simp only [Nat.sub_zero, hw'] at e4
      have hpa : page = a := (Option.some.inj e4).symm
      exact ⟨(pages2, rhp2), by simp [hr, hpa]⟩

theorem enumerate_pages_fault (K : Kernel) (cpu_buffer : ring_buffer_per_cpu) (n : Nat)
    (e : Fault) (hn : 1 ≤ n) (h : enumerate_pages K cpu_buffer n = .error e) :
    e = .out_fail := by
  cases hL : K.lockless_ring_buffer with
  | true =>
    rw [enumerate_pages_lockless K cpu_buffer n hL] at h
    cases hrd : read_value K cpu_buffer.kaddr K.ring_buffer_per_cpu_pages_offset with
    | none => simp only [hrd] at h; injection h with h; exact h.symm
    | some a =>
      simp only [hrd] at h
      rw [store_of_lt _ (by simpa using hn)] at h
      simp only [] at h
      cases hw : enum_walk K a n n a 1
          ((List.replicate n 0).set 0 (usub a K.buffer_page_list_offset))
          cpu_buffer.head_page with
      | error e1 =>
        simp only [hw] at h
        injection h with h
        subst h
        exact enum_walk_fault K a n _ _ _ _ _ _ (by omega) hn (by simp) hw
      | ok r =>
        obtain ⟨page, pages2, rhp2⟩ := r
        simp only [hw] at h
        split at h
        · injection h with h; exact h.symm
        · simp at h
  | false =>
    rw [enumerate_pages_classic K cpu_buffer n hL] at h
    generalize uadd cpu_buffer.kaddr K.ring_buffer_per_cpu_pages_offset = a at h
    cases hw : enum_walk K a n (n + 1) a 0 (List.replicate n 0) cpu_buffer.head_page with
    | error e1 =>
      simp only [hw] at h
      injection h with h
      subst h
      exact enum_walk_fault K a n _ _ _ _ _ _ (by omega) (by omega) (by simp) hw
    | ok r =>
      obtain ⟨page, pages2, rhp2⟩ := r
      simp only [hw] at h
      split at h
      · injection h with h; exact h.symm
      · simp at h

theorem ftrace_init_pages_no_head (K : Kernel) (cpu_buffer : ring_buffer_per_cpu) (n : Nat)
    (pages : List Nat) (rhp : Nat)
    (hE : enumerate_pages K cpu_buffer n = .ok (pages, rhp))
    (hf : find_head_page_index pages rhp n 0 = -1) :
    ftrace_init_pages K cpu_buffer n = .error .out_fail := by
  unfold ftrace_init_pages
  simp [hE, hf]

theorem ftrace_init_pages_head (K : Kernel) (cpu_buffer : ring_buffer_per_cpu) (n : Nat)
    (pages : List Nat) (rhp h : Nat)
    (hE : enumerate_pages K cpu_buffer n = .ok (pages, rhp))
    (hf : find_head_page_index pages rhp n 0 = (h : Int)) (hh : h < n)
    (hlen : pages.length = n) :
    ∃ (lp : List Nat) (count : Nat),
      ftrace_init_pages K cpu_buffer n = .ok
        { cpu_buffer with
          pages := pages
          real_head_page := rhp
          head_page_index := (h : Int)
          linear_pages := lp
          nr_linear_pages := (count : Int) } ∧
      lp.length = n + 1 ∧ 1 ≤ count ∧ count ≤ n + 1 ∧
      lp.take count = cpu_buffer.reader_page ::
        (if cpu_buffer.reader_page = cpu_buffer.commit_page then []
         else take_through cpu_buffer.commit_page (ring_order pages n h)) := by
  have hne : ¬ ((h : Int) = -1) := by omega
  unfold ftrace_init_pages
  simp only [hE, hf, hne, if_false]
  rw [store_of_lt _ (by simp)]
  simp only []
  by_cases hrc : cpu_buffer.reader_page = cpu_buffer.commit_page
  · simp only [hrc, if_true]
    refine ⟨_, 1, rfl, by simp, le_refl _, by omega, ?_⟩
    simp [List.replicate_succ]
  · simp only [hrc, if_false]
    obtain ⟨lp1, count1, h1, h2, h3, h4⟩ := linear_walk_spec pages cpu_buffer.commit_page n h
      hlen hh n 0 ((List.replicate (n + 1) 0).set 0 cpu_buffer.reader_page) 1 (by omega)
      (by omega) (by simp) rfl
    have hmod : (h + 0) % n = h := by simpa using Nat.mod_eq_of_lt hh
    rw [hmod] at h1
    simp only [Int.toNat_ofNat, h1]
    refine ⟨lp1, count1, rfl, h2, ?_, h3, ?_⟩
    · have hl := congrArg List.length h4
      simp [List.replicate_succ] at hl
      omega
    · rw [h4, ring_order, List.range_eq_range']
      simp [List.replicate_succ]

theorem find_head_page_index_mem (pages : List Nat) (rhp n : Nat) (hlen : pages.length = n) :
    (rhp ∈ pages → ∃ h, h < n ∧ find_head_page_index pages rhp n 0 = (h : Int)) ∧
    (rhp ∉ pages → find_head_page_index pages rhp n 0 = -1) := by
  rcases find_head_page_index_spec pages rhp n 0 with ⟨h1, h2⟩ | ⟨i, _, h2, h3, h4, _⟩
  · refine ⟨fun hm => ?_, fun _ => h1⟩
    obtain ⟨i, hi, hget⟩ := List.getElem_of_mem hm
    exact absurd (by rw [List.getElem?_eq_getElem hi, hget]) (h2 i (by omega) (by omega))
  · refine ⟨fun _ => ⟨i, by omega, h3⟩, fun hm => ?_⟩
    exact absurd (List.getElem?_mem h4) hm

theorem ftrace_init_pages_ok (K : Kernel) (cpu_buffer b : ring_buffer_per_cpu) (n : Nat)
    (hok : ftrace_init_pages K cpu_buffer n = .ok b) :
    ∃ (pages : List Nat) (rhp h : Nat) (lp : List Nat) (count : Nat),
      enumerate_pages K cpu_buffer n = .ok (pages, rhp) ∧ pages.length = n ∧ h < n ∧
      pages[h]? = some rhp ∧ (∀ k, k < h → pages[k]? ≠ some rhp) ∧
      b = { cpu_buffer with
            pages := pages
            real_head_page := rhp
            head_page_index := (h : Int)
            linear_pages := lp
            nr_linear_pages := (count : Int) } ∧
      lp.length = n + 1 ∧ 1 ≤ count ∧ count ≤ n + 1 ∧
      lp.take count = cpu_buffer.reader_page ::
        (if cpu_buffer.reader_page = cpu_buffer.commit_page then []
         else take_through cpu_buffer.commit_page (ring_order pages n h)) := by
  cases hE : enumerate_pages K cpu_buffer n with
  | error e => unfold ftrace_init_pages at hok; simp [hE] at hok
  | ok r =>
    obtain ⟨pages, rhp⟩ := r
    have hlen := (enumerate_pages_ok K cpu_buffer n pages rhp hE).1
    rcases find_head_page_index_spec pages rhp n 0 with ⟨h1, _⟩ | ⟨i, _, h2, h3, h4, h5⟩
    · rw [ftrace_init_pages_no_head K cpu_buffer n pages rhp hE h1] at hok
      simp at hok
    · obtain ⟨lp, count, e1, e2, e3, e4, e5⟩ :=
        ftrace_init_pages_head K cpu_buffer n pages rhp i hE h3 (by omega) hlen
      rw [e1] at hok
      injection hok with hok
      exact ⟨pages, rhp, i, lp, count, rfl, hlen, by omega, h4,
        fun k hk => h5 k (by omega) hk, hok.symm, e2, e3, e4, e5⟩

theorem usub_lt (x : Nat) (o : Int) : usub x o < ULONG_MOD := by
  unfold usub ULONG_MOD
  omega

theorem uadd_lt (x : Nat) (o : Int) : uadd x o < ULONG_MOD := by
  unfold uadd ULONG_MOD
  omega

theorem usub_inj {x y : Nat} {o : Int} (hx : x < ULONG_MOD) (hy : y < ULONG_MOD)
    (h : usub x o = usub y o) : x = y := by
  unfold usub at h
  unfold ULONG_MOD at *
  omega

theorem and_three (p : Nat) : p &&& 3 = p % 4 :=
  Nat.and_pow_two_sub_one_eq_mod p 2

theorem and_not3 (p : Nat) (hp : p < ULONG_MOD) : p &&& NOT3 = 4 * (p / 4) := by
  apply Nat.eq_of_testBit_eq
  intro i
  have h4 : 4 * (p / 4) = (p >>> 2) <<< 2 := by
    rw [Nat.shiftRight_eq_div_pow, Nat.shiftLeft_eq]; omega
  have hN : NOT3 = (2 ^ 62 - 1) <<< 2 := by
    rw [Nat.shiftLeft_eq]; rfl
  rw [Nat.testBit_and, h4, hN, Nat.testBit_shiftLeft, Nat.testBit_shiftLeft,
    Nat.testBit_shiftRight, Nat.testBit_two_pow_sub_one]
  by_cases h2 : 2 ≤ i
  · have e : 2 + (i - 2) = i := by omega
    simp only [ge_iff_le, h2, decide_True, Bool.true_and, e]
    by_cases h64 : i - 2 < 62
    · simp [h64]
    · have : p.testBit i = false := by
        apply Nat.testBit_lt_two_pow
        calc p < 2 ^ 64 := hp
          _ ≤ 2 ^ i := Nat.pow_le_pow_right (by omega) (by omega)
      simp [h64, this]
  · simp [h2]

theorem mask_eq (p : Nat) (hp : p < ULONG_MOD) :
    (if p &&& 3 ≠ 0 then p &&& NOT3 else p) = 4 * (p / 4) := by
  split
  · exact and_not3 p hp
  · rename_i h
    rw [and_three] at h
    omega

theorem read_value_lt {K : Kernel} {x : Nat} {o : Int} {p : Nat}
    (h : read_value K x o = some p) : p < ULONG_MOD := by
  unfold read_value at h
  cases hr : K.readmem (uadd x o) with
  | none => simp [hr] at h
  | some v =>
    simp only [hr, Option.map_some', Option.some.injEq] at h
    rw [← h]
    exact Nat.mod_lt _ (by unfold ULONG_MOD; omega)

theorem next_masked_eq (K : Kernel) (x : Nat) :
    next_masked K x = (read_value K x K.list_head_next_offset).map (fun p => 4 * (p / 4)) := by
  unfold next_masked
  cases h : read_value K x K.list_head_next_offset with
  | none => rfl
  | some p => simp only [Option.map_some', mask_eq p (read_value_lt h)]

theorem next_masked_lt {K : Kernel} {x y : Nat} (h : next_masked K x = some y) :
    y < ULONG_MOD := by
  rw [next_masked_eq] at h
  cases hr : read_value K x K.list_head_next_offset with
  | none => simp [hr] at h
  | some p =>
    have := read_value_lt hr
    simp only [hr, Option.map_some', Option.some.injEq] at h
    omega

theorem walk_lt (K : Kernel) : ∀ (k a x : Nat), a < ULONG_MOD → walk K a k = some x →
    x < ULONG_MOD := by
  intro k
  induction k with
  | zero => intro a x ha h; simp only [walk, Option.some.injEq] at h; omega
  | succ k ih =>
    intro a x ha h
    cases hn : next_masked K a with
    | none => simp [walk, hn] at h
    | some y =>
      rw [walk_succ_of_next hn] at h
      exact ih y x (next_masked_lt hn) h

theorem anchor_lt {K : Kernel} {cpu_buffer : ring_buffer_per_cpu} {a : Nat}
    (h : anchor K cpu_buffer = some a) : a < ULONG_MOD := by
  unfold anchor at h
  split at h
  · exact read_value_lt h
  · simp only [Option.some.injEq] at h
    rw [← h]; exact uadd_lt _ _

theorem take_through_of_mem (c : Nat) : ∀ (l : List Nat), c ∈ l →
    ∃ k, k < l.length ∧ l[k]? = some c ∧ (∀ i, i < k → l[i]? ≠ some c) ∧
      take_through c l = l.take (k + 1) := by
  intro l
  induction l with
  | nil => intro h; simp at h
  | cons x xs ih =>
    intro h
    by_cases hx : x = c
    · refine ⟨0, by simp, by simp [hx], fun i hi => by omega, by simp [take_through, hx]⟩
    · have hm : c ∈ xs := by
        rcases List.mem_cons.mp h with h1 | h1
        · exact absurd h1.symm hx
        · exact h1
      obtain ⟨k, h1, h2, h3, h4⟩ := ih hm
      refine ⟨k + 1, by simp [h1], by simpa using h2, fun i hi => ?_, ?_⟩
      · cases i with
        | zero => simp [hx]
        | succ i => simpa using h3 i (by omega)
      · simp [take_through, hx, h4]

theorem take_through_of_not_mem (c : Nat) : ∀ (l : List Nat), c ∉ l → take_through c l = l := by
  intro l
  induction l with
  | nil => intro _; rfl
  | cons x xs ih =>
    intro h
    have h1 : ¬ x = c := fun e => h (by simp [e])
    have h2 : c ∉ xs := fun e => h (by simp [e])
    simp [take_through, h1, ih h2]

theorem ring_order_length (pages : List Nat) (n h : Nat) : (ring_order pages n h).length = n := by
  simp [ring_order]

theorem ring_order_getElem? (pages : List Nat) (n h i : Nat) (hi : i < n) :
    (ring_order pages n h)[i]? = some (ring_at pages n h i) := by
  simp [ring_order, List.getElem?_range hi]

theorem ring_order_take (pages : List Nat) (n h k : Nat) (hk : k ≤ n) :
    (ring_order pages n h).take k = (List.range k).map (ring_at pages n h) := by
  simp [ring_order, ← List.map_take, List.take_range, Nat.min_eq_left hk]

theorem mem_ring_order (pages : List Nat) (n h c : Nat) (hlen : pages.length = n) (hh : h < n)
    (hc : c ∈ pages) : c ∈ ring_order pages n h := by
  obtain ⟨j, hj, hget⟩ := List.getElem_of_mem hc
  rw [hlen] at hj
  have key : (h + (if h ≤ j then j - h else j + n - h)) % n = j := by
    rw [mod_wrap (by split <;> omega)]
    split <;> split <;> omega
  apply List.getElem?_mem (n := if h ≤ j then j - h else j + n - h)
  rw [ring_order_getElem? _ _ _ _ (by split <;> omega), ring_at, key,
    List.getD_eq_getElem?_getD, List.getElem?_eq_getElem (by omega), hget]
  rfl

theorem ftrace_init_pages_view (K : Kernel) (cpu_buffer b : ring_buffer_per_cpu) (n : Nat)
    (hok : ftrace_init_pages K cpu_buffer n = .ok b) :
    enumerate_pages K cpu_buffer n = .ok (b.pages, b.real_head_page) ∧
    b.pages.length = n ∧
    (∃ h : Nat, h < n ∧ b.head_page_index = (h : Int) ∧
      b.pages[h]? = some b.real_head_page ∧
      ∀ k, k < h → b.pages[k]? ≠ some b.real_head_page) ∧
    b.reader_page = cpu_buffer.reader_page ∧ b.commit_page = cpu_buffer.commit_page ∧
    b.linear_pages.length = n + 1 ∧
    (∃ count : Nat, b.nr_linear_pages = (count : Int) ∧ 1 ≤ count ∧ count ≤ n + 1 ∧
      (linear_list b).length = count) ∧
    linear_list b = cpu_buffer.reader_page ::
      (if cpu_buffer.reader_page = cpu_buffer.commit_page then []
       else take_through cpu_buffer.commit_page
        (ring_order b.pages n b.head_page_index.toNat)) := by
  obtain ⟨pages, rhp, h, lp, count, h1, h2, h3, h4, h5, h6, h7, h8, h9, h10⟩ :=
    ftrace_init_pages_ok K cpu_buffer b n hok
  subst h6
  refine ⟨h1, h2, ⟨h, h3, rfl, h4, h5⟩, rfl, rfl, h7, ⟨count, rfl, h8, h9, ?_⟩, ?_⟩
  · simp only [linear_list, Int.toNat_ofNat, List.length_take]
    omega
  · simp only [linear_list, Int.toNat_ofNat]
    exact h10

theorem linear_list_of_commit_mem (K : Kernel) (cpu_buffer b : ring_buffer_per_cpu)
    (nr_pages : Nat) (hok : ftrace_init_pages K cpu_buffer nr_pages = .ok b)
    (hne : cpu_buffer.reader_page ≠ cpu_buffer.commit_page)
    (hmem : cpu_buffer.commit_page ∈ b.pages) :
    ∃ k, k < nr_pages ∧
      ring_at b.pages nr_pages b.head_page_index.toNat k = cpu_buffer.commit_page ∧
      (∀ i, i < k →
        ring_at b.pages nr_pages b.head_page_index.toNat i ≠ cpu_buffer.commit_page) ∧
      linear_list b = cpu_buffer.reader_page ::
        (List.range (k + 1)).map (ring_at b.pages nr_pages b.head_page_index.toNat) ∧
      b.nr_linear_pages = ((k + 2 : Nat) : Int) := by
  obtain ⟨_, hlen, ⟨h, hh, hidx, _, _⟩, _, _, _, ⟨count, hc1, _, _, hc4⟩, hlin⟩ :=
    ftrace_init_pages_view K cpu_buffer b nr_pages hok
  simp only [hne, if_false] at hlin
  have hh' : b.head_page_index.toNat = h := by rw [hidx]; exact Int.toNat_ofNat h
  rw [hh'] at hlin ⊢
  obtain ⟨k, hk1, hk2, hk3, hk4⟩ := take_through_of_mem cpu_buffer.commit_page _
    (mem_ring_order b.pages nr_pages h _ hlen hh hmem)
  rw [ring_order_length] at hk1
  rw [hk4, ring_order_take _ _ _ _ (by omega)] at hlin
  refine ⟨k, hk1, ?_, ?_, hlin, ?_⟩
  · rw [ring_order_getElem? _ _ _ _ hk1] at hk2
    exact Option.some.inj hk2
  · intro i hi hc
    apply hk3 i hi
    rw [ring_order_getElem? _ _ _ _ (by omega), hc]
  · rw [hc1, ← hc4, hlin]
    simp
    omega

/-- C1: on success with `reader_page != commit_page` and `commit_page` among the ring
pages, `linear_pages` is `reader_page` followed by `pages[h]`, `pages[(h + 1) mod
nr_pages]`, ... up to and including the first entry equal to `commit_page`
(`h = head_page_index`), and `nr_linear_pages` is the length of that list. -/
theorem linear_pages_head_to_commit (K : Kernel) (cpu_buffer b : ring_buffer_per_cpu)
    (nr_pages : Nat) (hok : ftrace_init_pages K cpu_buffer nr_pages = .ok b)
    (hne : cpu_buffer.reader_page ≠ cpu_buffer.commit_page)
    (hmem : cpu_buffer.commit_page ∈ b.pages) :
    ∃ k, k < nr_pages ∧
      ring_at b.pages nr_pages b.head_page_index.toNat k = cpu_buffer.commit_page ∧
      (∀ i, i < k →
        ring_at b.pages nr_pages b.head_page_index.toNat i ≠ cpu_buffer.commit_page) ∧
      linear_list b = cpu_buffer.reader_page ::
        (List.range (k + 1)).map (ring_at b.pages nr_pages b.head_page_index.toNat) ∧
      b.nr_linear_pages = ((k + 2 : Nat) : Int) :=
  linear_list_of_commit_mem K cpu_buffer b nr_pages hok hne hmem

/-- C2: on success with `reader_page == commit_page`, `linear_pages` is exactly
`[reader_page]` and `nr_linear_pages = 1`. -/
theorem linear_pages_reader_only (K : Kernel) (cpu_buffer b : ring_buffer_per_cpu)
    (nr_pages : Nat) (hok : ftrace_init_pages K cpu_buffer nr_pages = .ok b)
    (heq : cpu_buffer.reader_page = cpu_buffer.commit_page) :
    linear_list b = [cpu_buffer.reader_page] ∧ b.nr_linear_pages = 1 := by
  obtain ⟨_, _, _, _, _, _, ⟨count, hc1, _, _, hc4⟩, hlin⟩ :=
    ftrace_init_pages_view K cpu_buffer b nr_pages hok
  simp only [heq, if_true] at hlin
  refine ⟨by rw [hlin, heq], ?_⟩
  rw [hc1, ← hc4, hlin]
  rfl

/-- Witness of C1: scenario 2, pages `[A, B, C, D]`, real head `B`, commit `D`. -/
theorem linear_pages_head_to_commit_witness :
    ftrace_init_pages ring4 buf4_live 4 = .ok res4_live ∧
    buf4_live.reader_page ≠ buf4_live.commit_page ∧
    buf4_live.commit_page ∈ res4_live.pages ∧
    ∃ k, k < 4 ∧
      ring_at res4_live.pages 4 res4_live.head_page_index.toNat k = buf4_live.commit_page ∧
      (∀ i, i < k →
        ring_at res4_live.pages 4 res4_live.head_page_index.toNat i ≠ buf4_live.commit_page) ∧
      linear_list res4_live = buf4_live.reader_page ::
        (List.range (k + 1)).map (ring_at res4_live.pages 4 res4_live.head_page_index.toNat) ∧
      res4_live.nr_linear_pages = ((k + 2 : Nat) : Int) :=
  ⟨by decide, by decide, by decide,
    linear_pages_head_to_commit ring4 buf4_live res4_live 4 (by decide) (by decide)
      (by decide)⟩

/-- Witness of C2: scenario 1, `nr_pages = 4`, reader and commit page equal. -/
theorem linear_pages_reader_only_witness :
    ftrace_init_pages ring4 buf4_idle 4 = .ok res4_idle ∧
    buf4_idle.reader_page = buf4_idle.commit_page ∧
    linear_list res4_idle = [buf4_idle.reader_page] ∧ res4_idle.nr_linear_pages = 1 :=
  ⟨by decide, by decide,
    linear_pages_reader_only ring4 buf4_idle res4_idle 4 (by decide) (by decide)⟩

theorem linear_pages_getElem? (b : ring_buffer_per_cpu) (i : Nat)
    (hi : i < b.nr_linear_pages.toNat) : b.linear_pages[i]? = (linear_list b)[i]? := by
  simp [linear_list, List.getElem?_take, hi]

theorem ring_at_zero (pages : List Nat) (n h x : Nat) (hh : h < n) (hx : pages[h]? = some x) :
    ring_at pages n h 0 = x := by
  rw [ring_at, Nat.add_zero, Nat.mod_eq_of_lt hh, List.getD_eq_getElem?_getD, hx]
  rfl

theorem take_through_head (c x : Nat) (xs : List Nat) :
    (take_through c (x :: xs))[0]? = some x := by
  unfold take_through
  split <;> simp

/-- C3 as stated fails on the code: with a `commit_page` that is not a page of the ring
the walk stops after one turn, and the last entry of `linear_pages` is not
`commit_page`. -/
theorem linear_pages_ends_counterexample :
    ¬ (∀ b, ftrace_init_pages ring4 buf4_lost 4 = .ok b →
        b.linear_pages[0]? = some b.reader_page ∧
        (b.reader_page ≠ b.commit_page →
          b.linear_pages[1]? = some b.real_head_page ∧
          b.linear_pages[(b.nr_linear_pages - 1).toNat]? = some b.commit_page)) := by
  intro h
  have h1 := (h res4_lost (by decide)).2 (by decide)
  revert h1
  decide

/-- C3, amended: on success `linear_pages[0] = reader_page`, and if
`reader_page != commit_page` then `linear_pages[1] = real_head_page` and, provided
`commit_page` occurs in `pages`, `linear_pages[nr_linear_pages - 1] = commit_page`. -/
theorem linear_pages_ends (K : Kernel) (cpu_buffer b : ring_buffer_per_cpu)
    (nr_pages : Nat) (hok : ftrace_init_pages K cpu_buffer nr_pages = .ok b) :
    b.linear_pages[0]? = some b.reader_page ∧
    (b.reader_page ≠ b.commit_page →
      b.linear_pages[1]? = some b.real_head_page ∧
      (b.commit_page ∈ b.pages →
        b.linear_pages[(b.nr_linear_pages - 1).toNat]? = some b.commit_page)) := by
  obtain ⟨_, hlen, ⟨h, hh, hidx, hget, _⟩, hr, hc, _, ⟨count, hc1, hc2, hc3, hc4⟩, hlin⟩ :=
    ftrace_init_pages_view K cpu_buffer b nr_pages hok
  have hcnt : b.nr_linear_pages.toNat = count := by rw [hc1]; exact Int.toNat_ofNat count
  have hh' : b.head_page_index.toNat = h := by rw [hidx]; exact Int.toNat_ofNat h
  rw [hr, hc]
  refine ⟨?_, fun hne => ⟨?_, fun hmem => ?_⟩⟩
  · rw [linear_pages_getElem? b 0 (by omega), hlin]
    simp
  · have hlin2 := hlin
    simp only [hne, if_false, hh'] at hlin2
    have hro : ring_order b.pages nr_pages h =
        ring_at b.pages nr_pages h 0 ::
          (List.range' 1 (nr_pages - 1)).map (ring_at b.pages nr_pages h) := by
      obtain ⟨m, hm⟩ : ∃ m, nr_pages = m + 1 := ⟨nr_pages - 1, by omega⟩
      rw [ring_order, List.range_eq_range', hm, List.range'_succ]
      simp
    have hlen2 : 2 ≤ (linear_list b).length := by
      rw [hlin2, hro]
      unfold take_through
      split <;> simp
    rw [linear_pages_getElem? b 1 (by omega), hlin2, hro, List.getElem?_cons_succ,
      take_through_head, ring_at_zero _ _ _ _ hh hget]
  · obtain ⟨k, hk1, hk2, _, hk4, hk5⟩ :=
      linear_list_of_commit_mem K cpu_buffer b nr_pages hok hne hmem
    have hidx2 : (b.nr_linear_pages - 1).toNat = k + 1 := by rw [hk5]; omega
    rw [hidx2, linear_pages_getElem? b (k + 1) (by rw [hk5]; omega), hk4,
      List.getElem?_cons_succ, List.getElem?_map, List.getElem?_range (by omega)]
    simp [hh'] at hk2 ⊢
    exact hk2

/-- Witness of C3 (amended): scenario 2. -/
theorem linear_pages_ends_witness :
    ftrace_init_pages ring4 buf4_live 4 = .ok res4_live ∧
    (res4_live.linear_pages[0]? = some res4_live.reader_page ∧
    (res4_live.reader_page ≠ res4_live.commit_page →
      res4_live.linear_pages[1]? = some res4_live.real_head_page ∧
      (res4_live.commit_page ∈ res4_live.pages →
        res4_live.linear_pages[(res4_live.nr_linear_pages - 1).toNat]? =
          some res4_live.commit_page))) :=
  ⟨by decide, linear_pages_ends ring4 buf4_live res4_live 4 (by decide)⟩

theorem enumerate_pages_nodup (K : Kernel) (cpu_buffer : ring_buffer_per_cpu) (n : Nat)
    (pages : List Nat) (rhp : Nat) (h : enumerate_pages K cpu_buffer n = .ok (pages, rhp)) :
    pages.Nodup := by
  obtain ⟨hlen, a, ha, hw, hno, hpg⟩ := enumerate_pages_ok K cpu_buffer n pages rhp h
  rw [List.nodup_iff_getElem?_ne_getElem?]
  intro i j hij hj heq
  rw [hlen] at hj
  obtain ⟨xi, hxi, hpi⟩ := hpg i (by omega)
  obtain ⟨xj, hxj, hpj⟩ := hpg j hj
  rw [hpi, hpj] at heq
  have hx : xi = xj :=
    usub_inj (walk_lt K _ a xi (anchor_lt ha) hxi) (walk_lt K _ a xj (anchor_lt ha) hxj)
      (Option.some.inj heq)
  have h1 : walk K a (i + anchor_skip K + (n - j)) = walk K xi (n - j) := by
    rw [walk_add, hxi]; rfl
  have h2 : walk K a (j + anchor_skip K + (n - j)) = walk K xj (n - j) := by
    rw [walk_add, hxj]; rfl
  have h3 : j + anchor_skip K + (n - j) = n + anchor_skip K := by omega
  rw [h3, hw, ← hx, ← h1] at h2
  exact hno _ (by omega) (by omega) h2.symm

theorem ftrace_init_pages_enum_error (K : Kernel) (cpu_buffer : ring_buffer_per_cpu) (n : Nat)
    (e : Fault) (h : enumerate_pages K cpu_buffer n = .error e) :
    ftrace_init_pages K cpu_buffer n = .error e := by
  unfold ftrace_init_pages
  simp [h]

theorem ftrace_init_pages_fault (K : Kernel) (cpu_buffer : ring_buffer_per_cpu) (n : Nat)
    (e : Fault) (hn : 1 ≤ n) (h : ftrace_init_pages K cpu_buffer n = .error e) :
    e = .out_fail := by
  cases hE : enumerate_pages K cpu_buffer n with
  | error e1 =>
    rw [ftrace_init_pages_enum_error K cpu_buffer n e1 hE] at h
    injection h with h
    subst h
    exact enumerate_pages_fault K cpu_buffer n _ hn hE
  | ok r =>
    obtain ⟨pages, rhp⟩ := r
    have hlen := (enumerate_pages_ok K cpu_buffer n pages rhp hE).1
    rcases find_head_page_index_spec pages rhp n 0 with ⟨h1, _⟩ | ⟨i, _, h2, h3, _, _⟩
    · rw [ftrace_init_pages_no_head K cpu_buffer n pages rhp hE h1] at h
      injection h with h
      exact h.symm
    · obtain ⟨lp, count, e1, _⟩ :=
        ftrace_init_pages_head K cpu_buffer n pages rhp i hE h3 (by omega) hlen
      rw [e1] at h
      simp at h

/-- C4: when `ftrace_init_pages` succeeds, `nr_pages >= 1`, all `nr_pages` slots of
`pages` are filled (slot `i` holds the descriptor of the `i`-th page of the walk from the
anchor) and no two slots hold the same address, in the lockless and the classic
schema. -/
theorem pages_filled_nodup (K : Kernel) (cpu_buffer b : ring_buffer_per_cpu) (nr_pages : Nat)
    (hok : ftrace_init_pages K cpu_buffer nr_pages = .ok b) :
    1 ≤ nr_pages ∧ b.pages.length = nr_pages ∧ b.pages.Nodup ∧
    ∃ a, anchor K cpu_buffer = some a ∧
      ∀ i, i < nr_pages → ∃ x, walk K a (i + anchor_skip K) = some x ∧
        b.pages[i]? = some (usub x K.buffer_page_list_offset) := by
  obtain ⟨hE, hlen, ⟨h, hh, _⟩, _⟩ := ftrace_init_pages_view K cpu_buffer b nr_pages hok
  obtain ⟨_, a, ha, _, _, hpg⟩ := enumerate_pages_ok K cpu_buffer nr_pages _ _ hE
  exact ⟨by omega, hlen, enumerate_pages_nodup K cpu_buffer nr_pages _ _ hE, a, ha, hpg⟩

/-- Witness of C4: the lockless ring of four pages. -/
theorem pages_filled_nodup_witness :
    ftrace_init_pages ring4 buf4_live 4 = .ok res4_live ∧
    (1 ≤ 4 ∧ res4_live.pages.length = 4 ∧ res4_live.pages.Nodup ∧
    ∃ a, anchor ring4 buf4_live = some a ∧
      ∀ i, i < 4 → ∃ x, walk ring4 a (i + anchor_skip ring4) = some x ∧
        res4_live.pages[i]? = some (usub x ring4.buffer_page_list_offset)) :=
  ⟨by decide, pages_filled_nodup ring4 buf4_live res4_live 4 (by decide)⟩

theorem ring4_reads (x : Nat) : (ring4.readmem x).isSome := by
  unfold ring4
  simp only []
  split_ifs <;> rfl

/-- C6: after a passing enumeration, `ftrace_init_pages` succeeds iff `real_head_page`
occurs in `pages[0..nr_pages)`; on success `0 <= head_page_index < nr_pages`,
`pages[head_page_index] = real_head_page` and no smaller index holds `real_head_page`; if
`real_head_page` does not occur, the function returns `-1`. -/
theorem head_page_index_resolution (K : Kernel) (cpu_buffer : ring_buffer_per_cpu)
    (nr_pages : Nat) (pages : List Nat) (real_head_page : Nat)
    (hE : enumerate_pages K cpu_buffer nr_pages = .ok (pages, real_head_page)) :
    ((∃ b, ftrace_init_pages K cpu_buffer nr_pages = .ok b) ↔ real_head_page ∈ pages) ∧
    (∀ b, ftrace_init_pages K cpu_buffer nr_pages = .ok b →
      b.pages = pages ∧ b.real_head_page = real_head_page ∧
      0 ≤ b.head_page_index ∧ b.head_page_index < (nr_pages : Int) ∧
      pages[b.head_page_index.toNat]? = some real_head_page ∧
      ∀ i, i < b.head_page_index.toNat → pages[i]? ≠ some real_head_page) ∧
    (real_head_page ∉ pages →
      ftrace_init_pages K cpu_buffer nr_pages = .error .out_fail) := by
  have hlen := (enumerate_pages_ok K cpu_buffer nr_pages pages real_head_page hE).1
  obtain ⟨m1, m2⟩ := find_head_page_index_mem pages real_head_page nr_pages hlen
  have hview : ∀ b, ftrace_init_pages K cpu_buffer nr_pages = .ok b →
      b.pages = pages ∧ b.real_head_page = real_head_page ∧
      ∃ h : Nat, h < nr_pages ∧ b.head_page_index = (h : Int) ∧
        pages[h]? = some real_head_page ∧ ∀ k, k < h → pages[k]? ≠ some real_head_page := by
    intro b hb
    obtain ⟨hE2, _, ⟨h, h1, h2, h3, h4⟩, _⟩ := ftrace_init_pages_view K cpu_buffer b nr_pages hb
    rw [hE] at hE2
    injection hE2 with hE2
    injection hE2 with e1 e2
    rw [← e1, ← e2] at h3 h4
    exact ⟨e1.symm, e2.symm, h, h1, h2, h3, h4⟩
  refine ⟨⟨?_, fun hm => ?_⟩, fun b hb => ?_, fun hm => ?_⟩
  · rintro ⟨b, hb⟩
    obtain ⟨_, _, h, _, _, h3, _⟩ := hview b hb
    exact List.getElem?_mem h3
  · obtain ⟨h, hh, hf⟩ := m1 hm
    obtain ⟨lp, count, e1, _⟩ :=
      ftrace_init_pages_head K cpu_buffer nr_pages pages real_head_page h hE hf hh hlen
    exact ⟨_, e1⟩
  · obtain ⟨e1, e2, h, h1, h2, h3, h4⟩ := hview b hb
    have ht : b.head_page_index.toNat = h := by rw [h2]; exact Int.toNat_ofNat h
    rw [ht]
    exact ⟨e1, e2, by omega, by omega, h3, h4⟩
  · exact ftrace_init_pages_no_head K cpu_buffer nr_pages pages real_head_page hE (m2 hm)

/-- Witness of C6: the lockless ring of four pages, whose real head is `B`. -/
theorem head_page_index_resolution_witness :
    enumerate_pages ring4 buf4_live 4 = .ok ([0x1000, 0x2000, 0x3000, 0x4000], 0x2000) ∧
    (((∃ b, ftrace_init_pages ring4 buf4_live 4 = .ok b) ↔
      0x2000 ∈ [0x1000, 0x2000, 0x3000, 0x4000]) ∧
    (∀ b, ftrace_init_pages ring4 buf4_live 4 = .ok b →
      b.pages = [0x1000, 0x2000, 0x3000, 0x4000] ∧ b.real_head_page = 0x2000 ∧
      0 ≤ b.head_page_index ∧ b.head_page_index < ((4 : Nat) : Int) ∧
      [0x1000, 0x2000, 0x3000, 0x4000][b.head_page_index.toNat]? = some 0x2000 ∧
      ∀ i, i < b.head_page_index.toNat →
        [0x1000, 0x2000, 0x3000, 0x4000][i]? ≠ some 0x2000) ∧
    (0x2000 ∉ [0x1000, 0x2000, 0x3000, 0x4000] →
      ftrace_init_pages ring4 buf4_live 4 = .error .out_fail)) :=
  ⟨by decide, head_page_index_resolution ring4 buf4_live 4 _ _ (by decide)⟩

/-- C7 as stated fails on the code: in scenario 2 the function succeeds with
`pages[0] = A`, `real_head_page = B` and `head_page_index = 1`. -/
theorem pages_start_counterexample :
    ¬ (∀ b, ftrace_init_pages ring4 buf4_live 4 = .ok b →
        b.pages[0]? = some b.real_head_page ∧ b.head_page_index = 0) := by
  intro h
  have h1 := (h res4_live (by decide)).2
  revert h1
  decide

/-- C7, amended: on success `pages` lists the buffer-page descriptors in ring order
starting at the anchor page (lockless: the page whose list node
`ring_buffer_per_cpu.pages` points to; classic: the page after the list head), and
`real_head_page` is the entry at `head_page_index`, which lies in `[0, nr_pages)`. -/
theorem pages_ring_order_from_anchor (K : Kernel) (cpu_buffer b : ring_buffer_per_cpu)
    (nr_pages : Nat) (hok : ftrace_init_pages K cpu_buffer nr_pages = .ok b) :
    (∃ a, anchor K cpu_buffer = some a ∧
      ∀ i, i < nr_pages → ∃ x, walk K a (i + anchor_skip K) = some x ∧
        b.pages[i]? = some (usub x K.buffer_page_list_offset)) ∧
    0 ≤ b.head_page_index ∧ b.head_page_index < (nr_pages : Int) ∧
    b.pages[b.head_page_index.toNat]? = some b.real_head_page := by
  obtain ⟨hE, _, ⟨h, h1, h2, h3, _⟩, _⟩ := ftrace_init_pages_view K cpu_buffer b nr_pages hok
  obtain ⟨_, a, ha, _, _, hpg⟩ := enumerate_pages_ok K cpu_buffer nr_pages _ _ hE
  have ht : b.head_page_index.toNat = h := by rw [h2]; exact Int.toNat_ofNat h
  rw [ht]
  exact ⟨⟨a, ha, hpg⟩, by omega, by omega, h3⟩

/-- Witness of C7 (amended): scenario 2. -/
theorem pages_ring_order_from_anchor_witness :
    ftrace_init_pages ring4 buf4_live 4 = .ok res4_live ∧
    ((∃ a, anchor ring4 buf4_live = some a ∧
      ∀ i, i < 4 → ∃ x, walk ring4 a (i + anchor_skip ring4) = some x ∧
        res4_live.pages[i]? = some (usub x ring4.buffer_page_list_offset)) ∧
    0 ≤ res4_live.head_page_index ∧ res4_live.head_page_index < ((4 : Nat) : Int) ∧
    res4_live.pages[res4_live.head_page_index.toNat]? = some res4_live.real_head_page) :=
  ⟨by decide, pages_ring_order_from_anchor ring4 buf4_live res4_live 4 (by decide)⟩

/-- C8: on success `1 <= nr_linear_pages <= nr_pages + 1` and `linear_pages` has its
`nr_pages + 1` allocated slots, whether or not `commit_page` is in the ring; and for
`nr_pages >= 1` no store of `ftrace_init_pages` falls outside the allocated arrays. -/
theorem nr_linear_pages_bounds (K : Kernel) (cpu_buffer : ring_buffer_per_cpu)
    (nr_pages : Nat) :
    (∀ b, ftrace_init_pages K cpu_buffer nr_pages = .ok b →
      b.linear_pages.length = nr_pages + 1 ∧
      1 ≤ b.nr_linear_pages ∧ b.nr_linear_pages ≤ (nr_pages : Int) + 1 ∧
      (linear_list b).length = b.nr_linear_pages.toNat) ∧
    (1 ≤ nr_pages →
      ftrace_init_pages K cpu_buffer nr_pages ≠ .error .out_of_bounds ∧
      ftrace_init_pages K cpu_buffer nr_pages ≠ .error .out_of_fuel) := by
  refine ⟨fun b hb => ?_, fun hn => ⟨fun h => ?_, fun h => ?_⟩⟩
  · obtain ⟨_, _, _, _, _, hlen, ⟨count, hc1, hc2, hc3, hc4⟩, _⟩ :=
      ftrace_init_pages_view K cpu_buffer b nr_pages hb
    rw [hc1, hc4, Int.toNat_ofNat]
    exact ⟨hlen, by omega, by omega, rfl⟩
  · exact absurd (ftrace_init_pages_fault K cpu_buffer nr_pages _ hn h) (by decide)
  · exact absurd (ftrace_init_pages_fault K cpu_buffer nr_pages _ hn h) (by decide)

/-- Witness of C8: a `commit_page` outside the ring, `nr_linear_pages = 5 = nr_pages + 1`. -/
theorem nr_linear_pages_bounds_witness :
    ftrace_init_pages ring4 buf4_lost 4 = .ok res4_lost ∧ 1 ≤ 4 ∧
    (res4_lost.linear_pages.length = 4 + 1 ∧
      1 ≤ res4_lost.nr_linear_pages ∧ res4_lost.nr_linear_pages ≤ ((4 : Nat) : Int) + 1 ∧
      (linear_list res4_lost).length = res4_lost.nr_linear_pages.toNat) ∧
    (ftrace_init_pages ring4 buf4_lost 4 ≠ .error .out_of_bounds ∧
      ftrace_init_pages ring4 buf4_lost 4 ≠ .error .out_of_fuel) :=
  ⟨by decide, by decide, (nr_linear_pages_bounds ring4 buf4_lost 4).1 res4_lost (by decide),
    (nr_linear_pages_bounds ring4 buf4_lost 4).2 (by decide)⟩

theorem syscall_get_enter_fields_spec (H : Host) (s : EnterStatics) (call : Nat)
    (hs : s.Inv H) :
    (syscall_get_enter_fields H s call).1 = enter_fields_head H call ∧
    (syscall_get_enter_fields H s call).2.Inv H := by
  unfold EnterStatics.Inv at hs
  rcases hs with rfl | ⟨h1, h2, h3⟩
  · unfold syscall_get_enter_fields enter_fields_head syscall_get_enter_fields_work
      EnterStatics.Inv
    by_cases hd : H.MEMBER_OFFSET "ftrace_event_call" "data" < 0
    · simp [hd]
    · by_cases he : H.MEMBER_OFFSET "syscall_metadata" "enter_fields" < 0
      · simp [hd, he]
      · simp [hd, he]
        cases H.read (uadd call (H.MEMBER_OFFSET "ftrace_event_call" "data")) <;> rfl
  · unfold syscall_get_enter_fields enter_fields_head syscall_get_enter_fields_work
    have hi : s.inited ≠ 0 := by omega
    simp only [hi, ne_eq, not_false_eq_true, if_true]
    refine ⟨?_, Or.inr ⟨h1, h2, h3⟩⟩
    by_cases hd : H.MEMBER_OFFSET "ftrace_event_call" "data" < 0
    · simp [h2, hd]
    · rw [h2, h3 (by omega)]
      split
      · rfl
      · cases H.read (uadd call (H.MEMBER_OFFSET "ftrace_event_call" "data")) <;> rfl

theorem syscall_get_exit_fields_old_spec (H : Host) (s : ExitOldStatics) (call : Nat)
    (hs : s.Inv H) :
    (syscall_get_exit_fields_old H s call).1 = exit_fields_old_head H call ∧
    (syscall_get_exit_fields_old H s call).2.Inv H := by
  unfold ExitOldStatics.Inv at hs
  rcases hs with rfl | ⟨h1, h2, h3⟩
  · unfold syscall_get_exit_fields_old exit_fields_old_head syscall_get_exit_fields_old_work
      ExitOldStatics.Inv
    by_cases hd : H.MEMBER_OFFSET "ftrace_event_call" "data" < 0
    · simp [hd]
    · by_cases he : H.MEMBER_OFFSET "syscall_metadata" "exit_fields" < 0
      · simp [hd, he]
      · simp [hd, he]
        cases H.read (uadd call (H.MEMBER_OFFSET "ftrace_event_call" "data")) <;> rfl
  · unfold syscall_get_exit_fields_old exit_fields_old_head syscall_get_exit_fields_old_work
    have hi : s.inited ≠ 0 := by omega
    simp only [hi, ne_eq, not_false_eq_true, if_true]
    refine ⟨?_, Or.inr ⟨h1, h2, h3⟩⟩
    by_cases hd : H.MEMBER_OFFSET "ftrace_event_call" "data" < 0
    · simp [h2, hd]
    · rw [h2, h3 (by omega)]
      split
      · rfl
      · cases H.read (uadd call (H.MEMBER_OFFSET "ftrace_event_call" "data")) <;> rfl

theorem syscall_get_exit_fields_spec (H : Host) (s : ExitStatics) (o : ExitOldStatics)
    (call : Nat) (hs : s.Inv H) (ho : o.Inv H) :
    (syscall_get_exit_fields H s o call).1 = exit_fields_head H call ∧
    (syscall_get_exit_fields H s o call).2.1.Inv H ∧
    (syscall_get_exit_fields H s o call).2.2.Inv H := by
  obtain ⟨o1, o2⟩ := syscall_get_exit_fields_old_spec H o call ho
  unfold ExitStatics.Inv at hs
  unfold syscall_get_exit_fields exit_fields_head ExitStatics.Inv
  rcases hs with h0 | ⟨h1, h2⟩ | ⟨h1, h2⟩
  · cases hsym : H.symbol_search "syscall_exit_fields" with
    | none => simp [h0, hsym, o1, o2]
    | some v => simp [h0, hsym, ho]
  · have e1 : ¬ s.inited = 0 := by omega
    have e2 : ¬ s.inited = -1 := by omega
    simp [e1, e2, h1, h2, ho]
  · have e1 : ¬ s.inited = 0 := by omega
    simp [e1, h1, h2, o1, o2]

theorem ftrace_get_event_type_fields_work_spec (H : Host) (s : Statics) (call : Nat)
    (he : s.enter.Inv H) (ho : s.exit_old.Inv H) (hx : s.exit.Inv H)
    (ht : s.type_fields.Inv H) (hi : s.type_fields.inited ≠ 0) :
    (ftrace_get_event_type_fields_work H s call).1 = fields_head H call ∧
    (ftrace_get_event_type_fields_work H s call).2.Inv H := by
  have hinv : s.Inv H := ⟨he, ho, hx, ht⟩
  unfold TypeFieldsStatics.Inv at ht
  rcases ht with h0 | ⟨h1, h2, h3, h4⟩ | ⟨h1, h2, h3, h4, h5⟩
  · rw [h0] at hi; exact absurd rfl hi
  · unfold ftrace_get_event_type_fields_work fields_head
    have hc : H.MEMBER_OFFSET "ftrace_event_call" "class" < 0 := by rw [← h2]; exact h3
    simp only [hc, if_true, h4, h1]
    split
    · exact ⟨rfl, hinv⟩
    · exact ⟨rfl, hinv⟩
  · unfold ftrace_get_event_type_fields_work fields_head
    have hc : ¬ H.MEMBER_OFFSET "ftrace_event_call" "class" < 0 := by rw [← h2]; omega
    have h21 : ¬ s.type_fields.inited = 1 := by omega
    simp only [hc, if_false, h4, h21]
    by_cases hf : H.MEMBER_OFFSET "ftrace_event_class" "fields" < 0
    · simp only [hf, if_true]
      exact ⟨trivial, hinv⟩
    · obtain ⟨h6, h7, h8⟩ := h5 (by rw [h4]; omega)
      simp only [hf, if_false, h2, h6, h7, h8]
      cases H.read (uadd call (H.MEMBER_OFFSET "ftrace_event_call" "class")) with
      | none => exact ⟨rfl, hinv⟩
      | some class_ =>
        simp only []
        cases H.read (uadd class_ (H.MEMBER_OFFSET "ftrace_event_class" "get_fields")) with
        | none => exact ⟨rfl, hinv⟩
        | some get_fields =>
          simp only []
          by_cases g0 : get_fields = 0
          · simp only [g0, if_true]
            exact ⟨trivial, hinv⟩
          · simp only [g0, if_false]
            by_cases g1 : get_fields = (H.symbol_search "syscall_get_enter_fields").getD 0
            · simp only [g1, if_true]
              obtain ⟨r1, r2⟩ := syscall_get_enter_fields_spec H s.enter call he
              exact ⟨r1, r2, ho, hx, hinv.2.2.2⟩
            · simp only [g1, if_false]
              by_cases g2 : get_fields = (H.symbol_search "syscall_get_exit_fields").getD 0
              · simp only [g2, if_true]
                obtain ⟨r1, r2, r3⟩ :=
                  syscall_get_exit_fields_spec H s.exit s.exit_old call hx ho
                exact ⟨r1, he, r3, r2, hinv.2.2.2⟩
              · simp only [g2, if_false]
                exact ⟨trivial, hinv⟩

theorem ftrace_get_event_type_fields_spec (H : Host) (s : Statics) (call : Nat)
    (hs : s.Inv H) :
    (ftrace_get_event_type_fields H s call).1 = fields_head H call ∧
    (ftrace_get_event_type_fields H s call).2.Inv H := by
  obtain ⟨he, ho, hx, ht⟩ := hs
  by_cases hi : s.type_fields.inited = 0
  · have hz : s.type_fields = ⟨0, 0, 0, 0, 0, 0⟩ := by
      unfold TypeFieldsStatics.Inv at ht
      rcases ht with h0 | ⟨h1, _⟩ | ⟨h1, _⟩
      · exact h0
      · omega
      · omega
    unfold ftrace_get_event_type_fields
    simp only [hz, ne_eq, not_true_eq_false, if_false]
    by_cases hc : H.MEMBER_OFFSET "ftrace_event_call" "class" < 0
    · simp only [hc, if_true]
      exact ftrace_get_event_type_fields_work_spec H _ call he ho hx
        (Or.inr (Or.inl ⟨rfl, rfl, hc, rfl⟩)) (by simp)
    · simp only [hc, if_false]
      by_cases hf : H.MEMBER_OFFSET "ftrace_event_class" "fields" < 0
      · simp only [hf, if_true]
        refine ⟨?_, he, ho, hx, Or.inr (Or.inr ⟨rfl, rfl, by simpa using hc, rfl, ?_⟩)⟩
        · simp [fields_head, hc, hf]
        · intro h; simp only at h; omega
      · simp only [hf, if_false]
        refine ftrace_get_event_type_fields_work_spec H _ call he ho hx
          (Or.inr (Or.inr ⟨rfl, rfl, by simpa using hc, rfl, fun _ => ⟨rfl, ?_, ?_⟩⟩))
          (by simp)
        · cases H.symbol_search "syscall_get_enter_fields" <;> rfl
        · cases H.symbol_search "syscall_get_exit_fields" <;> rfl
  · unfold ftrace_get_event_type_fields
    simp only [ne_eq, hi, not_false_eq_true, if_true]
    exact ftrace_get_event_type_fields_work_spec H s call he ho hx ht hi

theorem statics_start_inv (H : Host) : Statics.start.Inv H :=
  ⟨Or.inl rfl, Or.inl rfl, Or.inl rfl, Or.inl rfl⟩

theorem statics_after_inv (H : Host) (calls : List Nat) : (statics_after H calls).Inv H := by
  unfold statics_after
  have key : ∀ (cs : List Nat) (s : Statics), s.Inv H →
      (cs.foldl (fun s call => (ftrace_get_event_type_fields H s call).2) s).Inv H := by
    intro cs
    induction cs with
    | nil => intro s hs; exact hs
    | cons c cs ih =>
      intro s hs
      exact ih _ (ftrace_get_event_type_fields_spec H s c hs).2
  exact key calls _ (statics_start_inv H)

theorem ftrace_get_event_type_fields_eq (H : Host) (calls : List Nat) (call : Nat) :
    (ftrace_get_event_type_fields H (statics_after H calls) call).1 = fields_head H call :=
  (ftrace_get_event_type_fields_spec H _ call (statics_after_inv H calls)).1

theorem fields_returned_eq (H : Host) (calls : List Nat) (call : Nat) :
    fields_returned H calls call = fields_head H call :=
  ftrace_get_event_type_fields_eq H calls call

/-- C9 as stated fails on the code: when `ftrace_event_call` has both `fields` and
`class`, the function follows the class and does not return `call + offset_of(fields)`. -/
theorem fields_inline_counterexample :
    ¬ (∀ call, 0 ≤ host_both.MEMBER_OFFSET "ftrace_event_call" "fields" →
        fields_returned host_both [] call =
          some (uadd call (host_both.MEMBER_OFFSET "ftrace_event_call" "fields"))) := by
  intro h
  have h1 := h 0x1000 (by decide)
  revert h1
  decide

/-- C9, amended: whenever `fields` exists directly on `ftrace_event_call` and
`ftrace_event_call` has no `class` member, every call of `ftrace_get_event_type_fields`
returns `call + offset_of(ftrace_event_call.fields)` (an `ulong` sum). -/
theorem fields_inline (H : Host) (calls : List Nat) (call : Nat)
    (hf : 0 ≤ H.MEMBER_OFFSET "ftrace_event_call" "fields")
    (hc : H.MEMBER_OFFSET "ftrace_event_call" "class" < 0) :
    fields_returned H calls call =
      some (uadd call (H.MEMBER_OFFSET "ftrace_event_call" "fields")) := by
  rw [fields_returned_eq]
  unfold fields_head
  simp [hc, not_lt.mpr hf]

/-- Witness of C9 (amended): an old kernel, second call of the function. -/
theorem fields_inline_witness :
    0 ≤ host_inline.MEMBER_OFFSET "ftrace_event_call" "fields" ∧
    host_inline.MEMBER_OFFSET "ftrace_event_call" "class" < 0 ∧
    fields_returned host_inline [0x3000] 0x1000 =
      some (uadd 0x1000 (host_inline.MEMBER_OFFSET "ftrace_event_call" "fields")) :=
  ⟨by decide, by decide, fields_inline host_inline [0x3000] 0x1000 (by decide) (by decide)⟩

/-- C10: in the class-indirection schema, with the reads of `call.class` and
`class.get_fields` succeeding, every call of `ftrace_get_event_type_fields` returns
`class + offset_of(ftrace_event_class.fields)` when `get_fields` is null; the value read at
`call.data` plus `offset_of(syscall_metadata.enter_fields)` when `get_fields` is the
address of `syscall_get_enter_fields`; when it is the address of
`syscall_get_exit_fields`, the address of the symbol `syscall_exit_fields` if that exists
and otherwise the value read at `call.data` plus `offset_of(syscall_metadata.exit_fields)`;
and `-1` for every other non-null `get_fields`. -/
theorem fields_via_class (H : Host) (calls : List Nat) (call class_ get_fields : Nat)
    (hc : 0 ≤ H.MEMBER_OFFSET "ftrace_event_call" "class")
    (hf : 0 ≤ H.MEMBER_OFFSET "ftrace_event_class" "fields")
    (hrc : H.read (uadd call (H.MEMBER_OFFSET "ftrace_event_call" "class")) = some class_)
    (hrg : H.read (uadd class_ (H.MEMBER_OFFSET "ftrace_event_class" "get_fields")) =
      some get_fields) :
    (get_fields = 0 →
      fields_returned H calls call =
        some (uadd class_ (H.MEMBER_OFFSET "ftrace_event_class" "fields"))) ∧
    (get_fields ≠ 0 → H.symbol_search "syscall_get_enter_fields" = some get_fields →
      0 ≤ H.MEMBER_OFFSET "ftrace_event_call" "data" →
      0 ≤ H.MEMBER_OFFSET "syscall_metadata" "enter_fields" →
      ∀ metadata,
        H.read (uadd call (H.MEMBER_OFFSET "ftrace_event_call" "data")) = some metadata →
        fields_returned H calls call =
          some (uadd metadata (H.MEMBER_OFFSET "syscall_metadata" "enter_fields"))) ∧
    (get_fields ≠ 0 → H.symbol_search "syscall_get_enter_fields" ≠ some get_fields →
      H.symbol_search "syscall_get_exit_fields" = some get_fields →
      (∀ v, H.symbol_search "syscall_exit_fields" = some v →
        fields_returned H calls call = some v) ∧
      (H.symbol_search "syscall_exit_fields" = none →
        0 ≤ H.MEMBER_OFFSET "ftrace_event_call" "data" →
        0 ≤ H.MEMBER_OFFSET "syscall_metadata" "exit_fields" →
        ∀ metadata,
          H.read (uadd call (H.MEMBER_OFFSET "ftrace_event_call" "data")) = some metadata →
          fields_returned H calls call =
            some (uadd metadata (H.MEMBER_OFFSET "syscall_metadata" "exit_fields")))) ∧
    (get_fields ≠ 0 → H.symbol_search "syscall_get_enter_fields" ≠ some get_fields →
      H.symbol_search "syscall_get_exit_fields" ≠ some get_fields →
      fields_returned H calls call = none) := by
  have hne : ∀ (o : Option Nat), get_fields ≠ 0 → o ≠ some get_fields →
      ¬ get_fields = o.getD 0 := by
    intro o h0 h1 h2
    cases o with
    | none => exact h0 h2
    | some v => exact h1 (by rw [h2]; rfl)
  rw [fields_returned_eq]
  unfold fields_head
  simp only [not_lt.mpr hc, not_lt.mpr hf, if_false, hrc, hrg]
  refine ⟨fun h0 => ?_, fun h0 he hd hef metadata hm => ?_, fun h0 he hx => ⟨fun v hv => ?_,
    fun hv hd hxf metadata hm => ?_⟩, fun h0 he hx => ?_⟩
  · simp [h0]
  · simp [h0, he, enter_fields_head, not_lt.mpr hd, not_lt.mpr hef, hm]
  · simp [h0, hne _ h0 he, hx, exit_fields_head, hv]
  · simp [h0, hne _ h0 he, hx, exit_fields_head, hv, exit_fields_old_head, not_lt.mpr hd,
      not_lt.mpr hxf, hm]
  · simp [h0, hne _ h0 he, hne _ h0 hx]

/-- Witness of C10: scenario 4, an event whose getter is `syscall_get_enter_fields`. -/
theorem fields_via_class_witness :
    0 ≤ host_class.MEMBER_OFFSET "ftrace_event_call" "class" ∧
    0 ≤ host_class.MEMBER_OFFSET "ftrace_event_class" "fields" ∧
    host_class.read (uadd 0x1000 (host_class.MEMBER_OFFSET "ftrace_event_call" "class")) =
      some 0x2000 ∧
    host_class.read (uadd 0x2000 (host_class.MEMBER_OFFSET "ftrace_event_class" "get_fields")) =
      some 0xA000 ∧
    fields_returned host_class [0x1000] 0x1000 = some 0x3030 :=
  ⟨by decide, by decide, by decide, by decide,
    (fields_via_class host_class [0x1000] 0x1000 0x2000 0xA000 (by decide) (by decide)
      (by decide) (by decide)).2.1 (by decide) (by decide) (by decide) (by decide) 0x3000
      (by decide)⟩

/-! ## Further concrete runs -/

theorem ring3_classic_run : ftrace_init_pages ring3 buf3 3 = .ok res3 := by decide

theorem ring3_too_few : ftrace_init_pages ring3 buf3 4 = .error .out_fail := by decide

theorem ring3_too_many : ftrace_init_pages ring3 buf3 2 = .error .out_fail := by decide

theorem ring4_too_few : ftrace_init_pages ring4 buf4_live 5 = .error .out_fail := by decide

theorem ring4_too_many : ftrace_init_pages ring4 buf4_live 3 = .error .out_fail := by decide

theorem ring4_empty_alloc :
    ftrace_init_pages ring4 buf4_live 0 = .error .out_of_bounds := by decide

theorem host_class_unknown_getter :
    fields_returned { host_class with symbol_search := fun _ => none } [] 0x1000 = none := by
  decide


/-! ## The archive text buffer -/

theorem obj_bytes_length (S : Sys) (width v : Nat) : (obj_bytes S width v).length = width := by
  unfold obj_bytes
  split <;> simp

theorem obj_le_value (v : Nat) : ∀ (w a : Nat),
    (((List.range w).map (fun i => v / 256 ^ i % 256)).reverse).foldl
      (fun acc x => acc * 256 + x) a = a * 256 ^ w + v % 256 ^ w := by
  intro w
  induction w with
  | zero => intro a; simp [Nat.mod_one]
  | succ w ih =>
    intro a
    rw [List.range_succ, List.map_append, List.reverse_append]
    simp only [List.map_cons, List.map_nil, List.reverse_cons, List.reverse_nil,
      List.nil_append, List.singleton_append, List.foldl_cons]
    rw [ih, Nat.mod_pow_succ]
    ring

theorem obj_value_bytes (S : Sys) (width v : Nat) :
    obj_value S (obj_bytes S width v) = v % 256 ^ width := by
  unfold obj_value obj_bytes
  cases S.big_endian
  · simpa using obj_le_value v width 0
  · simpa using obj_le_value v width 0

theorem write_and_check_full (S : Sys) (hfull : ∀ i c, S.sys_write i c = (c : Int))
    (f : File) (data : List Nat) (size : Nat) (h0 : 0 < size) (h1 : size ≤ data.length)
    (h2 : size < ULONG_MOD) :
    write_and_check S f data size =
      .ok { data := f.data ++ data.take size, calls := f.calls + 1 } := by
  unfold write_and_check write_and_check_loop
  have hc : (size + ULONG_MOD - 0) % ULONG_MOD = size := by
    unfold ULONG_MOD at *; omega
  simp only [hc, hfull, Int.toNat_ofNat]
  have hw : ((size : Int) % (ULONG_MOD : Int)).toNat = size := by
    unfold ULONG_MOD at *; omega
  have ht : (0 + size) % ULONG_MOD = size := by
    unfold ULONG_MOD at *; omega
  simp only [hw, ht]
  simp [Nat.not_lt.mpr h1, Nat.pos_iff_ne_zero.mp h0]

theorem write_and_check_empty (S : Sys) (hfull : ∀ i c, S.sys_write i c = (c : Int))
    (f : File) (data : List Nat) :
    write_and_check S f data 0 = .error .out_fail := by
  unfold write_and_check write_and_check_loop
  have hc : (0 + ULONG_MOD - 0) % ULONG_MOD = 0 := by unfold ULONG_MOD; omega
  simp [hc, hfull]

theorem snprintf_at_fits (buf : List Nat) (pos n : Nat) (text : List Nat)
    (hlen : text.length < n) (hbuf : pos + n ≤ buf.length) :
    (snprintf_at buf pos n text).length = buf.length ∧
    (snprintf_at buf pos n text).take (pos + text.length) = buf.take pos ++ text := by
  unfold snprintf_at
  have hn : ¬ n = 0 := by omega
  have ht : text.take (n - 1) = text := List.take_of_length_le (by omega)
  simp only [hn, if_false, ht]
  constructor
  · simp only [List.length_append, List.length_take, List.length_drop, List.length_cons,
      List.length_nil]
    omega
  · have hl : (buf.take pos).length = pos := by
      rw [List.length_take]; omega
    rw [List.append_assoc, List.append_assoc, ← List.append_assoc (buf.take pos)]
    apply List.take_left'
    simp [hl]

theorem snprintf_at_short (buf : List Nat) (pos n : Nat) (text : List Nat)
    (hbuf : pos + n ≤ buf.length) :
    (snprintf_at buf pos n text).length = buf.length ∧
    (snprintf_at buf pos n text).take pos = buf.take pos := by
  unfold snprintf_at
  split
  · exact ⟨rfl, rfl⟩
  · constructor
    · simp only [List.length_append, List.length_take, List.length_drop, List.length_cons,
        List.length_nil]
      omega
    · have hl : (buf.take pos).length = pos := by
        rw [List.length_take]; omega
      rw [List.append_assoc]
      exact List.take_left' hl

theorem tmp_fprintf_spec (S : Sys) (hre : ∀ n, S.realloc_ok n = true) (T : TmpFile)
    (text : List Nat) (hT : T.Ok) :
    (tmp_fprintf S T text).Ok ∧ (tmp_fprintf S T text).text = T.text ++ text := by
  obtain ⟨he, hb, hp⟩ := hT
  unfold tmp_fprintf
  simp only [he, ne_eq, not_true_eq_false, if_false, hre, if_true]
  by_cases hfit : T.tmp_file_size ≤ T.tmp_file_pos + text.length
  · simp only [hfit, if_true]
    obtain ⟨s1, s2⟩ := snprintf_at_short T.tmp_file_buf T.tmp_file_pos
      (T.tmp_file_size - T.tmp_file_pos) text (by omega)
    generalize hb1 : snprintf_at T.tmp_file_buf T.tmp_file_pos
      (T.tmp_file_size - T.tmp_file_pos) text = buf1 at s1 s2
    have hlen2 : (buf1 ++ List.replicate
        (T.tmp_file_pos + text.length + T.tmp_file_size - buf1.length) 0).length =
        T.tmp_file_pos + text.length + T.tmp_file_size := by
      simp only [List.length_append, List.length_replicate]
      omega
    obtain ⟨r1, r2⟩ := snprintf_at_fits
      (buf1 ++ List.replicate (T.tmp_file_pos + text.length + T.tmp_file_size - buf1.length) 0)
      T.tmp_file_pos (T.tmp_file_pos + text.length + T.tmp_file_size - T.tmp_file_pos) text
      (by omega) (by omega)
    refine ⟨⟨rfl, ?_, ?_⟩, ?_⟩
    · simp only []; rw [r1, hlen2]
    · simp only []; omega
    · simp only [TmpFile.text]
      rw [r2, List.take_append_of_le_length (by omega), s2]
  · simp only [hfit, if_false]
    obtain ⟨r1, r2⟩ := snprintf_at_fits T.tmp_file_buf T.tmp_file_pos
      (T.tmp_file_size - T.tmp_file_pos) text (by omega) (by omega)
    refine ⟨⟨rfl, ?_, ?_⟩, ?_⟩
    · simp only []; rw [r1, hb]
    · simp only []; omega
    · simp only [TmpFile.text]
      exact r2

theorem TmpFile.text_length (T : TmpFile) (hT : T.Ok) : T.text.length = T.tmp_file_pos := by
  obtain ⟨_, hb, hp⟩ := hT
  simp only [TmpFile.text, List.length_take]
  omega

theorem tmp_file_record_size8_full (S : Sys) (hfull : ∀ i c, S.sys_write i c = (c : Int))
    (T : TmpFile) (f : File) (hT : T.Ok) :
    tmp_file_record_size8 S T f =
      .ok { data := f.data ++ obj_bytes S 8 T.tmp_file_pos, calls := f.calls + 1 } := by
  unfold tmp_file_record_size8
  simp only [hT.1, ne_eq, not_true_eq_false, if_false]
  rw [write_and_check_full S hfull f _ 8 (by omega) (by rw [obj_bytes_length])
    (by unfold ULONG_MOD; omega)]
  rw [List.take_of_length_le (by rw [obj_bytes_length])]

theorem tmp_file_record_size4_full (S : Sys) (hfull : ∀ i c, S.sys_write i c = (c : Int))
    (T : TmpFile) (f : File) (hT : T.Ok) :
    tmp_file_record_size4 S T f =
      .ok { data := f.data ++ obj_bytes S 4 (T.tmp_file_pos % 2 ^ 32), calls := f.calls + 1 } := by
  unfold tmp_file_record_size4
  simp only [hT.1, ne_eq, not_true_eq_false, if_false]
  rw [write_and_check_full S hfull f _ 4 (by omega) (by rw [obj_bytes_length])
    (by unfold ULONG_MOD; omega)]
  rw [List.take_of_length_le (by rw [obj_bytes_length])]

theorem tmp_file_flush_full (S : Sys) (hfull : ∀ i c, S.sys_write i c = (c : Int))
    (T : TmpFile) (f : File) (hT : T.Ok) (h0 : 0 < T.tmp_file_pos)
    (h1 : T.tmp_file_pos < ULONG_MOD) :
    tmp_file_flush S T f =
      .ok ({ data := f.data ++ T.text, calls := f.calls + 1 }, { T with tmp_file_pos := 0 }) := by
  unfold tmp_file_flush
  simp only [hT.1, ne_eq, not_true_eq_false, if_false]
  rw [write_and_check_full S hfull f _ _ h0 (by have := hT.2.1; have := hT.2.2; omega) h1]
  rfl

theorem tmp_file_flush_ok (T : TmpFile) (hT : T.Ok) :
    ({ T with tmp_file_pos := 0 } : TmpFile).Ok ∧
    ({ T with tmp_file_pos := 0 } : TmpFile).text = [] := by
  obtain ⟨he, hb, hp⟩ := hT
  refine ⟨⟨he, hb, ?_⟩, ?_⟩
  · show 0 < T.tmp_file_size
    omega
  · simp [TmpFile.text]

theorem block_text_snoc (fs : List ftrace_field) (x : ftrace_field) :
    block_text (fs ++ [x]) = field_line x ++ block_text fs := by
  simp [block_text]

theorem field_at_nat (arr : List ftrace_field) (b i : Nat) :
    field_at arr (b : Int) i = arr[b + i]? := by
  unfold field_at
  have h : (0 : Int) ≤ (b : Int) + (i : Int) := by omega
  have h2 : ((b : Int) + (i : Int)).toNat = b + i := by omega
  simp only [h, if_true, h2]

theorem take_drop_succ (arr : List ftrace_field) (b n : Nat) (x : ftrace_field)
    (hx : arr[b + n]? = some x) :
    (arr.drop b).take (n + 1) = (arr.drop b).take n ++ [x] := by
  rw [List.take_succ, List.getElem?_drop, hx]
  rfl

theorem save_fields_spec (S : Sys) (hre : ∀ n, S.realloc_ok n = true)
    (arr : List ftrace_field) (b : Nat) :
    ∀ (n : Nat) (T : TmpFile), b + n ≤ arr.length → T.Ok →
      ∃ T1, save_fields S arr (b : Int) n T = .ok T1 ∧ T1.Ok ∧
        T1.text = T.text ++ block_text ((arr.drop b).take n) := by
  intro n
  induction n with
  | zero => intro T _ hT; exact ⟨T, rfl, hT, by simp [block_text]⟩
  | succ n ih =>
    intro T hn hT
    have hlt : b + n < arr.length := by omega
    obtain ⟨x, hx⟩ : ∃ x, arr[b + n]? = some x := ⟨arr[b + n], List.getElem?_eq_getElem hlt⟩
    unfold save_fields
    rw [field_at_nat, hx]
    simp only []
    obtain ⟨p1, p2⟩ := tmp_fprintf_spec S hre T (field_line x) hT
    obtain ⟨T1, e1, e2, e3⟩ := ih _ (by omega) p1
    refine ⟨T1, e1, e2, ?_⟩
    rw [e3, p2, take_drop_succ arr b n _ hx, block_text_snoc, List.append_assoc]

theorem dump_fields_spec (arr : List ftrace_field) (b : Nat) :
    ∀ (n : Nat) (out : List Nat), b + n ≤ arr.length →
      dump_fields arr (b : Int) n out = .ok (out ++ block_text ((arr.drop b).take n)) := by
  intro n
  induction n with
  | zero => intro out _; simp [dump_fields, block_text]
  | succ n ih =>
    intro out hn
    have hlt : b + n < arr.length := by omega
    obtain ⟨x, hx⟩ : ∃ x, arr[b + n]? = some x := ⟨arr[b + n], List.getElem?_eq_getElem hlt⟩
    unfold dump_fields
    rw [field_at_nat, hx]
    simp only []
    rw [ih _ (by omega), take_drop_succ arr b n _ hx, block_text_snoc, List.append_assoc]

theorem save_fields_fault (S : Sys) (arr : List ftrace_field) (base : Int) (hb : base < 0) :
    ∀ (n : Nat) (T : TmpFile), 0 < n → save_fields S arr base n T = .error .out_of_bounds := by
  intro n
  induction n with
  | zero => intro T h; omega
  | succ n ih =>
    intro T _
    unfold save_fields
    cases hf : field_at arr base n with
    | none => rfl
    | some x =>
      simp only []
      by_cases hn : n = 0
      · subst hn
        unfold field_at at hf
        simp only [Nat.cast_zero, Int.add_zero] at hf
        split at hf
        · omega
        · simp at hf
      · exact ih _ (by omega)

theorem dump_fields_fault (arr : List ftrace_field) (base : Int) (hb : base < 0) :
    ∀ (n : Nat) (out : List Nat), 0 < n → dump_fields arr base n out = .error .out_of_bounds := by
  intro n
  induction n with
  | zero => intro out h; omega
  | succ n ih =>
    intro out _
    unfold dump_fields
    cases hf : field_at arr base n with
    | none => rfl
    | some x =>
      simp only []
      by_cases hn : n = 0
      · subst hn
        unfold field_at at hf
        simp only [Nat.cast_zero, Int.add_zero] at hf
        split at hf
        · omega
        · simp at hf
      · exact ih _ (by omega)

theorem bytes_nl_id : bytes "\nID: " = bytes "\n" ++ bytes "ID: " := by decide

theorem bytes_nl_format : bytes "\nformat:\n" = bytes "\n" ++ bytes "format:\n" := by decide

theorem drop_take_last (l : List ftrace_field) (k : Nat) (hk : k ≤ l.length) :
    (l.drop (l.length - k)).take k = l.drop (l.length - k) := by
  apply List.take_of_length_le
  simp only [List.length_drop]
  omega

theorem save_event_text_spec (S : Sys) (hre : ∀ n, S.realloc_ok n = true)
    (common : List ftrace_field) (T : TmpFile) (t : event_type) (hT : T.Ok)
    (hshape : common ≠ [] ∨ 5 ≤ t.fields.length) :
    ∃ T7, save_event_text S common T t = .ok T7 ∧ T7.Ok ∧
      T7.text = T.text ++ format_text common t := by
  obtain ⟨a1, b1⟩ := tmp_fprintf_spec S hre T (bytes "name: " ++ t.name ++ bytes "\n") hT
  obtain ⟨a2, b2⟩ := tmp_fprintf_spec S hre _ (bytes "ID: " ++ fmt_d t.id ++ bytes "\n") a1
  obtain ⟨a3, b3⟩ := tmp_fprintf_spec S hre _ (bytes "format:\n") a2
  unfold save_event_text
  by_cases hc : common = []
  · have h5 : 5 ≤ t.fields.length := by
      rcases hshape with h | h
      · exact absurd hc h
      · exact h
    subst hc
    have hbase : t.nfields - default_common_field_count = ((t.fields.length - 5 : Nat) : Int) := by
      unfold event_type.nfields default_common_field_count; omega
    simp only [List.length_nil, Nat.cast_zero, ne_eq, not_true_eq_false, if_false, hbase]
    have h5' : default_common_field_count.toNat = 5 := rfl
    rw [h5']
    obtain ⟨T4, e4, a4, b4⟩ := save_fields_spec S hre t.fields (t.fields.length - 5) 5 _
      (by omega) a3
    rw [e4]
    simp only []
    obtain ⟨a5, b5⟩ := tmp_fprintf_spec S hre T4 (bytes "\n") a4
    obtain ⟨T6, e6, a6, b6⟩ := save_fields_spec S hre t.fields 0 (t.fields.length - 5) _
      (by omega) a5
    simp only [Int.toNat_ofNat]
    have e6' : save_fields S t.fields 0 (t.fields.length - 5)
        (tmp_fprintf S T4 (bytes "\n")) = .ok T6 := e6
    rw [e6']
    simp only []
    obtain ⟨a7, b7⟩ := tmp_fprintf_spec S hre T6
      (bytes "\nprint fmt: " ++ t.print_fmt ++ bytes "\n") a6
    refine ⟨_, rfl, a7, ?_⟩
    rw [b7, b6, b5, b4, b3, b2, b1, drop_take_last _ 5 h5]
    simp only [format_text, common_block, event_block, ne_eq, not_true_eq_false, if_false,
      List.drop_zero, bytes_nl_id, bytes_nl_format, List.append_assoc]
  · have hlen : ¬ ((common.length : Int) = 0) := by
      intro h
      exact hc (List.length_eq_zero.mp (by omega))
    simp only [ne_eq, hlen, not_false_eq_true, if_true, Int.toNat_ofNat]
    obtain ⟨T4, e4, a4, b4⟩ := save_fields_spec S hre common 0 common.length _ (by omega) a3
    have e4' : save_fields S common 0 common.length
        (tmp_fprintf S (tmp_fprintf S (tmp_fprintf S T (bytes "name: " ++ t.name ++ bytes "\n"))
          (bytes "ID: " ++ fmt_d t.id ++ bytes "\n")) (bytes "format:\n")) = .ok T4 := e4
    rw [e4']
    simp only []
    obtain ⟨a5, b5⟩ := tmp_fprintf_spec S hre T4 (bytes "\n") a4
    obtain ⟨T6, e6, a6, b6⟩ := save_fields_spec S hre t.fields 0 t.fields.length _
      (by omega) a5
    have e6' : save_fields S t.fields 0 t.nfields.toNat
        (tmp_fprintf S T4 (bytes "\n")) = .ok T6 := e6
    rw [e6']
    simp only []
    obtain ⟨a7, b7⟩ := tmp_fprintf_spec S hre T6
      (bytes "\nprint fmt: " ++ t.print_fmt ++ bytes "\n") a6
    refine ⟨_, rfl, a7, ?_⟩
    rw [b7, b6, b5, b4, b3, b2, b1]
    simp only [format_text, common_block, event_block, ne_eq, hc, not_false_eq_true, if_true,
      List.drop_zero, List.take_length, bytes_nl_id, bytes_nl_format, List.append_assoc]

theorem save_event_text_fault (S : Sys) (T : TmpFile) (t : event_type)
    (h5 : t.fields.length < 5) :
    save_event_text S [] T t = .error .out_of_bounds := by
  unfold save_event_text
  simp only [List.length_nil, Nat.cast_zero, ne_eq, not_true_eq_false, if_false]
  rw [save_fields_fault S t.fields _ (by unfold event_type.nfields default_common_field_count; omega)
    _ _ (by decide)]

/-! ## The line of a field -/

theorem strchr_none (c : Nat) : ∀ (s : List Nat), strchr s c = none ↔ c ∉ s := by
  intro s
  induction s with
  | nil => simp [strchr]
  | cons x xs ih =>
    unfold strchr
    by_cases hx : x = c
    · simp [hx]
    · simp only [hx, if_false, Option.map_eq_none', ih, List.mem_cons]
      constructor
      · intro h hc
        rcases hc with hc | hc
        · exact hx hc.symm
        · exact h hc
      · intro h hc
        exact h (Or.inr hc)

theorem strchr_some (c : Nat) : ∀ (s : List Nat) (k : Nat), strchr s c = some k →
    s.take k = s.takeWhile (fun x => x ≠ c) ∧ s.drop k = s.dropWhile (fun x => x ≠ c) := by
  intro s
  induction s with
  | nil => intro k h; simp [strchr] at h
  | cons x xs ih =>
    intro k h
    unfold strchr at h
    by_cases hx : x = c
    · simp only [hx, if_true, Option.some.injEq] at h
      subst h
      simp [List.takeWhile_cons, List.dropWhile_cons, hx]
    · simp only [hx, if_false] at h
      cases h1 : strchr xs c with
      | none => simp [h1] at h
      | some j =>
        simp only [h1, Option.map_some', Option.some.injEq] at h
        subst h
        obtain ⟨e1, e2⟩ := ih j h1
        simp [List.takeWhile_cons, List.dropWhile_cons, hx, e1, e2]

theorem strncmp_eq_prefix (a p : List Nat) (hp : ∀ c ∈ p, c ≠ 0) :
    strncmp_eq a p p.length = p.isPrefixOf a := by
  have hpp : (p ++ [0]).take p.length = p := List.take_left' rfl
  have key : (a ++ [0]).take p.length = p ↔ p <+: a := by
    constructor
    · intro h
      have h1 : p <+: a ++ [0] := by
        rw [← h]; exact List.take_prefix _ _
      rcases List.prefix_concat_iff.mp h1 with h2 | h2
      · exact absurd rfl (hp 0 (by rw [h2]; simp))
      · exact h2
    · rintro ⟨r, hr⟩
      rw [← hr, List.append_assoc]
      exact List.take_left' rfl
  unfold strncmp_eq
  rw [hpp]
  by_cases h : p <+: a
  · rw [List.isPrefixOf_iff_prefix.mpr h]
    exact decide_eq_true (key.mpr h)
  · have h2 : p.isPrefixOf a = false := by
      cases hb : p.isPrefixOf a with
      | false => rfl
      | true => exact absurd (List.isPrefixOf_iff_prefix.mp hb) h
    rw [h2]
    exact decide_eq_false (fun hk => h (key.mp hk))

theorem fmt_d_bool (x : Int) :
    fmt_d (if x ≠ 0 then 1 else 0) = if x ≠ 0 then bytes "1" else bytes "0" := by
  split <;> decide

theorem field_line_eq_spec (field : ftrace_field) : field_line field = field_line_spec field := by
  have hp : strncmp_eq field.type (bytes "__data_loc") 10 =
      (bytes "__data_loc").isPrefixOf field.type :=
    strncmp_eq_prefix field.type (bytes "__data_loc") (by decide)
  unfold field_line field_line_spec
  rw [hp, fmt_d_bool]
  cases hpre : (bytes "__data_loc").isPrefixOf field.type with
  | true => simp [List.append_assoc]
  | false =>
    cases hs : strchr field.type 91 with
    | none =>
      have := (strchr_none 91 field.type).mp hs
      simp [this, List.append_assoc]
    | some k =>
      have hm : 91 ∈ field.type := by
        by_contra hc
        rw [(strchr_none 91 field.type).mpr hc] at hs
        exact absurd hs (by simp)
      obtain ⟨e1, e2⟩ := strchr_some 91 field.type k hs
      simp [hm, e1, e2, List.append_assoc]

/-! ## The format of an event in the tree and in the archive -/

theorem write_and_check_loop_ok (S : Sys) (data : List Nat) (size : Nat) :
    ∀ (fuel tot : Nat) (f f1 : File),
      write_and_check_loop S data size fuel tot f = .ok f1 → size < ULONG_MOD := by
  intro fuel
  induction fuel with
  | zero => intro tot f f1 h; simp [write_and_check_loop] at h
  | succ fuel ih =>
    intro tot f f1 h
    unfold write_and_check_loop at h
    simp only [] at h
    split at h
    · simp at h
    · split at h
      · simp at h
      · split at h
        · exact ih _ _ _ h
        · rename_i hne
          have heq := not_not.mp hne
          rw [← heq]
          exact Nat.mod_lt _ (by unfold ULONG_MOD; omega)

theorem write_and_check_ok_bounds (S : Sys) (hfull : ∀ i c, S.sys_write i c = (c : Int))
    (f f1 : File) (data : List Nat) (size : Nat) (h : write_and_check S f data size = .ok f1) :
    0 < size ∧ size < ULONG_MOD := by
  refine ⟨?_, write_and_check_loop_ok S data size _ _ _ _ h⟩
  by_contra h0
  have hz : size = 0 := by omega
  subst hz
  rw [write_and_check_empty S hfull] at h
  simp at h

theorem format_text_pos (common : List ftrace_field) (t : event_type) :
    0 < (format_text common t).length := by
  unfold format_text
  simp only [List.length_append]
  have : (bytes "name: ").length = 6 := by decide
  omega

theorem save_event_file_spec (S : Sys) (hfull : ∀ i c, S.sys_write i c = (c : Int))
    (hre : ∀ n, S.realloc_ok n = true) (common : List ftrace_field) (f : File) (T : TmpFile)
    (t : event_type) (hT : T.Ok) (hpos : T.tmp_file_pos = 0) (hform : Formattable common t) :
    ∃ T1, save_event_file S common f T t =
        .ok ({ data := f.data ++ format_record S common t, calls := f.calls + 2 }, T1) ∧
      T1.Ok ∧ T1.tmp_file_pos = 0 := by
  obtain ⟨T7, e7, a7, b7⟩ := save_event_text_spec S hre common T t hT hform.1
  have htext : T.text = [] := by simp [TmpFile.text, hpos]
  rw [htext, List.nil_append] at b7
  have hlen : T7.tmp_file_pos = (format_text common t).length := by
    rw [← b7, TmpFile.text_length T7 a7]
  unfold save_event_file
  rw [e7]
  simp only []
  rw [tmp_file_record_size8_full S hfull T7 f a7]
  simp only []
  rw [tmp_file_flush_full S hfull T7 _ a7 (by rw [hlen]; exact format_text_pos common t)
    (by rw [hlen]; exact hform.2)]
  refine ⟨_, ?_, (tmp_file_flush_ok T7 a7).1, rfl⟩
  simp only [format_record, b7, hlen, List.append_assoc]

theorem save_event_file_ok (S : Sys) (hfull : ∀ i c, S.sys_write i c = (c : Int))
    (hre : ∀ n, S.realloc_ok n = true) (common : List ftrace_field) (f : File) (T : TmpFile)
    (t : event_type) (hT : T.Ok) (hpos : T.tmp_file_pos = 0) (r : File × TmpFile)
    (hok : save_event_file S common f T t = .ok r) : Formattable common t := by
  have hshape : common ≠ [] ∨ 5 ≤ t.fields.length := by
    by_contra hn
    have hc : common = [] := by
      by_contra hc; exact hn (Or.inl hc)
    have h5 : t.fields.length < 5 := by
      by_contra h5; exact hn (Or.inr (by omega))
    subst hc
    unfold save_event_file at hok
    rw [save_event_text_fault S T t h5] at hok
    simp at hok
  refine ⟨hshape, ?_⟩
  obtain ⟨T7, e7, a7, b7⟩ := save_event_text_spec S hre common T t hT hshape
  have htext : T.text = [] := by simp [TmpFile.text, hpos]
  rw [htext, List.nil_append] at b7
  have hlen : T7.tmp_file_pos = (format_text common t).length := by
    rw [← b7, TmpFile.text_length T7 a7]
  unfold save_event_file at hok
  rw [e7] at hok
  simp only [] at hok
  rw [tmp_file_record_size8_full S hfull T7 f a7] at hok
  simp only [] at hok
  unfold tmp_file_flush at hok
  simp only [a7.1, ne_eq, not_true_eq_false, if_false] at hok
  cases hw : write_and_check S (File.mk (f.data ++ obj_bytes S 8 T7.tmp_file_pos)
      (f.calls + 1)) T7.tmp_file_buf T7.tmp_file_pos with
  | error e => rw [hw] at hok; simp at hok
  | ok f2 =>
    rw [← hlen]
    exact (write_and_check_ok_bounds S hfull _ _ _ _ hw).2

theorem ftrace_dump_event_type_spec (common : List ftrace_field) (t : event_type)
    (hshape : common ≠ [] ∨ 5 ≤ t.fields.length) :
    ftrace_dump_event_type common true t = .ok (format_text common t) := by
  unfold ftrace_dump_event_type
  simp only [not_true_eq_false, if_false]
  by_cases hc : common = []
  · have h5 : 5 ≤ t.fields.length := by
      rcases hshape with h | h
      · exact absurd hc h
      · exact h
    subst hc
    have hbase : t.nfields - default_common_field_count = ((t.fields.length - 5 : Nat) : Int) := by
      unfold event_type.nfields default_common_field_count; omega
    simp only [List.length_nil, Nat.cast_zero, ne_eq, not_true_eq_false, if_false, hbase]
    have h5' : default_common_field_count.toNat = 5 := rfl
    rw [h5', dump_fields_spec t.fields (t.fields.length - 5) 5 _ (by omega)]
    simp only [Int.toNat_ofNat]
    have e6 := dump_fields_spec t.fields 0 (t.fields.length - 5)
      (bytes "name: " ++ t.name ++ bytes "\n" ++ (bytes "ID: " ++ fmt_d t.id ++ bytes "\n") ++
        bytes "format:\n" ++ block_text ((t.fields.drop (t.fields.length - 5)).take 5) ++
        bytes "\n") (by omega)
    simp only [Nat.cast_zero] at e6
    rw [e6, drop_take_last _ 5 h5]
    simp only [format_text, common_block, event_block, ne_eq, not_true_eq_false, if_false,
      List.drop_zero, bytes_nl_id, bytes_nl_format, List.append_assoc]
  · have hlen : ¬ ((common.length : Int) = 0) := by
      intro h
      exact hc (List.length_eq_zero.mp (by omega))
    simp only [ne_eq, hlen, not_false_eq_true, if_true, Int.toNat_ofNat]
    have e4 := dump_fields_spec common 0 common.length
      (bytes "name: " ++ t.name ++ bytes "\n" ++ (bytes "ID: " ++ fmt_d t.id ++ bytes "\n") ++
        bytes "format:\n") (by omega)
    simp only [Nat.cast_zero] at e4
    rw [e4]
    simp only []
    have e6 := dump_fields_spec t.fields 0 t.fields.length
      (bytes "name: " ++ t.name ++ bytes "\n" ++ (bytes "ID: " ++ fmt_d t.id ++ bytes "\n") ++
        bytes "format:\n" ++ block_text ((common.drop 0).take common.length) ++
        bytes "\n") (by omega)
    simp only [Nat.cast_zero] at e6
    have e6' : dump_fields t.fields 0 t.nfields.toNat
      (bytes "name: " ++ t.name ++ bytes "\n" ++ (bytes "ID: " ++ fmt_d t.id ++ bytes "\n") ++
        bytes "format:\n" ++ block_text ((common.drop 0).take common.length) ++
        bytes "\n") = _ := e6
    rw [e6']
    simp only [format_text, common_block, event_block, ne_eq, hc, not_false_eq_true, if_true,
      List.drop_zero, List.take_length, bytes_nl_id, bytes_nl_format, List.append_assoc]

theorem ftrace_dump_event_type_fault (t : event_type) (fopen_ok : Bool)
    (h5 : t.fields.length < 5) (r : List Nat) :
    ftrace_dump_event_type [] fopen_ok t ≠ .ok r := by
  unfold ftrace_dump_event_type
  cases fopen_ok
  · simp
  · simp only [not_true_eq_false, if_false, List.length_nil, Nat.cast_zero, ne_eq]
    rw [dump_fields_fault t.fields _
      (by unfold event_type.nfields default_common_field_count; omega) _ _ (by decide)]
    simp

/-- C12: when `save_event_file` returns 0, the format text it sends to the archive is
`name: <name>\nID: <id>\nformat:\n`, the common-field lines, one empty line, the
event-specific field lines and `\nprint fmt: <print_fmt>\n`; within each block the lines
are in reverse storage order, so the first line of a block is that of its last stored
field. -/
theorem format_text_layout (S : Sys) (hfull : ∀ i c, S.sys_write i c = (c : Int))
    (hre : ∀ n, S.realloc_ok n = true) (common : List ftrace_field) (f : File) (T : TmpFile)
    (t : event_type) (hT : T.Ok) (hpos : T.tmp_file_pos = 0) (f1 : File) (T1 : TmpFile)
    (hok : save_event_file S common f T t = .ok (f1, T1)) :
    (∃ text, f1.data = f.data ++ obj_bytes S 8 text.length ++ text ∧
      text = bytes "name: " ++ t.name ++ bytes "\nID: " ++ fmt_d t.id ++ bytes "\nformat:\n" ++
        ((common_block common t).reverse.map field_line).flatten ++ bytes "\n" ++
        ((event_block common t).reverse.map field_line).flatten ++
        bytes "\nprint fmt: " ++ t.print_fmt ++ bytes "\n") ∧
    (∀ (fs : List ftrace_field) (x : ftrace_field),
      ((fs ++ [x]).reverse.map field_line).flatten =
        field_line x ++ (fs.reverse.map field_line).flatten) := by
  have hform := save_event_file_ok S hfull hre common f T t hT hpos _ hok
  obtain ⟨T2, e, _, _⟩ := save_event_file_spec S hfull hre common f T t hT hpos hform
  rw [e] at hok
  injection hok with hok
  injection hok with h1 h2
  refine ⟨⟨format_text common t, ?_, rfl⟩, fun fs x => block_text_snoc fs x⟩
  rw [← h1]
  simp only [format_record, List.append_assoc]

theorem init_tmp_file_ok : init_tmp_file.Ok :=
  ⟨rfl, List.length_replicate 4096 0, by decide⟩

set_option maxRecDepth 20000 in
theorem ev_old_formattable : Formattable [] ev_old := by decide

/-- Witness of C12: an event of an old kernel, written to an empty archive. -/
theorem format_text_layout_witness :
    ∃ f1 T1, save_event_file sys_le [] ⟨[], 0⟩ init_tmp_file ev_old = .ok (f1, T1) ∧
    ((∃ text, f1.data = (File.mk [] 0).data ++ obj_bytes sys_le 8 text.length ++ text ∧
      text = bytes "name: " ++ ev_old.name ++ bytes "\nID: " ++ fmt_d ev_old.id ++
        bytes "\nformat:\n" ++
        ((common_block [] ev_old).reverse.map field_line).flatten ++ bytes "\n" ++
        ((event_block [] ev_old).reverse.map field_line).flatten ++
        bytes "\nprint fmt: " ++ ev_old.print_fmt ++ bytes "\n") ∧
    (∀ (fs : List ftrace_field) (x : ftrace_field),
      ((fs ++ [x]).reverse.map field_line).flatten =
        field_line x ++ (fs.reverse.map field_line).flatten)) := by
  obtain ⟨T1, e, _, _⟩ := save_event_file_spec sys_le (fun _ _ => rfl) (fun _ => rfl) []
    ⟨[], 0⟩ init_tmp_file ev_old init_tmp_file_ok rfl ev_old_formattable
  exact ⟨_, T1, e, format_text_layout sys_le (fun _ _ => rfl) (fun _ => rfl) [] ⟨[], 0⟩
    init_tmp_file ev_old init_tmp_file_ok rfl _ T1 e⟩

/-- C13: the line printed for a field is `\tfield:<T> <N>;\toffset:<o>;\tsize:<s>;\tsigned:<b>;\n`
with `b = 1` iff `is_signed != 0`; if the type contains `[` and does not begin with
`__data_loc`, `T` is the type before its first `[` and `N` the name followed by the rest of
the type; otherwise `T` is the whole type and `N` the name. -/
theorem field_line_format (field : ftrace_field) :
    field_line field =
      bytes "\tfield:" ++
      (if decide (91 ∈ field.type) && !(bytes "__data_loc").isPrefixOf field.type
        then field.type.takeWhile (fun c => c ≠ 91) else field.type) ++
      bytes " " ++
      (if decide (91 ∈ field.type) && !(bytes "__data_loc").isPrefixOf field.type
        then field.name ++ field.type.dropWhile (fun c => c ≠ 91) else field.name) ++
      bytes ";\toffset:" ++ fmt_u field.offset ++ bytes ";\tsize:" ++ fmt_u field.size ++
      bytes ";\tsigned:" ++ (if field.is_signed ≠ 0 then bytes "1" else bytes "0") ++
      bytes ";\n" :=
  field_line_eq_spec field

/-- Witness of C13: a type `__data_loc char[]` is printed whole in the type column, a type
`char[16]` is split. -/
theorem field_line_format_witness :
    field_line (mk_field "__data_loc char[]" "msg" 28 4 (-1)) =
      bytes "\tfield:__data_loc char[] msg;\toffset:28;\tsize:4;\tsigned:1;\n" ∧
    field_line (mk_field "char[16]" "comm" 12 16 0) =
      bytes "\tfield:char comm[16];\toffset:12;\tsize:16;\tsigned:0;\n" :=
  ⟨(field_line_format _).trans (by decide), (field_line_format _).trans (by decide)⟩

theorem last_five_blocks (t : event_type) (h5 : 5 ≤ t.fields.length) :
    common_block [] t = t.fields.drop (t.fields.length - 5) ∧
    event_block [] t = t.fields.take (t.fields.length - 5) ∧
    (common_block [] t).length = 5 ∧
    event_block [] t ++ common_block [] t = t.fields := by
  refine ⟨by simp [common_block], by simp [event_block], ?_, ?_⟩
  · simp only [common_block, ne_eq, not_true_eq_false, if_false, List.length_drop]
    omega
  · simp [common_block, event_block]

/-- C14 fails on the code for an event with fewer than five fields: with no common-fields
table, `save_event_file` and `ftrace_dump_event_type` read `fields[nfields - 5 + i]` at
negative indices; here for an event without fields. -/
theorem last_five_out_of_bounds :
    ev_bare.fields.length = 0 ∧
    field_at ev_bare.fields (ev_bare.nfields - default_common_field_count) 4 = none ∧
    save_event_file sys_le [] ⟨[], 0⟩ init_tmp_file ev_bare = .error .out_of_bounds ∧
    ftrace_dump_event_type [] true ev_bare = .error .out_of_bounds := by
  refine ⟨rfl, by decide, ?_, by decide⟩
  unfold save_event_file
  rw [save_event_text_fault sys_le init_tmp_file ev_bare (by decide)]

/-- C15: for every event type and every common-fields table, the text
`ftrace_dump_event_type` prints to the `format` file is the payload `save_event_file`
appends to the archive after its 8-byte length prefix. -/
theorem format_file_eq_archive_payload (S : Sys) (hfull : ∀ i c, S.sys_write i c = (c : Int))
    (hre : ∀ n, S.realloc_ok n = true) (common : List ftrace_field) (f : File) (T : TmpFile)
    (t : event_type) (hT : T.Ok) (hpos : T.tmp_file_pos = 0) (fopen_ok : Bool) (f1 : File)
    (T1 : TmpFile) (out : List Nat)
    (hsave : save_event_file S common f T t = .ok (f1, T1))
    (hdump : ftrace_dump_event_type common fopen_ok t = .ok out) :
    f1.data = f.data ++ obj_bytes S 8 out.length ++ out := by
  have hform := save_event_file_ok S hfull hre common f T t hT hpos _ hsave
  obtain ⟨T2, e, _, _⟩ := save_event_file_spec S hfull hre common f T t hT hpos hform
  rw [e] at hsave
  injection hsave with hsave
  injection hsave with h1 h2
  have hopen : fopen_ok = true := by
    cases fopen_ok
    · simp [ftrace_dump_event_type] at hdump
    · rfl
  subst hopen
  rw [ftrace_dump_event_type_spec common t hform.1] at hdump
  injection hdump with hdump
  rw [← h1, ← hdump]
  simp only [format_record, List.append_assoc]

/-- Witness of C15: an event of an old kernel. -/
theorem format_file_eq_archive_payload_witness :
    ∃ f1 T1 out, save_event_file sys_le [] ⟨[], 0⟩ init_tmp_file ev_old = .ok (f1, T1) ∧
      ftrace_dump_event_type [] true ev_old = .ok out ∧
      f1.data = (File.mk [] 0).data ++ obj_bytes sys_le 8 out.length ++ out := by
  obtain ⟨T1, e, _, _⟩ := save_event_file_spec sys_le (fun _ _ => rfl) (fun _ => rfl) []
    ⟨[], 0⟩ init_tmp_file ev_old init_tmp_file_ok rfl ev_old_formattable
  have hd := ftrace_dump_event_type_spec [] ev_old ev_old_formattable.1
  exact ⟨_, T1, _, e, hd, format_file_eq_archive_payload sys_le (fun _ _ => rfl)
    (fun _ => rfl) [] ⟨[], 0⟩ init_tmp_file ev_old init_tmp_file_ok rfl true _ T1 _ e hd⟩

/-! ## The start of the archive and the length prefixes -/

theorem host_bigendian_eq (S : Sys) : host_bigendian S = S.big_endian := by
  unfold host_bigendian obj_value
  cases S.big_endian <;> decide

/-- C16 as stated fails on the code: on a big-endian host the page size 4096 is written as
`00 00 10 00`, in host byte order, not little-endian. -/
theorem initial_data_counterexample :
    ¬ (∀ f1, save_initial_data sys_be ⟨[], 0⟩ = .ok f1 → f1.data = initial_data_le sys_be) := by
  intro h
  have h1 := h ⟨[23, 8, 68, 116, 114, 97, 99, 105, 110, 103, 54, 0, 1, 8, 0, 0, 16, 0], 5⟩
    (by decide)
  revert h1
  decide

/-- C16, amended: when every `write` is complete, `save_initial_data` appends exactly 18
bytes: `0x17 0x08 0x44 tracing`, then `6` and a NUL, then one byte that is 1 on a
big-endian host and 0 otherwise, then one byte equal to `sizeof(long)`, then the page size
as a 4-byte unsigned integer in host byte order (little-endian on a little-endian host). -/
theorem initial_data (S : Sys) (hfull : ∀ i c, S.sys_write i c = (c : Int)) (f : File) :
    save_initial_data S f =
      .ok { data := f.data ++ ([0x17, 0x08, 0x44] ++ bytes "tracing" ++ bytes "6" ++ [0] ++
              [if S.big_endian then 1 else 0] ++ [S.sizeof_long % 256] ++
              obj_bytes S 4 (S.PAGESIZE % 2 ^ 32).toNat)
            calls := f.calls + 5 } ∧
    ([0x17, 0x08, 0x44] ++ bytes "tracing" ++ bytes "6" ++ [0] ++
      [if S.big_endian then 1 else 0] ++ [S.sizeof_long % 256] ++
      obj_bytes S 4 (S.PAGESIZE % 2 ^ 32).toNat).length = 18 ∧
    (S.big_endian = false →
      obj_bytes S 4 (S.PAGESIZE % 2 ^ 32).toNat = le_bytes 4 (S.PAGESIZE % 2 ^ 32).toNat) := by
  refine ⟨?_, ?_, ?_⟩
  · unfold save_initial_data
    rw [write_and_check_full S hfull f _ 10 (by decide) (by decide) (by decide)]
    simp only []
    rw [write_and_check_full S hfull _ _ _ (by decide) (by decide) (by decide)]
    simp only []
    rw [write_and_check_full S hfull _ _ 1 (by decide) (by simp) (by decide)]
    simp only []
    rw [write_and_check_full S hfull _ _ 1 (by decide) (by simp) (by decide)]
    simp only []
    rw [write_and_check_full S hfull _ _ 4 (by decide) (by rw [obj_bytes_length])
      (by decide)]
    have e3 : (obj_bytes S 4 (S.PAGESIZE % 2 ^ 32).toNat).take 4 =
        obj_bytes S 4 (S.PAGESIZE % 2 ^ 32).toNat :=
      List.take_of_length_le (by rw [obj_bytes_length])
    rw [e3, host_bigendian_eq]
    have e1 : ([0x17, 0x08, 0x44] ++ bytes "tracing" ++ [0]).take 10 =
        [0x17, 0x08, 0x44] ++ bytes "tracing" := by decide
    have e2 : (bytes "6" ++ [0]).take ((bytes "6").length + 1) = bytes "6" ++ [0] := by decide
    rw [e1, e2]
    simp [List.append_assoc]
  · have l1 : (bytes "tracing").length = 7 := by decide
    have l2 : (bytes "6").length = 1 := by decide
    simp only [List.length_append, obj_bytes_length, l1, l2, List.length_cons,
      List.length_nil]
  · intro hle
    simp [obj_bytes, le_bytes, hle]

/-- Witness of C16 (amended): a little-endian host with 8-byte `long` and 4096-byte
pages. -/
theorem initial_data_witness :
    (∀ i c, sys_le.sys_write i c = (c : Int)) ∧
    (save_initial_data sys_le ⟨[], 0⟩).toOption.map (fun f1 => f1.data) =
      some [0x17, 0x08, 0x44, 0x74, 0x72, 0x61, 0x63, 0x69, 0x6e, 0x67, 0x36, 0, 0, 8,
        0, 16, 0, 0] :=
  ⟨fun _ _ => rfl, by
    rw [(initial_data sys_le (fun _ _ => rfl) ⟨[], 0⟩).1]
    decide⟩

theorem write_and_check_ok_full (S : Sys) (hfull : ∀ i c, S.sys_write i c = (c : Int))
    (f f1 : File) (data : List Nat) (size : Nat) (h : write_and_check S f data size = .ok f1) :
    0 < size ∧ size < ULONG_MOD ∧ size ≤ data.length ∧
    f1 = { data := f.data ++ data.take size, calls := f.calls + 1 } := by
  obtain ⟨h0, h1⟩ := write_and_check_ok_bounds S hfull f f1 data size h
  have h2 : size ≤ data.length := by
    by_contra hc
    unfold write_and_check write_and_check_loop at h
    have hcnt : (size + ULONG_MOD - 0) % ULONG_MOD = size := by
      unfold ULONG_MOD at *; omega
    simp only [hcnt, hfull, Int.toNat_ofNat] at h
    have hlt : data.length < size := by omega
    simp [hlt] at h
  refine ⟨h0, h1, h2, ?_⟩
  rw [write_and_check_full S hfull f data size h0 h2 h1] at h
  injection h with h
  exact h.symm

theorem tmp_file_record_size_error (S : Sys) (T : TmpFile) (f f1 : File)
    (h : tmp_file_record_size8 S T f = .ok f1 ∨ tmp_file_record_size4 S T f = .ok f1) :
    T.tmp_file_error = 0 := by
  by_contra he
  rcases h with h | h
  · simp [tmp_file_record_size8, he] at h
  · simp [tmp_file_record_size4, he] at h

theorem tmp_file_flush_ok_full (S : Sys) (hfull : ∀ i c, S.sys_write i c = (c : Int))
    (T T2 : TmpFile) (f f2 : File) (h : tmp_file_flush S T f = .ok (f2, T2)) :
    0 < T.tmp_file_pos ∧ T.tmp_file_pos < ULONG_MOD ∧ T.text.length = T.tmp_file_pos ∧
    f2.data = f.data ++ T.text ∧ T2.tmp_file_pos = 0 ∧ T2.text = [] := by
  unfold tmp_file_flush at h
  split at h
  · simp at h
  · cases hw : write_and_check S f T.tmp_file_buf T.tmp_file_pos with
    | error e => rw [hw] at h; simp at h
    | ok f3 =>
      rw [hw] at h
      simp only [Except.ok.injEq, Prod.mk.injEq] at h
      obtain ⟨h1, h2⟩ := h
      obtain ⟨b0, b1, b2, b3⟩ := write_and_check_ok_full S hfull f f3 _ _ hw
      refine ⟨b0, b1, ?_, ?_, ?_, ?_⟩
      · simp only [TmpFile.text, List.length_take]; omega
      · rw [← h1, b3]; rfl
      · rw [← h2]
      · rw [← h2]; simp [TmpFile.text]

/-- C17 as stated fails on the code for a 4-byte prefix: `tmp_file_record_size4` writes
the `unsigned int` copy of `tmp_file_pos`, so for a text of `2 ^ 32` bytes the prefix is 0
while `2 ^ 32` payload bytes follow. -/
theorem section_length_counterexample :
    ¬ (∀ f1 f2 T2, tmp_file_record_size4 sys_le tmp_huge ⟨[], 0⟩ = .ok f1 →
        tmp_file_flush sys_le tmp_huge f1 = .ok (f2, T2) →
        obj_value sys_le (f2.data.take 4) = (f2.data.drop 4).length) := by
  intro h
  have hok : tmp_huge.Ok := ⟨rfl, List.length_replicate _ _, by decide⟩
  have hfull : ∀ i c, sys_le.sys_write i c = (c : Int) := fun _ _ => rfl
  have e1 := tmp_file_record_size4_full sys_le hfull tmp_huge ⟨[], 0⟩ hok
  have e2 := tmp_file_flush_full sys_le hfull tmp_huge
    ⟨[] ++ obj_bytes sys_le 4 (tmp_huge.tmp_file_pos % 2 ^ 32), 0 + 1⟩ hok (by decide)
    (by decide)
  have h3 := h _ _ _ e1 e2
  simp only [List.nil_append] at h3
  rw [List.take_left' (obj_bytes_length _ _ _), List.drop_left' (obj_bytes_length _ _ _),
    obj_value_bytes, TmpFile.text_length _ hok] at h3
  revert h3
  decide

/-- C17, amended: when every `write` is complete and a section's length prefix and flush
both return 0, the file receives the prefix followed by exactly the text of the buffer,
and the buffer is empty afterwards; an 8-byte prefix holds the number of payload bytes, a
4-byte prefix holds that number modulo `2 ^ 32`, hence the number itself for a payload
shorter than `2 ^ 32` bytes. -/
theorem section_length (S : Sys) (hfull : ∀ i c, S.sys_write i c = (c : Int)) (T : TmpFile)
    (f : File) :
    (∀ f1 f2 T2, tmp_file_record_size8 S T f = .ok f1 →
      tmp_file_flush S T f1 = .ok (f2, T2) →
      ∃ pre, pre.length = 8 ∧ f2.data = f.data ++ pre ++ T.text ∧
        obj_value S pre = T.text.length ∧ T2.tmp_file_pos = 0 ∧ T2.text = []) ∧
    (∀ f1 f2 T2, tmp_file_record_size4 S T f = .ok f1 →
      tmp_file_flush S T f1 = .ok (f2, T2) →
      ∃ pre, pre.length = 4 ∧ f2.data = f.data ++ pre ++ T.text ∧
        obj_value S pre = T.text.length % 2 ^ 32 ∧
        (T.text.length < 2 ^ 32 → obj_value S pre = T.text.length) ∧
        T2.tmp_file_pos = 0 ∧ T2.text = []) := by
  constructor
  · intro f1 f2 T2 h1 h2
    obtain ⟨b0, b1, b2, b3, b4, b5⟩ := tmp_file_flush_ok_full S hfull T T2 f1 f2 h2
    unfold tmp_file_record_size8 at h1
    simp only [tmp_file_record_size_error S T f f1 (Or.inl h1), ne_eq, not_true_eq_false,
      if_false] at h1
    obtain ⟨_, _, _, c3⟩ := write_and_check_ok_full S hfull f f1 _ _ h1
    rw [List.take_of_length_le (by rw [obj_bytes_length])] at c3
    refine ⟨obj_bytes S 8 T.tmp_file_pos, obj_bytes_length _ _ _, ?_, ?_, b4, b5⟩
    · rw [b3, c3]
    · rw [obj_value_bytes, b2]
      apply Nat.mod_eq_of_lt
      unfold ULONG_MOD at b1
      omega
  · intro f1 f2 T2 h1 h2
    obtain ⟨b0, b1, b2, b3, b4, b5⟩ := tmp_file_flush_ok_full S hfull T T2 f1 f2 h2
    unfold tmp_file_record_size4 at h1
    simp only [tmp_file_record_size_error S T f f1 (Or.inr h1), ne_eq, not_true_eq_false,
      if_false] at h1
    obtain ⟨_, _, _, c3⟩ := write_and_check_ok_full S hfull f f1 _ _ h1
    rw [List.take_of_length_le (by rw [obj_bytes_length])] at c3
    have hv : obj_value S (obj_bytes S 4 (T.tmp_file_pos % 2 ^ 32)) =
        T.text.length % 2 ^ 32 := by
      rw [obj_value_bytes, b2]
      omega
    refine ⟨obj_bytes S 4 (T.tmp_file_pos % 2 ^ 32), obj_bytes_length _ _ _, ?_, hv, ?_, b4, b5⟩
    · rw [b3, c3]
    · intro hlt
      rw [hv]
      exact Nat.mod_eq_of_lt hlt

theorem tmp_abc_ok : tmp_abc.Ok ∧ tmp_abc.text = bytes "abc" := by
  obtain ⟨h1, h2⟩ := tmp_fprintf_spec sys_le (fun _ => rfl) init_tmp_file (bytes "abc")
    init_tmp_file_ok
  refine ⟨h1, ?_⟩
  have h0 : init_tmp_file.text = [] := rfl
  rw [tmp_abc, h2, h0, List.nil_append]

/-- Witness of C17 (amended): a buffer holding `abc`, with an 8-byte and with a 4-byte
prefix. -/
theorem section_length_witness :
    (∀ i c, sys_le.sys_write i c = (c : Int)) ∧
    (∃ f1 f2 T2, tmp_file_record_size8 sys_le tmp_abc ⟨[], 0⟩ = .ok f1 ∧
      tmp_file_flush sys_le tmp_abc f1 = .ok (f2, T2) ∧
      ∃ pre, pre.length = 8 ∧ f2.data = (File.mk [] 0).data ++ pre ++ tmp_abc.text ∧
        obj_value sys_le pre = tmp_abc.text.length ∧ T2.tmp_file_pos = 0 ∧ T2.text = []) ∧
    (∃ f1 f2 T2, tmp_file_record_size4 sys_le tmp_abc ⟨[], 0⟩ = .ok f1 ∧
      tmp_file_flush sys_le tmp_abc f1 = .ok (f2, T2) ∧
      ∃ pre, pre.length = 4 ∧ f2.data = (File.mk [] 0).data ++ pre ++ tmp_abc.text ∧
        obj_value sys_le pre = tmp_abc.text.length % 2 ^ 32 ∧
        (tmp_abc.text.length < 2 ^ 32 → obj_value sys_le pre = tmp_abc.text.length) ∧
        T2.tmp_file_pos = 0 ∧ T2.text = []) := by
  have hfull : ∀ i c, sys_le.sys_write i c = (c : Int) := fun _ _ => rfl
  have hok := tmp_abc_ok.1
  have hpos : tmp_abc.tmp_file_pos = 3 := by
    rw [← TmpFile.text_length _ hok, tmp_abc_ok.2]; rfl
  have e8 := tmp_file_record_size8_full sys_le hfull tmp_abc ⟨[], 0⟩ hok
  have e4 := tmp_file_record_size4_full sys_le hfull tmp_abc ⟨[], 0⟩ hok
  have g8 := tmp_file_flush_full sys_le hfull tmp_abc
    ⟨[] ++ obj_bytes sys_le 8 tmp_abc.tmp_file_pos, 0 + 1⟩ hok (by omega)
    (by unfold ULONG_MOD; omega)
  have g4 := tmp_file_flush_full sys_le hfull tmp_abc
    ⟨[] ++ obj_bytes sys_le 4 (tmp_abc.tmp_file_pos % 2 ^ 32), 0 + 1⟩ hok (by omega)
    (by unfold ULONG_MOD; omega)
  exact ⟨hfull, ⟨_, _, _, e8, g8, (section_length sys_le hfull tmp_abc ⟨[], 0⟩).1 _ _ _ e8 g8⟩,
    ⟨_, _, _, e4, g4, (section_length sys_le hfull tmp_abc ⟨[], 0⟩).2 _ _ _ e4 g4⟩⟩

/-! ## The bprintk format table -/

theorem print_chars_spec (S : Sys) (hre : ∀ n, S.realloc_ok n = true) :
    ∀ (s : List Nat) (T : TmpFile), (∀ c ∈ s, c ≠ 0) → T.Ok →
      (print_chars S s T).Ok ∧ (print_chars S s T).text = T.text ++ escape s := by
  intro s
  induction s with
  | nil => intro T _ hT; exact ⟨hT, by simp [print_chars, escape]⟩
  | cons c cs ih =>
    intro T hs hT
    have hc : ¬ c = 0 := hs c (by simp)
    unfold print_chars
    simp only [hc, if_false]
    obtain ⟨a1, b1⟩ := tmp_fprintf_spec S hre T (escape_char c) hT
    obtain ⟨a2, b2⟩ := ih _ (fun x hx => hs x (by simp [hx])) a1
    refine ⟨a2, ?_⟩
    rw [b2, b1]
    simp [escape, List.append_assoc]

theorem takeWhile_nonzero (s : List Nat) (hs : ∀ c ∈ s, c ≠ 0) :
    s.takeWhile (fun c => decide (c ≠ 0)) = s := by
  rw [List.takeWhile_eq_self_iff]
  intro c hc
  simpa using hs c hc

theorem add_print_address_spec (S : Sys) (hre : ∀ n, S.realloc_ok n = true)
    (read_string : Nat → Nat → List Nat) (T : TmpFile) (address : Nat) (hT : T.Ok)
    (hne : read_string address 4096 ≠ []) (hs : ∀ c ∈ read_string address 4096, c ≠ 0) :
    ∃ T1, add_print_address S read_string T address = .ok T1 ∧ T1.Ok ∧
      T1.text = T.text ++ print_line address (read_string address 4096) := by
  unfold add_print_address
  simp only []
  rw [takeWhile_nonzero _ hs]
  have hlen : ¬ (read_string address 4096).length = 0 := by
    intro h; exact hne (List.length_eq_zero.mp h)
  simp only [hlen, if_false]
  obtain ⟨a1, b1⟩ := tmp_fprintf_spec S hre T (bytes "0x" ++ fmt_lx address ++ bytes " : \"") hT
  obtain ⟨a2, b2⟩ := print_chars_spec S hre _ _ hs a1
  obtain ⟨a3, b3⟩ := tmp_fprintf_spec S hre _ (bytes "\"\n") a2
  refine ⟨_, rfl, a3, ?_⟩
  rw [b3, b2, b1]
  simp only [print_line, List.append_assoc]

/-- C20 as stated fails on the code: the line printed for the entry at `0x1000` with
format `hi` is `0x1000 : "hi"`, with a blank on each side of the colon. -/
theorem print_line_counterexample :
    ¬ (∀ T1, add_print_address sys_le (fun _ _ => bytes "hi") init_tmp_file 0x1000 = .ok T1 →
        T1.text = print_line_tight 0x1000 (bytes "hi")) := by
  intro h
  obtain ⟨T1, e, _, ht⟩ := add_print_address_spec sys_le (fun _ => rfl)
    (fun _ _ => bytes "hi") init_tmp_file 0x1000 init_tmp_file_ok (by decide) (by decide)
  have h1 := h T1 e
  rw [ht] at h1
  have h0 : init_tmp_file.text = [] := rfl
  rw [h0, List.nil_append] at h1
  revert h1
  decide

/-- C20, amended: for a bprintk entry at address `A` whose format string `S` is not empty,
`add_print_address` appends exactly the line `0x<lowercase hex of A> : "<escape(S)>"`
followed by a newline, with one blank before and one after the colon. -/
theorem print_line_appended (S : Sys) (hre : ∀ n, S.realloc_ok n = true)
    (read_string : Nat → Nat → List Nat) (T : TmpFile) (address : Nat) (hT : T.Ok)
    (hne : read_string address 4096 ≠ []) (hs : ∀ c ∈ read_string address 4096, c ≠ 0) :
    ∃ T1, add_print_address S read_string T address = .ok T1 ∧ T1.Ok ∧
      T1.text = T.text ++ (bytes "0x" ++ fmt_lx address ++ bytes " : \"" ++
        ((read_string address 4096).map escape_char).flatten ++ bytes "\"\n") := by
  obtain ⟨T1, e1, e2, e3⟩ := add_print_address_spec S hre read_string T address hT hne hs
  exact ⟨T1, e1, e2, e3⟩

/-- Witness of C20 (amended): the entry at `0xffffffff81a0d1c0` with a format that holds a
tab, a quote, a backslash and a newline. -/
theorem print_line_appended_witness :
    (∀ n, sys_le.realloc_ok n = true) ∧ init_tmp_file.Ok ∧
    (fun (_ _ : Nat) => bytes "a\tb\"c\\\n") 0xffffffff81a0d1c0 4096 ≠ [] ∧
    (∀ c ∈ (fun (_ _ : Nat) => bytes "a\tb\"c\\\n") 0xffffffff81a0d1c0 4096, c ≠ 0) ∧
    ∃ T1, add_print_address sys_le (fun _ _ => bytes "a\tb\"c\\\n") init_tmp_file
        0xffffffff81a0d1c0 = .ok T1 ∧ T1.Ok ∧
      T1.text = bytes "0xffffffff81a0d1c0 : \"a\\tb\\\"c\\\\\\n\"\n" := by
  refine ⟨fun _ => rfl, init_tmp_file_ok, by decide, by decide, ?_⟩
  obtain ⟨T1, e1, e2, e3⟩ := print_line_appended sys_le (fun _ => rfl)
    (fun _ _ => bytes "a\tb\"c\\\n") init_tmp_file 0xffffffff81a0d1c0 init_tmp_file_ok
    (by decide) (by decide)
  refine ⟨T1, e1, e2, ?_⟩
  rw [e3]
  have h0 : init_tmp_file.text = [] := rfl
  rw [h0, List.nil_append]
  decide

/-! ## Subsystem ids -/

theorem index_of_cons_self (s : List Nat) (l : List (List Nat)) : index_of s (s :: l) = 0 := by
  simp [index_of]

theorem index_of_cons_ne (s x : List Nat) (l : List (List Nat)) (h : x ≠ s) :
    index_of s (x :: l) = index_of s l + 1 := by
  simp [index_of, h]

theorem index_of_append_of_mem (s : List Nat) (l2 : List (List Nat)) :
    ∀ (l1 : List (List Nat)), s ∈ l1 → index_of s (l1 ++ l2) = index_of s l1 := by
  intro l1
  induction l1 with
  | nil => intro h; simp at h
  | cons x xs ih =>
    intro h
    by_cases hx : x = s
    · simp [index_of, hx]
    · have h2 : s ∈ xs := by
        rcases List.mem_cons.mp h with h4 | h4
        · exact absurd h4.symm hx
        · exact h4
      simp [index_of, hx, ih h2]

theorem index_of_append_of_not_mem (s : List Nat) (l2 : List (List Nat)) :
    ∀ (l1 : List (List Nat)), s ∉ l1 →
      index_of s (l1 ++ l2) = l1.length + index_of s l2 := by
  intro l1
  induction l1 with
  | nil => intro _; simp
  | cons x xs ih =>
    intro h
    have hx : x ≠ s := fun e => h (e ▸ List.mem_cons_self x xs)
    have h2 : s ∉ xs := fun e => h (List.mem_cons_of_mem x e)
    simp [index_of, hx, ih h2]
    omega

theorem index_of_lt_length (s : List Nat) :
    ∀ (l : List (List Nat)), s ∈ l → index_of s l < l.length := by
  intro l
  induction l with
  | nil => intro h; simp at h
  | cons x xs ih =>
    intro h
    by_cases hx : x = s
    · simp [index_of, hx]
    · have h2 : s ∈ xs := by
        rcases List.mem_cons.mp h with h4 | h4
        · exact absurd h4.symm hx
        · exact h4
      have := ih h2
      simp [index_of, hx]
      omega

theorem index_of_getElem (s : List Nat) :
    ∀ (l : List (List Nat)), s ∈ l → l[index_of s l]? = some s := by
  intro l
  induction l with
  | nil => intro h; simp at h
  | cons x xs ih =>
    intro h
    by_cases hx : x = s
    · simp [index_of, hx]
    · have h2 : s ∈ xs := by
        rcases List.mem_cons.mp h with h4 | h4
        · exact absurd h4.symm hx
        · exact h4
      simp [index_of, hx, ih h2]

theorem bucket_id_append_of_mem (done : List (List Nat)) (s x : List Nat) (hx : x ∈ done) :
    bucket_id (done ++ [s]) x = bucket_id done x := by
  unfold bucket_id
  have h1 : x ∈ done ++ [s] := List.mem_append_left _ hx
  simp only [h1, hx, if_true, index_of_append_of_mem x [s] done hx]

theorem bucket_id_append_self (done : List (List Nat)) (s : List Nat) (hs : s ∉ done) :
    bucket_id (done ++ [s]) s = (done.length : Int) + 1 := by
  unfold bucket_id
  have h1 : s ∈ done ++ [s] := List.mem_append_right _ (List.mem_singleton_self s)
  simp only [h1, if_true, index_of_append_of_not_mem s [s] done hs, index_of_cons_self,
    Nat.add_zero]

theorem bucket_id_append_other (done : List (List Nat)) (s x : List Nat) (hx : x ∉ done)
    (hne : x ≠ s) : bucket_id (done ++ [s]) x = 0 := by
  unfold bucket_id
  have h1 : x ∉ done ++ [s] := by
    intro h
    rcases List.mem_append.mp h with h | h
    · exact hx h
    · exact hne (List.mem_singleton.mp h)
  simp only [h1, if_false]

theorem bucket_id_pos (done : List (List Nat)) (x : List Nat) :
    bucket_id done x ≠ 0 ↔ x ∈ done := by
  unfold bucket_id
  split
  · constructor
    · intro _; assumption
    · intro _; omega
  · simp only [ne_eq, not_true_eq_false, false_iff]; assumption

theorem bucket_pass_some (done : List (List Nat)) (s : List Nat) (hs : s ∉ done) :
    ∀ (ts : List event_type),
      bucket_pass ((done.length : Int) + 1) (some s) ts
          (ts.map (fun t => bucket_id done t.system)) =
        (some s, ts.map (fun t => bucket_id (done ++ [s]) t.system)) := by
  intro ts
  induction ts with
  | nil => rfl
  | cons t ts ih =>
    simp only [List.map_cons]
    unfold bucket_pass
    by_cases hm : t.system ∈ done
    · have h0 : bucket_id done t.system ≠ 0 := (bucket_id_pos done t.system).mpr hm
      simp only [h0, ne_eq, not_false_eq_true, if_true, ih,
        bucket_id_append_of_mem done s t.system hm]
    · have h0 : bucket_id done t.system = 0 := by
        by_contra h; exact hm ((bucket_id_pos done t.system).mp h)
      simp only [h0, ne_eq, not_true_eq_false, if_false, ih]
      by_cases he : t.system = s
      · simp only [he, if_true, bucket_id_append_self done s hs]
      · simp only [he, if_false, bucket_id_append_other done s t.system hm he]

theorem bucket_pass_none (done : List (List Nat)) :
    ∀ (ts : List event_type),
      bucket_pass ((done.length : Int) + 1) none ts
          (ts.map (fun t => bucket_id done t.system)) =
        match first_new done ts with
        | none => (none, ts.map (fun t => bucket_id done t.system))
        | some s => (some s, ts.map (fun t => bucket_id (done ++ [s]) t.system)) := by
  intro ts
  induction ts with
  | nil => rfl
  | cons t ts ih =>
    simp only [List.map_cons]
    unfold bucket_pass first_new
    by_cases hm : t.system ∈ done
    · have h0 : bucket_id done t.system ≠ 0 := (bucket_id_pos done t.system).mpr hm
      simp only [h0, ne_eq, not_false_eq_true, if_true, ih, hm]
      cases first_new done ts with
      | none => rfl
      | some s => simp only [bucket_id_append_of_mem done s t.system hm]
    · have h0 : bucket_id done t.system = 0 := by
        by_contra h; exact hm ((bucket_id_pos done t.system).mp h)
      simp only [h0, ne_eq, not_true_eq_false, if_false, hm,
        bucket_pass_some done t.system hm ts, bucket_id_append_self done t.system hm]

theorem first_new_none (done : List (List Nat)) :
    ∀ (ts : List event_type), first_new done ts = none → ∀ t ∈ ts, t.system ∈ done := by
  intro ts
  induction ts with
  | nil => intro _ t ht; simp at ht
  | cons x xs ih =>
    intro h t ht
    unfold first_new at h
    by_cases hm : x.system ∈ done
    · simp only [hm, if_true] at h
      rcases List.mem_cons.mp ht with rfl | h2
      · exact hm
      · exact ih h t h2
    · simp [hm] at h

theorem first_new_some (done : List (List Nat)) :
    ∀ (ts : List event_type) (s : List Nat), first_new done ts = some s →
      s ∉ done ∧ s ∈ ts.map (fun t => t.system) ∧
      ∀ x ∈ ts.map (fun t => t.system), x ∉ done → x ≠ s →
        first_index ts s < first_index ts x := by
  intro ts
  induction ts with
  | nil => intro s h; simp [first_new] at h
  | cons t ts ih =>
    intro s h
    unfold first_new at h
    by_cases hm : t.system ∈ done
    · simp only [hm, if_true] at h
      obtain ⟨h1, h2, h3⟩ := ih s h
      refine ⟨h1, by simp [h2], ?_⟩
      intro x hx hxd hxs
      have hts : t.system ≠ s := fun e => h1 (e ▸ hm)
      have htx : t.system ≠ x := fun e => hxd (e ▸ hm)
      have hx2 : x ∈ ts.map (fun t => t.system) := by
        rcases List.mem_cons.mp hx with h4 | h4
        · exact absurd h4.symm htx
        · exact h4
      have := h3 x hx2 hxd hxs
      unfold first_index at this ⊢
      simp only [List.map_cons, index_of_cons_ne _ _ _ hts, index_of_cons_ne _ _ _ htx]
      omega
    · simp only [hm, if_false, Option.some.injEq] at h
      subst h
      refine ⟨hm, by simp, ?_⟩
      intro x _ _ hxs
      unfold first_index
      simp only [List.map_cons, index_of_cons_self,
        index_of_cons_ne _ _ _ (fun e => hxs e.symm)]
      omega

theorem filter_new_lt (done : List (List Nat)) (s : List Nat) :
    ∀ (ts : List event_type), s ∈ ts.map (fun t => t.system) → s ∉ done →
      (ts.filter (fun t => decide (t.system ∉ done ++ [s]))).length <
        (ts.filter (fun t => decide (t.system ∉ done))).length := by
  intro ts
  induction ts with
  | nil => intro h; simp at h
  | cons t ts ih =>
    intro hs hd
    have hle : (ts.filter (fun t => decide (t.system ∉ done ++ [s]))).length ≤
        (ts.filter (fun t => decide (t.system ∉ done))).length := by
      apply List.Sublist.length_le
      apply List.monotone_filter_right
      intro x hx
      simp only [List.mem_append, List.mem_singleton, not_or, decide_eq_true_eq] at hx ⊢
      exact hx.1
    by_cases hts : t.system = s
    · have h1 : t.system ∉ done := hts ▸ hd
      have h2 : ¬ (t.system ∉ done ++ [s]) := by
        simp [hts]
      simp only [List.filter_cons, h1, h2, not_false_eq_true, decide_True, decide_False,
        if_true, List.length_cons]
      simp only [Bool.false_eq_true, if_false]
      omega
    · have hs2 : s ∈ ts.map (fun t => t.system) := by
        rcases List.mem_cons.mp hs with h4 | h4
        · exact absurd h4.symm hts
        · exact h4
      have := ih hs2 hd
      by_cases h1 : t.system ∈ done
      · have h2 : t.system ∈ done ++ [s] := List.mem_append_left _ h1
        simp only [List.filter_cons, h1, h2, not_true_eq_false, decide_False,
          Bool.false_eq_true, if_false]
        exact this
      · have h2 : t.system ∉ done ++ [s] := by
          simp [h1, hts]
        simp only [List.filter_cons, h1, h2, not_false_eq_true, decide_True, if_true,
          List.length_cons]
        omega

theorem bucket_loop_spec (ts : List event_type) :
    ∀ (k fuel : Nat) (done : List (List Nat)),
      (ts.filter (fun t => decide (t.system ∉ done))).length ≤ k → k < fuel → done.Nodup →
      ∃ rest : List (List Nat),
        bucket_loop ts fuel ((done.length : Int) + 1) none
            (ts.map (fun t => bucket_id done t.system)) =
          .ok (((done ++ rest).length : Int) + 1,
            ts.map (fun t => bucket_id (done ++ rest) t.system)) ∧
        (done ++ rest).Nodup ∧ (∀ t ∈ ts, t.system ∈ done ++ rest) ∧
        (∀ s ∈ rest, s ∈ ts.map (fun t => t.system)) ∧
        rest.Pairwise (fun a b => first_index ts a < first_index ts b) := by
  intro k
  induction k with
  | zero =>
    intro fuel done hk hf hnd
    obtain ⟨fuel1, rfl⟩ : ∃ n, fuel = n + 1 := ⟨fuel - 1, by omega⟩
    refine ⟨[], ?_⟩
    unfold bucket_loop
    simp only [bucket_pass_none done ts]
    cases hfn : first_new done ts with
    | none =>
      simp only [List.append_nil]
      exact ⟨trivial, hnd, first_new_none done ts hfn, by simp, List.Pairwise.nil⟩
    | some s =>
      obtain ⟨h1, h2, _⟩ := first_new_some done ts s hfn
      have := filter_new_lt done s ts h2 h1
      omega
  | succ k ih =>
    intro fuel done hk hf hnd
    obtain ⟨fuel1, rfl⟩ : ∃ n, fuel = n + 1 := ⟨fuel - 1, by omega⟩
    unfold bucket_loop
    simp only [bucket_pass_none done ts]
    cases hfn : first_new done ts with
    | none =>
      refine ⟨[], ?_⟩
      simp only [List.append_nil]
      exact ⟨trivial, hnd, first_new_none done ts hfn, by simp, List.Pairwise.nil⟩
    | some s =>
      obtain ⟨h1, h2, h3⟩ := first_new_some done ts s hfn
      have hlt := filter_new_lt done s ts h2 h1
      have hnd1 : (done ++ [s]).Nodup := by
        rw [List.nodup_append]
        refine ⟨hnd, List.nodup_singleton s, ?_⟩
        intro a ha hb
        rw [List.mem_singleton] at hb
        exact h1 (hb ▸ ha)
      obtain ⟨rest, e, a1, a2, a3, a4⟩ := ih fuel1 (done ++ [s]) (by omega) (by omega) hnd1
      have hlen : ((done.length : Int) + 1) + 1 = (((done ++ [s]).length : Nat) : Int) + 1 := by
        simp
      have happ : done ++ [s] ++ rest = done ++ s :: rest := by simp
      refine ⟨s :: rest, ?_, ?_, ?_, ?_, ?_⟩
      · simp only []
        rw [hlen, e, happ]
      · rw [← happ]; exact a1
      · rw [← happ]; exact a2
      · intro x hx
        rcases List.mem_cons.mp hx with rfl | hx
        · exact h2
        · exact a3 x hx
      · rw [List.pairwise_cons]
        refine ⟨?_, a4⟩
        intro b hb
        have hdis := (List.nodup_append.mp a1).2.2
        have hb1 : b ∉ done ++ [s] := fun hm => hdis hm hb
        have hb2 : b ∉ done := fun hm => hb1 (List.mem_append_left _ hm)
        have hb3 : b ≠ s := fun e => hb1 (List.mem_append_right _ (List.mem_singleton.mpr e))
        exact h3 b (a3 b hb) hb2 hb3

theorem replicate_zero_eq (ts : List event_type) :
    List.replicate ts.length (0 : Int) = ts.map (fun t => bucket_id [] t.system) := by
  induction ts with
  | nil => rfl
  | cons t ts ih =>
    simp only [List.length_cons, List.replicate_succ, List.map_cons, ih]
    simp [bucket_id]

theorem bucket_id_ftrace (others : List (List Nat)) (s : List Nat)
    (hs : s ∈ bytes "ftrace" :: others) :
    bucket_id (bytes "ftrace" :: others) s = system_id_of others s := by
  unfold bucket_id system_id_of
  simp only [hs, if_true]
  by_cases h : s = bytes "ftrace"
  · simp only [h, if_true, index_of_cons_self]
    rfl
  · simp only [h, if_false, index_of_cons_ne s (bytes "ftrace") others (fun e => h e.symm)]
    push_cast
    omega

theorem bucket_systems_spec (ts : List event_type) :
    ∃ others : List (List Nat),
      bucket_systems ts =
        .ok ((others.length : Int) + 2, ts.map (fun t => system_id_of others t.system)) ∧
      others.Nodup ∧ bytes "ftrace" ∉ others ∧
      (∀ s, s ∈ others ↔ (s ∈ ts.map (fun t => t.system) ∧ s ≠ bytes "ftrace")) ∧
      others.Pairwise (fun a b => first_index ts a < first_index ts b) := by
  have hnd : [bytes "ftrace"].Nodup := List.nodup_singleton _
  obtain ⟨rest, e, a1, a2, a3, a4⟩ := bucket_loop_spec ts ts.length (ts.length + 1)
    [bytes "ftrace"] (List.length_filter_le _ _) (by omega) hnd
  have hcons : [bytes "ftrace"] ++ rest = bytes "ftrace" :: rest := rfl
  rw [hcons] at e a1 a2
  have hnot : bytes "ftrace" ∉ rest := (List.nodup_cons.mp a1).1
  refine ⟨rest, ?_, (List.nodup_cons.mp a1).2, hnot, ?_, a4⟩
  · unfold bucket_systems bucket_loop
    rw [replicate_zero_eq ts]
    have h1 : (1 : Int) = (([] : List (List Nat)).length : Int) + 1 := by simp
    have hp := bucket_pass_some [] (bytes "ftrace") (by simp) ts
    rw [← h1] at hp
    simp only [hp, List.nil_append]
    have h2 : ((1 : Int) + 1) = (([bytes "ftrace"] : List (List Nat)).length : Int) + 1 := by
      simp
    rw [h2, e]
    have h3 : (((bytes "ftrace" :: rest).length : Nat) : Int) + 1 = (rest.length : Int) + 2 := by
      simp only [List.length_cons]; push_cast; omega
    rw [h3]
    congr 2
    apply List.map_congr_left
    intro t ht
    exact bucket_id_ftrace rest t.system (a2 t ht)
  · intro s
    constructor
    · intro hs
      exact ⟨a3 s hs, fun e => hnot (e ▸ hs)⟩
    · rintro ⟨hs, hne⟩
      obtain ⟨t, ht, rfl⟩ := List.mem_map.mp hs
      rcases List.mem_cons.mp (a2 t ht) with h | h
      · exact absurd h hne
      · exact h

theorem system_id_of_inj (others : List (List Nat)) (a b : List Nat)
    (ha : a ∈ bytes "ftrace" :: others) (hb : b ∈ bytes "ftrace" :: others) :
    system_id_of others a = system_id_of others b ↔ a = b := by
  constructor
  · intro h
    unfold system_id_of at h
    by_cases h1 : a = bytes "ftrace"
    · by_cases h2 : b = bytes "ftrace"
      · rw [h1, h2]
      · simp only [h1, h2, if_true, if_false] at h
        omega
    · by_cases h2 : b = bytes "ftrace"
      · simp only [h1, h2, if_true, if_false] at h
        omega
      · simp only [h1, h2, if_false] at h
        have ha1 : a ∈ others := by
          rcases List.mem_cons.mp ha with h3 | h3
          · exact absurd h3 h1
          · exact h3
        have hb1 : b ∈ others := by
          rcases List.mem_cons.mp hb with h3 | h3
          · exact absurd h3 h2
          · exact h3
        have e : index_of a others = index_of b others := by omega
        have e1 := index_of_getElem a others ha1
        have e2 := index_of_getElem b others hb1
        rw [e, e2] at e1
        exact (Option.some.inj e1).symm
  · intro h
    rw [h]

/-- C18: for every list of event types the bucketing loop of `save_events_files` ends,
with `system_id` two more than the number of systems other than `ftrace` and with
`system_ids[i]` the subsystem id of `event_types[i]`: 1 iff the system is `ftrace`, and
`2 + k` for the `k`-th entry of `others`, the list without repetition of the other systems
of `event_types` in order of first occurrence. Every id is at least 1, and two events have
the same id iff they have the same system. -/
theorem subsystem_ids (event_types : List event_type) :
    ∃ others : List (List Nat),
      bucket_systems event_types =
        .ok ((others.length : Int) + 2,
          event_types.map (fun t => system_id_of others t.system)) ∧
      others.Nodup ∧
      (∀ s, s ∈ others ↔ (s ∈ event_types.map (fun t => t.system) ∧ s ≠ bytes "ftrace")) ∧
      others.Pairwise (fun a b => first_index event_types a < first_index event_types b) ∧
      (∀ t ∈ event_types, 1 ≤ system_id_of others t.system ∧
        (system_id_of others t.system = 1 ↔ t.system = bytes "ftrace") ∧
        (t.system ≠ bytes "ftrace" →
          system_id_of others t.system = (index_of t.system others : Int) + 2 ∧
          index_of t.system others < others.length)) ∧
      (∀ t ∈ event_types, ∀ u ∈ event_types,
        system_id_of others t.system = system_id_of others u.system ↔ t.system = u.system) := by
  obtain ⟨others, e, hnd, _, hmem, hpair⟩ := bucket_systems_spec event_types
  have hin : ∀ t ∈ event_types, t.system ∈ bytes "ftrace" :: others := by
    intro t ht
    by_cases h : t.system = bytes "ftrace"
    · rw [h]; exact List.mem_cons_self _ _
    · exact List.mem_cons_of_mem _ ((hmem t.system).mpr ⟨List.mem_map.mpr ⟨t, ht, rfl⟩, h⟩)
  refine ⟨others, e, hnd, hmem, hpair, ?_, ?_⟩
  · intro t ht
    refine ⟨?_, ?_, ?_⟩
    · unfold system_id_of
      split
      · omega
      · omega
    · unfold system_id_of
      constructor
      · intro h
        by_contra hne
        simp only [hne, if_false] at h
        omega
      · intro h
        simp only [h, if_true]
    · intro hne
      refine ⟨by simp only [system_id_of, hne, if_false], ?_⟩
      exact index_of_lt_length t.system others
        ((hmem t.system).mpr ⟨List.mem_map.mpr ⟨t, ht, rfl⟩, hne⟩)
  · intro t ht u hu
    exact system_id_of_inj others t.system u.system (hin t ht) (hin u hu)

/-! ## The events section -/

theorem save_system_events_spec (S : Sys) (hfull : ∀ i c, S.sys_write i c = (c : Int))
    (hre : ∀ n, S.realloc_ok n = true) (common : List ftrace_field) (g : event_type → Int)
    (sid : Int) :
    ∀ (ts : List event_type) (f : File) (T : TmpFile), T.Ok → T.tmp_file_pos = 0 →
      (∀ t ∈ ts, Formattable common t) →
      ∃ f1 T1, save_system_events S common sid ts (ts.map g) f T = .ok (f1, T1) ∧
        f1.data = f.data ++
          ((ts.filter (fun t => decide (g t = sid))).map (format_record S common)).flatten ∧
        T1.Ok ∧ T1.tmp_file_pos = 0 := by
  intro ts
  induction ts with
  | nil =>
    intro f T hT hpos _
    exact ⟨f, T, rfl, by simp, hT, hpos⟩
  | cons t ts ih =>
    intro f T hT hpos hform
    have hform1 : ∀ x ∈ ts, Formattable common x := fun x hx =>
      hform x (List.mem_cons_of_mem t hx)
    simp only [List.map_cons]
    unfold save_system_events
    by_cases h : g t = sid
    · obtain ⟨T1, e1, a1, b1⟩ := save_event_file_spec S hfull hre common f T t hT hpos
        (hform t (List.mem_cons_self t ts))
      obtain ⟨f2, T2, e2, d2, a2, b2⟩ := ih (File.mk (f.data ++ format_record S common t)
        (f.calls + 2)) T1 a1 b1 hform1
      refine ⟨f2, T2, ?_, ?_, a2, b2⟩
      · simp only [h, ne_eq, not_true_eq_false, if_false, e1, e2]
      · rw [d2]
        simp only [List.filter_cons, h, decide_True, if_true, List.map_cons,
          List.flatten_cons, List.append_assoc]
    · obtain ⟨f2, T2, e2, d2, a2, b2⟩ := ih f T hT hpos hform1
      refine ⟨f2, T2, ?_, ?_, a2, b2⟩
      · simp only [h, ne_eq, not_false_eq_true, if_true, e2]
      · rw [d2]
        simp only [List.filter_cons, h, decide_False, Bool.false_eq_true, if_false]

theorem save_system_files_spec (S : Sys) (hfull : ∀ i c, S.sys_write i c = (c : Int))
    (hre : ∀ n, S.realloc_ok n = true) (common : List ftrace_field) (g : event_type → Int)
    (sid : Int) (ts : List event_type) (f : File) (T : TmpFile) (hT : T.Ok)
    (hpos : T.tmp_file_pos = 0) (hform : ∀ t ∈ ts, Formattable common t)
    (hlen : ts.length < 2 ^ 32) :
    ∃ f1 T1, save_system_files S common ts (ts.map g) sid f T = .ok (f1, T1) ∧
      f1.data = f.data ++ obj_bytes S 4 (ts.filter (fun t => decide (g t = sid))).length ++
        ((ts.filter (fun t => decide (g t = sid))).map (format_record S common)).flatten ∧
      T1.Ok ∧ T1.tmp_file_pos = 0 := by
  have htake : (ts.map g).take ts.length = ts.map g :=
    List.take_of_length_le (by rw [List.length_map])
  have htot : (((ts.map g).take ts.length).filter (fun x => decide (x = sid))).length =
      (ts.filter (fun t => decide (g t = sid))).length := by
    rw [htake, List.filter_map, List.length_map]
    rfl
  have hle : (ts.filter (fun t => decide (g t = sid))).length ≤ ts.length :=
    List.length_filter_le _ _
  have hmod : (ts.filter (fun t => decide (g t = sid))).length % 2 ^ 32 =
      (ts.filter (fun t => decide (g t = sid))).length := Nat.mod_eq_of_lt (by omega)
  unfold save_system_files
  simp only [htot, hmod]
  rw [write_and_check_full S hfull f _ 4 (by decide) (by rw [obj_bytes_length])
    (by unfold ULONG_MOD; decide)]
  have e3 : (obj_bytes S 4 (ts.filter (fun t => decide (g t = sid))).length).take 4 =
      obj_bytes S 4 (ts.filter (fun t => decide (g t = sid))).length :=
    List.take_of_length_le (by rw [obj_bytes_length])
  rw [e3]
  obtain ⟨f2, T2, e2, d2, a2, b2⟩ := save_system_events_spec S hfull hre common g sid ts
    (File.mk (f.data ++ obj_bytes S 4 (ts.filter (fun t => decide (g t = sid))).length)
      (f.calls + 1)) T hT hpos hform
  exact ⟨f2, T2, e2, d2, a2, b2⟩

theorem filter_id_eq_system (others : List (List Nat)) (ts : List event_type) (s : List Nat)
    (hs : s ∈ bytes "ftrace" :: others)
    (hin : ∀ t ∈ ts, t.system ∈ bytes "ftrace" :: others) :
    ts.filter (fun t => decide (system_id_of others t.system = system_id_of others s)) =
      system_events ts s := by
  unfold system_events
  apply List.filter_congr
  intro t ht
  simp only [system_id_of_inj others t.system s (hin t ht) hs]

theorem save_system_block_spec (S : Sys) (hfull : ∀ i c, S.sys_write i c = (c : Int))
    (hre : ∀ n, S.realloc_ok n = true) (common : List ftrace_field)
    (others : List (List Nat)) (s : List Nat) (ts : List event_type) (f : File) (T : TmpFile)
    (hT : T.Ok) (hpos : T.tmp_file_pos = 0) (hform : ∀ t ∈ ts, Formattable common t)
    (hlen : ts.length < 2 ^ 32) (hs : s ∈ bytes "ftrace" :: others)
    (hin : ∀ t ∈ ts, t.system ∈ bytes "ftrace" :: others) :
    ∃ f1 T1, save_system_files S common ts (ts.map (fun t => system_id_of others t.system))
          (system_id_of others s) f T = .ok (f1, T1) ∧
      f1.data = f.data ++ system_block S common ts s ∧ T1.Ok ∧ T1.tmp_file_pos = 0 := by
  obtain ⟨f1, T1, e, d, a, b⟩ := save_system_files_spec S hfull hre common
    (fun t => system_id_of others t.system) (system_id_of others s) ts f T hT hpos hform hlen
  refine ⟨f1, T1, e, ?_, a, b⟩
  rw [d, filter_id_eq_system others ts s hs hin]
  simp only [system_block, List.append_assoc]

theorem find_system_spec (g : event_type → Int) (sid : Int) :
    ∀ (ts : List event_type), (∃ t ∈ ts, g t = sid) →
      ∃ t, ts[find_system sid (ts.map g)]? = some t ∧ g t = sid ∧ t ∈ ts := by
  intro ts
  induction ts with
  | nil => rintro ⟨t, ht, _⟩; simp at ht
  | cons x xs ih =>
    rintro ⟨t, ht, hg⟩
    simp only [List.map_cons]
    unfold find_system
    by_cases hx : g x = sid
    · exact ⟨x, by simp [hx], hx, List.mem_cons_self x xs⟩
    · have ht2 : t ∈ xs := by
        rcases List.mem_cons.mp ht with h4 | h4
        · exact absurd (h4 ▸ hg) hx
        · exact h4
      obtain ⟨u, e, hu, hm⟩ := ih ⟨t, ht2, hg⟩
      exact ⟨u, by simp [hx, e], hu, List.mem_cons_of_mem x hm⟩

theorem system_id_of_at (pre post : List (List Nat)) (s : List Nat)
    (hnd : (pre ++ s :: post).Nodup) (hne : s ≠ bytes "ftrace") :
    system_id_of (pre ++ s :: post) s = (pre.length : Int) + 2 := by
  have hs : s ∉ pre := by
    intro h
    have := (List.nodup_append.mp hnd).2.2
    exact this h (List.mem_cons_self s post)
  unfold system_id_of
  simp only [hne, if_false, index_of_append_of_not_mem s (s :: post) pre hs,
    index_of_cons_self, Nat.add_zero]

theorem save_other_systems_spec (S : Sys) (hfull : ∀ i c, S.sys_write i c = (c : Int))
    (hre : ∀ n, S.realloc_ok n = true) (common : List ftrace_field)
    (others : List (List Nat)) (ts : List event_type)
    (hform : ∀ t ∈ ts, Formattable common t) (hlen : ts.length < 2 ^ 32)
    (hsys : ∀ t ∈ ts, t.system.length + 1 < ULONG_MOD)
    (hnd : others.Nodup) (hnot : bytes "ftrace" ∉ others)
    (hothers : ∀ s ∈ others, s ∈ ts.map (fun t => t.system))
    (hin : ∀ t ∈ ts, t.system ∈ bytes "ftrace" :: others) :
    ∀ (post pre : List (List Nat)) (f : File) (T : TmpFile), others = pre ++ post →
      T.Ok → T.tmp_file_pos = 0 →
      ∃ f1 T1, save_other_systems S common ts (ts.map (fun t => system_id_of others t.system))
            post.length ((pre.length : Int) + 2) f T = .ok (f1, T1) ∧
        f1.data = f.data ++
          (post.map (fun s => s ++ [0] ++ system_block S common ts s)).flatten ∧
        T1.Ok ∧ T1.tmp_file_pos = 0 := by
  intro post
  induction post with
  | nil =>
    intro pre f T _ hT hpos
    exact ⟨f, T, rfl, by simp, hT, hpos⟩
  | cons s post ih =>
    intro pre f T ho hT hpos
    have hso : s ∈ others := by rw [ho]; simp
    have hne : s ≠ bytes "ftrace" := fun e => hnot (e ▸ hso)
    have hsid : system_id_of others s = (pre.length : Int) + 2 := by
      rw [ho]; exact system_id_of_at pre post s (ho ▸ hnd) hne
    have hs1 : s ∈ bytes "ftrace" :: others := List.mem_cons_of_mem _ hso
    obtain ⟨t0, ht0, hst0⟩ := List.mem_map.mp (hothers s hso)
    obtain ⟨t, et, hgt, htm⟩ := find_system_spec (fun t => system_id_of others t.system)
      (system_id_of others s) ts ⟨t0, ht0, by simp only [hst0]⟩
    have hts : t.system = s := (system_id_of_inj others t.system s (hin t htm) hs1).mp hgt
    have htake : (ts.map (fun t => system_id_of others t.system)).take ts.length =
        ts.map (fun t => system_id_of others t.system) :=
      List.take_of_length_le (by rw [List.length_map])
    simp only [List.length_cons]
    unfold save_other_systems
    simp only [htake, ← hsid, et]
    rw [write_and_check_full S hfull f (t.system ++ [0]) (t.system.length + 1) (by omega)
      (by simp) (hsys t htm)]
    have e3 : (t.system ++ [0]).take (t.system.length + 1) = t.system ++ [0] :=
      List.take_of_length_le (by simp)
    rw [e3]
    obtain ⟨f2, T2, e2, d2, a2, b2⟩ := save_system_block_spec S hfull hre common others s ts
      (File.mk (f.data ++ (t.system ++ [0])) (f.calls + 1)) T hT hpos hform hlen hs1 hin
    simp only [e2]
    have hnext : system_id_of others s + 1 = (((pre ++ [s]).length : Nat) : Int) + 2 := by
      rw [hsid]; simp only [List.length_append, List.length_singleton]; push_cast; omega
    rw [hnext]
    obtain ⟨f3, T3, e3, d3, a3, b3⟩ := ih (pre ++ [s]) f2 T2 (by rw [ho]; simp) a2 b2
    refine ⟨f3, T3, e3, ?_, a3, b3⟩
    rw [d3, d2]
    simp only [hts, List.map_cons, List.flatten_cons, List.append_assoc]

theorem system_events_perm :
    ∀ (ks : List (List Nat)) (ts : List event_type), ks.Nodup → (∀ t ∈ ts, t.system ∈ ks) →
      ((ks.map (fun s => system_events ts s)).flatten).Perm ts := by
  intro ks
  induction ks with
  | nil =>
    intro ts _ h
    have : ts = [] := List.eq_nil_iff_forall_not_mem.mpr (fun t ht => by simpa using h t ht)
    subst this
    exact List.Perm.refl _
  | cons k ks ih =>
    intro ts hnd h
    have hk : k ∉ ks := (List.nodup_cons.mp hnd).1
    have hrest : ∀ t ∈ ts.filter (fun t => !decide (t.system = k)), t.system ∈ ks := by
      intro t ht
      rw [List.mem_filter] at ht
      rcases List.mem_cons.mp (h t ht.1) with h4 | h4
      · simp [h4] at ht
      · exact h4
    have hcongr : ks.map (fun s => system_events ts s) =
        ks.map (fun s => system_events (ts.filter (fun t => !decide (t.system = k))) s) := by
      apply List.map_congr_left
      intro s hs
      have hsk : s ≠ k := fun e => hk (e ▸ hs)
      unfold system_events
      rw [List.filter_filter]
      apply List.filter_congr
      intro t _
      by_cases e : t.system = s
      · simp [e, hsk]
      · simp [e]
    simp only [List.map_cons, List.flatten_cons]
    rw [hcongr]
    have h1 := ih (ts.filter (fun t => !decide (t.system = k))) (List.nodup_cons.mp hnd).2 hrest
    have h2 := List.filter_append_perm (fun t => decide (t.system = k)) ts
    exact (List.Perm.append_left _ h1).trans h2

/-- C19: when every write is complete, no `realloc` fails and every event type can be
formatted, `save_events_files` appends to the archive the events section: the 4-byte number
of events of system `ftrace` and their formats, the 4-byte number of the other systems, then
for each of them its name, a NUL, the 4-byte number of its events and their formats in
`event_types` order. The other systems are the distinct system names other than `ftrace`, in
order of first occurrence, and the events of the section are a permutation of
`event_types`: every format is there exactly once. -/
theorem events_section_layout (S : Sys) (hfull : ∀ i c, S.sys_write i c = (c : Int))
    (hre : ∀ n, S.realloc_ok n = true) (common : List ftrace_field)
    (event_types : List event_type) (f : File) (T : TmpFile) (hT : T.Ok)
    (hpos : T.tmp_file_pos = 0) (hform : ∀ t ∈ event_types, Formattable common t)
    (hlen : event_types.length < 2 ^ 31)
    (hsys : ∀ t ∈ event_types, t.system.length + 1 < ULONG_MOD) :
    ∃ (others : List (List Nat)) (f1 : File) (T1 : TmpFile),
      save_events_files S common event_types f T = .ok (f1, T1) ∧
      f1.data = f.data ++ events_section S common event_types others ∧
      others.Nodup ∧
      (∀ s, s ∈ others ↔ (s ∈ event_types.map (fun t => t.system) ∧ s ≠ bytes "ftrace")) ∧
      others.Pairwise (fun a b => first_index event_types a < first_index event_types b) ∧
      (section_events event_types others).Perm event_types := by
  obtain ⟨others, e, hnd, hnot, hmem, hpair⟩ := bucket_systems_spec event_types
  have hin : ∀ t ∈ event_types, t.system ∈ bytes "ftrace" :: others := by
    intro t ht
    by_cases h : t.system = bytes "ftrace"
    · rw [h]; exact List.mem_cons_self _ _
    · exact List.mem_cons_of_mem _ ((hmem t.system).mpr ⟨List.mem_map.mpr ⟨t, ht, rfl⟩, h⟩)
  have hothers : ∀ s ∈ others, s ∈ event_types.map (fun t => t.system) := fun s hs =>
    ((hmem s).mp hs).1
  have hcount : others.length ≤ event_types.length := by
    have := (List.subperm_of_subset hnd (fun s hs => hothers s hs)).length_le
    rwa [List.length_map] at this
  have hlen32 : event_types.length < 2 ^ 32 := by omega
  have h1 : system_id_of others (bytes "ftrace") = 1 := by simp [system_id_of]
  obtain ⟨f1, T1, e1, d1, a1, b1⟩ := save_system_block_spec S hfull hre common others
    (bytes "ftrace") event_types f T hT hpos hform hlen32 (List.mem_cons_self _ _) hin
  rw [h1] at e1
  have hnr : (((others.length : Int) + 2 - 2) % 2 ^ 32).toNat = others.length := by omega
  have hnr2 : ((others.length : Int) + 2 - 2).toNat = others.length := by omega
  have e3 : (obj_bytes S 4 others.length).take 4 = obj_bytes S 4 others.length :=
    List.take_of_length_le (by rw [obj_bytes_length])
  obtain ⟨f3, T3, e4, d3, a3, b3⟩ := save_other_systems_spec S hfull hre common others
    event_types hform hlen32 hsys hnd hnot hothers hin others []
    (File.mk (f1.data ++ obj_bytes S 4 others.length) (f1.calls + 1)) T1 rfl a1 b1
  have h2 : (((([] : List (List Nat)).length : Nat) : Int) + 2) = 2 := by simp
  rw [h2] at e4
  refine ⟨others, f3, T3, ?_, ?_, hnd, hmem, hpair, ?_⟩
  · unfold save_events_files
    rw [e]
    simp only [e1, hnr, hnr2]
    rw [write_and_check_full S hfull f1 _ 4 (by decide) (by rw [obj_bytes_length])
      (by unfold ULONG_MOD; decide), e3]
    exact e4
  · rw [d3, d1]
    simp only [events_section, List.append_assoc]
  · exact system_events_perm (bytes "ftrace" :: others) event_types
      (List.nodup_cons.mpr ⟨hnot, hnd⟩) hin

set_option maxRecDepth 100000 in
theorem ev3_formattable : ∀ t ∈ ev3, Formattable [] t := by decide

/-- Witness of C19: three event types of the systems `sched`, `ftrace`, `sched`, written
to an empty archive on a little-endian host. -/
theorem events_section_layout_witness :
    (∀ t ∈ ev3, Formattable [] t) ∧ ev3.length < 2 ^ 31 ∧
    ∃ (others : List (List Nat)) (f1 : File) (T1 : TmpFile),
      save_events_files sys_le [] ev3 ⟨[], 0⟩ init_tmp_file = .ok (f1, T1) ∧
      f1.data = (File.mk [] 0).data ++ events_section sys_le [] ev3 others ∧
      others.Nodup ∧
      (∀ s, s ∈ others ↔ (s ∈ ev3.map (fun t => t.system) ∧ s ≠ bytes "ftrace")) ∧
      others.Pairwise (fun a b => first_index ev3 a < first_index ev3 b) ∧
      (section_events ev3 others).Perm ev3 :=
  ⟨ev3_formattable, by decide,
    events_section_layout sys_le (fun _ _ => rfl) (fun _ => rfl) [] ev3 ⟨[], 0⟩ init_tmp_file
      init_tmp_file_ok rfl ev3_formattable (by decide) (by decide)⟩

/-! ## Extraction of the event types -/

theorem fields_head_unknown (H : Host) (call class_ get_fields : Nat)
    (hc : 0 ≤ H.MEMBER_OFFSET "ftrace_event_call" "class")
    (hrc : H.read (uadd call (H.MEMBER_OFFSET "ftrace_event_call" "class")) = some class_)
    (hrg : H.read (uadd class_ (H.MEMBER_OFFSET "ftrace_event_class" "get_fields")) =
      some get_fields)
    (h0 : get_fields ≠ 0)
    (h1 : H.symbol_search "syscall_get_enter_fields" ≠ some get_fields)
    (h2 : H.symbol_search "syscall_get_exit_fields" ≠ some get_fields) :
    fields_head H call = none := by
  have g1 : get_fields ≠ (H.symbol_search "syscall_get_enter_fields").getD 0 := by
    cases h : H.symbol_search "syscall_get_enter_fields" with
    | none => simpa using h0
    | some v =>
      rw [h] at h1
      simp only [Option.getD_some]
      intro e
      exact h1 (by rw [e])
  have g2 : get_fields ≠ (H.symbol_search "syscall_get_exit_fields").getD 0 := by
    cases h : H.symbol_search "syscall_get_exit_fields" with
    | none => simpa using h0
    | some v =>
      rw [h] at h2
      simp only [Option.getD_some]
      intro e
      exact h2 (by rw [e])
  unfold fields_head
  simp only [not_lt.mpr hc, if_false, hrc, hrg, h0, g1, g2]
  split <;> rfl

theorem ftrace_init_event_type_unknown (D : Dump) (fuel : Nat) (s : Statics) (call : Nat)
    (hs : s.Inv D.toHost) (hf : fields_head D.toHost call = none) :
    ftrace_init_event_type D fuel s call = .error .out_fail := by
  unfold ftrace_init_event_type
  simp only [(ftrace_get_event_type_fields_spec D.toHost s call hs).1, hf]

theorem ftrace_init_event_type_inv (D : Dump) (fuel : Nat) (s s1 : Statics) (call : Nat)
    (fields : List ftrace_field) (hs : s.Inv D.toHost)
    (h : ftrace_init_event_type D fuel s call = .ok (fields, s1)) : s1.Inv D.toHost := by
  unfold ftrace_init_event_type at h
  simp only [] at h
  split at h
  · simp at h
  · split at h
    · simp at h
    · simp only [Except.ok.injEq, Prod.mk.injEq] at h
      rw [← h.2]
      exact (ftrace_get_event_type_fields_spec D.toHost s call hs).2

theorem init_event_fields_loop_fault (D : Dump) (fields_head : Nat) :
    ∀ (fuel pos : Nat) (fields : List ftrace_field) (max_fields : Nat), 0 < max_fields →
      init_event_fields_loop D fields_head fuel pos fields max_fields ≠
        .error .out_of_bounds := by
  intro fuel
  induction fuel with
  | zero => intro pos fields max_fields _ h; simp [init_event_fields_loop] at h
  | succ n ih =>
    intro pos fields max_fields hmax
    have hpos : 0 < (if max_fields ≤ fields.length then fields.length * 2 else max_fields) := by
      split <;> omega
    unfold init_event_fields_loop
    simp only []
    repeat' split
    all_goals first
      | exact ih _ _ _ hpos
      | exact ih _ _ _ (by omega)
      | (exfalso; omega)
      | (intro h; simp at h)

theorem ftrace_init_event_fields_fault (D : Dump) (fuel fields_head : Nat) :
    ftrace_init_event_fields D fuel fields_head ≠ .error .out_of_bounds := by
  unfold ftrace_init_event_fields
  repeat' split
  all_goals first
    | exact init_event_fields_loop_fault D _ _ _ _ _ (by decide)
    | (intro h; simp at h)

theorem ftrace_init_event_type_fault (D : Dump) (fuel : Nat) (s : Statics) (call : Nat) :
    ftrace_init_event_type D fuel s call ≠ .error .out_of_bounds := by
  unfold ftrace_init_event_type
  simp only []
  split
  · intro h; simp at h
  · split
    · rename_i e he
      intro h
      simp only [Except.error.injEq] at h
      rw [h] at he
      exact ftrace_init_event_fields_fault D _ _ he
    · intro h; simp at h

theorem read_long_string_pass_fault (D : Dump) :
    ∀ (fuel kp : Nat) (seen : List Nat),
      read_long_string_pass D fuel kp seen ≠ .error .out_of_bounds := by
  intro fuel
  induction fuel with
  | zero => intro kp seen h; simp [read_long_string_pass] at h
  | succ n ih =>
    intro kp seen
    unfold read_long_string_pass
    simp only []
    repeat' split
    all_goals first
      | exact ih _ _
      | (intro h; simp at h)

theorem read_long_string_fault (D : Dump) (fuel kvaddr : Nat) :
    read_long_string D fuel kvaddr ≠ .error .out_of_bounds := by
  unfold read_long_string
  split
  · rename_i e he
    intro h
    simp only [Except.error.injEq] at h
    rw [h] at he
    exact read_long_string_pass_fault D _ _ _ he
  · exact read_long_string_pass_fault D _ _ _

theorem ftrace_get_event_type_print_fmt_fault (D : Dump) (fuel : Nat) (s : PrintFmtStatics)
    (call : Nat) :
    (ftrace_get_event_type_print_fmt D fuel s call).1 ≠ .error .out_of_bounds := by
  unfold ftrace_get_event_type_print_fmt
  simp only []
  repeat' split
  all_goals first
    | exact read_long_string_fault D _ _
    | (intro h; simp at h)

theorem fault_cases (e : Fault) (h : e ≠ .out_of_bounds) : e = .out_fail ∨ e = .out_of_fuel := by
  cases e
  · exact Or.inl rfl
  · exact absurd rfl h
  · exact Or.inr rfl

theorem init_event_types_loop_fault (D : Dump) :
    ∀ (fuel : Nat) (st : EventTypes) (event : Nat),
      init_event_types_loop D fuel st event ≠ .error .out_of_bounds := by
  intro fuel
  induction fuel with
  | zero => intro st event h; simp [init_event_types_loop] at h
  | succ n ih =>
    intro st event
    unfold init_event_types_loop
    simp only []
    split
    · intro h; simp at h
    · split
      · intro h; simp at h
      · split
        · intro h; simp at h
        · split
          · intro h; simp at h
          · split
            · rename_i e he
              intro h
              simp only [Except.error.injEq] at h
              rw [h] at he
              exact ftrace_get_event_type_print_fmt_fault D _ _ _ he
            · split
              · rename_i e he
                intro h
                simp only [Except.error.injEq] at h
                rw [h] at he
                exact ftrace_init_event_type_fault D _ _ _ he
              · split
                · intro h; simp at h
                · exact ih _ _

theorem ftrace_init_event_types_fault (D : Dump) (fuel : Nat) (st : EventTypes) :
    ftrace_init_event_types D fuel st ≠ .error .out_of_bounds := by
  unfold ftrace_init_event_types
  split
  · intro h; simp at h
  · split
    · rename_i e he
      intro h
      simp only [Except.error.injEq] at h
      rw [h] at he
      exact init_event_types_loop_fault D _ _ _ he
    · split
      · rename_i e he
        intro h
        simp only [Except.error.injEq] at h
        rw [h] at he
        unfold ftrace_init_common_fields at he
        split at he
        · simp at he
        · exact ftrace_init_event_fields_fault D _ _ he
      · intro h; simp at h

theorem event_after_succ (D : Dump) (k event bad : Nat)
    (h : event_after D (k + 1) event = some bad) :
    event ≠ D.ftrace_events ∧
    ∃ event1, D.read_value event D.list_head_next_offset = some event1 ∧
      event_after D k event1 = some bad := by
  unfold event_after at h
  split at h
  · simp at h
  · rename_i hne
    refine ⟨hne, ?_⟩
    split at h
    · simp at h
    · rename_i event1 he
      exact ⟨event1, he, h⟩

theorem event_after_zero (D : Dump) (event bad : Nat)
    (h : event_after D 0 event = some bad) : event ≠ D.ftrace_events ∧ event = bad := by
  unfold event_after at h
  split at h
  · simp at h
  · rename_i hne
    exact ⟨hne, Option.some.inj h⟩

theorem init_event_types_loop_unknown (D : Dump) (bad : Nat)
    (hf : fields_head D.toHost (usub bad D.ftrace_event_call_list_offset) = none) :
    ∀ (k fuel : Nat) (st : EventTypes) (event : Nat), st.fields_statics.Inv D.toHost →
      event_after D k event = some bad →
      ∀ r, init_event_types_loop D fuel st event ≠ .ok r := by
  intro k
  induction k with
  | zero =>
    intro fuel st event hs hk r
    obtain ⟨hne, rfl⟩ := event_after_zero D event _ hk
    cases fuel with
    | zero => intro h; simp [init_event_types_loop] at h
    | succ n =>
      unfold init_event_types_loop
      simp only [hne, if_false, ftrace_init_event_type_unknown D _ _ _ hs hf]
      repeat' split
      all_goals (intro h; simp at h)
  | succ k ih =>
    intro fuel st event hs hk r
    obtain ⟨hne, event1, he1, hk1⟩ := event_after_succ D k event bad hk
    cases fuel with
    | zero => intro h; simp [init_event_types_loop] at h
    | succ n =>
      unfold init_event_types_loop
      simp only [hne, if_false, he1]
      split
      · intro h; simp at h
      · split
        · intro h; simp at h
        · split
          · intro h; simp at h
          · split
            · intro h; simp at h
            · split
              · intro h; simp at h
              · rename_i fields s1 hinit
                exact ih n _ event1 (ftrace_init_event_type_inv D _ _ _ _ _ hs hinit) hk1 r

/-- C11 as stated fails on the code: on a dump whose second event call of three has a
`get_fields` (`0xC000`) that is neither `syscall_get_enter_fields` (`0xA000`) nor
`syscall_get_exit_fields` (`0xB000`), `ftrace_init_event_types` returns -1 through
`out_fail_free_aevent_type`, where every event type is freed; with a null `get_fields`
there it returns 0 with the three event types. -/
theorem unknown_get_fields_counterexample :
    event_on_list (dump3 0xC000) 1 = some 0x2000 ∧
    (dump3 0xC000).toHost.read (uadd 0x2000 32) = some 0x2100 ∧
    (dump3 0xC000).toHost.read (uadd 0x2100 16) = some 0xC000 ∧
    ftrace_init_event_types (dump3 0xC000) 10 EventTypes.start = .error .out_fail ∧
    (ftrace_init_event_types (dump3 0) 10 EventTypes.start).toOption.map
      (fun st => st.event_types.map (fun t => t.id)) = some [1, 2, 3] := by
  decide

/-! ## Further concrete runs of the archive writer -/

theorem bucket_systems_ev6 : bucket_systems ev6 = .ok (4, [2, 3, 1, 2, 3, 1]) := by decide

theorem bucket_systems_ev3 : bucket_systems ev3 = .ok (3, [2, 1, 2]) := by decide

theorem bucket_systems_nil : bucket_systems [] = .ok (2, []) := by decide

theorem event_on_list_dump3 :
    (List.range 4).map (event_on_list (dump3 0)) =
      [some 0x1000, some 0x2000, some 0x3000, none] := by
  decide


/-! ## The corruption guard of the linearization -/

theorem ring_order_eq_rotate (pages : List Nat) (n h : Nat) (hlen : pages.length = n) :
    ring_order pages n h = pages.rotate h := by
  apply List.ext_getElem?
  intro i
  by_cases hi : i < n
  · rw [ring_order_getElem? _ _ _ _ hi, List.getElem?_rotate (by omega), hlen, ring_at,
      List.getD_eq_getElem?_getD, Nat.add_comm]
    have hlt : (i + h) % n < pages.length := by
      rw [hlen]; exact Nat.mod_lt _ (by omega)
    rw [List.getElem?_eq_getElem hlt]
    rfl
  · rw [List.getElem?_eq_none (by rw [ring_order_length]; omega),
      List.getElem?_eq_none (by rw [List.length_rotate]; omega)]

/-- C27: when `ftrace_init_pages` succeeds with `reader_page != commit_page` and
`commit_page` not among the ring pages, the linearization has stopped at its wrap-around
guard: `linear_pages` is `reader_page` followed by the `nr_pages` ring pages in ring order
from `pages[head_page_index]`, each once, and `nr_linear_pages = nr_pages + 1`. -/
theorem linear_pages_full_turn (K : Kernel) (cpu_buffer b : ring_buffer_per_cpu)
    (nr_pages : Nat) (hok : ftrace_init_pages K cpu_buffer nr_pages = .ok b)
    (hne : b.reader_page ≠ b.commit_page) (hnm : b.commit_page ∉ b.pages) :
    linear_list b =
      b.reader_page :: (List.range nr_pages).map
        (fun i => b.pages.getD ((b.head_page_index.toNat + i) % nr_pages) 0) ∧
    b.nr_linear_pages = (nr_pages : Int) + 1 ∧
    (linear_list b).tail = b.pages.rotate b.head_page_index.toNat ∧
    (linear_list b).tail.Nodup ∧ (linear_list b).tail.Perm b.pages ∧
    (linear_list b)[1]? = some b.real_head_page := by
  obtain ⟨hE, hlen, ⟨h, hh, hidx, hget, _⟩, hr, hc, _, ⟨count, hc1, _, _, hc4⟩, hlin⟩ :=
    ftrace_init_pages_view K cpu_buffer b nr_pages hok
  have hh' : b.head_page_index.toNat = h := by rw [hidx]; exact Int.toNat_ofNat h
  rw [← hr, ← hc] at hlin
  simp only [hne, if_false, hh'] at hlin
  have hrot := ring_order_eq_rotate b.pages nr_pages h hlen
  have hnm2 : b.commit_page ∉ ring_order b.pages nr_pages h := by
    rw [hrot]; intro hm; exact hnm (List.mem_rotate.mp hm)
  rw [take_through_of_not_mem _ _ hnm2] at hlin
  have hnd : b.pages.Nodup := enumerate_pages_nodup K cpu_buffer nr_pages _ _ hE
  rw [hh']
  refine ⟨hlin, ?_, ?_, ?_, ?_, ?_⟩
  · rw [hc1, ← hc4, hlin]
    simp [ring_order_length]
  · rw [hlin, List.tail_cons, hrot]
  · rw [hlin, List.tail_cons, hrot]
    exact List.nodup_rotate.mpr hnd
  · rw [hlin, List.tail_cons, hrot]
    exact List.rotate_perm _ _
  · rw [hlin, List.getElem?_cons_succ, ring_order_getElem? _ _ _ _ (by omega),
      ring_at_zero _ _ _ _ hh hget]

/-- Witness of C27: the lockless ring of four pages with a `commit_page` that is not a
page of the ring. -/
theorem linear_pages_full_turn_witness :
    ftrace_init_pages ring4 buf4_lost 4 = .ok res4_lost ∧
    linear_list res4_lost = [0x5000, 0x2000, 0x3000, 0x4000, 0x1000] ∧
    res4_lost.nr_linear_pages = 5 :=
  have h := linear_pages_full_turn ring4 buf4_lost res4_lost 4 (by decide) (by decide)
    (by decide)
  ⟨by decide, h.1.trans (by decide), h.2.1⟩

/-! ## The tag bits and the true head page -/

theorem last_tagged_cons (p : Nat) (l : List Nat) :
    last_tagged (p :: l) =
      match last_tagged l with
      | some q => some q
      | none => if p &&& 3 ≠ 0 then some p else none := rfl

theorem last_tagged_none (l : List Nat) :
    last_tagged l = none ↔ ∀ p ∈ l, p &&& 3 = 0 := by
  induction l with
  | nil => simp [last_tagged]
  | cons p l ih =>
    rw [last_tagged_cons]
    cases h : last_tagged l with
    | some q =>
      constructor
      · intro e; simp at e
      · intro hall
        have := ih.mpr (fun x hx => hall x (List.mem_cons_of_mem p hx))
        rw [h] at this
        simp at this
    | none =>
      have h2 := ih.mp h
      by_cases hp : p &&& 3 = 0
      · simp only [hp, ne_eq, not_true_eq_false, if_false, true_iff]
        intro x hx
        rcases List.mem_cons.mp hx with rfl | hx
        · exact hp
        · exact h2 x hx
      · simp only [hp, ne_eq, not_false_eq_true, if_true]
        constructor
        · intro e; simp at e
        · intro hall
          exact absurd (hall p (List.mem_cons_self p l)) hp

theorem last_tagged_some (l : List Nat) (q : Nat) :
    last_tagged l = some q ↔
      ∃ l1 l2, l = l1 ++ q :: l2 ∧ q &&& 3 ≠ 0 ∧ ∀ p ∈ l2, p &&& 3 = 0 := by
  induction l with
  | nil => simp [last_tagged]
  | cons p l ih =>
    rw [last_tagged_cons]
    cases h : last_tagged l with
    | some q1 =>
      simp only [Option.some.injEq]
      constructor
      · intro e
        subst e
        obtain ⟨l1, l2, e1, e2, e3⟩ := ih.mp h
        exact ⟨p :: l1, l2, by rw [e1]; rfl, e2, e3⟩
      · rintro ⟨l1, l2, e1, e2, e3⟩
        cases l1 with
        | nil =>
          simp only [List.nil_append, List.cons.injEq] at e1
          have := (last_tagged_none l).mpr (e1.2 ▸ e3)
          rw [h] at this
          simp at this
        | cons x l1 =>
          simp only [List.cons_append, List.cons.injEq] at e1
          have := ih.mpr ⟨l1, l2, e1.2, e2, e3⟩
          rw [h] at this
          exact Option.some.inj this
    | none =>
      have h2 := (last_tagged_none l).mp h
      constructor
      · intro e
        simp only [] at e
        split at e
        · rename_i hp
          injection e with e
          subst e
          exact ⟨[], l, rfl, hp, h2⟩
        · simp at e
      · rintro ⟨l1, l2, e1, e2, e3⟩
        cases l1 with
        | nil =>
          simp only [List.nil_append, List.cons.injEq] at e1
          simp only [e1.1, e2, ne_eq, not_false_eq_true, if_true]
        | cons x l1 =>
          simp only [List.cons_append, List.cons.injEq] at e1
          have := h2 q (by rw [e1.2]; simp)
          exact absurd this e2

theorem enum_walk_real_head (K : Kernel) (head n : Nat) :
    ∀ (fuel page j : Nat) (pages : List Nat) (rhp : Nat) (r : Nat × List Nat × Nat),
      enum_walk K head n fuel page j pages rhp = .ok r → j ≤ n →
      ∃ reads, raw_nexts K (n - j + 1) page = some reads ∧
        r.2.2 = (match last_tagged reads with
          | some p => usub (p &&& NOT3) K.buffer_page_list_offset
          | none => rhp) := by
  intro fuel
  induction fuel with
  | zero => intro page j pages rhp r h; simp [enum_walk] at h
  | succ fuel ih =>
    intro page j pages rhp r h hj
    unfold enum_walk at h
    cases hrd : read_value K page K.list_head_next_offset with
    | none => simp [hrd] at h
    | some p =>
      simp only [hrd] at h
      generalize hp1 : (if p &&& 3 ≠ 0 then p &&& NOT3 else p) = page1 at h
      generalize hr1 : (if p &&& 3 ≠ 0 then usub page1 K.buffer_page_list_offset else rhp) =
        rhp1 at h
      have hlast : ∀ reads, (match last_tagged (p :: reads) with
          | some q => usub (q &&& NOT3) K.buffer_page_list_offset
          | none => rhp) = (match last_tagged reads with
          | some q => usub (q &&& NOT3) K.buffer_page_list_offset
          | none => rhp1) := by
        intro reads
        rw [last_tagged_cons]
        cases last_tagged reads with
        | some q => rfl
        | none =>
          simp only []
          by_cases ht : p &&& 3 ≠ 0
          · rw [if_pos ht] at hp1 hr1 ⊢
            rw [← hr1, ← hp1]
          · rw [if_neg ht] at hr1 ⊢
            exact hr1
      by_cases hjn : j = n
      · simp only [hjn, if_true, Except.ok.injEq] at h
        subst hjn
        refine ⟨[p], ?_, ?_⟩
        · simp [raw_nexts, hrd]
        · rw [hlast, ← h]
          rfl
      · simp only [hjn, if_false] at h
        by_cases hph : page1 = head
        · simp [hph] at h
        · simp only [hph, if_false] at h
          cases hst : store pages j (usub page1 K.buffer_page_list_offset) with
          | none => simp [hst] at h
          | some pages1 =>
            simp only [hst] at h
            obtain ⟨reads, e1, e2⟩ := ih _ _ _ _ _ h (by omega)
            have hcount : n - j + 1 = (n - (j + 1) + 1) + 1 := by omega
            refine ⟨p :: reads, ?_, ?_⟩
            · rw [hcount, raw_nexts]
              simp only [hrd, hp1, e1, Option.map_some']
            · rw [hlast, e2]

theorem raw_nexts_walk (K : Kernel) :
    ∀ (m a : Nat) (reads : List Nat), raw_nexts K m a = some reads →
      reads.length = m ∧
      ∀ i, i < m → ∃ p x, reads[i]? = some p ∧ p < ULONG_MOD ∧ walk K a i = some x ∧
        read_value K x K.list_head_next_offset = some p ∧
        walk K a (i + 1) = some (p &&& NOT3) := by
  intro m
  induction m with
  | zero =>
    intro a reads h
    simp only [raw_nexts, Option.some.injEq] at h
    subst h
    exact ⟨rfl, fun i hi => by omega⟩
  | succ m ih =>
    intro a reads h
    unfold raw_nexts at h
    cases hrd : read_value K a K.list_head_next_offset with
    | none => simp [hrd] at h
    | some p0 =>
      simp only [hrd] at h
      have hp0 := read_value_lt hrd
      have hm0 : (if p0 &&& 3 ≠ 0 then p0 &&& NOT3 else p0) = p0 &&& NOT3 := by
        rw [mask_eq p0 hp0, and_not3 p0 hp0]
      rw [hm0] at h
      have hnext : next_masked K a = some (p0 &&& NOT3) := by
        unfold next_masked
        simp only [hrd, Option.map_some', hm0]
      cases hrest : raw_nexts K m (p0 &&& NOT3) with
      | none => simp [hrest] at h
      | some l =>
        simp only [hrest, Option.map_some', Option.some.injEq] at h
        subst h
        obtain ⟨hl, hall⟩ := ih _ _ hrest
        refine ⟨by simp [hl], ?_⟩
        intro i hi
        cases i with
        | zero =>
          exact ⟨p0, a, by simp, hp0, rfl, hrd, by rw [walk_one, hnext]⟩
        | succ i =>
          obtain ⟨p, x, e1, e2, e3, e4, e5⟩ := hall i (by omega)
          refine ⟨p, x, by simpa using e1, e2, ?_, e4, ?_⟩
          · rw [walk_succ_of_next hnext]; exact e3
          · rw [walk_succ_of_next hnext]; exact e5

theorem enumerate_pages_real_head (K : Kernel) (cpu_buffer : ring_buffer_per_cpu) (n : Nat)
    (pages : List Nat) (rhp : Nat) (h : enumerate_pages K cpu_buffer n = .ok (pages, rhp)) :
    ∃ a reads, anchor K cpu_buffer = some a ∧
      raw_nexts K (n + anchor_skip K) a = some reads ∧
      rhp = (match last_tagged reads with
        | some p => usub (p &&& NOT3) K.buffer_page_list_offset
        | none => cpu_buffer.head_page) := by
  cases hL : K.lockless_ring_buffer with
  | true =>
    rw [enumerate_pages_lockless K cpu_buffer n hL] at h
    cases hrd : read_value K cpu_buffer.kaddr K.ring_buffer_per_cpu_pages_offset with
    | none => simp [hrd] at h
    | some a =>
      simp only [hrd] at h
      cases hst : store (List.replicate n 0) 0 (usub a K.buffer_page_list_offset) with
      | none => simp [hst] at h
      | some pages1 =>
        simp only [hst] at h
        obtain ⟨hlt, _⟩ := store_eq_some hst
        simp only [List.length_replicate] at hlt
        cases hw : enum_walk K a n n a 1 pages1 cpu_buffer.head_page with
        | error e => simp [hw] at h
        | ok r =>
          obtain ⟨page, pages2, rhp2⟩ := r
          simp only [hw] at h
          split at h
          · simp at h
          · simp only [Except.ok.injEq, Prod.mk.injEq] at h
            obtain ⟨reads, e1, e2⟩ := enum_walk_real_head K a n n a 1 pages1 _ _ hw (by omega)
            have hc : n - 1 + 1 = n + anchor_skip K := by
              simp only [anchor_skip, hL, if_true]; omega
            rw [hc] at e1
            refine ⟨a, reads, by simp [anchor, hL, hrd], e1, ?_⟩
            rw [← h.2]; exact e2
  | false =>
    rw [enumerate_pages_classic K cpu_buffer n hL] at h
    cases hw : enum_walk K (uadd cpu_buffer.kaddr K.ring_buffer_per_cpu_pages_offset) n (n + 1)
        (uadd cpu_buffer.kaddr K.ring_buffer_per_cpu_pages_offset) 0 (List.replicate n 0)
        cpu_buffer.head_page with
    | error e => simp [hw] at h
    | ok r =>
      obtain ⟨page, pages2, rhp2⟩ := r
      simp only [hw] at h
      split at h
      · simp at h
      · simp only [Except.ok.injEq, Prod.mk.injEq] at h
        obtain ⟨reads, e1, e2⟩ := enum_walk_real_head K _ n (n + 1) _ 0 _ _ _ hw (by omega)
        have hc : n - 0 + 1 = n + anchor_skip K := by
          simp only [anchor_skip, hL]; rfl
        rw [hc] at e1
        refine ⟨_, reads, by simp [anchor, hL], e1, ?_⟩
        rw [← h.2]; exact e2

theorem anchor_unique {K : Kernel} {cpu_buffer : ring_buffer_per_cpu} {a a1 : Nat}
    (h : anchor K cpu_buffer = some a) (h1 : anchor K cpu_buffer = some a1) : a = a1 :=
  Option.some.inj (h.symm.trans h1)

/-- C28: when `ftrace_init_pages` succeeds, the walk has read `nr_pages` next pointers
(one more in the classic schema), the first at the anchor. Every pointer `p` read has its
two low bits cleared (`p & ~3`) before it is used: the next read is made at the cleared
pointer, the comparison with the anchor and the entry stored in `pages` use the cleared
pointer. If some pointer read carries a tag, `real_head_page` is the cleared last such
pointer minus the offset of `buffer_page.list`; if none does, it is the `head_page` field
of the descriptor. -/
theorem tagged_head_page (K : Kernel) (cpu_buffer b : ring_buffer_per_cpu) (nr_pages : Nat)
    (hok : ftrace_init_pages K cpu_buffer nr_pages = .ok b) :
    ∃ a reads, anchor K cpu_buffer = some a ∧
      raw_nexts K (nr_pages + anchor_skip K) a = some reads ∧
      reads.length = nr_pages + anchor_skip K ∧
      (∀ i p, reads[i]? = some p →
        (if p &&& 3 ≠ 0 then p &&& NOT3 else p) = p &&& NOT3 ∧
        (p &&& NOT3) &&& 3 = 0 ∧
        (∀ q, reads[i + 1]? = some q →
          read_value K (p &&& NOT3) K.list_head_next_offset = some q) ∧
        (i + 1 < nr_pages + anchor_skip K →
          p &&& NOT3 ≠ a ∧
          b.pages[i + 1 - anchor_skip K]? =
            some (usub (p &&& NOT3) K.buffer_page_list_offset)) ∧
        (i + 1 = nr_pages + anchor_skip K → p &&& NOT3 = a)) ∧
      b.real_head_page =
        (match last_tagged reads with
          | some p => usub (p &&& NOT3) K.buffer_page_list_offset
          | none => cpu_buffer.head_page) ∧
      ((∀ p ∈ reads, p &&& 3 = 0) → b.real_head_page = cpu_buffer.head_page) := by
  obtain ⟨hE, _, _, _⟩ := ftrace_init_pages_view K cpu_buffer b nr_pages hok
  obtain ⟨a, reads, ha, hraw, hrhp⟩ := enumerate_pages_real_head K cpu_buffer nr_pages _ _ hE
  obtain ⟨_, a1, ha1, hw, hno, hpg⟩ := enumerate_pages_ok K cpu_buffer nr_pages _ _ hE
  have haa := anchor_unique ha1 ha
  subst haa
  obtain ⟨hlen, hall⟩ := raw_nexts_walk K _ _ _ hraw
  refine ⟨a1, reads, ha, hraw, hlen, ?_, hrhp, ?_⟩
  · intro i p hip
    have hi : i < nr_pages + anchor_skip K := by
      rw [← hlen]
      by_contra hc
      rw [List.getElem?_eq_none (by omega)] at hip
      simp at hip
    obtain ⟨p1, x, e1, e2, e3, e4, e5⟩ := hall i hi
    rw [hip] at e1
    injection e1 with e1
    subst e1
    refine ⟨by rw [mask_eq p e2, and_not3 p e2], ?_, ?_, ?_, ?_⟩
    · rw [and_not3 p e2, and_three]; omega
    · intro q hq
      have hi1 : i + 1 < nr_pages + anchor_skip K := by
        rw [← hlen]
        by_contra hc
        rw [List.getElem?_eq_none (by omega)] at hq
        simp at hq
      obtain ⟨q1, y, f1, _, f3, f4, _⟩ := hall (i + 1) hi1
      rw [hq] at f1
      injection f1 with f1
      subst f1
      rw [e5] at f3
      injection f3 with f3
      rw [f3]; exact f4
    · intro hi1
      refine ⟨?_, ?_⟩
      · intro hc
        rw [hc] at e5
        exact hno (i + 1) (by omega) hi1 e5
      · have hsk : anchor_skip K ≤ 1 := by unfold anchor_skip; split <;> omega
        obtain ⟨y, g1, g2⟩ := hpg (i + 1 - anchor_skip K) (by omega)
        have hidx : i + 1 - anchor_skip K + anchor_skip K = i + 1 := by omega
        rw [hidx, e5] at g1
        injection g1 with g1
        rw [g2, g1]
    · intro hi1
      rw [hi1, hw] at e5
      exact (Option.some.inj e5).symm
  · intro hnone
    rw [hrhp, (last_tagged_none reads).mpr hnone]

/-- Witness of C28: the lockless ring of four pages, where the link from `A` to `B` is
the only one with a tag, and the classic ring of three pages, where no link has one. -/
theorem tagged_head_page_witness :
    ftrace_init_pages ring4 buf4_live 4 = .ok res4_live ∧
    raw_nexts ring4 4 0x1008 = some [0x2009, 0x3008, 0x4008, 0x1008] ∧
    res4_live.real_head_page = 0x2000 ∧
    (ftrace_init_pages ring3 buf3 3 = .ok res3 ∧ res3.real_head_page = buf3.head_page) ∧
    ∃ a reads, anchor ring4 buf4_live = some a ∧
      raw_nexts ring4 (4 + anchor_skip ring4) a = some reads ∧
      reads.length = 4 + anchor_skip ring4 ∧
      (∀ i p, reads[i]? = some p →
        (if p &&& 3 ≠ 0 then p &&& NOT3 else p) = p &&& NOT3 ∧
        (p &&& NOT3) &&& 3 = 0 ∧
        (∀ q, reads[i + 1]? = some q →
          read_value ring4 (p &&& NOT3) ring4.list_head_next_offset = some q) ∧
        (i + 1 < 4 + anchor_skip ring4 →
          p &&& NOT3 ≠ a ∧
          res4_live.pages[i + 1 - anchor_skip ring4]? =
            some (usub (p &&& NOT3) ring4.buffer_page_list_offset)) ∧
        (i + 1 = 4 + anchor_skip ring4 → p &&& NOT3 = a)) ∧
      res4_live.real_head_page =
        (match last_tagged reads with
          | some p => usub (p &&& NOT3) ring4.buffer_page_list_offset
          | none => buf4_live.head_page) ∧
      ((∀ p ∈ reads, p &&& 3 = 0) → res4_live.real_head_page = buf4_live.head_page) :=
  ⟨by decide, by decide, by decide, ⟨by decide, by decide⟩,
    tagged_head_page ring4 buf4_live res4_live 4 (by decide)⟩

/-! ## The page-wise string reader -/

theorem uadd_small (p n : Nat) (h : p + n < ULONG_MOD) : uadd p (n : Int) = p + n := by
  unfold uadd
  unfold ULONG_MOD at *
  omega

theorem takeWhile_eq_take (p : Nat → Bool) :
    ∀ (l : List Nat) (d : Nat), (∀ i x, i < d → l[i]? = some x → p x = true) →
      (∀ x, l[d]? = some x → p x = false) → l.takeWhile p = l.take d := by
  intro l
  induction l with
  | nil => intro d _ _; simp
  | cons a l ih =>
    intro d h1 h2
    cases d with
    | zero =>
      have := h2 a (by simp)
      simp [List.takeWhile_cons, this]
    | succ d =>
      have ha := h1 0 a (by omega) (by simp)
      rw [List.takeWhile_cons, ha, List.take_succ_cons]
      simp only [if_true, List.cons.injEq, true_and]
      apply ih
      · intro i x hi hx
        exact h1 (i + 1) x (by omega) (by simpa using hx)
      · intro x hx
        exact h2 x (by simpa using hx)

theorem mem_range_getElem? (mem : Nat → Nat) (a len i : Nat) (hi : i < len) :
    (mem_range mem a len)[i]? = some (mem (a + i)) := by
  simp [mem_range, List.getElem?_range hi]

theorem mem_range_length (mem : Nat → Nat) (a len : Nat) : (mem_range mem a len).length = len := by
  simp [mem_range]

theorem mem_range_take (mem : Nat → Nat) (a len d : Nat) (h : d ≤ len) :
    (mem_range mem a len).take d = mem_range mem a d := by
  simp [mem_range, ← List.map_take, List.take_range, Nat.min_eq_left h]

theorem mem_range_add (mem : Nat → Nat) (a b c : Nat) :
    mem_range mem a (b + c) = mem_range mem a b ++ mem_range mem (a + b) c := by
  simp [mem_range, List.range_add, Nat.add_assoc]

theorem c_string_mem_range (mem : Nat → Nat) (a len d : Nat)
    (hnz : ∀ i, i < d → mem (a + i) ≠ 0) (hz : d < len → mem (a + d) = 0) :
    c_string (mem_range mem a len) = mem_range mem a (min len d) := by
  unfold c_string
  by_cases hd : d < len
  · rw [takeWhile_eq_take _ _ d, mem_range_take _ _ _ _ (by omega), Nat.min_eq_right (by omega)]
    · intro i x hi hx
      rw [mem_range_getElem? _ _ _ _ (by omega)] at hx
      injection hx with hx
      simpa [← hx] using hnz i hi
    · intro x hx
      rw [mem_range_getElem? _ _ _ _ hd] at hx
      injection hx with hx
      simp [← hx, hz hd]
  · rw [takeWhile_eq_take _ _ len, mem_range_take _ _ _ _ (by omega),
      Nat.min_eq_left (by omega)]
    · intro i x hi hx
      rw [mem_range_getElem? _ _ _ _ hi] at hx
      injection hx with hx
      simpa [← hx] using hnz i (by omega)
    · intro x hx
      rw [List.getElem?_eq_none (by rw [mem_range_length])] at hx
      simp at hx

theorem chunk_bounds (kp m : Nat) :
    1 ≤ 2 ^ m - (kp &&& (2 ^ m - 1)) ∧ 2 ^ m - (kp &&& (2 ^ m - 1)) ≤ 2 ^ m ∧
    (kp + (2 ^ m - (kp &&& (2 ^ m - 1)))) % 2 ^ m = 0 := by
  rw [Nat.and_pow_two_sub_one_eq_mod]
  have hpos : 0 < 2 ^ m := Nat.two_pow_pos m
  have hlt : kp % 2 ^ m < 2 ^ m := Nat.mod_lt _ hpos
  refine ⟨by omega, by omega, ?_⟩
  have h1 := Nat.div_add_mod kp (2 ^ m)
  have h2 : kp + (2 ^ m - kp % 2 ^ m) = 2 ^ m * (kp / 2 ^ m + 1) := by
    rw [Nat.mul_add, Nat.mul_one]; omega
  rw [h2, Nat.mul_mod_right]

theorem read_long_string_pass_ok (D : Dump) (mem : Nat → Nat) (k n m : Nat)
    (hM : D.MIN_PAGE_SIZE = 2 ^ m) (hwrap : k + n + 2 ^ m ≤ ULONG_MOD)
    (hread : ∀ kp, k ≤ kp → kp ≤ k + n →
      D.readmem_bytes kp (2 ^ m - (kp &&& (2 ^ m - 1))) =
        some (mem_range mem kp (2 ^ m - (kp &&& (2 ^ m - 1)))))
    (hnz : ∀ i, i < n → mem (k + i) ≠ 0) (hz : mem (k + n) = 0) :
    ∀ (fuel kp : Nat) (seen : List Nat), k ≤ kp → kp ≤ k + n → k + n - kp < fuel →
      read_long_string_pass D fuel kp seen = .ok (seen ++ mem_range mem kp (k + n - kp)) := by
  intro fuel
  induction fuel with
  | zero => intro kp seen _ _ hf; omega
  | succ fuel ih =>
    intro kp seen h1 h2 hf
    obtain ⟨c1, c2, _⟩ := chunk_bounds kp m
    unfold read_long_string_pass
    simp only [hM, hread kp h1 h2]
    generalize hc : 2 ^ m - (kp &&& (2 ^ m - 1)) = cnt1 at c1 c2
    have htake : (mem_range mem kp cnt1).take cnt1 = mem_range mem kp cnt1 :=
      List.take_of_length_le (by rw [mem_range_length])
    have hcs := c_string_mem_range mem kp cnt1 (k + n - kp)
      (fun i hi => by
        have := hnz (kp - k + i) (by omega)
        have e : k + (kp - k + i) = kp + i := by omega
        rwa [e] at this)
      (fun _ => by
        have e : kp + (k + n - kp) = k + n := by omega
        rw [e]; exact hz)
    rw [htake, hcs, mem_range_length]
    by_cases hd : k + n - kp < cnt1
    · have hmin : min cnt1 (k + n - kp) = k + n - kp := Nat.min_eq_right (by omega)
      rw [hmin, if_pos hd, mem_range_take _ _ _ _ (by omega)]
    · have hmin : min cnt1 (k + n - kp) = cnt1 := Nat.min_eq_left (by omega)
      rw [hmin, if_neg (by omega), htake, uadd_small kp cnt1 (by omega),
        ih (kp + cnt1) _ (by omega) (by omega) (by omega), List.append_assoc]
      have e : k + n - kp = cnt1 + (k + n - (kp + cnt1)) := by omega
      rw [e, mem_range_add]

theorem chunk_le (kp b m : Nat) (hlt : kp < b) (hb : b % 2 ^ m = 0) :
    kp + (2 ^ m - (kp &&& (2 ^ m - 1))) ≤ b := by
  rw [Nat.and_pow_two_sub_one_eq_mod]
  have hpos : 0 < 2 ^ m := Nat.two_pow_pos m
  have hmod : kp % 2 ^ m < 2 ^ m := Nat.mod_lt _ hpos
  have h1 := Nat.div_add_mod kp (2 ^ m)
  have h2 := Nat.div_add_mod b (2 ^ m)
  rw [hb, Nat.add_zero] at h2
  have h3 : kp / 2 ^ m + 1 ≤ b / 2 ^ m := by
    by_contra hc
    have h4 : b / 2 ^ m ≤ kp / 2 ^ m := by omega
    have h5 := Nat.mul_le_mul_left (2 ^ m) h4
    omega
  have h6 := Nat.mul_le_mul_left (2 ^ m) h3
  rw [Nat.mul_add, Nat.mul_one] at h6
  omega

theorem read_long_string_pass_fail (D : Dump) (mem : Nat → Nat) (k b m : Nat)
    (hM : D.MIN_PAGE_SIZE = 2 ^ m) (hwrap : b + 2 ^ m ≤ ULONG_MOD)
    (hread : ∀ kp, k ≤ kp → kp < b →
      D.readmem_bytes kp (2 ^ m - (kp &&& (2 ^ m - 1))) =
        some (mem_range mem kp (2 ^ m - (kp &&& (2 ^ m - 1)))))
    (hnz : ∀ a, k ≤ a → a < b → mem a ≠ 0)
    (hfail : D.readmem_bytes b (2 ^ m - (b &&& (2 ^ m - 1))) = none) :
    ∀ (fuel kp : Nat) (seen : List Nat), k ≤ kp → kp ≤ b → (kp = b ∨ b % 2 ^ m = 0) →
      b - kp < fuel → read_long_string_pass D fuel kp seen = .error .out_fail := by
  intro fuel
  induction fuel with
  | zero => intro kp seen _ _ _ hf; omega
  | succ fuel ih =>
    intro kp seen h1 h2 hb hf
    unfold read_long_string_pass
    by_cases hkb : kp = b
    · subst hkb
      simp only [hM, hfail]
    · have hlt : kp < b := by omega
      have hb0 : b % 2 ^ m = 0 := by
        rcases hb with hb | hb
        · exact absurd hb hkb
        · exact hb
      have hle := chunk_le kp b m hlt hb0
      obtain ⟨c1, c2, _⟩ := chunk_bounds kp m
      simp only [hM, hread kp h1 hlt]
      generalize hc : 2 ^ m - (kp &&& (2 ^ m - 1)) = cnt1 at c1 c2 hle
      have htake : (mem_range mem kp cnt1).take cnt1 = mem_range mem kp cnt1 :=
        List.take_of_length_le (by rw [mem_range_length])
      have hcs := c_string_mem_range mem kp cnt1 cnt1
        (fun i hi => hnz (kp + i) (by omega) (by omega)) (fun h => by omega)
      rw [htake, hcs, mem_range_length, Nat.min_self, if_neg (by omega),
        uadd_small kp cnt1 (by omega)]
      exact ih (kp + cnt1) _ (by omega) hle (Or.inr hb0) (by omega)

/-- C29: let the string at `k` have `n` bytes before its first NUL, let every chunk read
that `read_long_string` makes from an address in `[k, k + n]` (from the address to the end
of its page of `MIN_PAGE_SIZE = 2 ^ m` bytes) succeed and give the bytes of the dump, and
let `n` fit an `int`. Then `read_long_string` returns, within `n + 1` loop passes, the `n`
bytes of the string, whatever the number of page boundaries crossed; the value returned is
`n` and the buffer is these bytes followed by a NUL. If instead the chunk read at `b`, the
address `k` or a page boundary after it, fails while all bytes of `[k, b)` are read and
are not NUL, it returns -1. -/
theorem read_long_string_spec (D : Dump) (mem : Nat → Nat) (k m : Nat)
    (hM : D.MIN_PAGE_SIZE = 2 ^ m) :
    (∀ n fuel, k + n + 2 ^ m ≤ ULONG_MOD → n < 2 ^ 31 →
      (∀ kp, k ≤ kp → kp ≤ k + n →
        D.readmem_bytes kp (2 ^ m - (kp &&& (2 ^ m - 1))) =
          some (mem_range mem kp (2 ^ m - (kp &&& (2 ^ m - 1))))) →
      (∀ i, i < n → mem (k + i) ≠ 0) → mem (k + n) = 0 → n < fuel →
      read_long_string D fuel k = .ok (mem_range mem k n) ∧
      (mem_range mem k n).length = n ∧
      (mem_range mem k n ++ [0]).length = n + 1 ∧ 0 ∉ mem_range mem k n) ∧
    (∀ b fuel, b + 2 ^ m ≤ ULONG_MOD → k ≤ b → (b = k ∨ b % 2 ^ m = 0) →
      (∀ kp, k ≤ kp → kp < b →
        D.readmem_bytes kp (2 ^ m - (kp &&& (2 ^ m - 1))) =
          some (mem_range mem kp (2 ^ m - (kp &&& (2 ^ m - 1))))) →
      (∀ a, k ≤ a → a < b → mem a ≠ 0) →
      D.readmem_bytes b (2 ^ m - (b &&& (2 ^ m - 1))) = none → b - k < fuel →
      read_long_string D fuel k = .error .out_fail) := by
  constructor
  · intro n fuel hwrap _ hread hnz hz hf
    have hp := read_long_string_pass_ok D mem k n m hM hwrap hread hnz hz fuel k []
      (by omega) (by omega) (by omega)
    have e : k + n - k = n := by omega
    rw [e, List.nil_append] at hp
    refine ⟨?_, mem_range_length _ _ _, by simp [mem_range_length], ?_⟩
    · unfold read_long_string
      rw [hp]
    · intro h0
      obtain ⟨i, hi, hget⟩ := List.getElem_of_mem h0
      rw [mem_range_length] at hi
      have h1 := mem_range_getElem? mem k n i hi
      rw [List.getElem?_eq_getElem (by rw [mem_range_length]; exact hi), hget] at h1
      exact hnz i hi (Option.some.inj h1).symm
  · intro b fuel hwrap hkb hb hread hnz hfail hf
    have hp := read_long_string_pass_fail D mem k b m hM hwrap hread hnz hfail fuel k []
      (by omega) hkb (hb.imp Eq.symm id) hf
    unfold read_long_string
    rw [hp]

/-- Witness of C29: pages of 4 bytes; the string `abcdefg` at address 1 crosses one page
boundary and its NUL is the first byte of the page at 8; the string at address 12 runs
into the unreadable page at 16. -/
theorem read_long_string_spec_witness :
    read_long_string dump_str 8 1 = .ok (bytes "abcdefg") ∧
    read_long_string dump_str 8 12 = .error .out_fail := by
  constructor
  · have h := (read_long_string_spec dump_str
      (fun a => if 1 ≤ a ∧ a ≤ 7 then 96 + a else if 12 ≤ a then 120 else 0) 1 2 rfl).1 7 8
      (by decide) (by decide)
      (by intro kp h1 h2; interval_cases kp <;> rfl)
      (by decide) (by decide) (by decide)
    exact h.1.trans (by decide)
  · exact (read_long_string_spec dump_str
      (fun a => if 1 ≤ a ∧ a ≤ 7 then 96 + a else if 12 ≤ a then 120 else 0) 12 2 rfl).2 16 8
      (by decide) (by decide) (Or.inr (by decide))
      (by intro kp h1 h2; interval_cases kp <;> rfl)
      (by intro a h1 h2; interval_cases a <;> decide)
      (by decide) (by decide)

/-! ## The fields of an event in storage order -/

theorem init_event_fields_loop_step (D : Dump) (fields_head fuel pos : Nat)
    (fields : List ftrace_field) (max_fields : Nat) (r : ftrace_field)
    (hne : pos ≠ fields_head) (hmax : 0 < max_fields) (hr : field_record D pos = some r) :
    init_event_fields_loop D fields_head (fuel + 1) pos fields max_fields =
      match D.read_value pos D.list_head_next_offset with
      | none => .error .out_fail
      | some pos1 =>
        init_event_fields_loop D fields_head fuel pos1 (fields ++ [r])
          (if max_fields ≤ fields.length then fields.length * 2 else max_fields) := by
  have hcap : ¬ (if max_fields ≤ fields.length then fields.length * 2 else max_fields) ≤
      fields.length := by
    split <;> omega
  unfold field_record at hr
  rw [init_event_fields_loop]
  simp only [hne, if_false]
  cases h1 : D.read_value (usub pos D.ftrace_event_field_link_offset)
      D.ftrace_event_field_name_offset with
  | none => simp [h1] at hr
  | some name_addr =>
    cases h2 : D.read_value (usub pos D.ftrace_event_field_link_offset)
        D.ftrace_event_field_type_offset with
    | none => simp [h1, h2] at hr
    | some type_addr =>
      cases h3 : D.read_value_int (usub pos D.ftrace_event_field_link_offset)
          D.ftrace_event_field_offset_offset with
      | none => simp [h1, h2, h3] at hr
      | some offset =>
        cases h4 : D.read_value_int (usub pos D.ftrace_event_field_link_offset)
            D.ftrace_event_field_size_offset with
        | none => simp [h1, h2, h3, h4] at hr
        | some size =>
          cases h5 : D.read_value_int (usub pos D.ftrace_event_field_link_offset)
              D.ftrace_event_field_is_signed_offset with
          | none => simp [h1, h2, h3, h4, h5] at hr
          | some is_signed =>
            simp only [h1, h2, h3, h4, h5] at hr
            by_cases hn : (c_string (D.read_string name_addr 128)).length = 0
            · simp [hn] at hr
            · by_cases ht : (c_string (D.read_string type_addr 128)).length = 0
              · simp [hn, ht] at hr
              · simp only [hn, ht, if_false, Option.some.injEq] at hr
                simp only [hn, ht, hcap, if_false, hr]

theorem init_event_fields_loop_spec (D : Dump) (fields_head : Nat) :
    ∀ (fuel pos : Nat) (ps : List Nat) (fields : List ftrace_field) (max_fields : Nat),
      0 < max_fields → list_nodes D fields_head fuel pos = some ps →
      (∀ p ∈ ps, (field_record D p).isSome = true) →
      ∃ recs, init_event_fields_loop D fields_head fuel pos fields max_fields =
          .ok (fields ++ recs) ∧
        recs.map some = ps.map (field_record D) := by
  intro fuel
  induction fuel with
  | zero => intro pos ps fields max_fields _ h; simp [list_nodes] at h
  | succ fuel ih =>
    intro pos ps fields max_fields hmax hl hrec
    unfold list_nodes at hl
    by_cases hph : pos = fields_head
    · simp only [hph, if_true, Option.some.injEq] at hl
      subst hl
      refine ⟨[], ?_, rfl⟩
      unfold init_event_fields_loop
      simp [hph]
    · simp only [hph, if_false] at hl
      cases hrd : D.read_value pos D.list_head_next_offset with
      | none => simp [hrd] at hl
      | some pos1 =>
        simp only [hrd] at hl
        cases hrest : list_nodes D fields_head fuel pos1 with
        | none => simp [hrest] at hl
        | some ps1 =>
          simp only [hrest, Option.map_some', Option.some.injEq] at hl
          subst hl
          obtain ⟨r, hr⟩ := Option.isSome_iff_exists.mp (hrec pos (List.mem_cons_self _ _))
          have hpos : 0 < (if max_fields ≤ fields.length then fields.length * 2
              else max_fields) := by
            split <;> omega
          obtain ⟨recs, e1, e2⟩ := ih pos1 ps1 (fields ++ [r]) _ hpos hrest
            (fun p hp => hrec p (List.mem_cons_of_mem _ hp))
          refine ⟨r :: recs, ?_, ?_⟩
          · rw [init_event_fields_loop_step D fields_head fuel pos fields max_fields r hph
              hmax hr]
            simp only [hrd, e1, List.append_assoc, List.singleton_append]
          · simp only [List.map_cons, e2, hr]

/-- C30: let the `next` pointer of the anchor `fields_head` be `pos`, not null, let the
list nodes reached from `pos` by `next` links until the anchor is reached again be `ps`,
and let the reads of every node succeed. Then `ftrace_init_event_fields` returns 0 with
`nfields` the number of nodes and `fields[i]` the record (name, type, offset, size,
is_signed) of the `i`-th node, in the order encountered, for every number of nodes; no
store falls outside the array, whose capacity starts at 16 and is doubled when full. -/
theorem fields_in_storage_order (D : Dump) (fuel fields_head pos : Nat) (ps : List Nat)
    (hpos : D.read_value fields_head D.list_head_next_offset = some pos) (h0 : pos ≠ 0)
    (hl : list_nodes D fields_head fuel pos = some ps)
    (hrec : ∀ p ∈ ps, (field_record D p).isSome = true) :
    ∃ fields, ftrace_init_event_fields D fuel fields_head = .ok fields ∧
      fields.length = ps.length ∧
      fields.map some = ps.map (field_record D) ∧
      ∀ (i p : Nat), ps[i]? = some p → fields[i]? = field_record D p := by
  obtain ⟨recs, e1, e2⟩ := init_event_fields_loop_spec D fields_head fuel pos ps [] 16
    (by decide) hl hrec
  rw [List.nil_append] at e1
  have hlen : recs.length = ps.length := by
    have := congrArg List.length e2
    simpa using this
  refine ⟨recs, ?_, hlen, e2, ?_⟩
  · unfold ftrace_init_event_fields
    simp only [hpos, h0, if_false, e1]
  · intro i p hip
    have h1 := congrArg (fun l => l[i]?) e2
    simp only [List.getElem?_map, hip, Option.map_some'] at h1
    cases hf : recs[i]? with
    | none => simp [hf] at h1
    | some r =>
      simp only [hf, Option.map_some'] at h1
      exact (Option.some.inj h1)

set_option maxRecDepth 100000 in
/-- Witness of C30: a list of 18 fields, two more than the initial capacity. -/
theorem fields_in_storage_order_witness :
    ∃ fields, ftrace_init_event_fields (dump_list 18) 30 0x800 = .ok fields ∧
      fields.length = 18 ∧
      fields.map (fun f => f.offset) = (List.range 18).map (fun i => 4 * (i : Int)) := by
  obtain ⟨fields, e1, e2, e3, _⟩ := fields_in_storage_order (dump_list 18) 30 0x800 0x1000
    ((List.range 18).map (fun i => 0x1000 + 0x100 * i)) (by decide) (by decide) (by decide)
    (by decide)
  refine ⟨fields, e1, e2, ?_⟩
  have h : (fields.map some).map (Option.map (fun f => f.offset)) =
      (((List.range 18).map (fun i => 0x1000 + 0x100 * i)).map
        (field_record (dump_list 18))).map (Option.map (fun f => f.offset)) := by rw [e3]
  have h2 : (fields.map (fun f => f.offset)).map some =
      ((List.range 18).map (fun i => 4 * (i : Int))).map some := by
    rw [List.map_map] at h
    rw [List.map_map]
    exact h.trans (by decide)
  exact List.map_injective_iff.mpr (Option.some_injective _) h2

/-! ## The escapes of the bprintk table -/

theorem escape_cons (c : Nat) (s : List Nat) : escape (c :: s) = escape_char c ++ escape s := by
  simp [escape]

theorem unescape_escape_append (s t : List Nat) :
    unescape_from false (escape s ++ t) = s ++ unescape_from false t := by
  induction s with
  | nil => simp [escape]
  | cons c s ih =>
    rw [escape_cons, List.append_assoc]
    unfold escape_char
    by_cases h1 : c = 10
    · subst h1; simp [bytes, unescape_from, ih]
    · by_cases h2 : c = 9
      · subst h2; simp [bytes, unescape_from, ih]
      · by_cases h3 : c = 92
        · subst h3; simp [bytes, unescape_from, ih]
        · by_cases h4 : c = 34
          · subst h4; simp [bytes, unescape_from, ih]
          · simp [h1, h2, h3, h4, unescape_from, ih]

theorem unescape_escape (s : List Nat) : unescape (escape s) = s := by
  have h := unescape_escape_append s []
  simpa [unescape, unescape_from] using h

theorem bare_quote_escape_append (s t : List Nat) :
    bare_quote_from false (escape s ++ t) = bare_quote_from false t := by
  induction s with
  | nil => simp [escape]
  | cons c s ih =>
    rw [escape_cons, List.append_assoc]
    unfold escape_char
    by_cases h1 : c = 10
    · subst h1; simp [bytes, bare_quote_from, ih]
    · by_cases h2 : c = 9
      · subst h2; simp [bytes, bare_quote_from, ih]
      · by_cases h3 : c = 92
        · subst h3; simp [bytes, bare_quote_from, ih]
        · by_cases h4 : c = 34
          · subst h4; simp [bytes, bare_quote_from, ih]
          · simp [h1, h2, h3, h4, bare_quote_from, ih]

theorem escape_no_raw (s : List Nat) : 10 ∉ escape s ∧ 9 ∉ escape s := by
  induction s with
  | nil => simp [escape]
  | cons c s ih =>
    rw [escape_cons]
    unfold escape_char
    by_cases h1 : c = 10
    · subst h1; simp [bytes, ih]
    · by_cases h2 : c = 9
      · subst h2; simp [bytes, ih]
      · by_cases h3 : c = 92
        · subst h3; simp [bytes, ih]
        · by_cases h4 : c = 34
          · subst h4; simp [bytes, ih]
          · simp only [h1, h2, h3, h4, if_false, List.singleton_append, List.mem_cons,
              not_or]
            exact ⟨⟨fun e => h1 e.symm, ih.1⟩, ⟨fun e => h2 e.symm, ih.2⟩⟩

/-- C21: for a format string `S` without NUL (not empty, so that a line is printed), the
text `add_print_address` prints between the quotes is `escape S`, in which a newline, a
tab, a backslash and a double quote are written `\n`, `\t`, `\\`, `\"` and every other
byte is unchanged. The unescape gives `S` back, so escaping is injective; the escaped
text holds no raw newline or tab and no unescaped double quote, and the quote that closes
the line is unescaped. -/
theorem escape_round_trip (S : Sys) (hre : ∀ n, S.realloc_ok n = true)
    (read_string : Nat → Nat → List Nat) (T : TmpFile) (address : Nat) (hT : T.Ok)
    (hne : read_string address 4096 ≠ []) (hs : ∀ c ∈ read_string address 4096, c ≠ 0) :
    (∃ T1, add_print_address S read_string T address = .ok T1 ∧
      T1.text = T.text ++ (bytes "0x" ++ fmt_lx address ++ bytes " : \"" ++
        escape (read_string address 4096) ++ bytes "\"\n")) ∧
    escape (read_string address 4096) =
      ((read_string address 4096).map (fun c =>
        if c = 10 then [92, 110] else if c = 9 then [92, 116]
        else if c = 92 then [92, 92] else if c = 34 then [92, 34] else [c])).flatten ∧
    unescape (escape (read_string address 4096)) = read_string address 4096 ∧
    (∀ s2, escape s2 = escape (read_string address 4096) → s2 = read_string address 4096) ∧
    10 ∉ escape (read_string address 4096) ∧ 9 ∉ escape (read_string address 4096) ∧
    bare_quote (escape (read_string address 4096)) = false ∧
    bare_quote (escape (read_string address 4096) ++ bytes "\"\n") = true := by
  obtain ⟨T1, e1, _, e3⟩ := add_print_address_spec S hre read_string T address hT hne hs
  refine ⟨⟨T1, e1, e3⟩, rfl, unescape_escape _, ?_, (escape_no_raw _).1, (escape_no_raw _).2,
    ?_, ?_⟩
  · intro s2 h
    have := congrArg unescape h
    rwa [unescape_escape, unescape_escape] at this
  · have h := bare_quote_escape_append (read_string address 4096) []
    simpa [bare_quote, bare_quote_from] using h
  · unfold bare_quote
    rw [bare_quote_escape_append]
    decide

/-- Witness of C21: a format that holds a tab, a quote, a backslash and a newline. -/
theorem escape_round_trip_witness :
    escape (bytes "a\tb\"c\\\n") = bytes "a\\tb\\\"c\\\\\\n" ∧
    unescape (bytes "a\\tb\\\"c\\\\\\n") = bytes "a\tb\"c\\\n" ∧
    bare_quote (bytes "a\\tb\\\"c\\\\\\n") = false := by
  have h := escape_round_trip sys_le (fun _ => rfl) (fun _ _ => bytes "a\tb\"c\\\n")
    init_tmp_file 0x1000 init_tmp_file_ok (by decide) (by decide)
  have e : escape (bytes "a\tb\"c\\\n") = bytes "a\\tb\\\"c\\\\\\n" := by decide
  refine ⟨e, ?_, ?_⟩
  · rw [← e]; exact h.2.2.1
  · rw [← e]; exact h.2.2.2.2.2.2.1

/-! ## The layout probe -/

theorem per_cpu_buffer_sizes_of_exists (L : Layout)
    (h : L.MEMBER_EXISTS "ring_buffer_per_cpu" "nr_pages" = true) :
    per_cpu_buffer_sizes L = 1 := by
  unfold per_cpu_buffer_sizes
  rw [if_pos h]

theorem per_cpu_buffer_sizes_of_not_exists (L : Layout)
    (h : ¬ L.MEMBER_EXISTS "ring_buffer_per_cpu" "nr_pages" = true) :
    per_cpu_buffer_sizes L = 0 := by
  unfold per_cpu_buffer_sizes
  rw [if_neg h]

theorem init_offsets_some (L : Layout) (o : Offsets) (h : init_offsets L = some o) :
    ∀ m ∈ mandatory_members L, 0 ≤ L.MEMBER_OFFSET m.1 m.2 := by
  unfold init_offsets at h
  by_cases c0 : L.MEMBER_OFFSET "trace_array" "buffer" < 0
  · rw [if_pos c0] at h; cases h
  rw [if_neg c0] at h
  by_cases c1 : L.MEMBER_OFFSET "tracer" "name" < 0
  · rw [if_pos c1] at h; cases h
  rw [if_neg c1] at h
  by_cases c2 : per_cpu_buffer_sizes L = 0 ∧ L.MEMBER_OFFSET "ring_buffer" "pages" < 0
  · rw [if_pos c2] at h; cases h
  rw [if_neg c2] at h
  by_cases c3 : L.MEMBER_OFFSET "ring_buffer" "flags" < 0
  · rw [if_pos c3] at h; cases h
  rw [if_neg c3] at h
  by_cases c4 : L.MEMBER_OFFSET "ring_buffer" "cpus" < 0
  · rw [if_pos c4] at h; cases h
  rw [if_neg c4] at h
  by_cases c5 : L.MEMBER_OFFSET "ring_buffer" "buffers" < 0
  · rw [if_pos c5] at h; cases h
  rw [if_neg c5] at h
  by_cases c6 : per_cpu_buffer_sizes L ≠ 0 ∧ L.MEMBER_OFFSET "ring_buffer_per_cpu" "nr_pages" < 0
  · rw [if_pos c6] at h; cases h
  rw [if_neg c6] at h
  by_cases c7 : L.MEMBER_OFFSET "ring_buffer_per_cpu" "cpu" < 0
  · rw [if_pos c7] at h; cases h
  rw [if_neg c7] at h
  by_cases c8 : L.MEMBER_OFFSET "ring_buffer_per_cpu" "pages" < 0
  · rw [if_pos c8] at h; cases h
  rw [if_neg c8] at h
  by_cases c9 : L.MEMBER_OFFSET "ring_buffer_per_cpu" "head_page" < 0
  · rw [if_pos c9] at h; cases h
  rw [if_neg c9] at h
  by_cases c10 : L.MEMBER_OFFSET "ring_buffer_per_cpu" "tail_page" < 0
  · rw [if_pos c10] at h; cases h
  rw [if_neg c10] at h
  by_cases c11 : L.MEMBER_OFFSET "ring_buffer_per_cpu" "commit_page" < 0
  · rw [if_pos c11] at h; cases h
  rw [if_neg c11] at h
  by_cases c12 : L.MEMBER_OFFSET "ring_buffer_per_cpu" "reader_page" < 0
  · rw [if_pos c12] at h; cases h
  rw [if_neg c12] at h
  by_cases c13 : L.MEMBER_OFFSET "ring_buffer_per_cpu" "overrun" < 0
  · rw [if_pos c13] at h; cases h
  rw [if_neg c13] at h
  by_cases c14 : L.MEMBER_OFFSET "ring_buffer_per_cpu" "entries" < 0
  · rw [if_pos c14] at h; cases h
  rw [if_neg c14] at h
  by_cases c15 : L.MEMBER_OFFSET "buffer_page" "read" < 0
  · rw [if_pos c15] at h; cases h
  rw [if_neg c15] at h
  by_cases c16 : L.MEMBER_OFFSET "buffer_page" "list" < 0
  · rw [if_pos c16] at h; cases h
  rw [if_neg c16] at h
  by_cases c17 : L.MEMBER_OFFSET "buffer_page" "page" < 0
  · rw [if_pos c17] at h; cases h
  rw [if_neg c17] at h
  by_cases c18 : L.MEMBER_OFFSET "list_head" "next" < 0
  · rw [if_pos c18] at h; cases h
  rw [if_neg c18] at h
  by_cases c19 : L.MEMBER_OFFSET "ftrace_event_call" "list" < 0
  · rw [if_pos c19] at h; cases h
  rw [if_neg c19] at h
  by_cases c20 : L.MEMBER_OFFSET "ftrace_event_field" "link" < 0
  · rw [if_pos c20] at h; cases h
  rw [if_neg c20] at h
  by_cases c21 : L.MEMBER_OFFSET "ftrace_event_field" "name" < 0
  · rw [if_pos c21] at h; cases h
  rw [if_neg c21] at h
  by_cases c22 : L.MEMBER_OFFSET "ftrace_event_field" "type" < 0
  · rw [if_pos c22] at h; cases h
  rw [if_neg c22] at h
  by_cases c23 : L.MEMBER_OFFSET "ftrace_event_field" "offset" < 0
  · rw [if_pos c23] at h; cases h
  rw [if_neg c23] at h
  by_cases c24 : L.MEMBER_OFFSET "ftrace_event_field" "size" < 0
  · rw [if_pos c24] at h; cases h
  rw [if_neg c24] at h
  by_cases c25 : L.MEMBER_OFFSET "ftrace_event_field" "is_signed" < 0
  · rw [if_pos c25] at h; cases h
  rw [if_neg c25] at h
  clear h
  intro m hm
  unfold mandatory_members at hm
  by_cases he : L.MEMBER_EXISTS "ring_buffer_per_cpu" "nr_pages" = true
  · rw [if_pos he] at hm
    have hp := per_cpu_buffer_sizes_of_exists L he
    rcases List.mem_cons.mp hm with rfl | hm
    · show 0 ≤ L.MEMBER_OFFSET "trace_array" "buffer"; omega
    rcases List.mem_cons.mp hm with rfl | hm
    · show 0 ≤ L.MEMBER_OFFSET "tracer" "name"; omega
    rcases List.mem_cons.mp hm with rfl | hm
    · show 0 ≤ L.MEMBER_OFFSET "ring_buffer" "flags"; omega
    rcases List.mem_cons.mp hm with rfl | hm
    · show 0 ≤ L.MEMBER_OFFSET "ring_buffer" "cpus"; omega
    rcases List.mem_cons.mp hm with rfl | hm
    · show 0 ≤ L.MEMBER_OFFSET "ring_buffer" "buffers"; omega
    rcases List.mem_cons.mp hm with rfl | hm
    · show 0 ≤ L.MEMBER_OFFSET "ring_buffer_per_cpu" "nr_pages"; omega
    rcases List.mem_cons.mp hm with rfl | hm
    · show 0 ≤ L.MEMBER_OFFSET "ring_buffer_per_cpu" "cpu"; omega
    rcases List.mem_cons.mp hm with rfl | hm
    · show 0 ≤ L.MEMBER_OFFSET "ring_buffer_per_cpu" "pages"; omega
    rcases List.mem_cons.mp hm with rfl | hm
    · show 0 ≤ L.MEMBER_OFFSET "ring_buffer_per_cpu" "head_page"; omega
    rcases List.mem_cons.mp hm with rfl | hm
    · show 0 ≤ L.MEMBER_OFFSET "ring_buffer_per_cpu" "tail_page"; omega
    rcases List.mem_cons.mp hm with rfl | hm
    · show 0 ≤ L.MEMBER_OFFSET "ring_buffer_per_cpu" "commit_page"; omega
    rcases List.mem_cons.mp hm with rfl | hm
    · show 0 ≤ L.MEMBER_OFFSET "ring_buffer_per_cpu" "reader_page"; omega
    rcases List.mem_cons.mp hm with rfl | hm
    · show 0 ≤ L.MEMBER_OFFSET "ring_buffer_per_cpu" "overrun"; omega
    rcases List.mem_cons.mp hm with rfl | hm
    · show 0 ≤ L.MEMBER_OFFSET "ring_buffer_per_cpu" "entries"; omega
    rcases List.mem_cons.mp hm with rfl | hm
    · show 0 ≤ L.MEMBER_OFFSET "buffer_page" "read"; omega
    rcases List.mem_cons.mp hm with rfl | hm
    · show 0 ≤ L.MEMBER_OFFSET "buffer_page" "list"; omega
    rcases List.mem_cons.mp hm with rfl | hm
    · show 0 ≤ L.MEMBER_OFFSET "buffer_page" "page"; omega
    rcases List.mem_cons.mp hm with rfl | hm
    · show 0 ≤ L.MEMBER_OFFSET "list_head" "next"; omega
    rcases List.mem_cons.mp hm with rfl | hm
    · show 0 ≤ L.MEMBER_OFFSET "ftrace_event_call" "list"; omega
    rcases List.mem_cons.mp hm with rfl | hm
    · show 0 ≤ L.MEMBER_OFFSET "ftrace_event_field" "link"; omega
    rcases List.mem_cons.mp hm with rfl | hm
    · show 0 ≤ L.MEMBER_OFFSET "ftrace_event_field" "name"; omega
    rcases List.mem_cons.mp hm with rfl | hm
    · show 0 ≤ L.MEMBER_OFFSET "ftrace_event_field" "type"; omega
    rcases List.mem_cons.mp hm with rfl | hm
    · show 0 ≤ L.MEMBER_OFFSET "ftrace_event_field" "offset"; omega
    rcases List.mem_cons.mp hm with rfl | hm
    · show 0 ≤ L.MEMBER_OFFSET "ftrace_event_field" "size"; omega
    rw [List.mem_singleton] at hm
    subst hm
    show 0 ≤ L.MEMBER_OFFSET "ftrace_event_field" "is_signed"; omega
  · rw [if_neg he] at hm
    have hp := per_cpu_buffer_sizes_of_not_exists L he
    rcases List.mem_cons.mp hm with rfl | hm
    · show 0 ≤ L.MEMBER_OFFSET "trace_array" "buffer"; omega
    rcases List.mem_cons.mp hm with rfl | hm
    · show 0 ≤ L.MEMBER_OFFSET "tracer" "name"; omega
    rcases List.mem_cons.mp hm with rfl | hm
    · show 0 ≤ L.MEMBER_OFFSET "ring_buffer" "pages"; omega
    rcases List.mem_cons.mp hm with rfl | hm
    · show 0 ≤ L.MEMBER_OFFSET "ring_buffer" "flags"; omega
    rcases List.mem_cons.mp hm with rfl | hm
    · show 0 ≤ L.MEMBER_OFFSET "ring_buffer" "cpus"; omega
    rcases List.mem_cons.mp hm with rfl | hm
    · show 0 ≤ L.MEMBER_OFFSET "ring_buffer" "buffers"; omega
    rcases List.mem_cons.mp hm with rfl | hm
    · show 0 ≤ L.MEMBER_OFFSET "ring_buffer_per_cpu" "cpu"; omega
    rcases List.mem_cons.mp hm with rfl | hm
    · show 0 ≤ L.MEMBER_OFFSET "ring_buffer_per_cpu" "pages"; omega
    rcases List.mem_cons.mp hm with rfl | hm
    · show 0 ≤ L.MEMBER_OFFSET "ring_buffer_per_cpu" "head_page"; omega
    rcases List.mem_cons.mp hm with rfl | hm
    · show 0 ≤ L.MEMBER_OFFSET "ring_buffer_per_cpu" "tail_page"; omega
    rcases List.mem_cons.mp hm with rfl | hm
    · show 0 ≤ L.MEMBER_OFFSET "ring_buffer_per_cpu" "commit_page"; omega
    rcases List.mem_cons.mp hm with rfl | hm
    · show 0 ≤ L.MEMBER_OFFSET "ring_buffer_per_cpu" "reader_page"; omega
    rcases List.mem_cons.mp hm with rfl | hm
    · show 0 ≤ L.MEMBER_OFFSET "ring_buffer_per_cpu" "overrun"; omega
    rcases List.mem_cons.mp hm with rfl | hm
    · show 0 ≤ L.MEMBER_OFFSET "ring_buffer_per_cpu" "entries"; omega
    rcases List.mem_cons.mp hm with rfl | hm
    · show 0 ≤ L.MEMBER_OFFSET "buffer_page" "read"; omega
    rcases List.mem_cons.mp hm with rfl | hm
    · show 0 ≤ L.MEMBER_OFFSET "buffer_page" "list"; omega
    rcases List.mem_cons.mp hm with rfl | hm
    · show 0 ≤ L.MEMBER_OFFSET "buffer_page" "page"; omega
    rcases List.mem_cons.mp hm with rfl | hm
    · show 0 ≤ L.MEMBER_OFFSET "list_head" "next"; omega
    rcases List.mem_cons.mp hm with rfl | hm
    · show 0 ≤ L.MEMBER_OFFSET "ftrace_event_call" "list"; omega
    rcases List.mem_cons.mp hm with rfl | hm
    · show 0 ≤ L.MEMBER_OFFSET "ftrace_event_field" "link"; omega
    rcases List.mem_cons.mp hm with rfl | hm
    · show 0 ≤ L.MEMBER_OFFSET "ftrace_event_field" "name"; omega
    rcases List.mem_cons.mp hm with rfl | hm
    · show 0 ≤ L.MEMBER_OFFSET "ftrace_event_field" "type"; omega
    rcases List.mem_cons.mp hm with rfl | hm
    · show 0 ≤ L.MEMBER_OFFSET "ftrace_event_field" "offset"; omega
    rcases List.mem_cons.mp hm with rfl | hm
    · show 0 ≤ L.MEMBER_OFFSET "ftrace_event_field" "size"; omega
    rw [List.mem_singleton] at hm
    subst hm
    show 0 ≤ L.MEMBER_OFFSET "ftrace_event_field" "is_signed"; omega

theorem init_offsets_none (L : Layout) (m : String × String) (hm : m ∈ mandatory_members L)
    (hneg : L.MEMBER_OFFSET m.1 m.2 < 0) : init_offsets L = none := by
  cases h : init_offsets L with
  | none => rfl
  | some o =>
    have := init_offsets_some L o h m hm
    omega

/-- C26: if a member that `init_offsets` probes with `init_offset` has a negative member
offset, `init_offsets` returns -1, `ftrace_init` returns -1 whatever the calls that build
the buffers and the event types would do (they are not reached), and `trace_init` leaves
`ftrace_initialized` at 0 and does not call `register_extension`. -/
theorem missing_offset_not_registered {α : Type} (L : Layout)
    (build : Symbols → Offsets → Option α) (m : String × String)
    (hm : m ∈ mandatory_members L) (hneg : L.MEMBER_OFFSET m.1 m.2 < 0) :
    init_offsets L = none ∧ ftrace_init L build = none ∧
    (trace_init L build).registered = false ∧
    (trace_init L build).ftrace_initialized = 0 ∧
    (trace_init L build).state.isNone = true := by
  have h1 := init_offsets_none L m hm hneg
  have h2 : ftrace_init L build = none := by
    unfold ftrace_init
    split
    · simp only [h1]
    · rfl
  refine ⟨h1, h2, ?_, ?_, ?_⟩ <;> simp [trace_init, h2]

/-- Witness of C26: a layout without the member `buffer_page.page`. -/
theorem missing_offset_not_registered_witness :
    (trace_init (layout_with (fun s m => if s = "buffer_page" ∧ m = "page" then -1 else 8))
      (fun _ _ => some ())).registered = false ∧
    (trace_init (layout_with (fun _ _ => 8)) (fun _ _ => some ())).registered = true :=
  ⟨(missing_offset_not_registered
      (layout_with (fun s m => if s = "buffer_page" ∧ m = "page" then -1 else 8))
      (fun _ _ => some ()) ("buffer_page", "page") (by decide) (by decide)).2.2.1,
    by decide⟩

/-! ## The record data of the archive -/

theorem and_mask (y k b : Nat) (hk : k ≤ b) (hy : y < 2 ^ b) :
    y &&& (2 ^ b - 2 ^ k) = 2 ^ k * (y / 2 ^ k) := by
  apply Nat.eq_of_testBit_eq
  intro i
  have h1 : 2 ^ k * (y / 2 ^ k) = (y >>> k) <<< k := by
    rw [Nat.shiftRight_eq_div_pow, Nat.shiftLeft_eq, Nat.mul_comm]
  have h2 : 2 ^ b - 2 ^ k = (2 ^ (b - k) - 1) <<< k := by
    rw [Nat.shiftLeft_eq, Nat.sub_mul, Nat.one_mul, ← Nat.pow_add, Nat.sub_add_cancel hk]
  rw [Nat.testBit_and, h1, h2, Nat.testBit_shiftLeft, Nat.testBit_shiftLeft,
    Nat.testBit_shiftRight, Nat.testBit_two_pow_sub_one]
  by_cases hik : k ≤ i
  · have e : k + (i - k) = i := by omega
    simp only [ge_iff_le, hik, decide_True, Bool.true_and, e]
    by_cases hib : i - k < b - k
    · simp [hib]
    · have : y.testBit i = false := by
        apply Nat.testBit_lt_two_pow
        calc y < 2 ^ b := hy
          _ ≤ 2 ^ i := Nat.pow_le_pow_right (by omega) (by omega)
      simp [hib, this]
  · simp [hik]

theorem record_offset_spec (H : PageHost) (pos : Nat) (nr_cpu_buffers : Int) (k : Nat)
    (hP : H.page_size = 2 ^ k) (hk : k < H.pagesize_bits) (hb : H.pagesize_bits ≤ 64)
    (hn : 0 ≤ nr_cpu_buffers)
    (hfit : (pos : Int) + nr_cpu_buffers * 16 + 2 ^ k ≤ 2 ^ H.pagesize_bits) :
    record_offset H pos nr_cpu_buffers % 2 ^ k = 0 ∧
    (pos : Int) + nr_cpu_buffers * 16 ≤ (record_offset H pos nr_cpu_buffers : Int) ∧
    (record_offset H pos nr_cpu_buffers : Int) < (pos : Int) + nr_cpu_buffers * 16 + 2 ^ k := by
  obtain ⟨n, rfl⟩ : ∃ n : Nat, nr_cpu_buffers = (n : Int) := ⟨nr_cpu_buffers.toNat, by omega⟩
  have hkpos : 0 < 2 ^ k := Nat.two_pow_pos k
  have hlt : 2 ^ k < 2 ^ H.pagesize_bits := Nat.pow_lt_pow_right (by omega) hk
  have hle : 2 ^ H.pagesize_bits ≤ 2 ^ 64 := Nat.pow_le_pow_right (by omega) hb
  have hfit2 : pos + n * 16 + 2 ^ k ≤ 2 ^ H.pagesize_bits := by
    have : ((pos + n * 16 + 2 ^ k : Nat) : Int) ≤ ((2 ^ H.pagesize_bits : Nat) : Int) := by
      push_cast; exact hfit
    exact Int.ofNat_le.mp this
  have h0 : pos % ULONG_MOD = pos := Nat.mod_eq_of_lt (by unfold ULONG_MOD; omega)
  have h1 : ((((pos : Nat) : Int) + (n : Int) * 16) % (ULONG_MOD : Int)).toNat = pos + n * 16 := by
    unfold ULONG_MOD; omega
  have hpm1 : (2 ^ k + 2 ^ H.pagesize_bits - 1) % 2 ^ H.pagesize_bits = 2 ^ k - 1 := by
    have e : 2 ^ k + 2 ^ H.pagesize_bits - 1 = (2 ^ k - 1) + 2 ^ H.pagesize_bits := by omega
    rw [e, Nat.add_mod_right, Nat.mod_eq_of_lt (by omega)]
  have hmask : 2 ^ H.pagesize_bits - 1 - (2 ^ k - 1) = 2 ^ H.pagesize_bits - 2 ^ k := by omega
  have h2 : (pos + n * 16 + (2 ^ k - 1)) % ULONG_MOD = pos + n * 16 + (2 ^ k - 1) :=
    Nat.mod_eq_of_lt (by unfold ULONG_MOD; omega)
  have hval : record_offset H pos (n : Int) =
      2 ^ k * ((pos + n * 16 + (2 ^ k - 1)) / 2 ^ k) := by
    unfold record_offset
    simp only [h0, h1, hP, hpm1, hmask, h2]
    exact and_mask _ k H.pagesize_bits (by omega) (by omega)
  have hdm := Nat.div_add_mod (pos + n * 16 + (2 ^ k - 1)) (2 ^ k)
  have hmod : (pos + n * 16 + (2 ^ k - 1)) % 2 ^ k < 2 ^ k := Nat.mod_lt _ hkpos
  rw [hval]
  refine ⟨Nat.mul_mod_right _ _, ?_, ?_⟩
  · have : pos + n * 16 ≤ 2 ^ k * ((pos + n * 16 + (2 ^ k - 1)) / 2 ^ k) := by omega
    exact_mod_cast this
  · have : 2 ^ k * ((pos + n * 16 + (2 ^ k - 1)) / 2 ^ k) < pos + n * 16 + 2 ^ k := by omega
    exact_mod_cast this

theorem count_cpu_buffers_eq (global_buffers : List ring_buffer_per_cpu) :
    count_cpu_buffers global_buffers = ((present_cpus global_buffers).length : Int) := by
  have key : ∀ (l : List ring_buffer_per_cpu) (n : Int),
      l.foldl (fun nr_cpu_buffers cpu_buffer =>
        if cpu_buffer.kaddr = 0 then nr_cpu_buffers else nr_cpu_buffers + 1) n =
      n + ((present_cpus l).length : Int) := by
    intro l
    induction l with
    | nil => intro n; simp [present_cpus]
    | cons b l ih =>
      intro n
      rw [List.foldl_cons, ih]
      unfold present_cpus
      by_cases hb : b.kaddr = 0
      · simp [hb]
      · simp [hb]; omega
  unfold count_cpu_buffers
  rw [key]
  omega

theorem present_cpus_length_le (global_buffers : List ring_buffer_per_cpu) :
    (present_cpus global_buffers).length ≤ global_buffers.length :=
  List.length_filter_le _ _

theorem save_res_data_spec (S : Sys) (hfull : ∀ i c, S.sys_write i c = (c : Int)) (f : File)
    (n : Nat) (hn : n < 2 ^ 32) :
    save_res_data S f (n : Int) =
      .ok { data := f.data ++ (obj_bytes S 4 n ++ (bytes "options  " ++ [0]) ++
              obj_bytes S 2 0 ++ (bytes "flyrecord" ++ [0]))
            calls := f.calls + 4 } := by
  have hmod : (((n : Int)) % 2 ^ 32).toNat = n := by omega
  have t4 : (obj_bytes S 4 n).take 4 = obj_bytes S 4 n :=
    List.take_of_length_le (by rw [obj_bytes_length])
  have t2 : (obj_bytes S 2 0).take 2 = obj_bytes S 2 0 :=
    List.take_of_length_le (by rw [obj_bytes_length])
  unfold save_res_data
  rw [hmod, write_and_check_full S hfull f _ 4 (by decide) (by rw [obj_bytes_length])
    (by decide), t4]
  simp only []
  rw [write_and_check_full S hfull _ _ 10 (by decide) (by decide) (by decide)]
  simp only []
  rw [write_and_check_full S hfull _ _ 2 (by decide) (by rw [obj_bytes_length])
    (by decide), t2]
  simp only []
  rw [write_and_check_full S hfull _ _ 10 (by decide) (by decide) (by decide)]
  have e1 : (bytes "options  " ++ [0]).take 10 = bytes "options  " ++ [0] := by decide
  have e2 : (bytes "flyrecord" ++ [0]).take 10 = bytes "flyrecord" ++ [0] := by decide
  rw [e1, e2]
  simp only [List.append_assoc]

theorem index_entries_length (H : PageHost) :
    ∀ (l : List ring_buffer_per_cpu) (off : Nat),
      (index_entries H l off).length = (present_cpus l).length ∧
      (index_entries H l off).map (fun e => e.2) = (present_cpus l).map (buffer_size H) := by
  intro l
  induction l with
  | nil => intro off; simp [index_entries, present_cpus]
  | cons b l ih =>
    intro off
    unfold index_entries present_cpus
    by_cases hb : b.kaddr = 0
    · simp only [hb, if_true, ne_eq, not_true_eq_false, decide_False, List.filter_cons,
        Bool.false_eq_true, if_false]
      exact ih off
    · simp only [hb, if_false, ne_eq, not_false_eq_true, decide_True, List.filter_cons,
        if_true, List.length_cons, List.map_cons]
      have := ih ((off + buffer_size H b) % ULONG_MOD)
      unfold present_cpus at this
      simp only [ne_eq] at this
      exact ⟨by rw [this.1], by rw [this.2]⟩

theorem save_record_index_spec (H : PageHost)
    (hfull : ∀ i c, H.sys_write i c = (c : Int)) :
    ∀ (l : List ring_buffer_per_cpu) (off : Nat) (f : File),
      ∃ final, save_record_index H l off f =
        .ok (final, { data := f.data ++ ((index_entries H l off).map
                        (entry_bytes H.toSys)).flatten
                      calls := f.calls + 2 * (index_entries H l off).length }) := by
  intro l
  induction l with
  | nil => intro off f; exact ⟨off, by simp [save_record_index, index_entries]⟩
  | cons b l ih =>
    intro off f
    unfold save_record_index index_entries
    by_cases hb : b.kaddr = 0
    · simp only [hb, if_true]
      exact ih off f
    · simp only [hb, if_false]
      have t8 : ∀ v, (obj_bytes H.toSys 8 v).take 8 = obj_bytes H.toSys 8 v := fun v =>
        List.take_of_length_le (by rw [obj_bytes_length])
      rw [write_and_check_full H.toSys hfull f _ 8 (by decide) (by rw [obj_bytes_length])
        (by decide), t8]
      simp only []
      rw [write_and_check_full H.toSys hfull _ _ 8 (by decide) (by rw [obj_bytes_length])
        (by decide), t8]
      simp only []
      obtain ⟨final, e⟩ := ih ((off + buffer_size H b) % ULONG_MOD)
        (File.mk (f.data ++ obj_bytes H.toSys 8 off ++ obj_bytes H.toSys 8 (buffer_size H b))
          (f.calls + 1 + 1))
      refine ⟨final, ?_⟩
      rw [e]
      simp only [List.map_cons, List.flatten_cons, entry_bytes, List.append_assoc,
        List.length_cons]
      congr 3
      omega

theorem entry_bytes_length (S : Sys) (e : Nat × Nat) : (entry_bytes S e).length = 16 := by
  simp [entry_bytes, obj_bytes_length]

theorem flatten_entries_length (S : Sys) (es : List (Nat × Nat)) :
    ((es.map (entry_bytes S)).flatten).length = 16 * es.length := by
  induction es with
  | nil => rfl
  | cons e es ih =>
    simp only [List.map_cons, List.flatten_cons, List.length_append, entry_bytes_length, ih,
      List.length_cons]
    omega

/-- C24: when every `write` is complete, the CPU count that `__trace_cmd_data_output`
hands to `save_res_data` is the number of CPUs with `kaddr != 0`, `save_res_data` writes
it in 4 bytes before `options`, and the first loop of `save_record_data` writes one entry
of 16 bytes for each such CPU, in increasing CPU number, the length field of an entry
being the `buffer_size` of its CPU, and nothing for a CPU with `kaddr = 0`. -/
theorem cpu_count_and_index (H : PageHost) (hfull : ∀ i c, H.sys_write i c = (c : Int))
    (global_buffers : List ring_buffer_per_cpu) (f : File) (offset : Nat)
    (hlen : global_buffers.length < 2 ^ 31) :
    count_cpu_buffers global_buffers = ((present_cpus global_buffers).length : Int) ∧
    save_res_data H.toSys f (count_cpu_buffers global_buffers) =
      .ok { data := f.data ++ (obj_bytes H.toSys 4 (present_cpus global_buffers).length ++
              (bytes "options  " ++ [0]) ++ obj_bytes H.toSys 2 0 ++
              (bytes "flyrecord" ++ [0]))
            calls := f.calls + 4 } ∧
    ∃ final f1, save_record_index H global_buffers offset f = .ok (final, f1) ∧
      f1.data = f.data ++
        ((index_entries H global_buffers offset).map (entry_bytes H.toSys)).flatten ∧
      (index_entries H global_buffers offset).length = (present_cpus global_buffers).length ∧
      (index_entries H global_buffers offset).map (fun e => e.2) =
        (present_cpus global_buffers).map (buffer_size H) ∧
      (((index_entries H global_buffers offset).map (entry_bytes H.toSys)).flatten).length =
        16 * (present_cpus global_buffers).length ∧
      ∀ b ∈ present_cpus global_buffers, b ∈ global_buffers ∧ b.kaddr ≠ 0 := by
  have hc := count_cpu_buffers_eq global_buffers
  have hle := present_cpus_length_le global_buffers
  obtain ⟨final, e⟩ := save_record_index_spec H hfull global_buffers offset f
  obtain ⟨l1, l2⟩ := index_entries_length H global_buffers offset
  refine ⟨hc, ?_, final, _, e, rfl, l1, l2, ?_, ?_⟩
  · rw [hc]
    exact save_res_data_spec H.toSys hfull f _ (by omega)
  · rw [flatten_entries_length, l1]
  · intro b hb
    unfold present_cpus at hb
    rw [List.mem_filter] at hb
    exact ⟨hb.1, by simpa using hb.2⟩

/-- Witness of C24: CPU 0 without a buffer, CPU 1 with two linearized pages: the count is
1 and the index has one entry. -/
theorem cpu_count_and_index_witness :
    count_cpu_buffers [cpu_with 0 [], cpu_with 0x100 [16, 32]] = 1 ∧
    index_entries page_host4 [cpu_with 0 [], cpu_with 0x100 [16, 32]] 36 = [(36, 8)] ∧
    save_res_data page_host4.toSys ⟨[], 0⟩ 1 =
      .ok ⟨[1, 0, 0, 0] ++ (bytes "options  " ++ [0]) ++ [0, 0] ++ (bytes "flyrecord" ++ [0]),
        4⟩ ∧
    ∃ final f1, save_record_index page_host4 [cpu_with 0 [], cpu_with 0x100 [16, 32]] 36
        ⟨[], 0⟩ = .ok (final, f1) ∧ f1.data.length = 16 := by
  have h := cpu_count_and_index page_host4 (fun _ _ => rfl)
    [cpu_with 0 [], cpu_with 0x100 [16, 32]] ⟨[], 0⟩ 36 (by decide)
  obtain ⟨h1, h2, final, f1, e, d, _, _, l, _⟩ := h
  refine ⟨by decide, by decide, by decide, final, f1, e, ?_⟩
  rw [d, List.length_append, l]
  decide

theorem buffer_size_eq (H : PageHost) (b : ring_buffer_per_cpu) (P : Nat)
    (hP : H.page_size = P) (h0 : 0 ≤ b.nr_linear_pages)
    (hfit : (P : Int) * b.nr_linear_pages < 2 ^ H.pagesize_bits) :
    buffer_size H b = P * b.nr_linear_pages.toNat := by
  obtain ⟨n, hn⟩ : ∃ n : Nat, b.nr_linear_pages = (n : Int) := ⟨b.nr_linear_pages.toNat, by omega⟩
  have h1 : ((P : Int) * (n : Int)) = ((P * n : Nat) : Int) := by push_cast; rfl
  have hpow : ((2 : Int) ^ H.pagesize_bits) = ((2 ^ H.pagesize_bits : Nat) : Int) := by
    push_cast; rfl
  rw [hn, h1, hpow] at hfit
  have h2 : P * n < 2 ^ H.pagesize_bits := Int.ofNat_lt.mp hfit
  unfold buffer_size
  rw [hP, hn, h1, hpow, ← Int.ofNat_emod, Nat.mod_eq_of_lt h2]
  rw [Int.toNat_ofNat, Int.toNat_ofNat]

theorem present_cpus_cons (b : ring_buffer_per_cpu) (l : List ring_buffer_per_cpu) :
    present_cpus (b :: l) = if b.kaddr = 0 then present_cpus l else b :: present_cpus l := by
  unfold present_cpus
  by_cases hb : b.kaddr = 0
  · simp [hb]
  · simp [hb]

theorem index_entries_offsets (H : PageHost) (P : Nat) :
    ∀ (l : List ring_buffer_per_cpu) (off base : Nat), off % P = 0 → base ≤ off →
      (∀ b ∈ present_cpus l, buffer_size H b % P = 0) →
      off + ((present_cpus l).map (buffer_size H)).sum < ULONG_MOD →
      (∀ e ∈ index_entries H l off, e.1 % P = 0 ∧ base ≤ e.1) ∧
      (index_entries H l off).Pairwise (fun e1 e2 => e1.1 + e1.2 ≤ e2.1) := by
  intro l
  induction l with
  | nil => intro off base _ _ _ _; simp [index_entries]
  | cons b l ih =>
    intro off base h1 h2 h3 h4
    rw [present_cpus_cons] at h3 h4
    unfold index_entries
    by_cases hb : b.kaddr = 0
    · simp only [hb, if_true] at h3 h4 ⊢
      exact ih off base h1 h2 h3 h4
    · simp only [hb, if_false, List.map_cons, List.sum_cons] at h3 h4 ⊢
      have hs := h3 b (List.mem_cons_self _ _)
      have hnw : (off + buffer_size H b) % ULONG_MOD = off + buffer_size H b :=
        Nat.mod_eq_of_lt (by omega)
      rw [hnw]
      have hmod : (off + buffer_size H b) % P = 0 := by
        rw [Nat.add_mod, h1, hs]; simp
      obtain ⟨a1, a2⟩ := ih (off + buffer_size H b) (off + buffer_size H b) hmod (Nat.le_refl _)
        (fun x hx => h3 x (List.mem_cons_of_mem _ hx)) (by omega)
      constructor
      · intro e he
        rcases List.mem_cons.mp he with rfl | he
        · exact ⟨h1, h2⟩
        · have := a1 e he
          exact ⟨this.1, by omega⟩
      · rw [List.pairwise_cons]
        refine ⟨?_, a2⟩
        intro e he
        exact (a1 e he).2

/-- The record index inside the ranges of the types: let the page size be a power of two
`2 ^ k` that the type of `PAGESIZE()` holds,
let `p` be the file position at the start of `save_record_data`, and let the sums and
products of the function stay inside their types: `p + 16 * n + 2 ^ k` and every
`2 ^ k * nr_linear_pages` inside the type of `PAGESIZE()`, the end of the last record
inside `unsigned long long`. Then every index entry has an offset that is a multiple of
the page size and at least `p + 16 * n`, the end of the index table of the `n` CPUs with a
buffer, and the length of the entry of a CPU is `nr_linear_pages * page_size`. -/
theorem record_index_offsets (H : PageHost) (global_buffers : List ring_buffer_per_cpu)
    (p k : Nat) (hP : H.page_size = 2 ^ k) (hk : k < H.pagesize_bits)
    (hb : H.pagesize_bits ≤ 64)
    (hfit : p + 16 * (present_cpus global_buffers).length + 2 ^ k ≤ 2 ^ H.pagesize_bits)
    (hsize : ∀ b ∈ present_cpus global_buffers, 0 ≤ b.nr_linear_pages ∧
      ((2 ^ k : Nat) : Int) * b.nr_linear_pages < 2 ^ H.pagesize_bits)
    (htotal : p + 16 * (present_cpus global_buffers).length + 2 ^ k +
      ((present_cpus global_buffers).map (fun b => 2 ^ k * b.nr_linear_pages.toNat)).sum ≤
        ULONG_MOD) :
    (∀ e ∈ index_entries H global_buffers
        (record_offset H p (count_cpu_buffers global_buffers)),
      e.1 % H.page_size = 0 ∧ p + 16 * (present_cpus global_buffers).length ≤ e.1) ∧
    (index_entries H global_buffers
        (record_offset H p (count_cpu_buffers global_buffers))).map (fun e => e.2) =
      (present_cpus global_buffers).map (fun b => b.nr_linear_pages.toNat * H.page_size) ∧
    (index_entries H global_buffers
        (record_offset H p (count_cpu_buffers global_buffers))).length =
      (present_cpus global_buffers).length := by
  have hc := count_cpu_buffers_eq global_buffers
  have hfit2 : (p : Int) + count_cpu_buffers global_buffers * 16 + 2 ^ k ≤
      2 ^ H.pagesize_bits := by
    rw [hc]
    have : ((p + 16 * (present_cpus global_buffers).length + 2 ^ k : Nat) : Int) ≤
        ((2 ^ H.pagesize_bits : Nat) : Int) := Int.ofNat_le.mpr hfit
    push_cast at this
    omega
  obtain ⟨r1, r2, r3⟩ := record_offset_spec H p (count_cpu_buffers global_buffers) k hP hk hb
    (by rw [hc]; omega) hfit2
  have h2k : (((2 ^ k : Nat) : Int)) = (2 : Int) ^ k := by push_cast; rfl
  have hsz : ∀ b ∈ present_cpus global_buffers,
      buffer_size H b = 2 ^ k * b.nr_linear_pages.toNat := fun b hb1 =>
    buffer_size_eq H b (2 ^ k) hP (hsize b hb1).1 (hsize b hb1).2
  have hmap : (present_cpus global_buffers).map (buffer_size H) =
      (present_cpus global_buffers).map (fun b => 2 ^ k * b.nr_linear_pages.toNat) :=
    List.map_congr_left hsz
  obtain ⟨l1, l2⟩ := index_entries_length H global_buffers
    (record_offset H p (count_cpu_buffers global_buffers))
  have hoff : record_offset H p (count_cpu_buffers global_buffers) <
      p + 16 * (present_cpus global_buffers).length + 2 ^ k := by
    omega
  have hbase : p + 16 * (present_cpus global_buffers).length ≤
      record_offset H p (count_cpu_buffers global_buffers) := by omega
  obtain ⟨a1, _⟩ := index_entries_offsets H (2 ^ k) global_buffers _
    (p + 16 * (present_cpus global_buffers).length) r1 hbase
    (fun b hb1 => by rw [hsz b hb1]; exact Nat.mul_mod_right _ _)
    (by rw [hmap]; omega)
  refine ⟨?_, ?_, l1⟩
  · intro e he
    rw [hP]
    exact a1 e he
  · rw [l2, hmap, hP]
    apply List.map_congr_left
    intro b _
    exact Nat.mul_comm _ _

/-- An instance of `record_index_offsets`: pages of 4 bytes, position 3, CPU 0 without a
buffer, CPU 1 with two pages and CPU 2 with one: the entries are (36, 8) and (44, 4). -/
theorem record_index_offsets_witness :
    index_entries page_host4 cpus3 (record_offset page_host4 3 (count_cpu_buffers cpus3)) =
      [(36, 8), (44, 4)] ∧
    (∀ e ∈ index_entries page_host4 cpus3
        (record_offset page_host4 3 (count_cpu_buffers cpus3)),
      e.1 % page_host4.page_size = 0 ∧ 3 + 16 * (present_cpus cpus3).length ≤ e.1) ∧
    (index_entries page_host4 cpus3
        (record_offset page_host4 3 (count_cpu_buffers cpus3))).map (fun e => e.2) =
      (present_cpus cpus3).map (fun b => b.nr_linear_pages.toNat * page_host4.page_size) ∧
    (index_entries page_host4 cpus3
        (record_offset page_host4 3 (count_cpu_buffers cpus3))).length =
      (present_cpus cpus3).length :=
  ⟨by decide, record_index_offsets page_host4 cpus3 3 2 (by decide) (by decide) (by decide)
    (by decide) (by decide) (by decide)⟩

theorem ftrace_dump_page_ok (H : PageHost) (hfull : ∀ i c, H.sys_write i c = (c : Int))
    (hread : ∀ a n bs, H.readmem_bytes a n = some bs → bs.length = n)
    (h0 : 0 < H.page_size) (h1 : H.page_size < ULONG_MOD) (f f1 : File) (page : Nat)
    (h : ftrace_dump_page H f page = .ok f1) :
    ∃ b, page_bytes H page = some b ∧ b.length = H.page_size ∧ f1.data = f.data ++ b := by
  unfold ftrace_dump_page at h
  unfold page_bytes
  cases hr : (H.readmem (uadd page H.buffer_page_page_offset)).map (fun v => v % ULONG_MOD) with
  | none => rw [hr] at h; cases h
  | some raw =>
    rw [hr] at h
    simp only []
    simp only [] at h
    cases hb : H.readmem_bytes raw H.page_size with
    | none => rw [hb] at h; cases h
    | some bs =>
      rw [hb] at h
      simp only [] at h
      have hl := hread _ _ _ hb
      rw [write_and_check_full H.toSys hfull f bs _ h0 (by omega) h1] at h
      injection h with h
      refine ⟨bs, rfl, hl, ?_⟩
      rw [← h]
      simp only []
      rw [List.take_of_length_le (by omega)]

theorem dump_linear_pages_ok (H : PageHost) (hfull : ∀ i c, H.sys_write i c = (c : Int))
    (hread : ∀ a n bs, H.readmem_bytes a n = some bs → bs.length = n)
    (h0 : 0 < H.page_size) (h1 : H.page_size < ULONG_MOD) (cb : ring_buffer_per_cpu) :
    ∀ (left j : Nat) (f f1 : File), dump_linear_pages H cb left j f = .ok f1 →
      ∃ bs, pages_bytes H ((cb.linear_pages.drop j).take left) = some bs ∧
        bs.length = left * H.page_size ∧ f1.data = f.data ++ bs := by
  intro left
  induction left with
  | zero =>
    intro j f f1 h
    simp only [dump_linear_pages] at h
    injection h with h
    exact ⟨[], by simp [pages_bytes], by simp, by simp [h]⟩
  | succ left ih =>
    intro j f f1 h
    rw [dump_linear_pages] at h
    cases hp : cb.linear_pages[j]? with
    | none => rw [hp] at h; cases h
    | some page =>
      rw [hp] at h
      simp only [] at h
      cases hd : ftrace_dump_page H f page with
      | error e => rw [hd] at h; cases h
      | ok f2 =>
        rw [hd] at h
        simp only [] at h
        obtain ⟨b, hb1, hb2, hb3⟩ := ftrace_dump_page_ok H hfull hread h0 h1 f f2 page hd
        obtain ⟨bs, hs1, hs2, hs3⟩ := ih (j + 1) f2 f1 h
        obtain ⟨hj, hje⟩ := List.getElem?_eq_some_iff.mp hp
        refine ⟨b ++ bs, ?_, ?_, ?_⟩
        · rw [List.drop_eq_getElem_cons hj, List.take_succ_cons, hje, pages_bytes, hb1, hs1]
        · rw [List.length_append, hb2, hs2, Nat.succ_mul]; omega
        · rw [hs3, hb3, List.append_assoc]

theorem placed_lengths :
    ∀ (es : List (Nat × Nat)) (bs : List (List Nat)) (data : List Nat),
      placed data es bs → bs.map List.length = es.map (fun e => e.2) := by
  intro es
  induction es with
  | nil =>
    intro bs data h
    cases bs with
    | nil => rfl
    | cons b bs => exact h.elim
  | cons e es ih =>
    intro bs data h
    cases bs with
    | nil => exact h.elim
    | cons b bs =>
      obtain ⟨_, h2, h3⟩ := h
      rw [List.map_cons, List.map_cons, h2, ih bs data h3]

theorem save_record_pages_ok (H : PageHost) (hfull : ∀ i c, H.sys_write i c = (c : Int))
    (hread : ∀ a n bs, H.readmem_bytes a n = some bs → bs.length = n)
    (h0 : 0 < H.page_size) (h1 : H.page_size < ULONG_MOD) :
    ∀ (l : List ring_buffer_per_cpu) (f f1 : File),
      save_record_pages H l f = .ok f1 →
      (∀ b ∈ present_cpus l, buffer_size H b = b.nr_linear_pages.toNat * H.page_size) →
      f.data.length + ((present_cpus l).map (buffer_size H)).sum < ULONG_MOD →
      ∃ blocks, (present_cpus l).map (cpu_bytes H) = blocks.map some ∧
        f1.data = f.data ++ blocks.flatten ∧
        placed f1.data (index_entries H l f.data.length) blocks ∧
        ∀ e ∈ index_entries H l f.data.length, e.1 + e.2 ≤ f1.data.length := by
  intro l
  induction l with
  | nil =>
    intro f f1 h _ _
    simp only [save_record_pages] at h
    injection h with h
    exact ⟨[], by simp [present_cpus], by simp [h], by simp [index_entries, placed],
      by simp [index_entries]⟩
  | cons b l ih =>
    intro f f1 h hs ht
    rw [present_cpus_cons] at hs ht ⊢
    rw [save_record_pages] at h
    rw [index_entries]
    by_cases hb : b.kaddr = 0
    · simp only [hb, if_true] at h hs ht ⊢
      exact ih f f1 h hs ht
    · simp only [hb, if_false, List.map_cons, List.sum_cons] at h hs ht ⊢
      cases hd : dump_linear_pages H b b.nr_linear_pages.toNat 0 f with
      | error e => rw [hd] at h; cases h
      | ok f2 =>
        rw [hd] at h
        simp only [] at h
        obtain ⟨bs, c1, c2, c3⟩ := dump_linear_pages_ok H hfull hread h0 h1 b _ 0 f f2 hd
        have hsz := hs b (List.mem_cons_self _ _)
        have hlen : f2.data.length = f.data.length + buffer_size H b := by
          rw [c3, List.length_append, c2, hsz]
        have hnw : (f.data.length + buffer_size H b) % ULONG_MOD = f2.data.length := by
          rw [hlen]; exact Nat.mod_eq_of_lt (by omega)
        rw [hnw]
        obtain ⟨blocks, d1, d2, d3, d4⟩ := ih f2 f1 h
          (fun x hx => hs x (List.mem_cons_of_mem _ hx)) (by omega)
        have hf1 : f1.data = f.data ++ (bs ++ blocks.flatten) := by
          rw [d2, c3, List.append_assoc]
        refine ⟨bs :: blocks, ?_, ?_, ⟨?_, ?_, d3⟩, ?_⟩
        · rw [List.map_cons, d1]
          congr 1
        · rw [List.flatten_cons]; exact hf1
        · rw [hf1, List.drop_left, List.take_append_of_le_length (by omega),
            List.take_of_length_le (by omega)]
        · rw [c2, hsz]
        · intro e he
          rcases List.mem_cons.mp he with rfl | he
          · simp only []
            rw [d2, List.length_append]
            omega
          · exact d4 e he

/-- The record data inside the ranges of the types: let every `write` be complete, let
`readmem` fill the buffer it is given, and let
the page size `2 ^ k` and the sums and products of `save_record_data` stay inside their
types (as for the index offsets). When `save_record_data` returns 0 on a file that holds
`f.data`, every page of every CPU with a buffer could be read, and the file holds
`f.data`, the index entries, a gap of zero bytes up to the first page boundary, and the
blocks of the CPUs back to back, the block of a CPU being its `nr_linear_pages` pages in
`linear_pages` order, each the `PAGESIZE()` bytes at the address stored in
`buffer_page.page`. The block of a CPU lies at the offset of its index entry and has the
length of that entry, the entries lie behind the index, inside the file, and an entry ends
where or before the next begins. -/
theorem record_pages_at_offsets (H : PageHost) (hfull : ∀ i c, H.sys_write i c = (c : Int))
    (hread : ∀ a n bs, H.readmem_bytes a n = some bs → bs.length = n)
    (global_buffers : List ring_buffer_per_cpu) (f f2 : File) (k : Nat)
    (hP : H.page_size = 2 ^ k) (hk : k < H.pagesize_bits) (hb : H.pagesize_bits ≤ 64)
    (hfit : f.data.length + 16 * (present_cpus global_buffers).length + 2 ^ k ≤
      2 ^ H.pagesize_bits)
    (hsize : ∀ b ∈ present_cpus global_buffers, 0 ≤ b.nr_linear_pages ∧
      ((2 ^ k : Nat) : Int) * b.nr_linear_pages < 2 ^ H.pagesize_bits)
    (htotal : f.data.length + 16 * (present_cpus global_buffers).length + 2 ^ k +
      ((present_cpus global_buffers).map (fun b => 2 ^ k * b.nr_linear_pages.toNat)).sum ≤
        ULONG_MOD)
    (hok : save_record_data H global_buffers f (count_cpu_buffers global_buffers) = .ok f2) :
    ∃ (blocks : List (List Nat)) (gap : Nat),
      (present_cpus global_buffers).map (cpu_bytes H) = blocks.map some ∧
      blocks.map List.length =
        (present_cpus global_buffers).map (fun b => b.nr_linear_pages.toNat * H.page_size) ∧
      f2.data = f.data ++
        ((index_entries H global_buffers
          (record_offset H f.data.length (count_cpu_buffers global_buffers))).map
            (entry_bytes H.toSys)).flatten ++ List.replicate gap 0 ++ blocks.flatten ∧
      placed f2.data (index_entries H global_buffers
        (record_offset H f.data.length (count_cpu_buffers global_buffers))) blocks ∧
      (index_entries H global_buffers
        (record_offset H f.data.length (count_cpu_buffers global_buffers))).Pairwise
          (fun e1 e2 => e1.1 + e1.2 ≤ e2.1) ∧
      ∀ e ∈ index_entries H global_buffers
          (record_offset H f.data.length (count_cpu_buffers global_buffers)),
        f.data.length + 16 * (present_cpus global_buffers).length ≤ e.1 ∧
          e.1 + e.2 ≤ f2.data.length := by
  have hc := count_cpu_buffers_eq global_buffers
  have h2k : (((2 ^ k : Nat) : Int)) = (2 : Int) ^ k := by push_cast; rfl
  have hfit2 : (f.data.length : Int) + count_cpu_buffers global_buffers * 16 + 2 ^ k ≤
      2 ^ H.pagesize_bits := by
    rw [hc]
    have : ((f.data.length + 16 * (present_cpus global_buffers).length + 2 ^ k : Nat) : Int) ≤
        ((2 ^ H.pagesize_bits : Nat) : Int) := Int.ofNat_le.mpr hfit
    push_cast at this
    omega
  obtain ⟨r1, r2, r3⟩ := record_offset_spec H f.data.length (count_cpu_buffers global_buffers)
    k hP hk hb (by rw [hc]; omega) hfit2
  unfold save_record_data at hok
  simp only [] at hok
  generalize hoffd : record_offset H f.data.length (count_cpu_buffers global_buffers) = off
    at r1 r2 r3 hok ⊢
  have hoff : off < f.data.length + 16 * (present_cpus global_buffers).length + 2 ^ k := by
    omega
  have hbase : f.data.length + 16 * (present_cpus global_buffers).length ≤ off := by omega
  have hkpos : 0 < 2 ^ k := Nat.two_pow_pos k
  have hlt : 2 ^ k < 2 ^ H.pagesize_bits := Nat.pow_lt_pow_right (by omega) hk
  have hle : 2 ^ H.pagesize_bits ≤ 2 ^ 64 := Nat.pow_le_pow_right (by omega) hb
  have hsz : ∀ b ∈ present_cpus global_buffers,
      buffer_size H b = 2 ^ k * b.nr_linear_pages.toNat := fun b hb1 =>
    buffer_size_eq H b (2 ^ k) hP (hsize b hb1).1 (hsize b hb1).2
  have hmap : (present_cpus global_buffers).map (buffer_size H) =
      (present_cpus global_buffers).map (fun b => 2 ^ k * b.nr_linear_pages.toNat) :=
    List.map_congr_left hsz
  obtain ⟨l1, l2⟩ := index_entries_length H global_buffers off
  obtain ⟨a1, a2⟩ := index_entries_offsets H (2 ^ k) global_buffers off
    (f.data.length + 16 * (present_cpus global_buffers).length) r1 hbase
    (fun b hb1 => by rw [hsz b hb1]; exact Nat.mul_mod_right _ _)
    (by rw [hmap]; omega)
  obtain ⟨final, ei⟩ := save_record_index_spec H hfull global_buffers off f
  have hil : (((index_entries H global_buffers off).map (entry_bytes H.toSys)).flatten).length =
      16 * (present_cpus global_buffers).length := by
    rw [flatten_entries_length, l1]
  rw [ei] at hok
  simp only [] at hok
  generalize hidx : ((index_entries H global_buffers off).map (entry_bytes H.toSys)).flatten =
    idx at hok hil ⊢
  have htake : (f.data ++ idx).take off = f.data ++ idx :=
    List.take_of_length_le (by rw [List.length_append]; omega)
  rw [htake] at hok
  generalize hgap : off - (f.data ++ idx).length = gap at hok
  have hal : (f.data ++ idx ++ List.replicate gap 0).length = off := by
    rw [← hgap]
    simp only [List.length_append, List.length_replicate]
    omega
  cases hp : save_record_pages H global_buffers
      { data := f.data ++ idx ++ List.replicate gap 0
        calls := f.calls + 2 * (index_entries H global_buffers off).length } with
  | error e => rw [hp] at hok; cases hok
  | ok f3 =>
    rw [hp] at hok
    simp only [] at hok
    injection hok with hok
    obtain ⟨blocks, b1, b2, b3, b4⟩ := save_record_pages_ok H hfull hread (by omega)
      (by unfold ULONG_MOD; omega) global_buffers _ f3 hp
      (fun b hb1 => by rw [hsz b hb1, hP]; exact Nat.mul_comm _ _)
      (by
        show (f.data ++ idx ++ List.replicate gap 0).length + _ < ULONG_MOD
        rw [hal, hmap]; omega)
    simp only [] at b2 b3 b4
    rw [hal] at b3 b4
    have hlen3 : (f.data ++ idx).length ≤ f3.data.length := by
      rw [b2]
      simp only [List.length_append]
      omega
    have hf2 : f2.data = f3.data := by
      rw [← hok]
      simp only []
      rw [List.drop_of_length_le hlen3, List.append_nil]
    rw [hf2]
    refine ⟨blocks, gap, b1, ?_, b2, b3, a2, ?_⟩
    · rw [placed_lengths _ _ _ b3, l2, hmap, hP]
      apply List.map_congr_left
      intro b _
      exact Nat.mul_comm _ _
    · intro e he
      exact ⟨(a1 e he).2, b4 e he⟩

/-- An instance of `record_pages_at_offsets`: pages of 4 bytes, a file of 3 bytes, CPU 0
without a buffer, CPU 1 with two pages and CPU 2 with one: `save_record_data` returns 0, the index entries are
(36, 8) and (44, 4), and the pages lie at 36, 40 and 44. -/
theorem record_pages_at_offsets_witness :
    save_record_data page_host4 cpus3 ⟨[9, 9, 9], 1⟩ (count_cpu_buffers cpus3) =
      .ok ⟨record_file3, 8⟩ ∧
    ∃ (blocks : List (List Nat)) (gap : Nat),
      (present_cpus cpus3).map (cpu_bytes page_host4) = blocks.map some ∧
      blocks.map List.length =
        (present_cpus cpus3).map (fun b => b.nr_linear_pages.toNat * page_host4.page_size) ∧
      record_file3 = [9, 9, 9] ++
        ((index_entries page_host4 cpus3
          (record_offset page_host4 3 (count_cpu_buffers cpus3))).map
            (entry_bytes page_host4.toSys)).flatten ++ List.replicate gap 0 ++
              blocks.flatten ∧
      placed record_file3
        (index_entries page_host4 cpus3
          (record_offset page_host4 3 (count_cpu_buffers cpus3))) blocks ∧
      (index_entries page_host4 cpus3
        (record_offset page_host4 3 (count_cpu_buffers cpus3))).Pairwise
          (fun e1 e2 => e1.1 + e1.2 ≤ e2.1) ∧
      ∀ e ∈ index_entries page_host4 cpus3
          (record_offset page_host4 3 (count_cpu_buffers cpus3)),
        3 + 16 * (present_cpus cpus3).length ≤ e.1 ∧ e.1 + e.2 ≤ record_file3.length :=
  ⟨by decide,
    record_pages_at_offsets page_host4 (fun _ _ => rfl)
      (fun a n bs h => by
        simp only [page_host4] at h
        split at h
        · injection h with h
          rw [← h, List.length_replicate]
        · cases h)
      cpus3 ⟨[9, 9, 9], 1⟩ ⟨record_file3, 8⟩ 2 (by decide) (by decide) (by decide)
      (by decide) (by decide) (by decide) (by decide)⟩

/-! ## The raw pages of the tracing tree -/

/-- The value `ftrace_dump_buffers` returns does not depend on the dump or on the results
of `write`: no outcome of `ftrace_dump_page` reaches it. -/
theorem ftrace_dump_buffers_value (H H2 : PageHost) (E : DirHost) :
    ∀ (l : List ring_buffer_per_cpu) (i : Nat),
      (ftrace_dump_buffers_from H E i l).1 = (ftrace_dump_buffers_from H2 E i l).1 := by
  intro l
  induction l with
  | nil => intro i; rfl
  | cons b l ih =>
    intro i
    rw [ftrace_dump_buffers_from, ftrace_dump_buffers_from]
    by_cases hb : b.kaddr = 0
    · rw [if_pos hb, if_pos hb]; exact ih (i + 1)
    · rw [if_neg hb, if_neg hb]
      by_cases hm : try_mkdir E i < 0
      · rw [if_pos hm, if_pos hm]
      · rw [if_neg hm, if_neg hm]
        by_cases ho : E.sys_open i < 0
        · rw [if_pos ho, if_pos ho]
        · rw [if_neg ho, if_neg ho]
          exact ih (i + 1)

/-- C25 fails on the code. One CPU with the linearized pages 16, 32 and 48: on a dump that
lacks the data page of the descriptor 32, `ftrace_dump_page` returns -1 for the second
page, `ftrace_dump_buffer` leaves its loop, and `ftrace_dump_buffers` returns 0; the same
holds when `write` returns 0 for the first page. On the same inputs `save_record_data`, which runs the same
loop over `ftrace_dump_page`, returns -1. -/
theorem dump_page_failure_ignored :
    ftrace_dump_page page_host_gap ⟨[1, 1, 1, 1], 1⟩ 32 = .error .out_fail ∧
    ftrace_dump_buffers page_host_gap dir_ok [cpu_with 0x100 [16, 32, 48]] =
      (0, [(0, .error .out_fail)]) ∧
    save_record_data page_host_gap [cpu_with 0x100 [16, 32, 48]] ⟨[], 0⟩ 1 =
      .error .out_fail ∧
    ftrace_dump_page page_host_nowrite ⟨[], 0⟩ 16 = .error .out_fail ∧
    ftrace_dump_buffers page_host_nowrite dir_ok [cpu_with 0x100 [16, 32, 48]] =
      (0, [(0, .error .out_fail)]) := by
  decide


/-! ## Writes that are not complete -/

theorem write_and_check_zero (S : Sys) (f : File) (data : List Nat) (size : Nat)
    (hs : size < ULONG_MOD) (h0 : S.sys_write f.calls size = 0) :
    write_and_check S f data size = .error .out_fail := by
  unfold write_and_check write_and_check_loop
  have hc : (size + ULONG_MOD - 0) % ULONG_MOD = size := by
    unfold ULONG_MOD at *; omega
  simp only [hc, h0]
  simp

/-- C32 fails on the code. Each `write` of the loop passes `data`, not `data + tot`: when
the first `write` takes two of the four bytes `abcd`, the second writes `ab` again and
`write_and_check` returns 0 with `abab` in the file. The result of `write` is stored in a
`size_t`, so that -1 is not `<= 0`: after a `write` that returns -1 the loop goes on with
`tot = SIZE_MAX`, asks for `size + 1` bytes, and returns 0 when they are taken, with five
bytes written for `size = 4`; on an object of four bytes that `write` reads past its end. -/
theorem write_and_check_partial_and_error :
    write_and_check sys_partial ⟨[], 0⟩ (bytes "abcd") 4 = .ok ⟨bytes "abab", 2⟩ ∧
    write_and_check sys_eintr ⟨[], 0⟩ [1, 2, 3, 4, 5] 4 = .ok ⟨[1, 2, 3, 4, 5], 2⟩ ∧
    write_and_check sys_eintr1 ⟨[], 0⟩ [1, 2, 3, 4] 4 = .ok ⟨[1, 1, 2, 3, 4], 3⟩ ∧
    write_and_check sys_eintr ⟨[], 0⟩ [1, 2, 3, 4] 4 = .error .out_of_bounds := by
  decide

/-! ## The error flag of the text buffer -/

theorem write_and_check_loop_file_ok (S : Sys) (data : List Nat) (size : Nat) :
    ∀ (fuel tot : Nat) (f f1 : File),
      write_and_check_loop S data size fuel tot f = .ok f1 →
      write_and_check_loop_file S data size fuel tot f = f1 := by
  intro fuel
  induction fuel with
  | zero => intro tot f f1 h; simp [write_and_check_loop] at h
  | succ fuel ih =>
    intro tot f f1 h
    rw [write_and_check_loop] at h
    rw [write_and_check_loop_file]
    simp only [] at h ⊢
    split at h
    · cases h
    · rename_i hlen
      rw [if_neg hlen]
      split at h
      · cases h
      · rename_i hw
        rw [if_neg hw]
        split at h
        · rename_i ht
          rw [if_pos ht]
          exact ih _ _ _ h
        · rename_i ht
          rw [if_neg ht]
          injection h

theorem write_and_check_file_ok (S : Sys) (f f1 : File) (data : List Nat) (size : Nat)
    (h : write_and_check S f data size = .ok f1) : write_and_check_file S f data size = f1 :=
  write_and_check_loop_file_ok S data size _ _ _ _ h

theorem tmp_file_flush_file_ok (S : Sys) (T T1 : TmpFile) (f f1 : File)
    (h : tmp_file_flush S T f = .ok (f1, T1)) : tmp_file_flush_file S T f = (f1, T1) := by
  unfold tmp_file_flush at h
  unfold tmp_file_flush_file
  split at h
  · cases h
  · rename_i he
    rw [if_neg he]
    cases hw : write_and_check S f T.tmp_file_buf T.tmp_file_pos with
    | error e => rw [hw] at h; cases h
    | ok f2 =>
      rw [hw] at h
      simp only [] at h ⊢
      injection h

theorem tmp_fprintf_latched (S : Sys) (T : TmpFile) (he : T.tmp_file_error ≠ 0) :
    ∀ (texts : List (List Nat)), texts.foldl (tmp_fprintf S) T = T := by
  intro texts
  induction texts with
  | nil => rfl
  | cons t ts ih =>
    rw [List.foldl_cons]
    have h1 : tmp_fprintf S T t = T := by
      unfold tmp_fprintf
      rw [if_pos he]
    rw [h1, ih]

/-- C31: let a `tmp_fprintf` on a buffer without error need more room and let its
`realloc` fail. The call sets `tmp_file_error` to 1 and leaves `tmp_file_pos` as it was.
From then on, on any host, every sequence of `tmp_fprintf` calls leaves the statics
(block, position, size and flag) unchanged, and `tmp_file_record_size4`,
`tmp_file_record_size8` and `tmp_file_flush` return -1 and leave the file, the number of
`write` calls made on it included, and the statics as they were. Only `init_tmp_file`
stores 0 into the flag. -/
theorem error_latched (S : Sys) (T : TmpFile) (text : List Nat)
    (h0 : T.tmp_file_error = 0) (hgrow : T.tmp_file_size ≤ T.tmp_file_pos + text.length)
    (hfail : S.realloc_ok (T.tmp_file_pos + text.length + T.tmp_file_size) = false) :
    (tmp_fprintf S T text).tmp_file_error = 1 ∧
    (tmp_fprintf S T text).tmp_file_pos = T.tmp_file_pos ∧
    init_tmp_file.tmp_file_error = 0 ∧
    ∀ (S2 : Sys) (texts : List (List Nat)) (f : File),
      texts.foldl (tmp_fprintf S2) (tmp_fprintf S T text) = tmp_fprintf S T text ∧
      tmp_file_record_size4 S2 (tmp_fprintf S T text) f = .error .out_fail ∧
      tmp_file_record_size4_file S2 (tmp_fprintf S T text) f = f ∧
      tmp_file_record_size8 S2 (tmp_fprintf S T text) f = .error .out_fail ∧
      tmp_file_record_size8_file S2 (tmp_fprintf S T text) f = f ∧
      tmp_file_flush S2 (tmp_fprintf S T text) f = .error .out_fail ∧
      tmp_file_flush_file S2 (tmp_fprintf S T text) f = (f, tmp_fprintf S T text) := by
  have e : tmp_fprintf S T text =
      { T with
        tmp_file_buf := snprintf_at T.tmp_file_buf T.tmp_file_pos
          (T.tmp_file_size - T.tmp_file_pos) text
        tmp_file_size := T.tmp_file_pos + text.length + T.tmp_file_size
        tmp_file_error := 1 } := by
    unfold tmp_fprintf
    simp only [h0, ne_eq, not_true_eq_false, if_false, hgrow, if_true, hfail,
      Bool.false_eq_true]
  have he : (tmp_fprintf S T text).tmp_file_error ≠ 0 := by
    rw [e]
    show (1 : Int) ≠ 0
    decide
  refine ⟨by rw [e], by rw [e], rfl, ?_⟩
  intro S2 texts f
  generalize tmp_fprintf S T text = T1 at he
  refine ⟨tmp_fprintf_latched S2 T1 he texts, ?_, ?_, ?_, ?_, ?_, ?_⟩
  · unfold tmp_file_record_size4; simp only [if_pos he]
  · unfold tmp_file_record_size4_file; simp only [if_pos he]
  · unfold tmp_file_record_size8; rw [if_pos he]
  · unfold tmp_file_record_size8_file; rw [if_pos he]
  · unfold tmp_file_flush; rw [if_pos he]
  · unfold tmp_file_flush_file; rw [if_pos he]

/-- Witness of C31: a text of 4096 bytes printed into the new buffer on a host without
memory. -/
theorem error_latched_witness :
    (tmp_fprintf sys_nomem init_tmp_file (List.replicate 4096 65)).tmp_file_error = 1 ∧
    tmp_file_flush sys_le (tmp_fprintf sys_nomem init_tmp_file (List.replicate 4096 65))
      ⟨[7], 1⟩ = .error .out_fail ∧
    tmp_file_flush_file sys_le (tmp_fprintf sys_nomem init_tmp_file (List.replicate 4096 65))
      ⟨[7], 1⟩ = (⟨[7], 1⟩, tmp_fprintf sys_nomem init_tmp_file (List.replicate 4096 65)) := by
  have h := error_latched sys_nomem init_tmp_file (List.replicate 4096 65) rfl
    (by rw [List.length_replicate]; decide) rfl
  exact ⟨h.1, (h.2.2.2 sys_le [] ⟨[7], 1⟩).2.2.2.2.2.1, (h.2.2.2 sys_le [] ⟨[7], 1⟩).2.2.2.2.2.2⟩

/-! ## The text buffer holds every text in full -/

theorem tmp_fprintf_size (S : Sys) (hre : ∀ n, S.realloc_ok n = true) (T : TmpFile)
    (text : List Nat) (hT : T.Ok) :
    (tmp_fprintf S T text).tmp_file_pos = T.tmp_file_pos + text.length ∧
    T.tmp_file_size ≤ (tmp_fprintf S T text).tmp_file_size ∧
    ((tmp_fprintf S T text).tmp_file_size ≤ T.tmp_file_size ∨
      (tmp_fprintf S T text).tmp_file_size ≤ 2 * (tmp_fprintf S T text).tmp_file_pos) := by
  obtain ⟨he, _, _⟩ := hT
  unfold tmp_fprintf
  simp only [he, ne_eq, not_true_eq_false, if_false, hre, if_true]
  by_cases hfit : T.tmp_file_size ≤ T.tmp_file_pos + text.length
  · simp only [hfit, if_true]
    refine ⟨trivial, by omega, Or.inr (by omega)⟩
  · simp only [hfit, if_false]
    refine ⟨trivial, Nat.le_refl _, Or.inl (Nat.le_refl _)⟩

theorem flatten_length_le (B : Nat) :
    ∀ (l : List (List Nat)), (∀ t ∈ l, t.length ≤ B) → l.flatten.length ≤ l.length * B := by
  intro l
  induction l with
  | nil => intro _; simp
  | cons t ts ih =>
    intro h
    have h1 := h t (List.mem_cons_self _ _)
    have h2 := ih (fun x hx => h x (List.mem_cons_of_mem _ hx))
    rw [List.flatten_cons, List.length_append, List.length_cons, Nat.succ_mul]
    omega

theorem tmp_fprintf_fold (S : Sys) (hre : ∀ n, S.realloc_ok n = true) :
    ∀ (texts : List (List Nat)) (T : TmpFile), T.Ok →
      (texts.foldl (tmp_fprintf S) T).Ok ∧
      (texts.foldl (tmp_fprintf S) T).text = T.text ++ texts.flatten ∧
      T.tmp_file_pos ≤ (texts.foldl (tmp_fprintf S) T).tmp_file_pos ∧
      T.tmp_file_size ≤ (texts.foldl (tmp_fprintf S) T).tmp_file_size ∧
      ((texts.foldl (tmp_fprintf S) T).tmp_file_size ≤ T.tmp_file_size ∨
        (texts.foldl (tmp_fprintf S) T).tmp_file_size ≤
          2 * (texts.foldl (tmp_fprintf S) T).tmp_file_pos) := by
  intro texts
  induction texts with
  | nil =>
    intro T hT
    exact ⟨hT, by simp, Nat.le_refl _, Nat.le_refl _, Or.inl (Nat.le_refl _)⟩
  | cons t ts ih =>
    intro T hT
    obtain ⟨a1, a2⟩ := tmp_fprintf_spec S hre T t hT
    obtain ⟨b1, b2, b3⟩ := tmp_fprintf_size S hre T t hT
    obtain ⟨c1, c2, c3, c4, c5⟩ := ih (tmp_fprintf S T t) a1
    rw [List.foldl_cons]
    refine ⟨c1, ?_, by omega, by omega, by omega⟩
    rw [c2, a2, List.flatten_cons, List.append_assoc]

/-- C34: let no `realloc` fail and let every text be shorter than `2 ^ 31` bytes, the
values `snprintf` can return. The buffer is in order after `init_tmp_file` and holds no
text; a `tmp_file_flush` that returns 0 leaves it in order with no text. From a buffer in
order, after each of a sequence of `tmp_fprintf` calls, `tmp_file_error` is 0, the block
has `tmp_file_size` bytes, `tmp_file_pos < tmp_file_size`, and the first `tmp_file_pos`
bytes of the block are the text held before followed by the complete texts of all calls
made, whatever their lengths; `tmp_file_pos` is the length of that text, and
`tmp_file_size` is the size before or at most twice `tmp_file_pos`; after `k` calls
`tmp_file_pos` has grown by at most `k * 2 ^ 31`. -/
theorem tmp_text_complete (S : Sys) (hre : ∀ n, S.realloc_ok n = true) (T : TmpFile)
    (hT : T.Ok) (texts : List (List Nat)) (hint : ∀ t ∈ texts, t.length < 2 ^ 31) :
    init_tmp_file.Ok ∧ init_tmp_file.text = [] ∧
    (∀ f f2 T2, tmp_file_flush S T f = .ok (f2, T2) → T2.Ok ∧ T2.text = []) ∧
    ∀ k : Nat,
      ((texts.take k).foldl (tmp_fprintf S) T).tmp_file_error = 0 ∧
      ((texts.take k).foldl (tmp_fprintf S) T).tmp_file_buf.length =
        ((texts.take k).foldl (tmp_fprintf S) T).tmp_file_size ∧
      ((texts.take k).foldl (tmp_fprintf S) T).tmp_file_pos <
        ((texts.take k).foldl (tmp_fprintf S) T).tmp_file_size ∧
      ((texts.take k).foldl (tmp_fprintf S) T).tmp_file_buf.take
          ((texts.take k).foldl (tmp_fprintf S) T).tmp_file_pos =
        T.tmp_file_buf.take T.tmp_file_pos ++ (texts.take k).flatten ∧
      ((texts.take k).foldl (tmp_fprintf S) T).tmp_file_pos =
        T.tmp_file_pos + ((texts.take k).flatten).length ∧
      (((texts.take k).foldl (tmp_fprintf S) T).tmp_file_size ≤ T.tmp_file_size ∨
        ((texts.take k).foldl (tmp_fprintf S) T).tmp_file_size ≤
          2 * ((texts.take k).foldl (tmp_fprintf S) T).tmp_file_pos) ∧
      ((texts.take k).foldl (tmp_fprintf S) T).tmp_file_pos ≤ T.tmp_file_pos + k * 2 ^ 31 := by
  refine ⟨init_tmp_file_ok, rfl, ?_, ?_⟩
  · intro f f2 T2 h
    unfold tmp_file_flush at h
    split at h
    · cases h
    · cases hw : write_and_check S f T.tmp_file_buf T.tmp_file_pos with
      | error e => rw [hw] at h; cases h
      | ok f3 =>
        rw [hw] at h
        simp only [Except.ok.injEq, Prod.mk.injEq] at h
        rw [← h.2]
        exact tmp_file_flush_ok T hT
  · intro k
    obtain ⟨c1, c2, _, _, c5⟩ := tmp_fprintf_fold S hre (texts.take k) T hT
    have l1 := TmpFile.text_length _ c1
    have l2 := TmpFile.text_length _ hT
    have hpos : ((texts.take k).foldl (tmp_fprintf S) T).tmp_file_pos =
        T.tmp_file_pos + ((texts.take k).flatten).length := by
      rw [← l1, c2, List.length_append, l2]
    have hsum := flatten_length_le (2 ^ 31) (texts.take k)
      (fun t ht => Nat.le_of_lt (hint t (List.mem_of_mem_take ht)))
    have hk : (texts.take k).length ≤ k := by
      rw [List.length_take]; exact Nat.min_le_left _ _
    have hmul : (texts.take k).length * 2 ^ 31 ≤ k * 2 ^ 31 := Nat.mul_le_mul_right _ hk
    exact ⟨c1.1, c1.2.1, c1.2.2, c2, hpos, c5, by omega⟩

/-- Witness of C34: three texts printed into the new buffer, the second longer than the
buffer. -/
theorem tmp_text_complete_witness :
    ((texts3.take 3).foldl (tmp_fprintf sys_le) init_tmp_file).tmp_file_pos <
      ((texts3.take 3).foldl (tmp_fprintf sys_le) init_tmp_file).tmp_file_size ∧
    ((texts3.take 3).foldl (tmp_fprintf sys_le) init_tmp_file).tmp_file_buf.take
        ((texts3.take 3).foldl (tmp_fprintf sys_le) init_tmp_file).tmp_file_pos =
      init_tmp_file.tmp_file_buf.take init_tmp_file.tmp_file_pos ++ (texts3.take 3).flatten ∧
    ((texts3.take 3).foldl (tmp_fprintf sys_le) init_tmp_file).tmp_file_pos =
      init_tmp_file.tmp_file_pos + ((texts3.take 3).flatten).length := by
  have h := (tmp_text_complete sys_le (fun _ => rfl) init_tmp_file init_tmp_file_ok texts3
    (by
      intro t ht
      simp only [texts3, List.mem_cons, List.mem_singleton, List.not_mem_nil, or_false] at ht
      rcases ht with rfl | rfl | rfl
      · decide
      · rw [List.length_replicate]; decide
      · decide)).2.2.2 3
  exact ⟨h.2.2.1, h.2.2.2.1, h.2.2.2.2.1⟩

/-! ## The passes of the bucketing loop -/

theorem bucket_pass_fst_some (sid : Int) (s : List Nat) :
    ∀ (ets : List event_type) (ids : List Int), (bucket_pass sid (some s) ets ids).1 = some s := by
  intro ets
  induction ets with
  | nil => intro ids; rfl
  | cons t ts ih =>
    intro ids
    cases ids with
    | nil => rfl
    | cons id ids =>
      rw [bucket_pass]
      by_cases hid : id ≠ 0
      · rw [if_pos hid]; exact ih ids
      · rw [if_neg hid]; exact ih ids

theorem bucket_pass_length (sid : Int) :
    ∀ (ets : List event_type) (ids : List Int) (system : Option (List Nat)),
      ids.length = ets.length → (bucket_pass sid system ets ids).2.length = ets.length := by
  intro ets
  induction ets with
  | nil => intro ids system h; cases ids with
    | nil => rfl
    | cons _ _ => simp at h
  | cons t ts ih =>
    intro ids system h
    cases ids with
    | nil => simp at h
    | cons id ids =>
      have h1 : ids.length = ts.length := by simpa using h
      unfold bucket_pass
      by_cases hid : id ≠ 0
      · rw [if_pos hid]
        simp only [List.length_cons, ih ids system h1]
      · rw [if_neg hid]
        cases system with
        | none => simp only [List.length_cons, ih ids _ h1]
        | some s => simp only [List.length_cons, ih ids _ h1]

theorem bucket_pass_progress (sid : Int) :
    ∀ (ets : List event_type) (ids : List Int), ids.length = ets.length →
      (∀ s, (bucket_pass sid none ets ids).1 = some s →
        ∃ i, i < ets.length ∧ ids[i]? = some 0 ∧
          (bucket_pass sid none ets ids).2[i]? = some sid) ∧
      ((bucket_pass sid none ets ids).1 = none →
        (bucket_pass sid none ets ids).2 = ids ∧ ∀ id ∈ ids, id ≠ 0) := by
  intro ets
  induction ets with
  | nil =>
    intro ids h
    cases ids with
    | nil =>
      refine ⟨?_, ?_⟩
      · intro s hs; simp [bucket_pass] at hs
      · intro _; exact ⟨rfl, by simp⟩
    | cons _ _ => simp at h
  | cons t ts ih =>
    intro ids h
    cases ids with
    | nil => simp at h
    | cons id ids =>
      have h1 : ids.length = ts.length := by simpa using h
      obtain ⟨p1, p2⟩ := ih ids h1
      unfold bucket_pass
      by_cases hid : id ≠ 0
      · rw [if_pos hid]
        refine ⟨?_, ?_⟩
        · intro s hs
          obtain ⟨i, hi, a, b⟩ := p1 s hs
          exact ⟨i + 1, by simp only [List.length_cons]; omega, by simpa using a,
            by simpa using b⟩
        · intro hn
          obtain ⟨a, b⟩ := p2 hn
          refine ⟨by simp only []; rw [a], ?_⟩
          intro x hx
          rcases List.mem_cons.mp hx with rfl | hx
          · exact hid
          · exact b x hx
      · rw [if_neg hid]
        have hz : id = 0 := by
          by_contra hc; exact hid hc
        refine ⟨?_, ?_⟩
        · intro s _
          exact ⟨0, by simp, by simp [hz], by simp⟩
        · intro hn
          simp only [bucket_pass_fst_some] at hn
          cases hn

theorem bucket_pass_at_eq (event_types : List event_type) (sid : Int) :
    ∀ (rest_t : List event_type) (rest : List Int) (pre_t : List event_type) (pre : List Int)
      (system : Option (List Nat)),
      event_types = pre_t ++ rest_t → pre.length = pre_t.length →
      rest.length = rest_t.length →
      bucket_pass_at event_types sid rest_t.length pre.length system (pre ++ rest) =
        .ok ((bucket_pass sid system rest_t rest).1,
          pre ++ (bucket_pass sid system rest_t rest).2) := by
  intro rest_t
  induction rest_t with
  | nil =>
    intro rest pre_t pre system _ _ hr
    cases rest with
    | nil => rfl
    | cons _ _ => simp at hr
  | cons t ts ih =>
    intro rest pre_t pre system he hp hr
    cases rest with
    | nil => simp at hr
    | cons id rest =>
      have hr1 : rest.length = ts.length := by simpa using hr
      have hg : (pre ++ id :: rest)[pre.length]? = some id := by
        rw [List.getElem?_append_right (Nat.le_refl _), Nat.sub_self]
        simp
      have ht : event_types[pre.length]? = some t := by
        rw [he, hp, List.getElem?_append_right (Nat.le_refl _), Nat.sub_self]
        simp
      have hset : (pre ++ id :: rest).set pre.length sid = pre ++ sid :: rest := by simp
      have hstep : ∀ (x : Int) (sys : Option (List Nat)),
          bucket_pass_at event_types sid ts.length (pre.length + 1) sys (pre ++ x :: rest) =
            .ok ((bucket_pass sid sys ts rest).1,
              pre ++ x :: (bucket_pass sid sys ts rest).2) := by
        intro x sys
        have := ih rest (pre_t ++ [t]) (pre ++ [x]) sys (by simp [he]) (by simp [hp]) hr1
        simpa using this
      rw [List.length_cons, bucket_pass_at, hg]
      simp only []
      unfold bucket_pass
      by_cases hid : id ≠ 0
      · rw [if_pos hid, if_pos hid]
        exact hstep id system
      · rw [if_neg hid, if_neg hid, ht]
        simp only []
        cases system with
        | none =>
          simp only []
          rw [hset]
          exact hstep sid _
        | some s =>
          simp only []
          by_cases hts : t.system = s
          · rw [if_pos hts, if_pos hts, hset]
            exact hstep sid _
          · rw [if_neg hts, if_neg hts]
            exact hstep id _

theorem bucket_pass_at_ok (event_types : List event_type) (sid : Int)
    (system : Option (List Nat)) (ids : List Int) (h : ids.length = event_types.length) :
    bucket_pass_at event_types sid event_types.length 0 system ids =
      .ok (bucket_pass sid system event_types ids) := by
  have := bucket_pass_at_eq event_types sid event_types ids [] [] system rfl rfl h
  simpa using this

theorem bucket_loop_at_eq (event_types : List event_type) :
    ∀ (fuel : Nat) (sid : Int) (system : Option (List Nat)) (ids : List Int),
      ids.length = event_types.length →
      bucket_loop_at event_types fuel sid system ids =
        bucket_loop event_types fuel sid system ids := by
  intro fuel
  induction fuel with
  | zero => intro sid system ids _; rfl
  | succ fuel ih =>
    intro sid system ids h
    rw [bucket_loop_at, bucket_loop, bucket_pass_at_ok event_types sid system ids h]
    simp only []
    cases hr : (bucket_pass sid system event_types ids).1 with
    | none => rfl
    | some s =>
      simp only []
      exact ih _ _ _ (bucket_pass_length sid event_types ids system h)

theorem bucket_loop_passes (ets : List event_type) :
    ∀ (fuel : Nat) (sid : Int) (system : Option (List Nat)) (ids : List Int) (sid1 : Int)
      (ids1 : List Int),
      bucket_loop ets fuel sid system ids = .ok (sid1, ids1) →
      sid ≤ sid1 ∧ (sid1 - sid).toNat < fuel ∧
      (∀ fuel2, (sid1 - sid).toNat < fuel2 →
        bucket_loop ets fuel2 sid system ids = .ok (sid1, ids1)) ∧
      (∀ fuel2, fuel2 ≤ (sid1 - sid).toNat →
        bucket_loop ets fuel2 sid system ids = .error .out_of_fuel) := by
  intro fuel
  induction fuel with
  | zero => intro sid system ids sid1 ids1 h; simp [bucket_loop] at h
  | succ fuel ih =>
    intro sid system ids sid1 ids1 h
    rw [bucket_loop] at h
    cases hr : (bucket_pass sid system ets ids).1 with
    | none =>
      rw [hr] at h
      simp only [Except.ok.injEq, Prod.mk.injEq] at h
      obtain ⟨h1, h2⟩ := h
      subst h1
      refine ⟨Int.le_refl _, by omega, ?_, ?_⟩
      · intro fuel2 hf
        obtain ⟨n, rfl⟩ : ∃ n, fuel2 = n + 1 := ⟨fuel2 - 1, by omega⟩
        rw [bucket_loop]
        simp only [hr, h2]
      · intro fuel2 hf
        have hz : fuel2 = 0 := by omega
        subst hz
        rfl
    | some s =>
      rw [hr] at h
      simp only [] at h
      obtain ⟨a1, a2, a3, a4⟩ := ih _ _ _ _ _ h
      refine ⟨by omega, by omega, ?_, ?_⟩
      · intro fuel2 hf
        obtain ⟨n, rfl⟩ : ∃ n, fuel2 = n + 1 := ⟨fuel2 - 1, by omega⟩
        rw [bucket_loop]
        simp only [hr]
        exact a3 n (by omega)
      · intro fuel2 hf
        cases fuel2 with
        | zero => rfl
        | succ n =>
          rw [bucket_loop]
          simp only [hr]
          exact a4 n (by omega)

theorem distinct_systems_bounds (event_types : List event_type) (others : List (List Nat))
    (hnd : others.Nodup)
    (hmem : ∀ s, s ∈ others ↔ (s ∈ event_types.map (fun t => t.system) ∧ s ≠ bytes "ftrace")) :
    others.length ≤ (distinct_systems event_types).length ∧
    (distinct_systems event_types).length ≤ others.length + 1 := by
  unfold distinct_systems
  constructor
  · apply List.Subperm.length_le
    apply List.Nodup.subperm hnd
    intro s hs
    exact List.mem_dedup.mpr ((hmem s).mp hs).1
  · have h : ((event_types.map (fun t => t.system)).dedup).length ≤
        (bytes "ftrace" :: others).length := by
      apply List.Subperm.length_le
      apply List.Nodup.subperm (List.nodup_dedup _)
      intro s hs
      by_cases hf : s = bytes "ftrace"
      · rw [hf]; exact List.mem_cons_self _ _
      · exact List.mem_cons_of_mem _ ((hmem s).mpr ⟨List.mem_dedup.mp hs, hf⟩)
    simpa using h

/-- C33: for every list of event types the bucketing loop of `save_events_files` ends:
it makes exactly `system_id` passes, `system_id` being the value at the `break`, which is
at least 2, at least the number of distinct system names plus 1 and at most that number
plus 2 (a budget of `system_id` passes is enough, a smaller one is not). A pass that
starts with `system == NULL` and does not end the loop stores `system_id` at an index
below `nr_event_types` where `system_ids` held 0; the pass that ends the loop changes
nothing. With `system_ids` of `nr_event_types` entries every pass of the indexed loop
stays inside `system_ids` and `event_types` (it never has the fault `out_of_bounds`), does
what the pass over the lists does, and leaves `nr_event_types` entries. -/
theorem bucketing_terminates (event_types : List event_type) :
    ∃ (system_id : Int) (system_ids : List Int),
      bucket_systems event_types = .ok (system_id, system_ids) ∧
      bucket_loop_at event_types (event_types.length + 2) 1 (some (bytes "ftrace"))
        (List.replicate event_types.length 0) = .ok (system_id, system_ids) ∧
      2 ≤ system_id ∧
      ((distinct_systems event_types).length : Int) + 1 ≤ system_id ∧
      system_id ≤ ((distinct_systems event_types).length : Int) + 2 ∧
      (∀ fuel, system_id.toNat ≤ fuel →
        bucket_loop event_types fuel 1 (some (bytes "ftrace"))
          (List.replicate event_types.length 0) = .ok (system_id, system_ids)) ∧
      (∀ fuel, fuel < system_id.toNat →
        bucket_loop event_types fuel 1 (some (bytes "ftrace"))
          (List.replicate event_types.length 0) = .error .out_of_fuel) ∧
      (∀ (sid : Int) (ids : List Int), ids.length = event_types.length →
        (∀ s, (bucket_pass sid none event_types ids).1 = some s →
          ∃ i, i < event_types.length ∧ ids[i]? = some 0 ∧
            (bucket_pass sid none event_types ids).2[i]? = some sid) ∧
        ((bucket_pass sid none event_types ids).1 = none →
          (bucket_pass sid none event_types ids).2 = ids ∧ ∀ id ∈ ids, id ≠ 0)) ∧
      (∀ (sid : Int) (system : Option (List Nat)) (ids : List Int),
        ids.length = event_types.length →
        bucket_pass_at event_types sid event_types.length 0 system ids =
          .ok (bucket_pass sid system event_types ids) ∧
        (bucket_pass sid system event_types ids).2.length = event_types.length) := by
  obtain ⟨others, e, hnd, _, hmem, _⟩ := bucket_systems_spec event_types
  obtain ⟨d1, d2⟩ := distinct_systems_bounds event_types others hnd hmem
  have e2 := e
  unfold bucket_systems at e2
  obtain ⟨_, p2, p3, p4⟩ := bucket_loop_passes event_types _ _ _ _ _ _ e2
  refine ⟨_, _, e, ?_, by omega, by omega, by omega, ?_, ?_, ?_, ?_⟩
  · rw [bucket_loop_at_eq event_types _ _ _ _ (List.length_replicate _ _)]
    exact e2
  · intro fuel hf
    exact p3 fuel (by omega)
  · intro fuel hf
    exact p4 fuel (by omega)
  · intro sid ids h
    exact bucket_pass_progress sid event_types ids h
  · intro sid system ids h
    exact ⟨bucket_pass_at_ok event_types sid system ids h,
      bucket_pass_length sid event_types ids system h⟩

/-- Witness of C33: six events of the systems `irq`, `sched` and `ftrace`: four passes. -/
theorem bucketing_terminates_witness :
    bucket_systems ev6 = .ok (4, [2, 3, 1, 2, 3, 1]) ∧
    ∃ (system_id : Int) (system_ids : List Int),
      bucket_systems ev6 = .ok (system_id, system_ids) ∧ 2 ≤ system_id ∧
      system_id ≤ ((distinct_systems ev6).length : Int) + 2 := by
  obtain ⟨a, b, h⟩ := bucketing_terminates ev6
  exact ⟨by decide, a, b, h.1, h.2.2.1, h.2.2.2.2.1⟩

/-! ## Page enumeration passes exactly when the walk returns after `nr_pages` pages -/

theorem enum_walk_returns (K : Kernel) (head n : Nat) :
    ∀ (fuel page j : Nat) (pages : List Nat) (rhp : Nat),
      fuel = n + 1 - j → j ≤ n → pages.length = n →
      (∀ i, i < n - j → walk K page (i + 1) ≠ some head) →
      (walk K page (n - j + 1)).isSome →
      ∃ r, enum_walk K head n fuel page j pages rhp = .ok r := by
  intro fuel
  induction fuel with
  | zero => intro page j pages rhp hf hj; omega
  | succ fuel ih =>
    intro page j pages rhp hf hj hlen hno hw
    cases hrd : read_value K page K.list_head_next_offset with
    | none =>
      have hnext : next_masked K page = none := by simp [next_masked, hrd]
      simp [walk, hnext] at hw
    | some p =>
      have hnext : next_masked K page = some (if p &&& 3 ≠ 0 then p &&& NOT3 else p) := by
        simp [next_masked, hrd]
      unfold enum_walk
      simp only [hrd]
      generalize hq : (if p &&& 3 ≠ 0 then p &&& NOT3 else p) = q at hnext
      generalize hq2 : (if p &&& 3 ≠ 0 then usub q K.buffer_page_list_offset else rhp) = rhp1
      by_cases hjn : j = n
      · subst hjn
        simp only [if_true]
        exact ⟨_, rfl⟩
      · simp only [hjn, if_false]
        have hne : q ≠ head := by
          intro hc
          exact hno 0 (by omega) (by rw [walk_one, hnext, hc])
        simp only [hne, if_false]
        rw [store_of_lt _ (by omega)]
        simp only []
        apply ih q (j + 1) (pages.set j (usub q K.buffer_page_list_offset)) rhp1 (by omega)
          (by omega) (by simp [hlen])
        · intro i hi
          have := hno (i + 1) (by omega)
          rwa [walk_succ_of_next hnext] at this
        · have e : n - j + 1 = (n - (j + 1) + 1) + 1 := by omega
          rw [e, walk_succ_of_next hnext] at hw
          exact hw

theorem enumerate_pages_returns (K : Kernel) (cpu_buffer : ring_buffer_per_cpu) (n a : Nat)
    (hn : 1 ≤ n) (ha : anchor K cpu_buffer = some a)
    (hno : ∀ k, 0 < k → k < n + anchor_skip K → walk K a k ≠ some a)
    (hw : walk K a (n + anchor_skip K) = some a) :
    ∃ r, enumerate_pages K cpu_buffer n = .ok r := by
  cases hL : K.lockless_ring_buffer with
  | true =>
    simp only [anchor, hL, if_true] at ha
    simp only [anchor_skip, hL, if_true, Nat.add_zero] at hno hw
    rw [enumerate_pages_lockless K cpu_buffer n hL]
    simp only [ha]
    rw [store_of_lt _ (by simpa using hn)]
    simp only []
    generalize hp1 : (List.replicate n 0).set 0 (usub a K.buffer_page_list_offset) = pages1
    have hlen1 : pages1.length = n := by simp [← hp1]
    have hnn : n - 1 + 1 = n := by omega
    obtain ⟨r, hr⟩ := enum_walk_returns K a n n a 1 pages1 cpu_buffer.head_page
      (by omega) hn hlen1 (fun i hi => hno (i + 1) (by omega) (by omega))
      (by rw [hnn, hw]; rfl)
    obtain ⟨page, pages2, rhp2⟩ := r
    have e4 := (enum_walk_ok K _ n _ _ _ _ _ _ hr hn hlen1).2.2.2
    simp only [hnn, hw] at e4
    have hpa : page = a := (Option.some.inj e4).symm
    exact ⟨(pages2, rhp2), by simp [hr, hpa]⟩
  | false =>
    simp only [anchor, hL] at ha
    simp only [anchor_skip, hL] at hno hw
    rw [enumerate_pages_classic K cpu_buffer n hL]
    have ha2 : uadd cpu_buffer.kaddr K.ring_buffer_per_cpu_pages_offset = a := by
      simpa using ha
    rw [ha2]
    have hno' : ∀ k, 0 < k → k < n + 1 → walk K a k ≠ some a := by simpa using hno
    have hw' : walk K a (n + 1) = some a := by simpa using hw
    obtain ⟨r, hr⟩ := enum_walk_returns K a n (n + 1) a 0 (List.replicate n 0)
      cpu_buffer.head_page (by omega) (by omega) (by simp)
      (fun i hi => hno' (i + 1) (by omega) (by omega))
      (by rw [Nat.sub_zero, hw']; rfl)
    obtain ⟨page, pages2, rhp2⟩ := r
    have e4 := (enum_walk_ok K _ n _ _ _ _ _ _ hr (by omega) (by simp)).2.2.2
    simp only [Nat.sub_zero, hw'] at e4
    have hpa : page = a := (Option.some.inj e4).symm
    exact ⟨(pages2, rhp2), by simp [hr, hpa]⟩

/-- C5: let `a` be the anchor and `nr_pages >= 1`; `walk K a k` is the cursor after `k`
steps of the masked-next walk from `a`, and is `none` once a read of the walk has failed.
Page enumeration passes iff the walk first comes back to `a` after exactly `nr_pages` page
descriptors (step `nr_pages` in the lockless schema, where the anchor page is the first
descriptor; step `nr_pages + 1` in the classic schema, where the list head is not a
descriptor); `ftrace_init_pages` returns `-1` when `a` is revisited earlier and when it
has not been revisited by then, which includes a failing read of the walk. Nothing is asked of
the words of the dump that the walk does not read. The masked next pointer is the stored
pointer with its two low bits cleared. -/
theorem page_enumeration_passes_iff (K : Kernel) (cpu_buffer : ring_buffer_per_cpu)
    (nr_pages a : Nat) (hn : 1 ≤ nr_pages) (ha : anchor K cpu_buffer = some a) :
    ((∃ r, enumerate_pages K cpu_buffer nr_pages = .ok r) ↔
      (walk K a (nr_pages + anchor_skip K) = some a ∧
        ∀ k, 0 < k → k < nr_pages + anchor_skip K → walk K a k ≠ some a)) ∧
    ((∃ k, 0 < k ∧ k < nr_pages + anchor_skip K ∧ walk K a k = some a) →
      ftrace_init_pages K cpu_buffer nr_pages = .error .out_fail) ∧
    ((∀ k, 0 < k → k ≤ nr_pages + anchor_skip K → walk K a k ≠ some a) →
      ftrace_init_pages K cpu_buffer nr_pages = .error .out_fail) ∧
    (∀ x, next_masked K x =
      (read_value K x K.list_head_next_offset).map (fun p => 4 * (p / 4))) := by
  have hok : ∀ r, enumerate_pages K cpu_buffer nr_pages = .ok r →
      walk K a (nr_pages + anchor_skip K) = some a ∧
        ∀ k, 0 < k → k < nr_pages + anchor_skip K → walk K a k ≠ some a := by
    rintro ⟨pages, rhp⟩ hr
    obtain ⟨_, a1, ha1, hw, hno, _⟩ := enumerate_pages_ok K cpu_buffer nr_pages pages rhp hr
    rw [ha] at ha1
    have := Option.some.inj ha1
    subst this
    exact ⟨hw, hno⟩
  have herr : (∀ r, enumerate_pages K cpu_buffer nr_pages ≠ .ok r) →
      ftrace_init_pages K cpu_buffer nr_pages = .error .out_fail := by
    intro h
    cases hres : enumerate_pages K cpu_buffer nr_pages with
    | ok r => exact absurd hres (h r)
    | error e =>
      have he := enumerate_pages_fault K cpu_buffer nr_pages e hn hres
      subst he
      exact ftrace_init_pages_enum_error K cpu_buffer nr_pages _ hres
  refine ⟨⟨fun ⟨r, hr⟩ => hok r hr, fun ⟨h1, h2⟩ =>
    enumerate_pages_returns K cpu_buffer nr_pages a hn ha h2 h1⟩, fun h => ?_, fun h => ?_,
    next_masked_eq K⟩
  · apply herr
    intro r hr
    obtain ⟨k, k1, k2, k3⟩ := h
    exact (hok r hr).2 k k1 k2 k3
  · apply herr
    intro r hr
    exact h _ (by omega) (Nat.le_refl _) (hok r hr).1

/-- Witness of C5: the lockless ring of four pages, anchor `0x1008`, in a dump of which
only the words of the ring can be read. -/
theorem page_enumeration_passes_iff_witness :
    ring4_sparse.readmem 0 = none ∧ anchor ring4_sparse buf4_live = some 0x1008 ∧
    (∃ r, enumerate_pages ring4_sparse buf4_live 4 = .ok r) ∧
    (((∃ r, enumerate_pages ring4_sparse buf4_live 4 = .ok r) ↔
      (walk ring4_sparse 0x1008 (4 + anchor_skip ring4_sparse) = some 0x1008 ∧
        ∀ k, 0 < k → k < 4 + anchor_skip ring4_sparse →
          walk ring4_sparse 0x1008 k ≠ some 0x1008)) ∧
    ((∃ k, 0 < k ∧ k < 4 + anchor_skip ring4_sparse ∧
        walk ring4_sparse 0x1008 k = some 0x1008) →
      ftrace_init_pages ring4_sparse buf4_live 4 = .error .out_fail) ∧
    ((∀ k, 0 < k → k ≤ 4 + anchor_skip ring4_sparse →
        walk ring4_sparse 0x1008 k ≠ some 0x1008) →
      ftrace_init_pages ring4_sparse buf4_live 4 = .error .out_fail) ∧
    (∀ x, next_masked ring4_sparse x =
      (read_value ring4_sparse x ring4_sparse.list_head_next_offset).map
        (fun p => 4 * (p / 4)))) :=
  ⟨by decide, by decide, ⟨_, (by decide : enumerate_pages ring4_sparse buf4_live 4 =
      .ok ([0x1000, 0x2000, 0x3000, 0x4000], 0x2000))⟩,
    page_enumeration_passes_iff ring4_sparse buf4_live 4 0x1008 (by decide) (by decide)⟩

/-! ## The record index beyond 32 bits -/

/-- C22 fails on the code. With `PAGESIZE()` an `unsigned int` of value 4096, a CPU with
`2 ^ 20` linearized pages (4 GiB) and a CPU with one page: the product
`PAGESIZE() * nr_linear_pages` of `save_record_data` is taken in 32 bits, so that the
index gives CPU 0 the length 0, not `2 ^ 32`, and CPU 1 the offset of CPU 0. The mask
`~(PAGESIZE() - 1)` is 32 bits wide as well: from the file position `2 ^ 32` the offset of
the first record is 4096, which lies before the index. -/
theorem record_index_wraps :
    index_entries page_host4k cpus_big
      (record_offset page_host4k 0 (count_cpu_buffers cpus_big)) =
      [(4096, 0), (4096, 4096)] ∧
    (present_cpus cpus_big).map (fun b => b.nr_linear_pages.toNat * page_host4k.page_size) =
      [4294967296, 4096] ∧
    record_offset page_host4k 4294967296 1 = 4096 ∧
    index_entries page_host4k [cpu_one] (record_offset page_host4k 4294967296 1) =
      [(4096, 4096)] := by
  decide

theorem ftrace_dump_page_run (H : PageHost) (hfull : ∀ i c, H.sys_write i c = (c : Int))
    (h0 : 0 < H.page_size) (h1 : H.page_size < ULONG_MOD) (f : File) (page : Nat)
    (b : List Nat) (hb : page_bytes H page = some b) (hl : b.length = H.page_size) :
    ftrace_dump_page H f page = .ok { data := f.data ++ b, calls := f.calls + 1 } := by
  unfold page_bytes at hb
  unfold ftrace_dump_page
  cases hr : (H.readmem (uadd page H.buffer_page_page_offset)).map (fun v => v % ULONG_MOD) with
  | none => rw [hr] at hb; cases hb
  | some raw =>
    rw [hr] at hb
    simp only [] at hb ⊢
    rw [hb]
    simp only []
    rw [write_and_check_full H.toSys hfull f b _ h0 (by omega) h1,
      List.take_of_length_le (by omega)]

theorem flatten_replicate_length (n : Nat) (b : List Nat) :
    ((List.replicate n b).flatten).length = n * b.length := by
  induction n with
  | zero => simp
  | succ n ih =>
    rw [List.replicate_succ, List.flatten_cons, List.length_append, ih, Nat.succ_mul]
    omega

theorem dump_linear_pages_replicate (H : PageHost)
    (hfull : ∀ i c, H.sys_write i c = (c : Int))
    (h0 : 0 < H.page_size) (h1 : H.page_size < ULONG_MOD) (cb : ring_buffer_per_cpu)
    (N page : Nat) (b : List Nat) (hlp : cb.linear_pages = List.replicate N page)
    (hb : page_bytes H page = some b) (hl : b.length = H.page_size) :
    ∀ (left j : Nat) (f : File), j + left ≤ N →
      dump_linear_pages H cb left j f =
        .ok { data := f.data ++ (List.replicate left b).flatten, calls := f.calls + left } := by
  intro left
  induction left with
  | zero => intro j f _; simp [dump_linear_pages]
  | succ left ih =>
    intro j f hj
    have hg : cb.linear_pages[j]? = some page := by
      rw [hlp, List.getElem?_replicate, if_pos (by omega)]
    rw [dump_linear_pages, hg]
    simp only []
    rw [ftrace_dump_page_run H hfull h0 h1 f page b hb hl]
    simp only []
    rw [ih (j + 1) _ (by omega)]
    simp only [List.replicate_succ, List.flatten_cons, List.append_assoc]
    congr 2
    omega

theorem page_host4k_size : page_host4k.page_size = 4096 := by decide

theorem page_bytes_host4k (p raw : Nat) (hraw : uadd p 8 % ULONG_MOD = raw) :
    page_bytes page_host4k p = some (List.replicate 4096 (raw % 256)) := by
  unfold page_bytes
  have hr : page_host4k.readmem (uadd p page_host4k.buffer_page_page_offset) =
      some (uadd p 8) := rfl
  rw [hr]
  simp only [Option.map_some']
  rw [hraw, page_host4k_size]
  rfl

theorem page_bytes_host4k_16 : page_bytes page_host4k 16 = some (List.replicate 4096 24) :=
  page_bytes_host4k 16 24 (by decide)

theorem page_bytes_host4k_32 : page_bytes page_host4k 32 = some (List.replicate 4096 40) :=
  page_bytes_host4k 32 40 (by decide)

theorem save_record_pages_two (H : PageHost) (c0 c1 : ring_buffer_per_cpu) (f f1 f2 : File)
    (hk0 : ¬ c0.kaddr = 0) (hk1 : ¬ c1.kaddr = 0)
    (h0 : dump_linear_pages H c0 c0.nr_linear_pages.toNat 0 f = .ok f1)
    (h1 : dump_linear_pages H c1 c1.nr_linear_pages.toNat 0 f1 = .ok f2) :
    save_record_pages H [c0, c1] f = .ok f2 := by
  rw [save_record_pages, if_neg hk0, h0]
  simp only []
  rw [save_record_pages, if_neg hk1, h1]
  simp only [save_record_pages]

theorem save_record_data_run (H : PageHost) (l : List ring_buffer_per_cpu) (f : File)
    (nr : Int) (off final : Nat) (f1 f3 : File)
    (hoff : record_offset H f.data.length nr = off)
    (hidx : save_record_index H l off f = .ok (final, f1))
    (hpages : save_record_pages H l
      { data := f1.data.take off ++ List.replicate (off - f1.data.length) 0
        calls := f1.calls } = .ok f3) :
    save_record_data H l f nr =
      .ok { data := f3.data ++ f1.data.drop f3.data.length, calls := f3.calls } := by
  unfold save_record_data
  simp only [hoff, hidx, hpages]

theorem record_layout_two (idx B0 R P : List Nat) (off : Nat) (hil : idx.length ≤ off)
    (hB0t : ∀ rest, (B0 ++ rest).take P.length = P) (data : List Nat)
    (hd : data = (idx.take off ++ List.replicate (off - idx.length) 0 ++ B0 ++ R) ++
      idx.drop (idx.take off ++ List.replicate (off - idx.length) 0 ++ B0 ++ R).length) :
    data.length = off + B0.length + R.length ∧
    (data.drop off).take P.length = P ∧
    data.drop (off + B0.length) = R := by
  have htake : idx.take off = idx := List.take_of_length_le hil
  rw [htake] at hd
  generalize hA : idx ++ List.replicate (off - idx.length) 0 = A at hd
  have hAl : A.length = off := by
    rw [← hA, List.length_append, List.length_replicate]
    omega
  have hlen : (A ++ B0 ++ R).length = off + B0.length + R.length := by
    rw [List.length_append, List.length_append, hAl]
  have hdrop : idx.drop (A ++ B0 ++ R).length = [] :=
    List.drop_of_length_le (by rw [hlen]; omega)
  rw [hdrop, List.append_nil] at hd
  subst hd
  refine ⟨hlen, ?_, ?_⟩
  · have h1 := List.drop_left A (B0 ++ R)
    rw [hAl, ← List.append_assoc] at h1
    rw [h1]
    exact hB0t R
  · have h1 := List.drop_left (A ++ B0) R
    rw [List.length_append, hAl] at h1
    exact h1

theorem flatten_replicate_take (n : Nat) (b rest : List Nat) :
    ((List.replicate (n + 1) b).flatten ++ rest).take b.length = b := by
  rw [List.replicate_succ, List.flatten_cons, List.append_assoc]
  exact List.take_left' rfl

theorem flatten_replicate_one (b : List Nat) : (List.replicate 1 b).flatten = b := by
  rw [List.replicate_succ, List.replicate_zero, List.flatten_cons, List.flatten_nil,
    List.append_nil]

theorem save_record_data_two (H : PageHost) (hfull : ∀ i c, H.sys_write i c = (c : Int))
    (h0 : 0 < H.page_size) (h1 : H.page_size < ULONG_MOD) (c0 c1 : ring_buffer_per_cpu)
    (N0 N1 p0 p1 : Nat) (b0 b1 : List Nat)
    (hlp0 : c0.linear_pages = List.replicate N0 p0)
    (hlp1 : c1.linear_pages = List.replicate N1 p1)
    (hb0 : page_bytes H p0 = some b0) (hl0 : b0.length = H.page_size)
    (hb1 : page_bytes H p1 = some b1) (hl1 : b1.length = H.page_size)
    (hk0 : ¬ c0.kaddr = 0) (hk1 : ¬ c1.kaddr = 0) (n0 n1 : Nat)
    (hn0 : c0.nr_linear_pages.toNat = n0 + 1) (hn1 : c1.nr_linear_pages.toNat = n1)
    (hN0 : n0 + 1 ≤ N0) (hN1 : n1 ≤ N1) (f : File) (off : Nat)
    (hoff : record_offset H f.data.length (count_cpu_buffers [c0, c1]) = off)
    (hle : f.data.length + 32 ≤ off) :
    ∃ f2, save_record_data H [c0, c1] f (count_cpu_buffers [c0, c1]) = .ok f2 ∧
      f2.data.length = off + (n0 + 1) * H.page_size + n1 * H.page_size ∧
      (f2.data.drop off).take H.page_size = b0 ∧
      f2.data.drop (off + (n0 + 1) * H.page_size) = (List.replicate n1 b1).flatten := by
  obtain ⟨final, hidx⟩ := save_record_index_spec H hfull [c0, c1] off f
  have hpc : present_cpus [c0, c1] = [c0, c1] := by
    simp [present_cpus, hk0, hk1]
  have hil : (f.data ++ ((index_entries H [c0, c1] off).map
      (entry_bytes H.toSys)).flatten).length = f.data.length + 32 := by
    rw [List.length_append, flatten_entries_length, (index_entries_length H [c0, c1] off).1,
      hpc]
    rfl
  generalize f.data ++ ((index_entries H [c0, c1] off).map
      (entry_bytes H.toSys)).flatten = idx at hil hidx
  generalize f.calls + 2 * (index_entries H [c0, c1] off).length = calls1 at hidx
  have hd0 := dump_linear_pages_replicate H hfull h0 h1 c0 N0 p0 b0 hlp0 hb0 hl0
  have hd1 := dump_linear_pages_replicate H hfull h0 h1 c1 N1 p1 b1 hlp1 hb1 hl1
  have hpages := save_record_pages_two H c0 c1
    { data := idx.take off ++ List.replicate (off - idx.length) 0, calls := calls1 } _ _
    hk0 hk1 (hd0 c0.nr_linear_pages.toNat 0 _ (by omega))
    (hd1 c1.nr_linear_pages.toNat 0 _ (by omega))
  have hrun := save_record_data_run H [c0, c1] f (count_cpu_buffers [c0, c1])
    off final ⟨idx, calls1⟩ _ hoff hidx hpages
  rw [hn0, hn1] at hrun
  simp only [] at hrun
  have hlay := record_layout_two idx (List.replicate (n0 + 1) b0).flatten
    (List.replicate n1 b1).flatten b0 off (by omega)
    (fun rest => flatten_replicate_take n0 b0 rest) _ rfl
  rw [flatten_replicate_length, flatten_replicate_length, hl0, hl1] at hlay
  exact ⟨_, hrun, hlay⟩

/-- C23 fails on the code. On the same CPUs, with every `write` complete,
`save_record_data` returns 0 with a file of `4096 + 2 ^ 32 + 4096` bytes: the `2 ^ 20`
pages of CPU 0 lie from 4096 on and the page of CPU 1 lies at `4096 + 2 ^ 32`, while the
index gives CPU 1 the offset 4096 and CPU 0 the length 0: at the offset recorded for CPU 1
the file holds the first page of CPU 0. -/
theorem record_pages_misplaced :
    index_entries page_host4k cpus_big
      (record_offset page_host4k 0 (count_cpu_buffers cpus_big)) =
      [(4096, 0), (4096, 4096)] ∧
    page_bytes page_host4k 16 = some (List.replicate 4096 24) ∧
    page_bytes page_host4k 32 = some (List.replicate 4096 40) ∧
    ∃ f2, save_record_data page_host4k cpus_big ⟨[], 0⟩ (count_cpu_buffers cpus_big) =
        .ok f2 ∧
      f2.data.length = 4096 + 4294967296 + 4096 ∧
      (f2.data.drop 4096).take 4096 = List.replicate 4096 24 ∧
      f2.data.drop (4096 + 4294967296) = List.replicate 4096 40 := by
  have hps := page_host4k_size
  have hoff : record_offset page_host4k 0 (count_cpu_buffers cpus_big) = 4096 := by decide
  have hent : index_entries page_host4k cpus_big 4096 = [(4096, 0), (4096, 4096)] := by decide
  refine ⟨by rw [hoff]; exact hent, page_bytes_host4k_16, page_bytes_host4k_32, ?_⟩
  obtain ⟨f2, e, l1, l2, l3⟩ := save_record_data_two page_host4k (fun _ _ => rfl)
    (by decide) (by decide) cpu_big cpu_one 1048576 1 16 32 _ _ rfl rfl
    page_bytes_host4k_16 (by rw [List.length_replicate, hps])
    page_bytes_host4k_32 (by rw [List.length_replicate, hps])
    (by decide) (by decide) 1048575 1 rfl rfl (by decide) (by decide) ⟨[], 0⟩ 4096 hoff
    (by decide)
  rw [hps] at l1 l2 l3
  refine ⟨f2, e, l1, l2, ?_⟩
  rw [flatten_replicate_one] at l3
  exact l3

/-! ## A larger iteration budget does not change a result -/

theorem fuel_mono {α : Type} (f : Nat → Except Fault α)
    (hstep : ∀ n r, f n = r → r ≠ .error .out_of_fuel → f (n + 1) = r) :
    ∀ (d n : Nat) (r : Except Fault α), f n = r → r ≠ .error .out_of_fuel → f (n + d) = r := by
  intro d
  induction d with
  | zero => intro n r h _; exact h
  | succ d ih =>
    intro n r h hr
    exact hstep (n + d) r (ih n r h hr) hr

theorem read_long_string_pass_step (D : Dump) :
    ∀ (fuel kp : Nat) (seen : List Nat) (r : Except Fault (List Nat)),
      read_long_string_pass D fuel kp seen = r → r ≠ .error .out_of_fuel →
      read_long_string_pass D (fuel + 1) kp seen = r := by
  intro fuel
  induction fuel with
  | zero => intro kp seen r h hr; exact absurd h.symm hr
  | succ n ih =>
    intro kp seen r h hr
    rw [read_long_string_pass] at h ⊢
    simp only [] at h ⊢
    cases hb : D.readmem_bytes kp (D.MIN_PAGE_SIZE - (kp &&& (D.MIN_PAGE_SIZE - 1))) with
    | none => rw [hb] at h; exact h
    | some strbuf =>
      rw [hb] at h
      simp only [] at h ⊢
      split at h
      · rename_i hc
        rw [if_pos hc]
        exact h
      · rename_i hc
        rw [if_neg hc]
        exact ih _ _ _ h hr

theorem read_long_string_step (D : Dump) (kvaddr : Nat) :
    ∀ (fuel : Nat) (r : Except Fault (List Nat)),
      read_long_string D fuel kvaddr = r → r ≠ .error .out_of_fuel →
      read_long_string D (fuel + 1) kvaddr = r := by
  intro fuel r h hr
  unfold read_long_string at h ⊢
  cases hp : read_long_string_pass D fuel kvaddr [] with
  | error e =>
    rw [hp] at h
    simp only [] at h
    have he : (Except.error e : Except Fault (List Nat)) ≠ .error .out_of_fuel := by
      rw [h]; exact hr
    rw [read_long_string_pass_step D fuel kvaddr [] _ hp he]
    exact h
  | ok v =>
    rw [hp] at h
    simp only [] at h
    have hv : (Except.ok v : Except Fault (List Nat)) ≠ .error .out_of_fuel := by
      intro hc; cases hc
    rw [read_long_string_pass_step D fuel kvaddr [] _ hp hv]
    simp only []
    rw [← h]

theorem init_event_fields_loop_mono (D : Dump) (fields_head : Nat) :
    ∀ (fuel pos : Nat) (fields : List ftrace_field) (max_fields : Nat)
      (r : Except Fault (List ftrace_field)),
      init_event_fields_loop D fields_head fuel pos fields max_fields = r →
      r ≠ .error .out_of_fuel →
      init_event_fields_loop D fields_head (fuel + 1) pos fields max_fields = r := by
  intro fuel
  induction fuel with
  | zero => intro pos fields max_fields r h hr; exact absurd h.symm hr
  | succ n ih =>
    intro pos fields max_fields r h hr
    rw [init_event_fields_loop] at h ⊢
    simp only [] at h ⊢
    split at h
    · rename_i hc; rw [if_pos hc]; exact h
    · rename_i hc
      rw [if_neg hc]
      split at h
      · exact h
      · split at h
        · exact h
        · split at h
          · exact h
          · split at h
            · exact h
            · split at h
              · exact h
              · split at h
                · rename_i c1; rw [if_pos c1]; exact h
                · rename_i c1
                  rw [if_neg c1]
                  split at h
                  · rename_i c2; rw [if_pos c2]; exact h
                  · rename_i c2
                    rw [if_neg c2]
                    by_cases hm : max_fields ≤ fields.length
                    · simp only [hm, if_true] at h ⊢
                      split at h
                      · rename_i c3; rw [if_pos c3]; exact h
                      · rename_i c3
                        rw [if_neg c3]
                        split at h
                        · exact h
                        · exact ih _ _ _ _ h hr
                    · simp only [hm, if_false] at h ⊢
                      split at h
                      · exact h
                      · exact ih _ _ _ _ h hr

theorem fuel_mono_le {α : Type} (f : Nat → Except Fault α)
    (hstep : ∀ n r, f n = r → r ≠ .error .out_of_fuel → f (n + 1) = r) (n m : Nat)
    (hnm : n ≤ m) (hn : f n ≠ .error .out_of_fuel) : f m = f n := by
  have h := fuel_mono f hstep (m - n) n (f n) rfl hn
  have e : n + (m - n) = m := by omega
  rw [e] at h
  exact h

theorem ftrace_init_event_fields_step (D : Dump) (fields_head : Nat) :
    ∀ (fuel : Nat) (r : Except Fault (List ftrace_field)),
      ftrace_init_event_fields D fuel fields_head = r → r ≠ .error .out_of_fuel →
      ftrace_init_event_fields D (fuel + 1) fields_head = r := by
  intro fuel r h hr
  unfold ftrace_init_event_fields at h ⊢
  split at h
  · exact h
  · split at h
    · rename_i hc; rw [if_pos hc]; exact h
    · rename_i hc
      rw [if_neg hc]
      exact init_event_fields_loop_mono D fields_head _ _ _ _ _ h hr

theorem print_fmt_statics_eq (D : Dump) (fuel : Nat) (s : PrintFmtStatics) (call : Nat) :
    (ftrace_get_event_type_print_fmt D fuel s call).2 =
      if s.inited = 0 then
        { inited := 1, fmt_offset := D.MEMBER_OFFSET "ftrace_event_call" "print_fmt" }
      else s := by
  unfold ftrace_get_event_type_print_fmt
  simp only []
  generalize (if s.inited = 0 then
    ({ inited := 1, fmt_offset := D.MEMBER_OFFSET "ftrace_event_call" "print_fmt" } :
      PrintFmtStatics) else s) = s1
  split
  · rfl
  · split <;> rfl

theorem print_fmt_statics_offset (D : Dump) (fuel : Nat) (s : PrintFmtStatics) (call : Nat) :
    print_fmt_offset D (ftrace_get_event_type_print_fmt D fuel s call).2 =
      print_fmt_offset D s := by
  rw [print_fmt_statics_eq]
  unfold print_fmt_offset
  by_cases hi : s.inited = 0
  · rw [if_pos hi, if_pos hi]
    rfl
  · rw [if_neg hi, if_neg hi]

theorem print_fmt_ends (D : Dump) (s : PrintFmtStatics) (call n fuel : Nat)
    (hn : ∀ a, D.toHost.read (uadd call (print_fmt_offset D s)) = some a →
      read_long_string D n a ≠ .error .out_of_fuel) (hf : n ≤ fuel) :
    (ftrace_get_event_type_print_fmt D fuel s call).1 ≠ .error .out_of_fuel := by
  have hoff : (if s.inited = 0 then
      ({ inited := 1, fmt_offset := D.MEMBER_OFFSET "ftrace_event_call" "print_fmt" } :
        PrintFmtStatics) else s).fmt_offset = print_fmt_offset D s := by
    unfold print_fmt_offset
    split <;> rfl
  unfold ftrace_get_event_type_print_fmt
  simp only []
  rw [hoff]
  split
  · intro h; cases h
  · cases hr : D.toHost.read (uadd call (print_fmt_offset D s)) with
    | none => intro h; cases h
    | some a =>
      simp only []
      rw [fuel_mono_le (fun k => read_long_string D k a) (read_long_string_step D a) n fuel hf
        (hn a hr)]
      exact hn a hr

theorem init_event_type_ends (D : Dump) (s : Statics) (call n fuel : Nat)
    (hs : s.Inv D.toHost)
    (hn : ∀ head, fields_head D.toHost call = some head →
      ftrace_init_event_fields D n head ≠ .error .out_of_fuel) (hf : n ≤ fuel) :
    ftrace_init_event_type D fuel s call ≠ .error .out_of_fuel := by
  unfold ftrace_init_event_type
  simp only [(ftrace_get_event_type_fields_spec D.toHost s call hs).1]
  cases hh : fields_head D.toHost call with
  | none => intro h; cases h
  | some head =>
    simp only []
    rw [fuel_mono_le (fun k => ftrace_init_event_fields D k head)
      (ftrace_init_event_fields_step D head) n fuel hf (hn head hh)]
    cases hv : ftrace_init_event_fields D n head with
    | error e =>
      simp only []
      intro h
      injection h with h
      exact hn head hh (by rw [hv, h])
    | ok fields => intro h; cases h

theorem event_after_next (D : Dump) (event event1 i : Nat) (hne : event ≠ D.ftrace_events)
    (he1 : D.read_value event D.list_head_next_offset = some event1) :
    event_after D (i + 1) event = event_after D i event1 := by
  rw [event_after, if_neg hne, he1]

theorem event_after_self (D : Dump) (event : Nat) (hne : event ≠ D.ftrace_events) :
    event_after D 0 event = some event := by
  rw [event_after, if_neg hne]

theorem init_event_types_loop_ends (D : Dump) (off : Int) (bad : Nat)
    (hf : fields_head D.toHost (usub bad D.ftrace_event_call_list_offset) = none) :
    ∀ (k event : Nat), event_after D k event = some bad →
      (∀ i e a, i ≤ k → event_after D i event = some e →
        D.toHost.read (uadd (usub e D.ftrace_event_call_list_offset) off) = some a →
        ∃ n, read_long_string D n a ≠ .error .out_of_fuel) →
      (∀ i e head, i < k → event_after D i event = some e →
        fields_head D.toHost (usub e D.ftrace_event_call_list_offset) = some head →
        ∃ n, ftrace_init_event_fields D n head ≠ .error .out_of_fuel) →
      ∃ N, ∀ fuel, N ≤ fuel → ∀ st : EventTypes, st.fields_statics.Inv D.toHost →
        print_fmt_offset D st.print_fmt_statics = off →
        init_event_types_loop D fuel st event ≠ .error .out_of_fuel := by
  intro k
  induction k with
  | zero =>
    intro event hk hP _
    obtain ⟨hne, hbad⟩ := event_after_zero D event _ hk
    subst hbad
    have hp0 : ∃ n, ∀ a,
        D.toHost.read (uadd (usub event D.ftrace_event_call_list_offset) off) = some a →
        read_long_string D n a ≠ .error .out_of_fuel := by
      cases hr : D.toHost.read (uadd (usub event D.ftrace_event_call_list_offset) off) with
      | none => exact ⟨0, fun a h => by cases h⟩
      | some a =>
        obtain ⟨n, hn⟩ := hP 0 event a (Nat.le_refl _) hk hr
        exact ⟨n, fun a1 h => by cases h; exact hn⟩
    obtain ⟨np, hnp⟩ := hp0
    refine ⟨np + 1, ?_⟩
    intro fuel hfuel st hs hoff
    obtain ⟨m, rfl⟩ : ∃ m, fuel = m + 1 := ⟨fuel - 1, by omega⟩
    unfold init_event_types_loop
    simp only [hne, if_false, ftrace_init_event_type_unknown D _ _ _ hs hf]
    split
    · intro h; cases h
    · split
      · intro h; cases h
      · split
        · intro h; cases h
        · split
          · rename_i e he
            intro h
            injection h with h
            subst h
            exact print_fmt_ends D _ _ np (m + 1) (by rw [hoff]; exact hnp) (by omega) he
          · intro h; cases h
  | succ k ih =>
    intro event hk hP hF
    obtain ⟨hne, event1, he1, hk1⟩ := event_after_succ D k event bad hk
    obtain ⟨N1, hN1⟩ := ih event1 hk1
      (fun i e a hi he ha => hP (i + 1) e a (by omega)
        (by rw [event_after_next D event event1 i hne he1]; exact he) ha)
      (fun i e head hi he hh => hF (i + 1) e head (by omega)
        (by rw [event_after_next D event event1 i hne he1]; exact he) hh)
    have hself := event_after_self D event hne
    have hp0 : ∃ n, ∀ a,
        D.toHost.read (uadd (usub event D.ftrace_event_call_list_offset) off) = some a →
        read_long_string D n a ≠ .error .out_of_fuel := by
      cases hr : D.toHost.read (uadd (usub event D.ftrace_event_call_list_offset) off) with
      | none => exact ⟨0, fun a h => by cases h⟩
      | some a =>
        obtain ⟨n, hn⟩ := hP 0 event a (Nat.zero_le _) hself hr
        exact ⟨n, fun a1 h => by cases h; exact hn⟩
    have ht0 : ∃ n, ∀ head,
        fields_head D.toHost (usub event D.ftrace_event_call_list_offset) = some head →
        ftrace_init_event_fields D n head ≠ .error .out_of_fuel := by
      cases hr : fields_head D.toHost (usub event D.ftrace_event_call_list_offset) with
      | none => exact ⟨0, fun a h => by cases h⟩
      | some head =>
        obtain ⟨n, hn⟩ := hF 0 event head (Nat.succ_pos _) hself hr
        exact ⟨n, fun a1 h => by cases h; exact hn⟩
    obtain ⟨np, hnp⟩ := hp0
    obtain ⟨nt, hnt⟩ := ht0
    refine ⟨np + nt + N1 + 1, ?_⟩
    intro fuel hfuel st hs hoff
    obtain ⟨m, rfl⟩ : ∃ m, fuel = m + 1 := ⟨fuel - 1, by omega⟩
    unfold init_event_types_loop
    simp only [hne, if_false, he1]
    split
    · intro h; cases h
    · split
      · intro h; cases h
      · split
        · intro h; cases h
        · split
          · rename_i e he
            intro h
            injection h with h
            subst h
            exact print_fmt_ends D _ _ np (m + 1) (by rw [hoff]; exact hnp) (by omega) he
          · split
            · rename_i e he
              intro h
              injection h with h
              subst h
              exact init_event_type_ends D _ _ nt (m + 1) hs hnt (by omega) he
            · rename_i fields s1 hinit
              apply hN1 m (by omega) _ (ftrace_init_event_type_inv D _ _ _ _ _ hs hinit)
              show print_fmt_offset D (ftrace_get_event_type_print_fmt D (m + 1)
                st.print_fmt_statics (usub event D.ftrace_event_call_list_offset)).2 = off
              rw [print_fmt_statics_offset]
              exact hoff

/-- C11 (amended): let the `k`-th event call on the `ftrace_events` list have a class whose
`get_fields` is not null and is neither the address of `syscall_get_enter_fields` nor that
of `syscall_get_exit_fields`, and let the loops over the strings and lists that are read
before end: the print format string of each event call up to the `k`-th and the field
list of each event call before it are finite (some number of loop passes is enough for
them). Then `ftrace_init_event_types` aborts, whatever the other events are: it returns 0
for no iteration budget, and there is a budget from which on it returns -1. -/
theorem unknown_get_fields_aborts (D : Dump) (k : Nat) (st : EventTypes)
    (event class_ get_fields : Nat)
    (hst : st.fields_statics.Inv D.toHost)
    (hk : event_on_list D k = some event)
    (hc : 0 ≤ D.MEMBER_OFFSET "ftrace_event_call" "class")
    (hrc : D.toHost.read (uadd (usub event D.ftrace_event_call_list_offset)
      (D.MEMBER_OFFSET "ftrace_event_call" "class")) = some class_)
    (hrg : D.toHost.read (uadd class_ (D.MEMBER_OFFSET "ftrace_event_class" "get_fields")) =
      some get_fields)
    (h0 : get_fields ≠ 0)
    (h1 : D.symbol_search "syscall_get_enter_fields" ≠ some get_fields)
    (h2 : D.symbol_search "syscall_get_exit_fields" ≠ some get_fields)
    (hP : ∀ j e a, j ≤ k → event_on_list D j = some e →
      D.toHost.read (uadd (usub e D.ftrace_event_call_list_offset)
        (print_fmt_offset D st.print_fmt_statics)) = some a →
      ∃ n, read_long_string D n a ≠ .error .out_of_fuel)
    (hF : ∀ j e head, j < k → event_on_list D j = some e →
      fields_head D.toHost (usub e D.ftrace_event_call_list_offset) = some head →
      ∃ n, ftrace_init_event_fields D n head ≠ .error .out_of_fuel) :
    (∀ fuel r, ftrace_init_event_types D fuel st ≠ .ok r) ∧
    ∃ N, ∀ fuel, N ≤ fuel → ftrace_init_event_types D fuel st = .error .out_fail := by
  have hf := fields_head_unknown D.toHost _ class_ get_fields hc hrc hrg h0 h1 h2
  cases he0 : D.read_value D.ftrace_events D.list_head_next_offset with
  | none => simp [event_on_list, he0] at hk
  | some event0 =>
    have hon : ∀ j, event_on_list D j = event_after D j event0 := by
      intro j
      unfold event_on_list
      rw [he0]
    rw [hon] at hk
    have hnok : ∀ fuel r, ftrace_init_event_types D fuel st ≠ .ok r := by
      intro fuel r
      unfold ftrace_init_event_types
      rw [he0]
      simp only []
      split
      · intro h; cases h
      · rename_i st1 hloop
        exact absurd hloop (init_event_types_loop_unknown D event hf k fuel st event0 hst hk st1)
    obtain ⟨N, hN⟩ := init_event_types_loop_ends D (print_fmt_offset D st.print_fmt_statics)
      event hf k event0 hk
      (fun i e a hi he ha => hP i e a hi (by rw [hon]; exact he) ha)
      (fun i e head hi he hh => hF i e head hi (by rw [hon]; exact he) hh)
    refine ⟨hnok, N, ?_⟩
    intro fuel hfuel
    have hloop := hN fuel hfuel st hst rfl
    cases hres : ftrace_init_event_types D fuel st with
    | ok r => exact absurd hres (hnok fuel r)
    | error e =>
      rcases fault_cases e (fun h => ftrace_init_event_types_fault D fuel st (h ▸ hres))
        with h | h
      · rw [h]
      · exfalso
        subst h
        unfold ftrace_init_event_types at hres
        rw [he0] at hres
        simp only [] at hres
        split at hres
        · rename_i e1 hl
          injection hres with hres
          subst hres
          exact hloop hl
        · rename_i st1 hl
          exact init_event_types_loop_unknown D event hf k fuel st event0 hst hk st1 hl

/-- Witness of C11 (amended): the dump of three event calls whose second has the unknown
`get_fields` `0xC000`; the first has an empty field list and no event has a print format
string. -/
theorem unknown_get_fields_aborts_witness :
    event_on_list (dump3 0xC000) 1 = some 0x2000 ∧
    ftrace_init_event_types (dump3 0xC000) 10 EventTypes.start = .error .out_fail ∧
    (∀ fuel r, ftrace_init_event_types (dump3 0xC000) fuel EventTypes.start ≠ .ok r) ∧
    ∃ N, ∀ fuel, N ≤ fuel →
      ftrace_init_event_types (dump3 0xC000) fuel EventTypes.start = .error .out_fail :=
  have h := unknown_get_fields_aborts (dump3 0xC000) 1 EventTypes.start 0x2000 0x2100 0xC000
    (statics_start_inv _) (by decide) (by decide) (by decide) (by decide) (by decide)
    (by decide) (by decide)
    (fun j e a hj he ha => by
      have hn : ∀ e1, e1 = 0x1000 ∨ e1 = 0x2000 →
          (dump3 0xC000).toHost.read (uadd (usub e1 (dump3 0xC000).ftrace_event_call_list_offset)
            (print_fmt_offset (dump3 0xC000) EventTypes.start.print_fmt_statics)) = none := by
        intro e1 h1
        rcases h1 with rfl | rfl <;> decide
      have hcases : e = 0x1000 ∨ e = 0x2000 := by
        have hj2 : j = 0 ∨ j = 1 := by omega
        rcases hj2 with rfl | rfl
        · have h0 : event_on_list (dump3 0xC000) 0 = some 0x1000 := by decide
          rw [h0] at he
          exact Or.inl (Option.some.inj he).symm
        · have h1 : event_on_list (dump3 0xC000) 1 = some 0x2000 := by decide
          rw [h1] at he
          exact Or.inr (Option.some.inj he).symm
      rw [hn e hcases] at ha
      cases ha)
    (fun j e head hj he hh => by
      have hj0 : j = 0 := by omega
      subst hj0
      have h0 : event_on_list (dump3 0xC000) 0 = some 0x1000 := by decide
      rw [h0] at he
      have hee := (Option.some.inj he).symm
      subst hee
      have hh0 : fields_head (dump3 0xC000).toHost
          (usub 0x1000 (dump3 0xC000).ftrace_event_call_list_offset) = some 0x1108 := by decide
      rw [hh0] at hh
      have hhe := (Option.some.inj hh).symm
      subst hhe
      exact ⟨2, by decide⟩)
  ⟨by decide, by decide, h.1, h.2⟩

end Trace
